import Mathlib

/-!
# msgpack-go: a shallow embedding of `pack.go` and `unpack.go`

Bytes are natural numbers below 256 and byte strings are lists of them.
Unsigned machine integers are natural numbers reduced modulo `2 ^ w`;
signed ones are integers, converted to and from their two's-complement
bit pattern with `toUnsigned` and `toSigned`.  Floats are carried as their
IEEE-754 bit patterns.

The input source (`io.Reader`) is an in-memory buffer with the behaviour of
Go's `bytes.Buffer`; the output sink (`io.Writer`) is an arbitrary state
machine.  The memory the decoder asks for is granted or refused by a host
(`Host`); a statement that names no host is about the host that grants every
allocation.  Abrupt termination (a Go `panic`, a failed allocation) is an
outcome of its own.
-/

namespace Msgpack

/-! ## Wire constants (`pack.go` 10-57, `unpack.go` 17-23) -/

def NIL : Nat := 0xc0
def FALSE : Nat := 0xc2
def TRUE : Nat := 0xc3
def FLOAT : Nat := 0xca
def DOUBLE : Nat := 0xcb
def UINT8 : Nat := 0xcc
def UINT16 : Nat := 0xcd
def UINT32 : Nat := 0xce
def UINT64 : Nat := 0xcf
def INT8 : Nat := 0xd0
def INT16 : Nat := 0xd1
def INT32 : Nat := 0xd2
def INT64 : Nat := 0xd3
def RAW16 : Nat := 0xda
def RAW32 : Nat := 0xdb
def ARRAY16 : Nat := 0xdc
def ARRAY32 : Nat := 0xdd
def MAP16 : Nat := 0xde
def MAP32 : Nat := 0xdf
def FIXMAP : Nat := 0x80
def FIXARRAY : Nat := 0x90
def FIXRAW : Nat := 0xa0
def MAXFIXMAP : Nat := 16
def MAXFIXARRAY : Nat := 16
def MAXFIXRAW : Nat := 32
def LEN_INT32 : Nat := 4
def LEN_INT64 : Nat := 8
def MAX16BIT : Nat := 2 <<< (16 - 1)
def REGULAR_UINT7_MAX : Nat := 2 <<< (7 - 1)
def REGULAR_UINT8_MAX : Nat := 2 <<< (8 - 1)
def REGULAR_UINT16_MAX : Nat := 2 <<< (16 - 1)
def REGULAR_UINT32_MAX : Nat := 2 <<< (32 - 1)
def SPECIAL_INT8 : Nat := 32
def SPECIAL_INT16 : Nat := 2 <<< (8 - 2)
def SPECIAL_INT32 : Nat := 2 <<< (16 - 2)
def SPECIAL_INT64 : Nat := 2 <<< (32 - 2)
def NEGFIXNUM : Nat := 0xe0
def FIXMAPMAX : Nat := 0x8f
def FIXARRAYMAX : Nat := 0x9f
def FIXRAWMAX : Nat := 0xbf
def FIRSTBYTEMASK : Nat := 0xf

/-! ## Machine integers -/

/-- Conversion `byte(x)` / `uint8(x)` of an unsigned value: the low 8 bits. -/
def byte (x : Nat) : Nat := x % 256

/-- The `w`-bit two's-complement pattern of a signed integer
(`uint16(value)`, `byte(value)`, ... applied to a signed operand). -/
def toUnsigned (w : Nat) (x : Int) : Nat := (x % 2 ^ w).toNat

/-- The signed integer whose `w`-bit two's-complement pattern is `x`
(`int8(c)`, or the value of an `intN` computed on its bit pattern). -/
def toSigned (w : Nat) (x : Nat) : Int :=
  if x % 2 ^ w < 2 ^ (w - 1) then ((x % 2 ^ w : Nat) : Int)
  else ((x % 2 ^ w : Nat) : Int) - ((2 ^ w : Nat) : Int)

/-- Size in bytes of the platform's `int` and `uint` (`unsafe.Sizeof`): the
64-bit platform is the one modelled. -/
def sizeofInt : Nat := 8

/-- Size in bytes of an interface value (`unsafe.Sizeof(interface{}(nil))`) on
the 64-bit platform: two words. -/
def sizeofInterface : Nat := 16

/-- Size in bytes of a `reflect.Value` struct on the 64-bit platform: three
words. -/
def sizeofValue : Nat := 24

/-- The host as far as the decoder depends on it: whether `make` obtains a
slice of the given size in bytes.  A slice of no bytes is always obtained. -/
class Host where
  grants : Nat → Bool
  grants_zero : grants 0 = true

/-- The host that grants every allocation.  It is the host of every statement
that names none. -/
instance roomy : Host where
  grants := fun _ => true
  grants_zero := rfl

/-- A host that grants an allocation of at most `limit` bytes. -/
def limited (limit : Nat) : Host where
  grants := fun size => decide (size ≤ limit)
  grants_zero := by simp

/-- Position of the highest set bit of `m` (0 for `m < 2`), for `m < 2 ^ fuel`. -/
def highBit : Nat → Nat → Nat
  | 0, _ => 0
  | fuel + 1, m => if 2 ≤ m then highBit fuel (m / 2) + 1 else 0

/-- Widening of a float32 bit pattern to the float64 bit pattern of the same
number (Go's `float64(x)`, as `reflect.Value.Float` performs it): zeros,
subnormals, normals, infinities and NaNs (quieted). -/
def float32to64 (b : Nat) : Nat :=
  let sign := (b >>> 31) % 2
  let e := (b >>> 23) % 256
  let m := b % 2 ^ 23
  if e = 0 then
    if m = 0 then sign <<< 63
    else
      let k := highBit 23 m
      (sign <<< 63) ||| ((k + 874) <<< 52) ||| ((m - 2 ^ k) <<< (52 - k))
  else if e = 255 then
    if m = 0 then (sign <<< 63) ||| (0x7ff <<< 52)
    else (sign <<< 63) ||| (0x7ff <<< 52) ||| (1 <<< 51) ||| (m <<< 29)
  else (sign <<< 63) ||| ((e + 896) <<< 52) ||| (m <<< 29)

/-! ## Errors, panics and values -/

/-- Error values that travel in the `err` result. -/
inductive Error where
  | EOF
  | ErrNotExist
  | other (code : Nat)
  deriving DecidableEq, Repr

/-- Abrupt terminations: the two explicit `panic` calls of the package, the
run-time panics of the reflection and map operations it performs, and the
failure of an allocation. -/
inductive Panic where
  /-- The call `panic("unsupported code: ...")` of `unpack`. -/
  | unsupportedCode (c : Nat)
  /-- The call `panic("unsupported type: ...")` of `PackValue`. -/
  | unsupportedType
  /-- A use of `Interface()` or `Type()` on the zero `reflect.Value`. -/
  | zeroValue
  /-- A map assignment whose key is a slice or a map. -/
  | unhashable
  /-- A type assertion `.([]uint8)` or `.([]byte)` on a value whose dynamic type
  is another one. -/
  | typeAssertion
  /-- The failure of `make` to obtain the memory it asks for (the panic
  `makeslice: len out of range`, or the fatal error `out of memory`). -/
  | outOfMemory
  deriving DecidableEq, Repr

/-- Host values: what `Pack` receives as `interface{}` and what the
`reflect.Value` returned by `Unpack` holds.  Integers carry their numeric
value, floats their bit pattern, strings their bytes.  `bytes` is a `[]byte`,
`Bytes` a value of the package's named type `Bytes`.  `slice` is a slice or
array whose elements are not of kind `uint8` and have no typed fast path
(for instance `[]interface{}`); `map` lists the entries `(k, MapIndex(k))`
in the order of `MapKeys()`; `reflected v` is a `reflect.Value` struct
holding `v`, stored as an element or key of a container. -/
inductive Value where
  | nil
  | bool (b : Bool)
  | uint8 (v : Nat)
  | uint16 (v : Nat)
  | uint32 (v : Nat)
  | uint64 (v : Nat)
  | uint (v : Nat)
  | int8 (v : Int)
  | int16 (v : Int)
  | int32 (v : Int)
  | int64 (v : Int)
  | int (v : Int)
  | float32 (bits : Nat)
  | float64 (bits : Nat)
  | bytes (b : List Nat)
  | Bytes (b : List Nat)
  | string (b : List Nat)
  | uint16s (xs : List Nat)
  | uint32s (xs : List Nat)
  | uint64s (xs : List Nat)
  | uints (xs : List Nat)
  | int8s (xs : List Int)
  | int16s (xs : List Int)
  | int32s (xs : List Int)
  | int64s (xs : List Int)
  | ints (xs : List Int)
  | float32s (xs : List Nat)
  | float64s (xs : List Nat)
  | slice (xs : List Value)
  | map (kvs : List (Value × Value))
  | reflected (v : Value)
  deriving Repr

/-! ## The input source -/

/-- An in-memory source: the bytes not yet read. -/
abbrev Reader := List Nat

/-- The call `reader.Read(p)` on a zeroed `p` of length `len`, for a
`bytes.Buffer`: the contents of `p` afterwards, the count `n`, the error and
the source left.  An empty buffer answers `io.EOF` (no error when `len` is
0); otherwise as many bytes as are available, at most `len`, are copied and
no error is reported. -/
def Read (reader : Reader) (len : Nat) : List Nat × Nat × Option Error × Reader :=
  match reader with
  | [] => if len = 0 then ([], 0, none, []) else (List.replicate len 0, 0, some Error.EOF, [])
  | _ :: _ =>
    (reader.take len ++ List.replicate (len - reader.length) 0,
      min len reader.length, none, reader.drop len)

/-- Result of a decoding function: the value with the byte count and the
source left, an error with the byte count and the source left, a panic, or
`fuel` when the recursion budget of the embedding ran out. -/
inductive Unpacked where
  | ok (v : Value) (n : Nat) (reader : Reader)
  | error (e : Error) (n : Nat) (reader : Reader)
  | panic (p : Panic)
  | fuel
  deriving Repr

/-- Source function `readByte`. -/
def readByte (reader : Reader) : Nat × Option Error × Reader :=
  match Read reader 1 with
  | (_, _, some e, reader) => (0, some e, reader)
  | (data, _, none, reader) => (data.getD 0 0, none, reader)

/-- Source function `readUint16`. -/
def readUint16 (reader : Reader) : Nat × Nat × Option Error × Reader :=
  match Read reader 2 with
  | (_, n, some e, reader) => (0, n, some e, reader)
  | (data, n, none, reader) =>
    ((((data.getD 0 0) <<< 8) % 2 ^ 16) ||| (data.getD 1 0), n, none, reader)

/-- Source function `readUint32`. -/
def readUint32 (reader : Reader) : Nat × Nat × Option Error × Reader :=
  match Read reader 4 with
  | (_, n, some e, reader) => (0, n, some e, reader)
  | (data, n, none, reader) =>
    ((((data.getD 0 0) <<< 24) % 2 ^ 32) ||| (((data.getD 1 0) <<< 16) % 2 ^ 32)
      ||| (((data.getD 2 0) <<< 8) % 2 ^ 32) ||| (data.getD 3 0), n, none, reader)

/-- Source function `readUint64`. -/
def readUint64 (reader : Reader) : Nat × Nat × Option Error × Reader :=
  match Read reader 8 with
  | (_, n, some e, reader) => (0, n, some e, reader)
  | (data, n, none, reader) =>
    ((((data.getD 0 0) <<< 56) % 2 ^ 64) ||| (((data.getD 1 0) <<< 48) % 2 ^ 64)
      ||| (((data.getD 2 0) <<< 40) % 2 ^ 64) ||| (((data.getD 3 0) <<< 32) % 2 ^ 64)
      ||| (((data.getD 4 0) <<< 24) % 2 ^ 64) ||| (((data.getD 5 0) <<< 16) % 2 ^ 64)
      ||| (((data.getD 6 0) <<< 8) % 2 ^ 64) ||| (data.getD 7 0), n, none, reader)

/-- Source function `readInt16`: the shifts and ors act on the 16-bit
pattern, which is then read as a signed number. -/
def readInt16 (reader : Reader) : Int × Nat × Option Error × Reader :=
  match Read reader 2 with
  | (_, n, some e, reader) => (0, n, some e, reader)
  | (data, n, none, reader) =>
    (toSigned 16 ((((data.getD 0 0) <<< 8) % 2 ^ 16) ||| (data.getD 1 0)), n, none, reader)

/-- Source function `readInt32`. -/
def readInt32 (reader : Reader) : Int × Nat × Option Error × Reader :=
  match Read reader 4 with
  | (_, n, some e, reader) => (0, n, some e, reader)
  | (data, n, none, reader) =>
    (toSigned 32 ((((data.getD 0 0) <<< 24) % 2 ^ 32) ||| (((data.getD 1 0) <<< 16) % 2 ^ 32)
      ||| (((data.getD 2 0) <<< 8) % 2 ^ 32) ||| (data.getD 3 0)), n, none, reader)

/-- Source function `readInt64`. -/
def readInt64 (reader : Reader) : Int × Nat × Option Error × Reader :=
  match Read reader 8 with
  | (_, n, some e, reader) => (0, n, some e, reader)
  | (data, n, none, reader) =>
    (toSigned 64 ((((data.getD 0 0) <<< 56) % 2 ^ 64) ||| (((data.getD 1 0) <<< 48) % 2 ^ 64)
      ||| (((data.getD 2 0) <<< 40) % 2 ^ 64) ||| (((data.getD 3 0) <<< 32) % 2 ^ 64)
      ||| (((data.getD 4 0) <<< 24) % 2 ^ 64) ||| (((data.getD 5 0) <<< 16) % 2 ^ 64)
      ||| (((data.getD 6 0) <<< 8) % 2 ^ 64) ||| (data.getD 7 0)), n, none, reader)

/-! ## Decoding (`unpack.go`) -/

/-- The call `v.Interface()` on a decoded `reflect.Value`: the zero Value, which
`reflect.ValueOf(nil)` returns, has no interface value and the call panics. -/
def Interface : Value → Option Value
  | Value.nil => none
  | v => some v

/-- IEEE equality of two float32 bit patterns: a NaN equals nothing, the two
zeros are equal. -/
def float32Eq (a b : Nat) : Bool :=
  if ((a >>> 23) % 256 = 255 ∧ a % 2 ^ 23 ≠ 0) ∨ ((b >>> 23) % 256 = 255 ∧ b % 2 ^ 23 ≠ 0) then false
  else if a % 2 ^ 31 = 0 ∧ b % 2 ^ 31 = 0 then true
  else a = b

/-- IEEE equality of two float64 bit patterns. -/
def float64Eq (a b : Nat) : Bool :=
  if ((a >>> 52) % 2048 = 2047 ∧ a % 2 ^ 52 ≠ 0) ∨ ((b >>> 52) % 2048 = 2047 ∧ b % 2 ^ 52 ≠ 0) then false
  else if a % 2 ^ 63 = 0 ∧ b % 2 ^ 63 = 0 then true
  else a = b

/-- Go's `==` on two hashable interface values used as map keys: the same
dynamic type and equal contents. -/
def keyEq : Value → Value → Bool
  | Value.bool a, Value.bool b => a == b
  | Value.uint8 a, Value.uint8 b => a == b
  | Value.uint16 a, Value.uint16 b => a == b
  | Value.uint32 a, Value.uint32 b => a == b
  | Value.uint64 a, Value.uint64 b => a == b
  | Value.uint a, Value.uint b => a == b
  | Value.int8 a, Value.int8 b => a == b
  | Value.int16 a, Value.int16 b => a == b
  | Value.int32 a, Value.int32 b => a == b
  | Value.int64 a, Value.int64 b => a == b
  | Value.int a, Value.int b => a == b
  | Value.float32 a, Value.float32 b => float32Eq a b
  | Value.float64 a, Value.float64 b => float64Eq a b
  | Value.string a, Value.string b => a == b
  | _, _ => false

/-- Whether an interface value can be a map key: slices and maps cannot. -/
def hashable : Value → Bool
  | Value.bytes _ => false
  | Value.Bytes _ => false
  | Value.uint16s _ => false
  | Value.uint32s _ => false
  | Value.uint64s _ => false
  | Value.uints _ => false
  | Value.int8s _ => false
  | Value.int16s _ => false
  | Value.int32s _ => false
  | Value.int64s _ => false
  | Value.ints _ => false
  | Value.float32s _ => false
  | Value.float64s _ => false
  | Value.slice _ => false
  | Value.map _ => false
  | _ => true

/-- The assignment `retval[k] = v` on a Go map with interface keys, held as its
list of entries: the entry of an equal key is overwritten, key and value (the
runtime stores the key anew for key types whose equal values can differ, as
interfaces and floats), a new key is added. -/
def mapAssign : List (Value × Value) → Value → Value → List (Value × Value)
  | [], k, v => [(k, v)]
  | (k0, v0) :: rest, k, v =>
    if keyEq k0 k then (k, v) :: rest else (k0, v0) :: mapAssign rest k v

/-- Whether the boxes of two decoded values, as `reflect.ValueOf` wraps them,
are one: the `reflect.Value` structs then agree in type, data pointer and
flag.  The runtime boxes a one-byte value (bool, int8, uint8) and a 2-, 4- or
8-byte value whose bit pattern is below 256 in its table of small values, so
that equal ones share their box; every other value gets a box of its own; and
`reflect.ValueOf(nil)` is always the zero `reflect.Value`. -/
def sameBox : Value → Value → Bool
  | Value.nil, Value.nil => true
  | Value.bool a, Value.bool b => a == b
  | Value.uint8 a, Value.uint8 b => a == b
  | Value.int8 a, Value.int8 b => a == b
  | Value.uint16 a, Value.uint16 b => a == b && decide (a < 256)
  | Value.uint32 a, Value.uint32 b => a == b && decide (a < 256)
  | Value.uint64 a, Value.uint64 b => a == b && decide (a < 256)
  | Value.int16 a, Value.int16 b => a == b && decide (0 ≤ a ∧ a < 256)
  | Value.int32 a, Value.int32 b => a == b && decide (0 ≤ a ∧ a < 256)
  | Value.int64 a, Value.int64 b => a == b && decide (0 ≤ a ∧ a < 256)
  | Value.float32 a, Value.float32 b => a == b && decide (a < 256)
  | Value.float64 a, Value.float64 b => a == b && decide (a < 256)
  | _, _ => false

/-- Go's `==` on two `reflect.Value` structs used as map keys. -/
def wrapperEq : Value → Value → Bool
  | Value.reflected a, Value.reflected b => sameBox a b
  | _, _ => false

/-- The assignment `retval[k] = v` on the map of `unpackMapReflected`, whose keys
are `reflect.Value` structs. -/
def mapAssignReflected : List (Value × Value) → Value → Value → List (Value × Value)
  | [], k, v => [(k, v)]
  | (k0, v0) :: rest, k, v =>
    if wrapperEq k0 k then (k, v) :: rest else (k0, v0) :: mapAssignReflected rest k v

/-- The key under which `unpackMap` stores an entry.  A key whose type is of
kind slice with elements of kind `uint8` goes through the assertion
`k.Interface().([]uint8)` to a string: a `[]byte` passes, a `Bytes` fails
(`none`).  Any other key is `k.Interface()`. -/
def mapKey : Value → Option Value
  | Value.bytes b => some (Value.string b)
  | Value.Bytes _ => none
  | k => some k

/-- The loop of `unpackArray`, by recursion on the elements left to read;
`Unpack` is the decoder it calls for each element, `retval` (its elements
assigned so far) and `nbytesread` are its loop variables. -/
def unpackArrayLoop (Unpack : Reader → Unpacked) :
    Nat → Reader → List Value → Nat → Unpacked
  | 0, reader, retval, nbytesread => Unpacked.ok (Value.slice retval) nbytesread reader
  | nelems + 1, reader, retval, nbytesread =>
    match Unpack reader with
    | Unpacked.ok v n reader =>
      match Interface v with
      | none => Unpacked.panic Panic.zeroValue
      | some x => unpackArrayLoop Unpack nelems reader (retval ++ [x]) (nbytesread + n)
    | Unpacked.error e n reader => Unpacked.error e (nbytesread + n) reader
    | Unpacked.panic p => Unpacked.panic p
    | Unpacked.fuel => Unpacked.fuel

/-- Source function `unpackArray`: `make([]interface{}, nelems)` asks the host
for `nelems` interface values before any element is read; then the loop. -/
def unpackArray [Host] (Unpack : Reader → Unpacked) (nelems : Nat) (reader : Reader) :
    Unpacked :=
  if Host.grants (sizeofInterface * nelems) then unpackArrayLoop Unpack nelems reader [] 0
  else Unpacked.panic Panic.outOfMemory

/-- The loop of `unpackArrayReflected`: the elements stay wrapped. -/
def unpackArrayReflectedLoop (UnpackReflected : Reader → Unpacked) :
    Nat → Reader → List Value → Nat → Unpacked
  | 0, reader, retval, nbytesread => Unpacked.ok (Value.slice retval) nbytesread reader
  | nelems + 1, reader, retval, nbytesread =>
    match UnpackReflected reader with
    | Unpacked.ok v n reader =>
      unpackArrayReflectedLoop UnpackReflected nelems reader
        (retval ++ [Value.reflected v]) (nbytesread + n)
    | Unpacked.error e n reader => Unpacked.error e (nbytesread + n) reader
    | Unpacked.panic p => Unpacked.panic p
    | Unpacked.fuel => Unpacked.fuel

/-- Source function `unpackArrayReflected`: `make([]reflect.Value, nelems)` asks
the host for `nelems` structs before any element is read; then the loop. -/
def unpackArrayReflected [Host] (UnpackReflected : Reader → Unpacked) (nelems : Nat)
    (reader : Reader) : Unpacked :=
  if Host.grants (sizeofValue * nelems) then
    unpackArrayReflectedLoop UnpackReflected nelems reader [] 0
  else Unpacked.panic Panic.outOfMemory

/-- Source function `unpackMap`; `make(map[interface{}]interface{})` asks for no
size.  After both reads of an entry, in this order: `k.Type()` panics on a nil
key; the key expression is evaluated, in which the assertion `.([]uint8)`
panics on a key of type `Bytes`; `v.Interface()` panics on a nil value; and
the map assignment panics on a key that is a slice or a map. -/
def unpackMap (Unpack : Reader → Unpacked) :
    Nat → Reader → List (Value × Value) → Nat → Unpacked
  | 0, reader, retval, nbytesread => Unpacked.ok (Value.map retval) nbytesread reader
  | nelems + 1, reader, retval, nbytesread =>
    match Unpack reader with
    | Unpacked.ok k n reader =>
      match Unpack reader with
      | Unpacked.ok v n2 reader =>
        match Interface k with
        | none => Unpacked.panic Panic.zeroValue
        | some _ =>
          match mapKey k with
          | none => Unpacked.panic Panic.typeAssertion
          | some key =>
            match Interface v with
            | none => Unpacked.panic Panic.zeroValue
            | some x =>
              if hashable key then
                unpackMap Unpack nelems reader (mapAssign retval key x) (nbytesread + n + n2)
              else Unpacked.panic Panic.unhashable
      | Unpacked.error e n2 reader => Unpacked.error e (nbytesread + n + n2) reader
      | Unpacked.panic p => Unpacked.panic p
      | Unpacked.fuel => Unpacked.fuel
    | Unpacked.error e n reader => Unpacked.error e (nbytesread + n) reader
    | Unpacked.panic p => Unpacked.panic p
    | Unpacked.fuel => Unpacked.fuel

/-- Source function `unpackMapReflected`.  The keys are `reflect.Value` structs,
equal only when they share their boxed datum (`wrapperEq`). -/
def unpackMapReflected (UnpackReflected : Reader → Unpacked) :
    Nat → Reader → List (Value × Value) → Nat → Unpacked
  | 0, reader, retval, nbytesread => Unpacked.ok (Value.map retval) nbytesread reader
  | nelems + 1, reader, retval, nbytesread =>
    match UnpackReflected reader with
    | Unpacked.ok k n reader =>
      match UnpackReflected reader with
      | Unpacked.ok v n2 reader =>
        unpackMapReflected UnpackReflected nelems reader
          (mapAssignReflected retval (Value.reflected k) (Value.reflected v))
          (nbytesread + n + n2)
      | Unpacked.error e n2 reader => Unpacked.error e (nbytesread + n + n2) reader
      | Unpacked.panic p => Unpacked.panic p
      | Unpacked.fuel => Unpacked.fuel
    | Unpacked.error e n reader => Unpacked.error e (nbytesread + n) reader
    | Unpacked.panic p => Unpacked.panic p
    | Unpacked.fuel => Unpacked.fuel

/-- Source function `lownibble`. -/
def lownibble (u8 : Nat) : Nat := u8 &&& 0xf

/-- Source function `lowfive`. -/
def lowfive (u8 : Nat) : Nat := u8 &&& 0x1f

/-- The fixed-tier container branches of `unpack` (FIXMAP, FIXARRAY): the count
`n` of the element decoder is added before the error check and once more
after it. -/
def fixContainer (nbytesread : Nat) : Unpacked → Unpacked
  | Unpacked.ok retval n reader => Unpacked.ok retval (nbytesread + n + n) reader
  | Unpacked.error e n reader => Unpacked.error e (nbytesread + n) reader
  | Unpacked.panic p => Unpacked.panic p
  | Unpacked.fuel => Unpacked.fuel

/-- The 16- and 32-bit container branches of `unpack` (ARRAY16 .. MAP32), after
the count was read: the count `n` of the element decoder is added once. -/
def sizedContainer (nbytesread : Nat) : Unpacked → Unpacked
  | Unpacked.ok retval n reader => Unpacked.ok retval (nbytesread + n) reader
  | Unpacked.error e n reader => Unpacked.error e (nbytesread + n) reader
  | Unpacked.panic p => Unpacked.panic p
  | Unpacked.fuel => Unpacked.fuel

/-- The raw branches of `unpack` once the length is known: `make`, `Read`,
the count, the error check.  The FIXRAW and RAW16 branches make a `[]byte`,
the RAW32 branch makes a `Bytes` (`named`). -/
def readRaw (named : Bool) (nbytesread : Nat) (reader : Reader) (nbytestoread : Nat) :
    Unpacked :=
  match Read reader nbytestoread with
  | (_, n, some e, reader) => Unpacked.error e (nbytesread + n) reader
  | (data, n, none, reader) =>
    Unpacked.ok (if named then Value.Bytes data else Value.bytes data) (nbytesread + n) reader

/-- Source function `unpack`.  `fuel` bounds the nesting depth of the recursion
through the container decoders. -/
def unpack [Host] : Nat → Bool → Reader → Unpacked
  | 0, _, _ => Unpacked.fuel
  | fuel + 1, reflected, reader =>
    match readByte reader with
    | (_, some e, reader) => Unpacked.error e 0 reader
    | (c, none, reader) =>
      let nbytesread := 1
      if c < FIXMAP ∨ c ≥ NEGFIXNUM then
        Unpacked.ok (Value.int8 (toSigned 8 c)) nbytesread reader
      else if c ≥ FIXMAP ∧ c ≤ FIXMAPMAX then
        fixContainer nbytesread
          (if reflected then unpackMapReflected (unpack fuel true) (lownibble c) reader [] 0
           else unpackMap (unpack fuel false) (lownibble c) reader [] 0)
      else if c ≥ FIXARRAY ∧ c ≤ FIXARRAYMAX then
        fixContainer nbytesread
          (if reflected then unpackArrayReflected (unpack fuel true) (lownibble c) reader
           else unpackArray (unpack fuel false) (lownibble c) reader)
      else if c ≥ FIXRAW ∧ c ≤ FIXRAWMAX then
        readRaw false nbytesread reader (lowfive c)
      else if c = NIL then Unpacked.ok Value.nil nbytesread reader
      else if c = FALSE then Unpacked.ok (Value.bool false) nbytesread reader
      else if c = TRUE then Unpacked.ok (Value.bool true) nbytesread reader
      else if c = FLOAT then
        match readUint32 reader with
        | (_, n, some e, reader) => Unpacked.error e (nbytesread + n) reader
        | (data, n, none, reader) => Unpacked.ok (Value.float32 data) (nbytesread + n) reader
      else if c = DOUBLE then
        match readUint64 reader with
        | (_, n, some e, reader) => Unpacked.error e (nbytesread + n) reader
        | (data, n, none, reader) => Unpacked.ok (Value.float64 data) (nbytesread + n) reader
      else if c = UINT8 then
        match readByte reader with
        | (_, some e, reader) => Unpacked.error e nbytesread reader
        | (data, none, reader) => Unpacked.ok (Value.uint8 data) (nbytesread + 1) reader
      else if c = UINT16 then
        match readUint16 reader with
        | (_, n, some e, reader) => Unpacked.error e (nbytesread + n) reader
        | (data, n, none, reader) => Unpacked.ok (Value.uint16 data) (nbytesread + n) reader
      else if c = UINT32 then
        match readUint32 reader with
        | (_, n, some e, reader) => Unpacked.error e (nbytesread + n) reader
        | (data, n, none, reader) => Unpacked.ok (Value.uint32 data) (nbytesread + n) reader
      else if c = UINT64 then
        match readUint64 reader with
        | (_, n, some e, reader) => Unpacked.error e (nbytesread + n) reader
        | (data, n, none, reader) => Unpacked.ok (Value.uint64 data) (nbytesread + n) reader
      else if c = INT8 then
        match readByte reader with
        | (_, some e, reader) => Unpacked.error e nbytesread reader
        | (data, none, reader) =>
          Unpacked.ok (Value.int8 (toSigned 8 data)) (nbytesread + 1) reader
      else if c = INT16 then
        match readInt16 reader with
        | (_, n, some e, reader) => Unpacked.error e (nbytesread + n) reader
        | (data, n, none, reader) => Unpacked.ok (Value.int16 data) (nbytesread + n) reader
      else if c = INT32 then
        match readInt32 reader with
        | (_, n, some e, reader) => Unpacked.error e (nbytesread + n) reader
        | (data, n, none, reader) => Unpacked.ok (Value.int32 data) (nbytesread + n) reader
      else if c = INT64 then
        match readInt64 reader with
        | (_, n, some e, reader) => Unpacked.error e (nbytesread + n) reader
        | (data, n, none, reader) => Unpacked.ok (Value.int64 data) (nbytesread + n) reader
      else if c = RAW16 then
        match readUint16 reader with
        | (_, n, some e, reader) => Unpacked.error e (nbytesread + n) reader
        | (nbytestoread, n, none, reader) => readRaw false (nbytesread + n) reader nbytestoread
      else if c = RAW32 then
        match readUint32 reader with
        | (_, n, some e, reader) => Unpacked.error e (nbytesread + n) reader
        | (nbytestoread, n, none, reader) => readRaw true (nbytesread + n) reader nbytestoread
      else if c = ARRAY16 then
        match readUint16 reader with
        | (_, n, some e, reader) => Unpacked.error e (nbytesread + n) reader
        | (nelemstoread, n, none, reader) =>
          sizedContainer (nbytesread + n)
            (if reflected then unpackArrayReflected (unpack fuel true) nelemstoread reader
             else unpackArray (unpack fuel false) nelemstoread reader)
      else if c = ARRAY32 then
        match readUint32 reader with
        | (_, n, some e, reader) => Unpacked.error e (nbytesread + n) reader
        | (nelemstoread, n, none, reader) =>
          sizedContainer (nbytesread + n)
            (if reflected then unpackArrayReflected (unpack fuel true) nelemstoread reader
             else unpackArray (unpack fuel false) nelemstoread reader)
      else if c = MAP16 then
        match readUint16 reader with
        | (_, n, some e, reader) => Unpacked.error e (nbytesread + n) reader
        | (nelemstoread, n, none, reader) =>
          sizedContainer (nbytesread + n)
            (if reflected then unpackMapReflected (unpack fuel true) nelemstoread reader [] 0
             else unpackMap (unpack fuel false) nelemstoread reader [] 0)
      else if c = MAP32 then
        match readUint32 reader with
        | (_, n, some e, reader) => Unpacked.error e (nbytesread + n) reader
        | (nelemstoread, n, none, reader) =>
          sizedContainer (nbytesread + n)
            (if reflected then unpackMapReflected (unpack fuel true) nelemstoread reader [] 0
             else unpackMap (unpack fuel false) nelemstoread reader [] 0)
      else Unpacked.panic (Panic.unsupportedCode c)

/-- Source function `Unpack`.  Every nesting level reads its tag byte before it
recurses, so a budget of one more than the bytes of the source is never
used up. -/
def Unpack [Host] (reader : Reader) : Unpacked := unpack (reader.length + 1) false reader

/-- Source function `UnpackReflected`. -/
def UnpackReflected [Host] (reader : Reader) : Unpacked :=
  unpack (reader.length + 1) true reader

/-! ## The output sink -/

/-- An `io.Writer` with states in `σ`: `Write s p` is the count, the error and
the next state of the call `writer.Write(p)` made in state `s`. -/
structure Writer (σ : Type) where
  Write : σ → List Nat → Nat × Option Error × σ

/-- The sink that accepts every write in full (a `bytes.Buffer`): its state is
everything written so far. -/
def bufferWriter : Writer (List Nat) where
  Write := fun s p => (p.length, none, s ++ p)

/-- Result of an encoding function: the results `(n, err)` with the state of
the sink, or a panic with the state of the sink. -/
inductive Packed (σ : Type) where
  | ret (n : Nat) (err : Option Error) (s : σ)
  | panic (p : Panic) (s : σ)
  deriving Repr

/-- The statement `return writer.Write(p)`. -/
def Writer.ret {σ : Type} (w : Writer σ) (s : σ) (p : List Nat) : Packed σ :=
  match w.Write s p with
  | (n, err, s) => Packed.ret n err s

/-! ## Encoding (`pack.go`) -/

section Pack

variable {σ : Type} (w : Writer σ)

/-- Source function `PackUint8`. -/
def PackUint8 (s : σ) (value : Nat) : Packed σ :=
  if value ≥ REGULAR_UINT7_MAX then w.ret s [UINT8, value]
  else w.ret s [value]

/-- Source function `PackUint16`. -/
def PackUint16 (s : σ) (value : Nat) : Packed σ :=
  if value ≥ REGULAR_UINT8_MAX then w.ret s [UINT16, byte (value >>> 8), byte value]
  else PackUint8 w s (value % 2 ^ 8)

/-- Source function `PackUint32`. -/
def PackUint32 (s : σ) (value : Nat) : Packed σ :=
  if value ≥ REGULAR_UINT16_MAX then
    w.ret s [UINT32, byte (value >>> 24), byte (value >>> 16), byte (value >>> 8), byte value]
  else PackUint16 w s (value % 2 ^ 16)

/-- Source function `PackUint64`. -/
def PackUint64 (s : σ) (value : Nat) : Packed σ :=
  if value ≥ REGULAR_UINT32_MAX then
    w.ret s [UINT64, byte (value >>> 56), byte (value >>> 48), byte (value >>> 40),
      byte (value >>> 32), byte (value >>> 24), byte (value >>> 16), byte (value >>> 8),
      byte value]
  else PackUint32 w s (value % 2 ^ 32)

/-- Source function `PackUint`: the switch on `unsafe.Sizeof(value)`. -/
def PackUint (s : σ) (value : Nat) : Packed σ :=
  if sizeofInt = LEN_INT32 then PackUint32 w s (value % 2 ^ 32)
  else if sizeofInt = LEN_INT64 then PackUint64 w s (value % 2 ^ 64)
  else Packed.ret 0 (some Error.ErrNotExist) s

/-- Source function `PackInt8`. -/
def PackInt8 (s : σ) (value : Int) : Packed σ :=
  if value < -(SPECIAL_INT8 : Int) then w.ret s [INT8, toUnsigned 8 value]
  else w.ret s [toUnsigned 8 value]

/-- Source function `PackInt16`. -/
def PackInt16 (s : σ) (value : Int) : Packed σ :=
  if value < -(SPECIAL_INT16 : Int) ∨ value ≥ (SPECIAL_INT16 : Int) then
    w.ret s [INT16, byte (toUnsigned 16 value >>> 8), toUnsigned 8 value]
  else PackInt8 w s (toSigned 8 (toUnsigned 8 value))

/-- Source function `PackInt32`. -/
def PackInt32 (s : σ) (value : Int) : Packed σ :=
  if value < -(SPECIAL_INT32 : Int) ∨ value ≥ (SPECIAL_INT32 : Int) then
    w.ret s [INT32, byte (toUnsigned 32 value >>> 24), byte (toUnsigned 32 value >>> 16),
      byte (toUnsigned 32 value >>> 8), toUnsigned 8 value]
  else PackInt16 w s (toSigned 16 (toUnsigned 16 value))

/-- Source function `PackInt64`. -/
def PackInt64 (s : σ) (value : Int) : Packed σ :=
  if value < -(SPECIAL_INT64 : Int) ∨ value ≥ (SPECIAL_INT64 : Int) then
    w.ret s [INT64, byte (toUnsigned 64 value >>> 56), byte (toUnsigned 64 value >>> 48),
      byte (toUnsigned 64 value >>> 40), byte (toUnsigned 64 value >>> 32),
      byte (toUnsigned 64 value >>> 24), byte (toUnsigned 64 value >>> 16),
      byte (toUnsigned 64 value >>> 8), toUnsigned 8 value]
  else PackInt32 w s (toSigned 32 (toUnsigned 32 value))

/-- Source function `PackInt`: the switch on `unsafe.Sizeof(value)`. -/
def PackInt (s : σ) (value : Int) : Packed σ :=
  if sizeofInt = LEN_INT32 then PackInt32 w s (toSigned 32 (toUnsigned 32 value))
  else if sizeofInt = LEN_INT64 then PackInt64 w s (toSigned 64 (toUnsigned 64 value))
  else Packed.ret 0 (some Error.ErrNotExist) s

/-- Source function `PackNil`. -/
def PackNil (s : σ) : Packed σ := w.ret s [NIL]

/-- Source function `PackBool`. -/
def PackBool (s : σ) (value : Bool) : Packed σ :=
  if value then w.ret s [TRUE] else w.ret s [FALSE]

/-- Source function `PackFloat32`: the bit pattern of the float, reinterpreted
as a `uint32`, is handed to `PackUint32`. -/
def PackFloat32 (s : σ) (value : Nat) : Packed σ := PackUint32 w s value

/-- Source function `PackFloat64`: the bit pattern of the float, reinterpreted
as a `uint64`, is handed to `PackUint64`. -/
def PackFloat64 (s : σ) (value : Nat) : Packed σ := PackUint64 w s value

/-- The header `PackBytes` writes for a byte string of the given length. -/
def rawHeader (length : Nat) : List Nat :=
  if length < MAXFIXRAW then [FIXRAW ||| byte length]
  else if length < MAX16BIT then [RAW16, byte (length >>> 8), byte length]
  else [RAW32, byte (length >>> 24), byte (length >>> 16), byte (length >>> 8), byte length]

/-- Source function `PackBytes`; its three tiers differ in the header only. -/
def PackBytes (s : σ) (value : List Nat) : Packed σ :=
  match w.Write s (rawHeader value.length) with
  | (n1, some err, s) => Packed.ret n1 (some err) s
  | (n1, none, s) =>
    match w.Write s value with
    | (n2, err, s) => Packed.ret (n1 + n2) err s

/-- The header the array packers write for the given element count. -/
def arrayHeader (length : Nat) : List Nat :=
  if length < MAXFIXARRAY then [FIXARRAY ||| byte length]
  else if length < MAX16BIT then [ARRAY16, byte (length >>> 8), byte length]
  else [ARRAY32, byte (length >>> 24), byte (length >>> 16), byte (length >>> 8), byte length]

/-- The header `PackMap` writes for the given entry count. -/
def mapHeader (length : Nat) : List Nat :=
  if length < MAXFIXMAP then [FIXMAP ||| byte length]
  else if length < MAX16BIT then [MAP16, byte (length >>> 8), byte length]
  else [MAP32, byte (length >>> 24), byte (length >>> 16), byte (length >>> 8), byte length]

/-- The way out of a tier block of a container packer.  The block declares its
own `n` and `err` (`n, err := writer.Write(...)`); its early returns hand out
that `n`, but when its loop is through, the final `return n, nil` of the
function reads the result parameter `n`, which was never assigned. -/
def leaveBlock : Packed σ → Packed σ
  | Packed.ret _ none s => Packed.ret 0 none s
  | r => r

/-- The tier block of an array packer for `length` elements, `loop` being its
element loop started with the count and the sink state after the header;
the three tiers differ in the header only. -/
def arrayBlock (s : σ) (length : Nat) (loop : Nat → σ → Packed σ) : Packed σ :=
  match w.Write s (arrayHeader length) with
  | (n, some err, s) => Packed.ret n (some err) s
  | (n, none, s) => leaveBlock (loop n s)

/-- The tier block of `PackMap` for `length` entries, `loop` being its entry
loop; the three tiers differ in the header only. -/
def mapBlock (s : σ) (length : Nat) (loop : Nat → σ → Packed σ) : Packed σ :=
  match w.Write s (mapHeader length) with
  | (n, some err, s) => Packed.ret n (some err) s
  | (n, none, s) => leaveBlock (loop n s)

/-- The element loop of a typed array packer, `n` being the count of its
block: an element error returns the count before that element. -/
def packElems {α : Type} (packElem : σ → α → Packed σ) : List α → Nat → σ → Packed σ
  | [], n, s => Packed.ret n none s
  | i :: rest, n, s =>
    match packElem s i with
    | Packed.ret _n none s => packElems packElem rest (n + _n) s
    | Packed.ret _ (some err) s => Packed.ret n (some err) s
    | Packed.panic p s => Packed.panic p s

/-- The body shared by the typed array packers (`PackUint16Array` ..
`PackFloat64Array`), which differ in the element packer only; the three tiers
differ in the header only. -/
def packArrayOf {α : Type} (packElem : σ → α → Packed σ) (s : σ) (value : List α) :
    Packed σ :=
  arrayBlock w s value.length (packElems packElem value)

/-- Source function `PackUint16Array`. -/
def PackUint16Array (s : σ) (value : List Nat) : Packed σ := packArrayOf w (PackUint16 w) s value

/-- Source function `PackUint32Array`. -/
def PackUint32Array (s : σ) (value : List Nat) : Packed σ := packArrayOf w (PackUint32 w) s value

/-- Source function `PackUint64Array`. -/
def PackUint64Array (s : σ) (value : List Nat) : Packed σ := packArrayOf w (PackUint64 w) s value

/-- Source function `PackUintArray`: the switch on `unsafe.Sizeof(0)`. -/
def PackUintArray (s : σ) (value : List Nat) : Packed σ :=
  if sizeofInt = 4 then PackUint32Array w s (value.map (fun x => x % 2 ^ 32))
  else if sizeofInt = 8 then PackUint64Array w s value
  else Packed.ret 0 (some Error.ErrNotExist) s

/-- Source function `PackInt8Array`. -/
def PackInt8Array (s : σ) (value : List Int) : Packed σ := packArrayOf w (PackInt8 w) s value

/-- Source function `PackInt16Array`. -/
def PackInt16Array (s : σ) (value : List Int) : Packed σ := packArrayOf w (PackInt16 w) s value

/-- Source function `PackInt32Array`. -/
def PackInt32Array (s : σ) (value : List Int) : Packed σ := packArrayOf w (PackInt32 w) s value

/-- Source function `PackInt64Array`. -/
def PackInt64Array (s : σ) (value : List Int) : Packed σ := packArrayOf w (PackInt64 w) s value

/-- Source function `PackIntArray`: the switch on `unsafe.Sizeof(0)`. -/
def PackIntArray (s : σ) (value : List Int) : Packed σ :=
  if sizeofInt = LEN_INT32 then
    PackInt32Array w s (value.map (fun x => toSigned 32 (toUnsigned 32 x)))
  else if sizeofInt = LEN_INT64 then PackInt64Array w s value
  else Packed.ret 0 (some Error.ErrNotExist) s

/-- Source function `PackFloat32Array`. -/
def PackFloat32Array (s : σ) (value : List Nat) : Packed σ :=
  packArrayOf w (PackFloat32 w) s value

/-- Source function `PackFloat64Array`. -/
def PackFloat64Array (s : σ) (value : List Nat) : Packed σ :=
  packArrayOf w (PackFloat64 w) s value

mutual

/-- Source function `PackValue`, by the kind of the value.  Every unsigned kind
goes through `Uint()` to `PackUint64`, every signed kind through `Int()` to
`PackInt64`, both float kinds through `Float()` to `PackFloat64`.  A slice of
kind-`uint8` elements is what `PackArray` passes to `PackBytes`; the elements
of the other typed slices are packed by `PackValue` according to their
kind.  For a value of the named type `Bytes` the assertion
`value.Interface().([]byte)` of `PackArray` fails.  The slice and map cases
are the bodies of `PackArray` and `PackMap`.  A `reflect.Value` struct has no
case and panics. -/
def PackValue (s : σ) : Value → Packed σ
  | Value.nil => PackNil w s
  | Value.bool b => PackBool w s b
  | Value.uint8 v => PackUint64 w s v
  | Value.uint16 v => PackUint64 w s v
  | Value.uint32 v => PackUint64 w s v
  | Value.uint64 v => PackUint64 w s v
  | Value.uint v => PackUint64 w s v
  | Value.int8 v => PackInt64 w s v
  | Value.int16 v => PackInt64 w s v
  | Value.int32 v => PackInt64 w s v
  | Value.int64 v => PackInt64 w s v
  | Value.int v => PackInt64 w s v
  | Value.float32 bits => PackFloat64 w s (float32to64 bits)
  | Value.float64 bits => PackFloat64 w s bits
  | Value.bytes b => PackBytes w s b
  | Value.Bytes _ => Packed.panic Panic.typeAssertion s
  | Value.string b => PackBytes w s b
  | Value.uint16s xs => packArrayOf w (PackUint64 w) s xs
  | Value.uint32s xs => packArrayOf w (PackUint64 w) s xs
  | Value.uint64s xs => packArrayOf w (PackUint64 w) s xs
  | Value.uints xs => packArrayOf w (PackUint64 w) s xs
  | Value.int8s xs => packArrayOf w (PackInt64 w) s xs
  | Value.int16s xs => packArrayOf w (PackInt64 w) s xs
  | Value.int32s xs => packArrayOf w (PackInt64 w) s xs
  | Value.int64s xs => packArrayOf w (PackInt64 w) s xs
  | Value.ints xs => packArrayOf w (PackInt64 w) s xs
  | Value.float32s xs => packArrayOf w (fun s x => PackFloat64 w s (float32to64 x)) s xs
  | Value.float64s xs => packArrayOf w (PackFloat64 w) s xs
  | Value.slice xs => arrayBlock w s xs.length (packArrayLoop xs)
  | Value.map kvs => mapBlock w s kvs.length (packMapLoop kvs)
  | Value.reflected _ => Packed.panic Panic.unsupportedType s

/-- The element loop of `PackArray`, `n` being the count of its block. -/
def packArrayLoop : List Value → Nat → σ → Packed σ
  | [], n, s => Packed.ret n none s
  | x :: rest, n, s =>
    match PackValue s x with
    | Packed.ret _n none s => packArrayLoop rest (n + _n) s
    | Packed.ret _ (some err) s => Packed.ret n (some err) s
    | Packed.panic p s => Packed.panic p s

/-- The entry loop of `PackMap`, `n` being the count of its block: a key error
returns the count before the entry, a value error the count with the key. -/
def packMapLoop : List (Value × Value) → Nat → σ → Packed σ
  | [], n, s => Packed.ret n none s
  | (k, v) :: rest, n, s =>
    match PackValue s k with
    | Packed.ret _n none s =>
      match PackValue s v with
      | Packed.ret _n2 none s => packMapLoop rest (n + _n + _n2) s
      | Packed.ret _ (some err) s => Packed.ret (n + _n) (some err) s
      | Packed.panic p s => Packed.panic p s
    | Packed.ret _ (some err) s => Packed.ret n (some err) s
    | Packed.panic p s => Packed.panic p s

end

/-- Source function `PackArray`, on the elements of a slice that is not a byte
string. -/
def PackArray (s : σ) (value : List Value) : Packed σ :=
  arrayBlock w s value.length (packArrayLoop w value)

/-- Source function `PackMap`, on the entries of the map. -/
def PackMap (s : σ) (value : List (Value × Value)) : Packed σ :=
  mapBlock w s value.length (packMapLoop w value)

/-- Source function `Pack`: the type switch, with `PackValue` as its default. -/
def Pack (s : σ) : Value → Packed σ
  | Value.nil => PackNil w s
  | Value.bool b => PackBool w s b
  | Value.uint8 v => PackUint8 w s v
  | Value.uint16 v => PackUint16 w s v
  | Value.uint32 v => PackUint32 w s v
  | Value.uint64 v => PackUint64 w s v
  | Value.uint v => PackUint w s v
  | Value.int8 v => PackInt8 w s v
  | Value.int16 v => PackInt16 w s v
  | Value.int32 v => PackInt32 w s v
  | Value.int64 v => PackInt64 w s v
  | Value.int v => PackInt w s v
  | Value.float32 bits => PackFloat32 w s bits
  | Value.float64 bits => PackFloat64 w s bits
  | Value.bytes b => PackBytes w s b
  | Value.uint16s xs => PackUint16Array w s xs
  | Value.uint32s xs => PackUint32Array w s xs
  | Value.uint64s xs => PackUint64Array w s xs
  | Value.uints xs => PackUintArray w s xs
  | Value.int8s xs => PackInt8Array w s xs
  | Value.int16s xs => PackInt16Array w s xs
  | Value.int32s xs => PackInt32Array w s xs
  | Value.int64s xs => PackInt64Array w s xs
  | Value.ints xs => PackIntArray w s xs
  | Value.float32s xs => PackFloat32Array w s xs
  | Value.float64s xs => PackFloat64Array w s xs
  | Value.string b => PackBytes w s b
  | Value.slice xs => PackValue w s (Value.slice xs)
  | Value.map kvs => PackValue w s (Value.map kvs)
  | Value.reflected v => PackValue w s (Value.reflected v)
  | Value.Bytes b => PackValue w s (Value.Bytes b)

end Pack

/-! ## Specification-side definitions -/

/-- The wire form of an unsigned 64-bit integer: the narrowest of the inline
byte and the four tagged big-endian widths that holds it. -/
def uintWire (v : Nat) : List Nat :=
  if v < 2 ^ 7 then [v]
  else if v < 2 ^ 8 then [UINT8, v]
  else if v < 2 ^ 16 then [UINT16, v / 2 ^ 8 % 256, v % 256]
  else if v < 2 ^ 32 then [UINT32, v / 2 ^ 24 % 256, v / 2 ^ 16 % 256, v / 2 ^ 8 % 256, v % 256]
  else [UINT64, v / 2 ^ 56 % 256, v / 2 ^ 48 % 256, v / 2 ^ 40 % 256, v / 2 ^ 32 % 256,
    v / 2 ^ 24 % 256, v / 2 ^ 16 % 256, v / 2 ^ 8 % 256, v % 256]

/-- The value the decoder builds from `uintWire v`. -/
def uintDecoded (v : Nat) : Value :=
  if v < 2 ^ 7 then Value.int8 v
  else if v < 2 ^ 8 then Value.uint8 v
  else if v < 2 ^ 16 then Value.uint16 v
  else if v < 2 ^ 32 then Value.uint32 v
  else Value.uint64 v

/-- The numeric value of an integer value, of any width and signedness. -/
def Value.toInt? : Value → Option Int
  | Value.uint8 v => some v
  | Value.uint16 v => some v
  | Value.uint32 v => some v
  | Value.uint64 v => some v
  | Value.uint v => some v
  | Value.int8 v => some v
  | Value.int16 v => some v
  | Value.int32 v => some v
  | Value.int64 v => some v
  | Value.int v => some v
  | _ => none

/-- The wire form of a signed 64-bit integer: the inline byte for -32 .. 127,
else the narrowest tagged two's-complement big-endian width that holds it. -/
def intWire (v : Int) : List Nat :=
  if -2 ^ 5 ≤ v ∧ v < 2 ^ 7 then [toUnsigned 8 v]
  else if -2 ^ 7 ≤ v ∧ v < 2 ^ 7 then [INT8, toUnsigned 8 v]
  else if -2 ^ 15 ≤ v ∧ v < 2 ^ 15 then
    [INT16, toUnsigned 16 v / 2 ^ 8 % 256, toUnsigned 16 v % 256]
  else if -2 ^ 31 ≤ v ∧ v < 2 ^ 31 then
    [INT32, toUnsigned 32 v / 2 ^ 24 % 256, toUnsigned 32 v / 2 ^ 16 % 256,
      toUnsigned 32 v / 2 ^ 8 % 256, toUnsigned 32 v % 256]
  else
    [INT64, toUnsigned 64 v / 2 ^ 56 % 256, toUnsigned 64 v / 2 ^ 48 % 256,
      toUnsigned 64 v / 2 ^ 40 % 256, toUnsigned 64 v / 2 ^ 32 % 256,
      toUnsigned 64 v / 2 ^ 24 % 256, toUnsigned 64 v / 2 ^ 16 % 256,
      toUnsigned 64 v / 2 ^ 8 % 256, toUnsigned 64 v % 256]

/-- The value the decoder builds from `intWire v`. -/
def intDecoded (v : Int) : Value :=
  if -2 ^ 7 ≤ v ∧ v < 2 ^ 7 then Value.int8 v
  else if -2 ^ 15 ≤ v ∧ v < 2 ^ 15 then Value.int16 v
  else if -2 ^ 31 ≤ v ∧ v < 2 ^ 31 then Value.int32 v
  else Value.int64 v

/-- The `k` low bytes of `v`, most significant first. -/
def bigEndian : Nat → Nat → List Nat
  | 0, _ => []
  | k + 1, v => (v / 256 ^ k % 256) :: bigEndian k v

/-- The state in which an encoding function leaves the sink. -/
def Packed.sink {σ : Type} : Packed σ → σ
  | Packed.ret _ _ s => s
  | Packed.panic _ s => s

/-! ## Outcomes, wire forms and value classes -/

/-- A decoding outcome apart from the source left: a value with its byte
count, or a panic. -/
inductive Outcome where
  | good (d : Value) (m : Nat)
  | bad (p : Panic)
  deriving Repr

/-- The decoding result made of an outcome and the source left. -/
def Outcome.on : Outcome → Reader → Unpacked
  | Outcome.good d m, r => Unpacked.ok d m r
  | Outcome.bad p, _ => Unpacked.panic p

/-- `Decodes k E o`: with a recursion budget of at least `k`, `unpack` in
flattening mode on any source that starts with `E` yields the outcome `o`
and leaves exactly what follows `E`. -/
def Decodes (k : Nat) (E : List Nat) (o : Outcome) : Prop :=
  ∀ fuel r, k ≤ fuel → unpack fuel false (E ++ r) = o.on r

/-- What `unpackArray` makes of the outcomes of its element decodes, from the
loop variables `retval` and `nbytesread` on. -/
def arrayOutcome : List Outcome → List Value → Nat → Outcome
  | [], retval, nbytesread => Outcome.good (Value.slice retval) nbytesread
  | Outcome.good d m :: rest, retval, nbytesread =>
    match Interface d with
    | none => Outcome.bad Panic.zeroValue
    | some x => arrayOutcome rest (retval ++ [x]) (nbytesread + m)
  | Outcome.bad p :: _, _, _ => Outcome.bad p

/-- What `unpackMap` makes of the outcomes of its key and value decodes. -/
def mapOutcome : List (Outcome × Outcome) → List (Value × Value) → Nat → Outcome
  | [], retval, nbytesread => Outcome.good (Value.map retval) nbytesread
  | (Outcome.good k n, Outcome.good v n2) :: rest, retval, nbytesread =>
    match Interface k with
    | none => Outcome.bad Panic.zeroValue
    | some _ =>
      match mapKey k with
      | none => Outcome.bad Panic.typeAssertion
      | some key =>
        match Interface v with
        | none => Outcome.bad Panic.zeroValue
        | some x =>
          if hashable key then mapOutcome rest (mapAssign retval key x) (nbytesread + n + n2)
          else Outcome.bad Panic.unhashable
  | (Outcome.good _ _, Outcome.bad p) :: _, _, _ => Outcome.bad p
  | (Outcome.bad p, _) :: _, _, _ => Outcome.bad p

/-- The count `unpack` reports for a container of `length` elements whose
header took `header` bytes and whose element decoder reported `m`. -/
def containerOutcome (length header : Nat) : Outcome → Outcome
  | Outcome.good d m => Outcome.good d (if length < 16 then 1 + m + m else header + m)
  | Outcome.bad p => Outcome.bad p

mutual

/-- The bytes `PackValue` writes for a value in which neither a `reflect.Value`
struct nor a `Bytes` occurs. -/
def wire : Value → List Nat
  | Value.nil => [NIL]
  | Value.bool b => [if b then TRUE else FALSE]
  | Value.uint8 v => uintWire v
  | Value.uint16 v => uintWire v
  | Value.uint32 v => uintWire v
  | Value.uint64 v => uintWire v
  | Value.uint v => uintWire v
  | Value.int8 v => intWire v
  | Value.int16 v => intWire v
  | Value.int32 v => intWire v
  | Value.int64 v => intWire v
  | Value.int v => intWire v
  | Value.float32 bits => uintWire (float32to64 bits)
  | Value.float64 bits => uintWire bits
  | Value.bytes b => rawHeader b.length ++ b
  | Value.Bytes _ => []
  | Value.string b => rawHeader b.length ++ b
  | Value.uint16s xs => arrayHeader xs.length ++ xs.flatMap uintWire
  | Value.uint32s xs => arrayHeader xs.length ++ xs.flatMap uintWire
  | Value.uint64s xs => arrayHeader xs.length ++ xs.flatMap uintWire
  | Value.uints xs => arrayHeader xs.length ++ xs.flatMap uintWire
  | Value.int8s xs => arrayHeader xs.length ++ xs.flatMap intWire
  | Value.int16s xs => arrayHeader xs.length ++ xs.flatMap intWire
  | Value.int32s xs => arrayHeader xs.length ++ xs.flatMap intWire
  | Value.int64s xs => arrayHeader xs.length ++ xs.flatMap intWire
  | Value.ints xs => arrayHeader xs.length ++ xs.flatMap intWire
  | Value.float32s xs => arrayHeader xs.length ++ xs.flatMap (fun x => uintWire (float32to64 x))
  | Value.float64s xs => arrayHeader xs.length ++ xs.flatMap uintWire
  | Value.slice xs => arrayHeader xs.length ++ wireList xs
  | Value.map kvs => mapHeader kvs.length ++ wireEntries kvs
  | Value.reflected _ => []

/-- The wire forms of the elements of an array, in index order. -/
def wireList : List Value → List Nat
  | [] => []
  | x :: rest => wire x ++ wireList rest

/-- The wire forms of the entries of a map: each key followed by its value. -/
def wireEntries : List (Value × Value) → List Nat
  | [] => []
  | (k, v) :: rest => wire k ++ (wire v ++ wireEntries rest)

end

/-- The value the decoder builds from the wire form of a byte string: a
`[]byte` in the two lower tiers, a `Bytes` in the 32-bit tier. -/
def rawDecoded (b : List Nat) : Value :=
  if b.length < MAX16BIT then Value.bytes b else Value.Bytes b

/-- The bytes of a decoded byte string, of either type. -/
def Value.toBytes? : Value → Option (List Nat)
  | Value.bytes b => some b
  | Value.Bytes b => some b
  | _ => none

/-- The outcome of decoding `uintWire v`. -/
def uintOutcome (v : Nat) : Outcome := Outcome.good (uintDecoded v) (uintWire v).length

/-- The outcome of decoding `intWire v`. -/
def intOutcome (v : Int) : Outcome := Outcome.good (intDecoded v) (intWire v).length

/-- The outcome of decoding an array whose elements decode to `os`. -/
def arrayOf (os : List Outcome) : Outcome :=
  containerOutcome os.length (arrayHeader os.length).length (arrayOutcome os [] 0)

mutual

/-- The outcome of decoding `wire v`, built from the outcomes of its parts. -/
def expect : Value → Outcome
  | Value.nil => Outcome.good Value.nil 1
  | Value.bool b => Outcome.good (Value.bool b) 1
  | Value.uint8 v => uintOutcome v
  | Value.uint16 v => uintOutcome v
  | Value.uint32 v => uintOutcome v
  | Value.uint64 v => uintOutcome v
  | Value.uint v => uintOutcome v
  | Value.int8 v => intOutcome v
  | Value.int16 v => intOutcome v
  | Value.int32 v => intOutcome v
  | Value.int64 v => intOutcome v
  | Value.int v => intOutcome v
  | Value.float32 bits => uintOutcome (float32to64 bits)
  | Value.float64 bits => uintOutcome bits
  | Value.bytes b => Outcome.good (rawDecoded b) ((rawHeader b.length).length + b.length)
  | Value.Bytes _ => Outcome.bad Panic.typeAssertion
  | Value.string b => Outcome.good (rawDecoded b) ((rawHeader b.length).length + b.length)
  | Value.uint16s xs => arrayOf (xs.map uintOutcome)
  | Value.uint32s xs => arrayOf (xs.map uintOutcome)
  | Value.uint64s xs => arrayOf (xs.map uintOutcome)
  | Value.uints xs => arrayOf (xs.map uintOutcome)
  | Value.int8s xs => arrayOf (xs.map intOutcome)
  | Value.int16s xs => arrayOf (xs.map intOutcome)
  | Value.int32s xs => arrayOf (xs.map intOutcome)
  | Value.int64s xs => arrayOf (xs.map intOutcome)
  | Value.ints xs => arrayOf (xs.map intOutcome)
  | Value.float32s xs => arrayOf (xs.map (fun x => uintOutcome (float32to64 x)))
  | Value.float64s xs => arrayOf (xs.map uintOutcome)
  | Value.slice xs => arrayOf (expectList xs)
  | Value.map kvs =>
    containerOutcome kvs.length (mapHeader kvs.length).length (mapOutcome (expectEntries kvs) [] 0)
  | Value.reflected _ => Outcome.bad Panic.unsupportedType

/-- The outcomes of decoding the elements of an array. -/
def expectList : List Value → List Outcome
  | [] => []
  | x :: rest => expect x :: expectList rest

/-- The outcomes of decoding the keys and values of a map. -/
def expectEntries : List (Value × Value) → List (Outcome × Outcome)
  | [] => []
  | (k, v) :: rest => (expect k, expect v) :: expectEntries rest

end

mutual

/-- Whether every integer of a value lies in the range of its Go type, every
float pattern in its width and every byte below 256. -/
def wellTyped : Value → Bool
  | Value.nil => true
  | Value.bool _ => true
  | Value.uint8 v => decide (v < 2 ^ 8)
  | Value.uint16 v => decide (v < 2 ^ 16)
  | Value.uint32 v => decide (v < 2 ^ 32)
  | Value.uint64 v => decide (v < 2 ^ 64)
  | Value.uint v => decide (v < 2 ^ 64)
  | Value.int8 v => decide (-2 ^ 7 ≤ v ∧ v < 2 ^ 7)
  | Value.int16 v => decide (-2 ^ 15 ≤ v ∧ v < 2 ^ 15)
  | Value.int32 v => decide (-2 ^ 31 ≤ v ∧ v < 2 ^ 31)
  | Value.int64 v => decide (-2 ^ 63 ≤ v ∧ v < 2 ^ 63)
  | Value.int v => decide (-2 ^ 63 ≤ v ∧ v < 2 ^ 63)
  | Value.float32 bits => decide (bits < 2 ^ 32)
  | Value.float64 bits => decide (bits < 2 ^ 64)
  | Value.bytes b => b.all (fun x => decide (x < 256))
  | Value.Bytes b => b.all (fun x => decide (x < 256))
  | Value.string b => b.all (fun x => decide (x < 256))
  | Value.uint16s xs => xs.all (fun v => decide (v < 2 ^ 16))
  | Value.uint32s xs => xs.all (fun v => decide (v < 2 ^ 32))
  | Value.uint64s xs => xs.all (fun v => decide (v < 2 ^ 64))
  | Value.uints xs => xs.all (fun v => decide (v < 2 ^ 64))
  | Value.int8s xs => xs.all (fun v => decide (-2 ^ 7 ≤ v ∧ v < 2 ^ 7))
  | Value.int16s xs => xs.all (fun v => decide (-2 ^ 15 ≤ v ∧ v < 2 ^ 15))
  | Value.int32s xs => xs.all (fun v => decide (-2 ^ 31 ≤ v ∧ v < 2 ^ 31))
  | Value.int64s xs => xs.all (fun v => decide (-2 ^ 63 ≤ v ∧ v < 2 ^ 63))
  | Value.ints xs => xs.all (fun v => decide (-2 ^ 63 ≤ v ∧ v < 2 ^ 63))
  | Value.float32s xs => xs.all (fun v => decide (v < 2 ^ 32))
  | Value.float64s xs => xs.all (fun v => decide (v < 2 ^ 64))
  | Value.slice xs => wellTypedList xs
  | Value.map kvs => wellTypedEntries kvs
  | Value.reflected v => wellTyped v

/-- `wellTyped` for every element. -/
def wellTypedList : List Value → Bool
  | [] => true
  | x :: rest => wellTyped x && wellTypedList rest

/-- `wellTyped` for every key and value. -/
def wellTypedEntries : List (Value × Value) → Bool
  | [] => true
  | (k, v) :: rest => wellTyped k && (wellTyped v && wellTypedEntries rest)

end

mutual

/-- Whether every byte string, array and map of a value, at any depth, has
fewer than 2^32 elements, the largest count a header can declare. -/
def sized : Value → Bool
  | Value.bytes b => decide (b.length < 2 ^ 32)
  | Value.Bytes b => decide (b.length < 2 ^ 32)
  | Value.string b => decide (b.length < 2 ^ 32)
  | Value.uint16s xs => decide (xs.length < 2 ^ 32)
  | Value.uint32s xs => decide (xs.length < 2 ^ 32)
  | Value.uint64s xs => decide (xs.length < 2 ^ 32)
  | Value.uints xs => decide (xs.length < 2 ^ 32)
  | Value.int8s xs => decide (xs.length < 2 ^ 32)
  | Value.int16s xs => decide (xs.length < 2 ^ 32)
  | Value.int32s xs => decide (xs.length < 2 ^ 32)
  | Value.int64s xs => decide (xs.length < 2 ^ 32)
  | Value.ints xs => decide (xs.length < 2 ^ 32)
  | Value.float32s xs => decide (xs.length < 2 ^ 32)
  | Value.float64s xs => decide (xs.length < 2 ^ 32)
  | Value.slice xs => decide (xs.length < 2 ^ 32) && sizedList xs
  | Value.map kvs => decide (kvs.length < 2 ^ 32) && sizedEntries kvs
  | Value.reflected v => sized v
  | _ => true

/-- `sized` for every element. -/
def sizedList : List Value → Bool
  | [] => true
  | x :: rest => sized x && sizedList rest

/-- `sized` for every key and value. -/
def sizedEntries : List (Value × Value) → Bool
  | [] => true
  | (k, v) :: rest => sized k && (sized v && sizedEntries rest)

end

mutual

/-- Whether a value holds neither a `reflect.Value` struct nor a `Bytes`, the
two kinds of the model for which `PackValue` panics. -/
def packable : Value → Bool
  | Value.slice xs => packableList xs
  | Value.map kvs => packableEntries kvs
  | Value.reflected _ => false
  | Value.Bytes _ => false
  | _ => true

/-- `packable` for every element. -/
def packableList : List Value → Bool
  | [] => true
  | x :: rest => packable x && packableList rest

/-- `packable` for every key and value. -/
def packableEntries : List (Value × Value) → Bool
  | [] => true
  | (k, v) :: rest => packable k && (packable v && packableEntries rest)

end

/-- The value of a good outcome. -/
def Outcome.value : Outcome → Value
  | Outcome.good d _ => d
  | Outcome.bad _ => Value.nil

/-- The bytes `Pack` writes: those of `PackValue`, except for a float32 and a
`[]float32`, whose typed packers write the 32-bit pattern as an unsigned
integer. -/
def packWire : Value → List Nat
  | Value.float32 bits => uintWire bits
  | Value.float32s xs => arrayHeader xs.length ++ xs.flatMap uintWire
  | v => wire v

/-- The outcome of decoding `packWire v`. -/
def packExpect : Value → Outcome
  | Value.float32 bits => uintOutcome bits
  | Value.float32s xs => arrayOf (xs.map uintOutcome)
  | v => expect v

/-- The bytes `Pack` leaves in an empty buffer. -/
def encoding (v : Value) : List Nat := (Pack bufferWriter [] v).sink

/-- Calling `Unpack` `k` times in a row on one source: the values returned in
order and the source left, or `none` when one of the calls fails. -/
def unpackMany : Nat → Reader → Option (List Value × Reader)
  | 0, reader => some ([], reader)
  | k + 1, reader =>
    match Unpack reader with
    | Unpacked.ok d _ reader =>
      match unpackMany k reader with
      | some (ds, reader) => some (d :: ds, reader)
      | none => none
    | _ => none

/-- Go's map index `m[k]` on a map held as its list of entries. -/
def mapIndex : List (Value × Value) → Value → Option Value
  | [], _ => none
  | (k0, v0) :: rest, k => if keyEq k0 k then some v0 else mapIndex rest k

/-- Whether the keys of a list of entries are pairwise different for Go. -/
def keysDistinct : List (Value × Value) → Bool
  | [] => true
  | (k, _) :: rest => rest.all (fun kv => !keyEq k kv.1) && keysDistinct rest

/-- The entries `(k, value.MapIndex(k))`, with `k` in the order of
`value.MapKeys()`, that `PackMap` goes through for a Go map holding the entries
`m`.  `MapIndex` returns the value stored under the key equal to `k`; for a key
that no key of the map equals, as a NaN, which is not equal to itself, it
returns the zero `reflect.Value`, which `PackValue` packs as nil. -/
def indexed (m : List (Value × Value)) : List (Value × Value) :=
  m.map (fun kv => (kv.1, (mapIndex m kv.1).getD Value.nil))

mutual

/-- The values of the nested round trip: integers of any kind, booleans, byte
strings, typed integer arrays, generic arrays of such values, and maps from
distinct text keys to such values. -/
def plain : Value → Bool
  | Value.bool _ => true
  | Value.uint8 _ => true
  | Value.uint16 _ => true
  | Value.uint32 _ => true
  | Value.uint64 _ => true
  | Value.uint _ => true
  | Value.int8 _ => true
  | Value.int16 _ => true
  | Value.int32 _ => true
  | Value.int64 _ => true
  | Value.int _ => true
  | Value.bytes _ => true
  | Value.uint16s _ => true
  | Value.uint32s _ => true
  | Value.uint64s _ => true
  | Value.uints _ => true
  | Value.int8s _ => true
  | Value.int16s _ => true
  | Value.int32s _ => true
  | Value.int64s _ => true
  | Value.ints _ => true
  | Value.slice xs => plainList xs
  | Value.map kvs => keysDistinct kvs && plainEntries kvs
  | _ => false

/-- `plain` for every element. -/
def plainList : List Value → Bool
  | [] => true
  | x :: rest => plain x && plainList rest

/-- Text keys and `plain` values. -/
def plainEntries : List (Value × Value) → Bool
  | [] => true
  | (Value.string _, v) :: rest => plain v && plainEntries rest
  | _ :: _ => false

end

mutual

/-- Whether every map key of a value, at any depth, that is a text has fewer
than 65536 bytes, so that it is written in one of the two lower raw tiers. -/
def shortKeys : Value → Bool
  | Value.slice xs => shortKeysList xs
  | Value.map kvs => shortKeysEntries kvs
  | _ => true

/-- `shortKeys` for every element. -/
def shortKeysList : List Value → Bool
  | [] => true
  | x :: rest => shortKeys x && shortKeysList rest

/-- Short text keys, and `shortKeys` for every key and value. -/
def shortKeysEntries : List (Value × Value) → Bool
  | [] => true
  | (Value.string b, v) :: rest =>
    decide (b.length < 65536) && (shortKeys v && shortKeysEntries rest)
  | (k, v) :: rest => shortKeys k && (shortKeys v && shortKeysEntries rest)

end

/-- Element by element, the decoded integers equal the given ones. -/
def sameInts : List Int → List Value → Bool
  | [], [] => true
  | x :: xs, d :: ds => (d.toInt? == some x) && sameInts xs ds
  | _, _ => false

mutual

/-- `same v d`: the decoded value `d` has the structure of the host value `v`:
an integer is numerically equal, a boolean and a byte string are identical,
an array has the same length and, index by index, `same` elements, a map has
the same key set and under each key a value `same` as the host's. -/
def same : Value → Value → Bool
  | Value.bool a, d => (match d with | Value.bool b => a == b | _ => false)
  | Value.uint8 v, d => d.toInt? == some (v : Int)
  | Value.uint16 v, d => d.toInt? == some (v : Int)
  | Value.uint32 v, d => d.toInt? == some (v : Int)
  | Value.uint64 v, d => d.toInt? == some (v : Int)
  | Value.uint v, d => d.toInt? == some (v : Int)
  | Value.int8 v, d => d.toInt? == some v
  | Value.int16 v, d => d.toInt? == some v
  | Value.int32 v, d => d.toInt? == some v
  | Value.int64 v, d => d.toInt? == some v
  | Value.int v, d => d.toInt? == some v
  | Value.bytes b, d => d.toBytes? == some b
  | Value.uint16s xs, d =>
    (match d with | Value.slice ds => sameInts (xs.map Int.ofNat) ds | _ => false)
  | Value.uint32s xs, d =>
    (match d with | Value.slice ds => sameInts (xs.map Int.ofNat) ds | _ => false)
  | Value.uint64s xs, d =>
    (match d with | Value.slice ds => sameInts (xs.map Int.ofNat) ds | _ => false)
  | Value.uints xs, d =>
    (match d with | Value.slice ds => sameInts (xs.map Int.ofNat) ds | _ => false)
  | Value.int8s xs, d => (match d with | Value.slice ds => sameInts xs ds | _ => false)
  | Value.int16s xs, d => (match d with | Value.slice ds => sameInts xs ds | _ => false)
  | Value.int32s xs, d => (match d with | Value.slice ds => sameInts xs ds | _ => false)
  | Value.int64s xs, d => (match d with | Value.slice ds => sameInts xs ds | _ => false)
  | Value.ints xs, d => (match d with | Value.slice ds => sameInts xs ds | _ => false)
  | Value.slice xs, d => (match d with | Value.slice ds => sameList xs ds | _ => false)
  | Value.map kvs, d =>
    (match d with
      | Value.map ds =>
        sameEntries kvs ds && ds.all (fun e => kvs.any (fun kv => keyEq kv.1 e.1))
      | _ => false)
  | _, _ => false

/-- Same length and, index by index, `same` elements. -/
def sameList : List Value → List Value → Bool
  | [], [] => true
  | x :: xs, d :: ds => same x d && sameList xs ds
  | _, _ => false

/-- Every host entry is found in the decoded map, with a `same` value. -/
def sameEntries : List (Value × Value) → List (Value × Value) → Bool
  | [], _ => true
  | (k, v) :: rest, ds =>
    (match mapIndex ds k with
      | some d => same v d
      | none => false) && sameEntries rest ds

end

/-! ## Definitions for the wire-form and decoding theorems -/

/-- The number a byte string spells when read big-endian. -/
def fromBigEndian : List Nat → Nat
  | [] => 0
  | b :: rest => b * 256 ^ rest.length + fromBigEndian rest

/-- The elements of a sequence, each as a value of its own; `none` for a value
that is not a sequence (a byte string is not one). -/
def elements : Value → Option (List Value)
  | Value.uint16s xs => some (xs.map Value.uint16)
  | Value.uint32s xs => some (xs.map Value.uint32)
  | Value.uint64s xs => some (xs.map Value.uint64)
  | Value.uints xs => some (xs.map Value.uint)
  | Value.int8s xs => some (xs.map Value.int8)
  | Value.int16s xs => some (xs.map Value.int16)
  | Value.int32s xs => some (xs.map Value.int32)
  | Value.int64s xs => some (xs.map Value.int64)
  | Value.ints xs => some (xs.map Value.int)
  | Value.float32s xs => some (xs.map Value.float32)
  | Value.float64s xs => some (xs.map Value.float64)
  | Value.slice xs => some xs
  | _ => none

/-- Whether a sequence is a generic one: it has no typed packer of its own and
`PackArray` hands each of its elements to `PackValue`. -/
def generic : Value → Bool
  | Value.slice _ => true
  | _ => false

/-- Whether a value is a float32 or a `[]float32`: `Pack` sends these to
`PackFloat32` and `PackFloat32Array`, `PackValue` widens them to float64. -/
def narrowFloat : Value → Bool
  | Value.float32 _ => true
  | Value.float32s _ => true
  | _ => false

/-- The numeric value of an integer value of a signed category. -/
def Value.toSigned? : Value → Option Int
  | Value.int8 v => some v
  | Value.int16 v => some v
  | Value.int32 v => some v
  | Value.int64 v => some v
  | Value.int v => some v
  | _ => none

/-- An entry of a map encoding: the bytes of its key and of its value, with the
value and the byte count `unpack` makes of each. -/
structure MapEntry where
  keyBytes : List Nat
  key : Value
  keyCount : Nat
  valueBytes : List Nat
  value : Value
  valueCount : Nat

/-- The key of a decoded entry as the specification words it: the text with
exactly the bytes of a raw byte string, any other decoded key unchanged. -/
def textKey : Value → Value
  | Value.bytes b => Value.string b
  | Value.Bytes b => Value.string b
  | k => k

/-- The decoded keys that are booleans, integers, floats, or raw byte strings
of the fixed or the 16-bit tier. -/
def scalarKey : Value → Bool
  | Value.bool _ => true
  | Value.uint8 _ => true
  | Value.uint16 _ => true
  | Value.uint32 _ => true
  | Value.uint64 _ => true
  | Value.int8 _ => true
  | Value.int16 _ => true
  | Value.int32 _ => true
  | Value.int64 _ => true
  | Value.float32 _ => true
  | Value.float64 _ => true
  | Value.bytes _ => true
  | _ => false

/-- Whether a decoded value holds no other value: it is neither an array, nor a
map, nor a wrapper. -/
def leaf : Value → Bool
  | Value.slice _ => false
  | Value.map _ => false
  | Value.reflected _ => false
  | _ => true

/-- The element loop that `unpack` runs for a container of `n` elements or
entries: the map or the array loop of the mode, each element decoded by
`unpack` with the recursion budget left. -/
def containerBody [Host] (fuel : Nat) (isMap reflected : Bool) (n : Nat) (R : Reader) :
    Unpacked :=
  if isMap then
    (if reflected then unpackMapReflected (unpack fuel true) n R [] 0
     else unpackMap (unpack fuel false) n R [] 0)
  else
    (if reflected then unpackArrayReflected (unpack fuel true) n R
     else unpackArray (unpack fuel false) n R)

/-- The count `unpack` reports for a container: that of a fixed-tier branch, or
that of a 16- or 32-bit branch whose header took `hdr` bytes. -/
def containerCount (fixed : Bool) (hdr : Nat) (X : Unpacked) : Unpacked :=
  if fixed then fixContainer 1 X else sizedContainer hdr X

/-! ## Observing the writes of a packer -/

/-- The record of the calls of `Write` made on a sink, oldest first: of each
call the bytes passed and the error returned. -/
abbrev Log : Type := List (List Nat × Option Error)

/-- The sink `w` with the record of the calls made on it: each `Write` is
passed on to `w` unchanged, and its bytes and error are appended to the
record. -/
def logged {σ : Type} (w : Writer σ) : Writer (σ × Log) where
  Write := fun s p =>
    match w.Write s.1 p with
    | (n, err, s1) => (n, err, (s1, s.2 ++ [(p, err)]))

/-- The result of a packer on a `logged` sink, without the record. -/
def Packed.unlogged {σ : Type} : Packed (σ × Log) → Packed σ
  | Packed.ret n err s => Packed.ret n err s.1
  | Packed.panic p s => Packed.panic p s.1

/-- The record of writes in the result of a packer on a `logged` sink. -/
def Packed.log {σ : Type} (r : Packed (σ × Log)) : Log := r.sink.2

/-- `Halts l r`: the result `r` extends the record `l` by writes that all
succeeded, except that, when `r` returns an error, one more write follows them,
which is the last of the record and failed with the error `r` returns. -/
def Halts {σ : Type} (l : Log) : Packed (σ × Log) → Prop
  | Packed.ret _ none s => ∃ k, s.2 = l ++ k ∧ ∀ x ∈ k, x.2 = none
  | Packed.ret _ (some e) s => ∃ k p, s.2 = l ++ k ++ [(p, some e)] ∧ ∀ x ∈ k, x.2 = none
  | Packed.panic _ s => ∃ k, s.2 = l ++ k ∧ ∀ x ∈ k, x.2 = none

/-- `Tracks l r r0`: the result `r` on a `logged` sink is, without the record,
the result `r0` on the sink itself, and `Halts l r`. -/
def Tracks {σ : Type} (l : Log) (r : Packed (σ × Log)) (r0 : Packed σ) : Prop :=
  r.unlogged = r0 ∧ Halts l r

/-- A sink that takes a given number of writes in full and fails every later
write, taking none of its bytes: its state is the number of writes it still
takes, with the bytes taken so far. -/
def limitedWriter : Writer (Nat × List Nat) where
  Write := fun s p =>
    match s.1 with
    | 0 => (0, some (Error.other 1), s)
    | k + 1 => (p.length, none, (k, s.2 ++ p))

/-! ## The two decoding modes -/

mutual

/-- `corresponds d d0`: the value `d0` of flattening mode corresponds to the
value `d` of wrapping mode.  A wrapper stands for what it wraps.  A value that
is neither an array nor a map corresponds to itself; an array to an array of
as many elements, each corresponding to the element at its place; a map to a
map each of whose entries is an entry of `d` flattened: its key is the key of
that entry as `unpackMap` stores it, its value corresponds to the value of that
entry. -/
def corresponds : Value → Value → Prop
  | Value.slice es, d0 => ∃ fs, d0 = Value.slice fs ∧ correspondsList es fs
  | Value.map kvs, d0 => ∃ es, d0 = Value.map es ∧ ∀ e ∈ es, correspondsEntry kvs e.1 e.2
  | Value.reflected v, d0 => corresponds v d0
  | d, d0 => d0 = d

/-- Element by element `corresponds`. -/
def correspondsList : List Value → List Value → Prop
  | [], fs => fs = []
  | e :: es, fs => ∃ f fs', fs = f :: fs' ∧ corresponds e f ∧ correspondsList es fs'

/-- Some entry of the list, flattened, has the key `key` and a value to which
`val` corresponds. -/
def correspondsEntry : List (Value × Value) → Value → Value → Prop
  | [], _, _ => False
  | (k, v) :: rest, key, val =>
    (∃ k0, corresponds k k0 ∧ mapKey k0 = some key ∧ corresponds v val) ∨
      correspondsEntry rest key val

end

/-- `Flattens X Y`: the result `Y` of flattening mode is the abrupt end, or it is
the result `X` of wrapping mode with a corresponding value: the same count and
source left, the same error. -/
def Flattens (X Y : Unpacked) : Prop :=
  (∃ p, Y = Unpacked.panic p) ∨
    match X with
    | Unpacked.ok d m r => ∃ d0, corresponds d d0 ∧ Y = Unpacked.ok d0 m r
    | Unpacked.error e m r => Y = Unpacked.error e m r
    | Unpacked.panic _ => False
    | Unpacked.fuel => Y = Unpacked.fuel

/-! ## The host that grants every allocation -/

theorem unpackArray_roomy (f : Reader → Unpacked) (n : Nat) (r : Reader) :
    unpackArray f n r = unpackArrayLoop f n r [] 0 := rfl

theorem unpackArrayReflected_roomy (f : Reader → Unpacked) (n : Nat) (r : Reader) :
    unpackArrayReflected f n r = unpackArrayReflectedLoop f n r [] 0 := rfl

/-! ## Arithmetic of big-endian bytes -/

theorem lor_of_dvd (a b k : Nat) (hb : b < 2 ^ k) (ha : 2 ^ k ∣ a) : a ||| b = a + b := by
  obtain ⟨c, rfl⟩ := ha
  exact (Nat.mul_add_lt_is_or hb c).symm

theorem be16 (a b : Nat) (ha : a < 256) (hb : b < 256) :
    ((a <<< 8) % 2 ^ 16) ||| b = a * 2 ^ 8 + b := by
  rw [Nat.shiftLeft_eq, Nat.mod_eq_of_lt (by omega)]
  exact lor_of_dvd _ _ 8 (by omega) (by omega)

theorem be32 (a b c d : Nat) (ha : a < 256) (hb : b < 256) (hc : c < 256) (hd : d < 256) :
    ((a <<< 24) % 2 ^ 32) ||| ((b <<< 16) % 2 ^ 32) ||| ((c <<< 8) % 2 ^ 32) ||| d
      = a * 2 ^ 24 + b * 2 ^ 16 + c * 2 ^ 8 + d := by
  simp only [Nat.shiftLeft_eq]
  rw [Nat.mod_eq_of_lt (by omega), Nat.mod_eq_of_lt (by omega), Nat.mod_eq_of_lt (by omega)]
  rw [lor_of_dvd (a * 2 ^ 24) (b * 2 ^ 16) 24 (by omega) (by omega),
    lor_of_dvd _ (c * 2 ^ 8) 16 (by omega) (by omega),
    lor_of_dvd _ d 8 (by omega) (by omega)]

theorem be64 (a b c d e f g h : Nat) (ha : a < 256) (hb : b < 256) (hc : c < 256) (hd : d < 256)
    (he : e < 256) (hf : f < 256) (hg : g < 256) (hh : h < 256) :
    ((a <<< 56) % 2 ^ 64) ||| ((b <<< 48) % 2 ^ 64) ||| ((c <<< 40) % 2 ^ 64)
      ||| ((d <<< 32) % 2 ^ 64) ||| ((e <<< 24) % 2 ^ 64) ||| ((f <<< 16) % 2 ^ 64)
      ||| ((g <<< 8) % 2 ^ 64) ||| h
      = a * 2 ^ 56 + b * 2 ^ 48 + c * 2 ^ 40 + d * 2 ^ 32 + e * 2 ^ 24 + f * 2 ^ 16
        + g * 2 ^ 8 + h := by
  simp only [Nat.shiftLeft_eq]
  rw [Nat.mod_eq_of_lt (by omega), Nat.mod_eq_of_lt (by omega), Nat.mod_eq_of_lt (by omega),
    Nat.mod_eq_of_lt (by omega), Nat.mod_eq_of_lt (by omega), Nat.mod_eq_of_lt (by omega),
    Nat.mod_eq_of_lt (by omega)]
  rw [lor_of_dvd (a * 2 ^ 56) (b * 2 ^ 48) 56 (by omega) (by omega),
    lor_of_dvd _ (c * 2 ^ 40) 48 (by omega) (by omega),
    lor_of_dvd _ (d * 2 ^ 32) 40 (by omega) (by omega),
    lor_of_dvd _ (e * 2 ^ 24) 32 (by omega) (by omega),
    lor_of_dvd _ (f * 2 ^ 16) 24 (by omega) (by omega),
    lor_of_dvd _ (g * 2 ^ 8) 16 (by omega) (by omega),
    lor_of_dvd _ h 8 (by omega) (by omega)]

theorem Read_append (p r : List Nat) : Read (p ++ r) p.length = (p, p.length, none, r) := by
  cases p with
  | nil => cases r <;> simp [Read]
  | cons a p => simp [Read]

theorem readByte_cons (a : Nat) (r : List Nat) : readByte (a :: r) = (a, none, r) := by
  have := Read_append [a] r
  simp at this
  simp [readByte, this]

theorem readUint16_cons (a b : Nat) (r : List Nat) (ha : a < 256) (hb : b < 256) :
    readUint16 (a :: b :: r) = (a * 2 ^ 8 + b, 2, none, r) := by
  have := Read_append [a, b] r
  simp at this
  simp only [readUint16, this, List.getD_cons_zero, List.getD_cons_succ, be16 a b ha hb]

theorem readUint32_cons (a b c d : Nat) (r : List Nat) (ha : a < 256) (hb : b < 256)
    (hc : c < 256) (hd : d < 256) :
    readUint32 (a :: b :: c :: d :: r)
      = (a * 2 ^ 24 + b * 2 ^ 16 + c * 2 ^ 8 + d, 4, none, r) := by
  have := Read_append [a, b, c, d] r
  simp at this
  simp only [readUint32, this, List.getD_cons_zero, List.getD_cons_succ, be32 a b c d ha hb hc hd]

theorem readUint64_cons (a b c d e f g h : Nat) (r : List Nat) (ha : a < 256) (hb : b < 256)
    (hc : c < 256) (hd : d < 256) (he : e < 256) (hf : f < 256) (hg : g < 256) (hh : h < 256) :
    readUint64 (a :: b :: c :: d :: e :: f :: g :: h :: r)
      = (a * 2 ^ 56 + b * 2 ^ 48 + c * 2 ^ 40 + d * 2 ^ 32 + e * 2 ^ 24 + f * 2 ^ 16
        + g * 2 ^ 8 + h, 8, none, r) := by
  have := Read_append [a, b, c, d, e, f, g, h] r
  simp at this
  simp only [readUint64, this, List.getD_cons_zero, List.getD_cons_succ, be64 a b c d e f g h ha hb hc hd he hf hg hh]

theorem readInt16_cons (a b : Nat) (r : List Nat) (ha : a < 256) (hb : b < 256) :
    readInt16 (a :: b :: r) = (toSigned 16 (a * 2 ^ 8 + b), 2, none, r) := by
  have := Read_append [a, b] r
  simp at this
  simp only [readInt16, this, List.getD_cons_zero, List.getD_cons_succ, be16 a b ha hb]

theorem readInt32_cons (a b c d : Nat) (r : List Nat) (ha : a < 256) (hb : b < 256)
    (hc : c < 256) (hd : d < 256) :
    readInt32 (a :: b :: c :: d :: r)
      = (toSigned 32 (a * 2 ^ 24 + b * 2 ^ 16 + c * 2 ^ 8 + d), 4, none, r) := by
  have := Read_append [a, b, c, d] r
  simp at this
  simp only [readInt32, this, List.getD_cons_zero, List.getD_cons_succ, be32 a b c d ha hb hc hd]

theorem readInt64_cons (a b c d e f g h : Nat) (r : List Nat) (ha : a < 256) (hb : b < 256)
    (hc : c < 256) (hd : d < 256) (he : e < 256) (hf : f < 256) (hg : g < 256) (hh : h < 256) :
    readInt64 (a :: b :: c :: d :: e :: f :: g :: h :: r)
      = (toSigned 64 (a * 2 ^ 56 + b * 2 ^ 48 + c * 2 ^ 40 + d * 2 ^ 32 + e * 2 ^ 24
        + f * 2 ^ 16 + g * 2 ^ 8 + h), 8, none, r) := by
  have := Read_append [a, b, c, d, e, f, g, h] r
  simp at this
  simp only [readInt64, this, List.getD_cons_zero, List.getD_cons_succ, be64 a b c d e f g h ha hb hc hd he hf hg hh]

/-- Unfolding of `unpack` on a source whose first byte is known. -/
theorem unpack_fixnum (fuel : Nat) (reflected : Bool) (c : Nat) (r : List Nat)
    (h : c < 128 ∨ 224 ≤ c) :
    unpack (fuel + 1) reflected (c :: r) = Unpacked.ok (Value.int8 (toSigned 8 c)) 1 r := by
  simp [unpack, readByte_cons, FIXMAP, NEGFIXNUM, h]

theorem unpack_uint8 (fuel : Nat) (reflected : Bool) (b : Nat) (r : List Nat) :
    unpack (fuel + 1) reflected (UINT8 :: b :: r) = Unpacked.ok (Value.uint8 b) 2 r := by
  simp [unpack, readByte_cons, FIXMAP, NEGFIXNUM, FIXMAPMAX, FIXARRAY, FIXARRAYMAX, FIXRAW,
    FIXRAWMAX, NIL, FALSE, TRUE, FLOAT, DOUBLE, UINT8]

theorem unpack_uint16 (fuel : Nat) (reflected : Bool) (a b : Nat) (r : List Nat)
    (ha : a < 256) (hb : b < 256) :
    unpack (fuel + 1) reflected (UINT16 :: a :: b :: r)
      = Unpacked.ok (Value.uint16 (a * 2 ^ 8 + b)) 3 r := by
  simp [unpack, readByte_cons, readUint16_cons a b r ha hb, FIXMAP, NEGFIXNUM, FIXMAPMAX,
    FIXARRAY, FIXARRAYMAX, FIXRAW, FIXRAWMAX, NIL, FALSE, TRUE, FLOAT, DOUBLE, UINT8, UINT16]

theorem unpack_uint32 (fuel : Nat) (reflected : Bool) (a b c d : Nat) (r : List Nat)
    (ha : a < 256) (hb : b < 256) (hc : c < 256) (hd : d < 256) :
    unpack (fuel + 1) reflected (UINT32 :: a :: b :: c :: d :: r)
      = Unpacked.ok (Value.uint32 (a * 2 ^ 24 + b * 2 ^ 16 + c * 2 ^ 8 + d)) 5 r := by
  simp [unpack, readByte_cons, readUint32_cons a b c d r ha hb hc hd, FIXMAP, NEGFIXNUM,
    FIXMAPMAX, FIXARRAY, FIXARRAYMAX, FIXRAW, FIXRAWMAX, NIL, FALSE, TRUE, FLOAT, DOUBLE, UINT8,
    UINT16, UINT32]

theorem unpack_uint64 (fuel : Nat) (reflected : Bool) (a b c d e f g h : Nat) (r : List Nat)
    (ha : a < 256) (hb : b < 256) (hc : c < 256) (hd : d < 256) (he : e < 256) (hf : f < 256)
    (hg : g < 256) (hh : h < 256) :
    unpack (fuel + 1) reflected (UINT64 :: a :: b :: c :: d :: e :: f :: g :: h :: r)
      = Unpacked.ok (Value.uint64 (a * 2 ^ 56 + b * 2 ^ 48 + c * 2 ^ 40 + d * 2 ^ 32
        + e * 2 ^ 24 + f * 2 ^ 16 + g * 2 ^ 8 + h)) 9 r := by
  simp [unpack, readByte_cons, readUint64_cons a b c d e f g h r ha hb hc hd he hf hg hh,
    FIXMAP, NEGFIXNUM, FIXMAPMAX, FIXARRAY, FIXARRAYMAX, FIXRAW, FIXRAWMAX, NIL, FALSE, TRUE,
    FLOAT, DOUBLE, UINT8, UINT16, UINT32, UINT64]

theorem unpack_int8 (fuel : Nat) (reflected : Bool) (b : Nat) (r : List Nat) :
    unpack (fuel + 1) reflected (INT8 :: b :: r)
      = Unpacked.ok (Value.int8 (toSigned 8 b)) 2 r := by
  simp [unpack, readByte_cons, FIXMAP, NEGFIXNUM, FIXMAPMAX, FIXARRAY, FIXARRAYMAX, FIXRAW,
    FIXRAWMAX, NIL, FALSE, TRUE, FLOAT, DOUBLE, UINT8, UINT16, UINT32, UINT64, INT8]

theorem unpack_int16 (fuel : Nat) (reflected : Bool) (a b : Nat) (r : List Nat)
    (ha : a < 256) (hb : b < 256) :
    unpack (fuel + 1) reflected (INT16 :: a :: b :: r)
      = Unpacked.ok (Value.int16 (toSigned 16 (a * 2 ^ 8 + b))) 3 r := by
  simp [unpack, readByte_cons, readInt16_cons a b r ha hb, FIXMAP, NEGFIXNUM, FIXMAPMAX,
    FIXARRAY, FIXARRAYMAX, FIXRAW, FIXRAWMAX, NIL, FALSE, TRUE, FLOAT, DOUBLE, UINT8, UINT16,
    UINT32, UINT64, INT8, INT16]

theorem unpack_int32 (fuel : Nat) (reflected : Bool) (a b c d : Nat) (r : List Nat)
    (ha : a < 256) (hb : b < 256) (hc : c < 256) (hd : d < 256) :
    unpack (fuel + 1) reflected (INT32 :: a :: b :: c :: d :: r)
      = Unpacked.ok (Value.int32 (toSigned 32 (a * 2 ^ 24 + b * 2 ^ 16 + c * 2 ^ 8 + d))) 5 r := by
  simp [unpack, readByte_cons, readInt32_cons a b c d r ha hb hc hd, FIXMAP, NEGFIXNUM,
    FIXMAPMAX, FIXARRAY, FIXARRAYMAX, FIXRAW, FIXRAWMAX, NIL, FALSE, TRUE, FLOAT, DOUBLE, UINT8,
    UINT16, UINT32, UINT64, INT8, INT16, INT32]

theorem unpack_int64 (fuel : Nat) (reflected : Bool) (a b c d e f g h : Nat) (r : List Nat)
    (ha : a < 256) (hb : b < 256) (hc : c < 256) (hd : d < 256) (he : e < 256) (hf : f < 256)
    (hg : g < 256) (hh : h < 256) :
    unpack (fuel + 1) reflected (INT64 :: a :: b :: c :: d :: e :: f :: g :: h :: r)
      = Unpacked.ok (Value.int64 (toSigned 64 (a * 2 ^ 56 + b * 2 ^ 48 + c * 2 ^ 40 + d * 2 ^ 32
        + e * 2 ^ 24 + f * 2 ^ 16 + g * 2 ^ 8 + h))) 9 r := by
  simp [unpack, readByte_cons, readInt64_cons a b c d e f g h r ha hb hc hd he hf hg hh,
    FIXMAP, NEGFIXNUM, FIXMAPMAX, FIXARRAY, FIXARRAYMAX, FIXRAW, FIXRAWMAX, NIL, FALSE, TRUE,
    FLOAT, DOUBLE, UINT8, UINT16, UINT32, UINT64, INT8, INT16, INT32, INT64]

theorem unpack_nil (fuel : Nat) (reflected : Bool) (r : List Nat) :
    unpack (fuel + 1) reflected (NIL :: r) = Unpacked.ok Value.nil 1 r := by
  simp [unpack, readByte_cons, FIXMAP, NEGFIXNUM, FIXMAPMAX, FIXARRAY, FIXARRAYMAX, FIXRAW,
    FIXRAWMAX, NIL]

theorem unpack_bool (fuel : Nat) (reflected : Bool) (b : Bool) (r : List Nat) :
    unpack (fuel + 1) reflected ((if b then TRUE else FALSE) :: r)
      = Unpacked.ok (Value.bool b) 1 r := by
  cases b <;> simp [unpack, readByte_cons, FIXMAP, NEGFIXNUM, FIXMAPMAX, FIXARRAY, FIXARRAYMAX,
    FIXRAW, FIXRAWMAX, NIL, FALSE, TRUE]

theorem PackUint64_eq {σ : Type} (w : Writer σ) (s : σ) (v : Nat) (hv : v < 2 ^ 64) :
    PackUint64 w s v = w.ret s (uintWire v) := by
  unfold uintWire PackUint64 PackUint32 PackUint16 PackUint8
  simp only [REGULAR_UINT32_MAX, REGULAR_UINT16_MAX, REGULAR_UINT8_MAX, REGULAR_UINT7_MAX, byte,
    Nat.shiftRight_eq_div_pow, Nat.shiftLeft_eq]
  by_cases h1 : v < 2 ^ 7
  · rw [if_neg (by omega), if_neg (by omega), if_neg (by omega), if_neg (by omega), if_pos h1]
    congr 2; omega
  by_cases h2 : v < 2 ^ 8
  · rw [if_neg (by omega), if_neg (by omega), if_neg (by omega), if_pos (by omega), if_neg h1, if_pos h2]
    congr 3; omega
  by_cases h3 : v < 2 ^ 16
  · rw [if_neg (by omega), if_neg (by omega), if_pos (by omega), if_neg h1, if_neg h2, if_pos h3]
    congr 3
    · omega
    · congr 1; omega
  by_cases h4 : v < 2 ^ 32
  · rw [if_neg (by omega), if_pos (by omega), if_neg h1, if_neg h2, if_neg h3, if_pos h4]
    congr 3
    · omega
    · congr 1
      · omega
      · congr 1
        · omega
        · congr 1; omega
  · rw [if_pos (by omega), if_neg h1, if_neg h2, if_neg h3, if_neg h4]

theorem unpack_uintWire (fuel : Nat) (reflected : Bool) (v : Nat) (r : List Nat)
    (hv : v < 2 ^ 64) :
    unpack (fuel + 1) reflected (uintWire v ++ r)
      = Unpacked.ok (uintDecoded v) (uintWire v).length r := by
  unfold uintWire uintDecoded
  by_cases h1 : v < 2 ^ 7
  · simp only [if_pos h1, List.singleton_append, List.length_singleton]
    rw [unpack_fixnum _ _ _ _ (by omega)]
    simp [toSigned]; omega
  by_cases h2 : v < 2 ^ 8
  · simp only [if_neg h1, if_pos h2, List.cons_append, List.nil_append, List.length_cons, List.length_nil]
    rw [unpack_uint8]
  by_cases h3 : v < 2 ^ 16
  · simp only [if_neg h1, if_neg h2, if_pos h3, List.cons_append, List.nil_append, List.length_cons, List.length_nil]
    rw [unpack_uint16 _ _ _ _ _ (by omega) (by omega)]
    congr 2; omega
  by_cases h4 : v < 2 ^ 32
  · simp only [if_neg h1, if_neg h2, if_neg h3, if_pos h4, List.cons_append, List.nil_append, List.length_cons, List.length_nil]
    rw [unpack_uint32 _ _ _ _ _ _ _ (by omega) (by omega) (by omega) (by omega)]
    congr 2; omega
  · simp only [if_neg h1, if_neg h2, if_neg h3, if_neg h4, List.cons_append, List.nil_append, List.length_cons, List.length_nil]
    rw [unpack_uint64 _ _ _ _ _ _ _ _ _ _ _ (by omega) (by omega) (by omega) (by omega) (by omega) (by omega) (by omega) (by omega)]
    congr 2; omega


theorem toSigned_toUnsigned8 (v : Int) (h : -2 ^ 7 ≤ v ∧ v < 2 ^ 7) :
    toSigned 8 (toUnsigned 8 v) = v := by
  unfold toSigned toUnsigned
  norm_num at h ⊢
  split <;> omega

theorem toSigned_toUnsigned16 (v : Int) (h : -2 ^ 15 ≤ v ∧ v < 2 ^ 15) :
    toSigned 16 (toUnsigned 16 v) = v := by
  unfold toSigned toUnsigned
  norm_num at h ⊢
  split <;> omega

theorem toSigned_toUnsigned32 (v : Int) (h : -2 ^ 31 ≤ v ∧ v < 2 ^ 31) :
    toSigned 32 (toUnsigned 32 v) = v := by
  unfold toSigned toUnsigned
  norm_num at h ⊢
  split <;> omega

theorem toSigned_toUnsigned64 (v : Int) (h : -2 ^ 63 ≤ v ∧ v < 2 ^ 63) :
    toSigned 64 (toUnsigned 64 v) = v := by
  unfold toSigned toUnsigned
  norm_num at h ⊢
  split <;> omega

theorem PackInt8_eq {σ : Type} (w : Writer σ) (s : σ) (v : Int)
    (hv : -2 ^ 7 ≤ v ∧ v < 2 ^ 7) :
    PackInt8 w s v = w.ret s (intWire v) := by
  unfold intWire PackInt8
  simp only [SPECIAL_INT8]
  norm_num at hv ⊢
  by_cases h1 : -32 ≤ v
  · rw [if_neg (by omega), if_pos (by omega)]
  · rw [if_pos (by omega), if_neg (by omega), if_pos (by omega)]

theorem PackInt16_eq {σ : Type} (w : Writer σ) (s : σ) (v : Int)
    (hv : -2 ^ 15 ≤ v ∧ v < 2 ^ 15) :
    PackInt16 w s v = w.ret s (intWire v) := by
  by_cases h1 : -2 ^ 7 ≤ v ∧ v < 2 ^ 7
  · unfold PackInt16
    rw [toSigned_toUnsigned8 v h1, ← PackInt8_eq w s v h1]
    simp only [SPECIAL_INT16, Nat.shiftLeft_eq]
    norm_num at h1 ⊢
    intro h; omega
  · unfold PackInt16 intWire
    simp only [SPECIAL_INT16, Nat.shiftLeft_eq, byte, Nat.shiftRight_eq_div_pow, toUnsigned]
    norm_num at h1 hv ⊢
    rw [if_pos (by omega), if_neg (by omega), if_neg (by omega), if_pos (by omega)]
    congr 4
    omega

theorem PackInt32_eq {σ : Type} (w : Writer σ) (s : σ) (v : Int)
    (hv : -2 ^ 31 ≤ v ∧ v < 2 ^ 31) :
    PackInt32 w s v = w.ret s (intWire v) := by
  by_cases h1 : -2 ^ 15 ≤ v ∧ v < 2 ^ 15
  · unfold PackInt32
    rw [toSigned_toUnsigned16 v h1, ← PackInt16_eq w s v h1]
    simp only [SPECIAL_INT32, Nat.shiftLeft_eq]
    norm_num at h1 ⊢
    intro h; omega
  · unfold PackInt32 intWire
    simp only [SPECIAL_INT32, Nat.shiftLeft_eq, byte, Nat.shiftRight_eq_div_pow, toUnsigned]
    norm_num at h1 hv ⊢
    rw [if_pos (by omega), if_neg (by omega), if_neg (by omega), if_neg (by omega), if_pos (by omega)]
    congr 6
    omega

theorem PackInt64_eq {σ : Type} (w : Writer σ) (s : σ) (v : Int)
    (hv : -2 ^ 63 ≤ v ∧ v < 2 ^ 63) :
    PackInt64 w s v = w.ret s (intWire v) := by
  by_cases h1 : -2 ^ 31 ≤ v ∧ v < 2 ^ 31
  · unfold PackInt64
    rw [toSigned_toUnsigned32 v h1, ← PackInt32_eq w s v h1]
    simp only [SPECIAL_INT64, Nat.shiftLeft_eq]
    norm_num at h1 ⊢
    intro h; omega
  · unfold PackInt64 intWire
    simp only [SPECIAL_INT64, Nat.shiftLeft_eq, byte, Nat.shiftRight_eq_div_pow, toUnsigned]
    norm_num at h1 hv ⊢
    rw [if_pos (by omega), if_neg (by omega), if_neg (by omega), if_neg (by omega), if_neg (by omega)]
    congr 10
    omega


theorem toUnsigned_lt (w : Nat) (v : Int) : toUnsigned w v < 2 ^ w := by
  unfold toUnsigned
  have h1 : (0 : Int) < 2 ^ w := by positivity
  have h2 := Int.emod_lt_of_pos v h1
  have h3 := Int.emod_nonneg v (ne_of_gt h1)
  zify
  rw [Int.toNat_of_nonneg h3]
  exact_mod_cast h2

theorem unpack_intWire (fuel : Nat) (reflected : Bool) (v : Int) (r : List Nat)
    (hv : -2 ^ 63 ≤ v ∧ v < 2 ^ 63) :
    unpack (fuel + 1) reflected (intWire v ++ r)
      = Unpacked.ok (intDecoded v) (intWire v).length r := by
  unfold intWire intDecoded
  by_cases h1 : -2 ^ 5 ≤ v ∧ v < 2 ^ 7
  · have h1' : -2 ^ 7 ≤ v ∧ v < 2 ^ 7 := by omega
    simp only [if_pos h1, if_pos h1', List.singleton_append, List.length_singleton]
    rw [unpack_fixnum _ _ _ _ (by unfold toUnsigned; norm_num at h1 ⊢; omega),
      toSigned_toUnsigned8 v h1']
  by_cases h2 : -2 ^ 7 ≤ v ∧ v < 2 ^ 7
  · simp only [if_neg h1, if_pos h2, List.cons_append, List.nil_append, List.length_cons,
      List.length_nil]
    rw [unpack_int8, toSigned_toUnsigned8 v h2]
  by_cases h3 : -2 ^ 15 ≤ v ∧ v < 2 ^ 15
  · simp only [if_neg h1, if_neg h2, if_pos h3, List.cons_append, List.nil_append,
      List.length_cons, List.length_nil]
    have hu := toUnsigned_lt 16 v
    rw [unpack_int16 _ _ _ _ _ (by omega) (by omega)]
    rw [show toUnsigned 16 v / 2 ^ 8 % 256 * 2 ^ 8 + toUnsigned 16 v % 256 = toUnsigned 16 v by
      omega, toSigned_toUnsigned16 v h3]
  by_cases h4 : -2 ^ 31 ≤ v ∧ v < 2 ^ 31
  · simp only [if_neg h1, if_neg h2, if_neg h3, if_pos h4, List.cons_append, List.nil_append,
      List.length_cons, List.length_nil]
    have hu := toUnsigned_lt 32 v
    rw [unpack_int32 _ _ _ _ _ _ _ (by omega) (by omega) (by omega) (by omega)]
    rw [show toUnsigned 32 v / 2 ^ 24 % 256 * 2 ^ 24 + toUnsigned 32 v / 2 ^ 16 % 256 * 2 ^ 16
      + toUnsigned 32 v / 2 ^ 8 % 256 * 2 ^ 8 + toUnsigned 32 v % 256 = toUnsigned 32 v by
      omega, toSigned_toUnsigned32 v h4]
  · simp only [if_neg h1, if_neg h2, if_neg h3, if_neg h4, List.cons_append, List.nil_append,
      List.length_cons, List.length_nil]
    have hu := toUnsigned_lt 64 v
    rw [unpack_int64 _ _ _ _ _ _ _ _ _ _ _ (by omega) (by omega) (by omega) (by omega)
      (by omega) (by omega) (by omega) (by omega)]
    rw [show toUnsigned 64 v / 2 ^ 56 % 256 * 2 ^ 56 + toUnsigned 64 v / 2 ^ 48 % 256 * 2 ^ 48
      + toUnsigned 64 v / 2 ^ 40 % 256 * 2 ^ 40 + toUnsigned 64 v / 2 ^ 32 % 256 * 2 ^ 32
      + toUnsigned 64 v / 2 ^ 24 % 256 * 2 ^ 24 + toUnsigned 64 v / 2 ^ 16 % 256 * 2 ^ 16
      + toUnsigned 64 v / 2 ^ 8 % 256 * 2 ^ 8 + toUnsigned 64 v % 256 = toUnsigned 64 v by
      omega, toSigned_toUnsigned64 v hv]


theorem lownibble_fix (t n : Nat) (ht : 2 ^ 4 ∣ t) (hn : n < 16) :
    lownibble (t ||| byte n) = n := by
  unfold lownibble byte
  rw [Nat.mod_eq_of_lt (by omega), lor_of_dvd t n 4 (by omega) ht]
  have := Nat.and_pow_two_sub_one_eq_mod (t + n) 4
  norm_num at this
  rw [this]
  omega

theorem lowfive_fix (n : Nat) (hn : n < 32) : lowfive (FIXRAW ||| byte n) = n := by
  unfold lowfive byte FIXRAW
  rw [Nat.mod_eq_of_lt (by omega), lor_of_dvd 160 n 5 (by omega) (by decide)]
  have := Nat.and_pow_two_sub_one_eq_mod (160 + n) 5
  norm_num at this
  rw [this]
  omega

theorem fixraw_tag (n : Nat) (hn : n < 32) : FIXRAW ||| byte n = 160 + n := by
  unfold byte FIXRAW
  rw [Nat.mod_eq_of_lt (by omega), lor_of_dvd 160 n 5 (by omega) (by decide)]

theorem fixarray_tag (n : Nat) (hn : n < 16) : FIXARRAY ||| byte n = 144 + n := by
  unfold byte FIXARRAY
  rw [Nat.mod_eq_of_lt (by omega), lor_of_dvd 144 n 4 (by omega) (by decide)]

theorem fixmap_tag (n : Nat) (hn : n < 16) : FIXMAP ||| byte n = 128 + n := by
  unfold byte FIXMAP
  rw [Nat.mod_eq_of_lt (by omega), lor_of_dvd 128 n 4 (by omega) (by decide)]

theorem readRaw_append (named : Bool) (nbytesread : Nat) (b r : List Nat) :
    readRaw named nbytesread (b ++ r) b.length
      = Unpacked.ok (if named then Value.Bytes b else Value.bytes b) (nbytesread + b.length) r := by
  simp only [readRaw, Read_append]

theorem unpack_fixraw (fuel : Nat) (reflected : Bool) (b r : List Nat) (hb : b.length < 32) :
    unpack (fuel + 1) reflected ((FIXRAW ||| byte b.length) :: (b ++ r))
      = Unpacked.ok (Value.bytes b) (1 + b.length) r := by
  have ht := fixraw_tag _ hb
  have hl := lowfive_fix _ hb
  rw [ht] at hl
  rw [ht]
  simp only [unpack, readByte_cons, FIXMAP, NEGFIXNUM, FIXMAPMAX, FIXARRAY, FIXARRAYMAX,
    FIXRAW, FIXRAWMAX]
  rw [if_neg (by omega), if_neg (by omega), if_neg (by omega), if_pos (by omega), hl,
    readRaw_append]
  rfl

theorem unpack_raw16 (fuel : Nat) (reflected : Bool) (a b : Nat) (p r : List Nat)
    (ha : a < 256) (hb : b < 256) (hp : p.length = a * 2 ^ 8 + b) :
    unpack (fuel + 1) reflected (RAW16 :: a :: b :: (p ++ r))
      = Unpacked.ok (Value.bytes p) (3 + p.length) r := by
  simp only [unpack, readByte_cons, readUint16_cons a b _ ha hb, FIXMAP, NEGFIXNUM,
    FIXMAPMAX, FIXARRAY, FIXARRAYMAX, FIXRAW, FIXRAWMAX, NIL, FALSE, TRUE, FLOAT, DOUBLE, UINT8,
    UINT16, UINT32, UINT64, INT8, INT16, INT32, INT64, RAW16, ← hp, readRaw_append]
  simp

theorem unpack_raw32 (fuel : Nat) (reflected : Bool) (a b c d : Nat) (p r : List Nat)
    (ha : a < 256) (hb : b < 256) (hc : c < 256) (hd : d < 256)
    (hp : p.length = a * 2 ^ 24 + b * 2 ^ 16 + c * 2 ^ 8 + d) :
    unpack (fuel + 1) reflected (RAW32 :: a :: b :: c :: d :: (p ++ r))
      = Unpacked.ok (Value.Bytes p) (5 + p.length) r := by
  simp only [unpack, readByte_cons, readUint32_cons a b c d _ ha hb hc hd, FIXMAP, NEGFIXNUM,
    FIXMAPMAX, FIXARRAY, FIXARRAYMAX, FIXRAW, FIXRAWMAX, NIL, FALSE, TRUE, FLOAT, DOUBLE, UINT8,
    UINT16, UINT32, UINT64, INT8, INT16, INT32, INT64, RAW16, RAW32, ← hp, readRaw_append]
  simp

theorem unpack_raw32_empty (fuel : Nat) (reflected : Bool) (r : List Nat) :
    unpack (fuel + 1) reflected (RAW32 :: 0 :: 0 :: 0 :: 0 :: r)
      = Unpacked.ok (Value.Bytes []) 5 r :=
  unpack_raw32 fuel reflected 0 0 0 0 [] r (by omega) (by omega) (by omega) (by omega) rfl

theorem unpack_raw (fuel : Nat) (reflected : Bool) (b r : List Nat) (hb : b.length < 2 ^ 32) :
    unpack (fuel + 1) reflected (rawHeader b.length ++ (b ++ r))
      = Unpacked.ok (rawDecoded b) ((rawHeader b.length).length + b.length) r := by
  unfold rawHeader rawDecoded
  by_cases h1 : b.length < MAXFIXRAW
  · have h1' : b.length < 32 := h1
    have h2 : b.length < MAX16BIT := by unfold MAX16BIT; rw [Nat.shiftLeft_eq]; omega
    simp only [if_pos h1, if_pos h2, List.singleton_append, List.length_singleton]
    exact unpack_fixraw fuel reflected b r h1'
  have h1' : ¬ b.length < 32 := h1
  by_cases h2 : b.length < MAX16BIT
  · have h2' : b.length < 65536 := h2
    simp only [if_neg h1, if_pos h2, List.cons_append, List.nil_append, List.length_cons,
      List.length_nil, byte, Nat.shiftRight_eq_div_pow]
    exact unpack_raw16 fuel reflected _ _ b r (Nat.mod_lt _ (by omega)) (Nat.mod_lt _ (by omega))
      (by omega)
  · have h2' : ¬ b.length < 65536 := h2
    simp only [if_neg h1, if_neg h2, List.cons_append, List.nil_append, List.length_cons,
      List.length_nil, byte, Nat.shiftRight_eq_div_pow]
    exact unpack_raw32 fuel reflected _ _ _ _ b r (Nat.mod_lt _ (by omega))
      (Nat.mod_lt _ (by omega)) (Nat.mod_lt _ (by omega)) (Nat.mod_lt _ (by omega)) (by omega)

/-! ## Scalars and byte strings: wire form and round trip -/

theorem bufferWriter_ret (s p : List Nat) :
    bufferWriter.ret s p = Packed.ret p.length none (s ++ p) := rfl

theorem uintDecoded_toInt (v : Nat) : (uintDecoded v).toInt? = some (v : Int) := by
  unfold uintDecoded
  split_ifs <;> rfl

theorem intDecoded_toInt (v : Int) : (intDecoded v).toInt? = some v := by
  unfold intDecoded
  split_ifs <;> rfl

theorem Unpack_eq (E : List Nat) : Unpack E = unpack (E.length + 1) false (E ++ []) := by
  simp [Unpack]

/-- C1: for every unsigned 64-bit value `v`, `PackUint64` into an empty buffer
reports no error, and `Unpack` on exactly the bytes written returns, without
error and with nothing left unread, an integer value numerically equal to
`v`. -/
theorem PackUint64_Unpack_roundtrip (v : Nat) (hv : v < 2 ^ 64) :
    ∃ n E, PackUint64 bufferWriter [] v = Packed.ret n none E ∧
      ∃ d m, Unpack E = Unpacked.ok d m [] ∧ d.toInt? = some (v : Int) := by
  refine ⟨(uintWire v).length, [] ++ uintWire v, ?_, uintDecoded v, (uintWire v).length, ?_,
    uintDecoded_toInt v⟩
  · rw [PackUint64_eq _ _ _ hv, bufferWriter_ret]
  · rw [List.nil_append, Unpack_eq, unpack_uintWire _ _ _ _ hv]

theorem PackUint64_Unpack_roundtrip_witness :
    300 < 2 ^ 64 ∧ ∃ n E, PackUint64 bufferWriter [] 300 = Packed.ret n none E ∧
      ∃ d m, Unpack E = Unpacked.ok d m [] ∧ d.toInt? = some ((300 : Nat) : Int) :=
  ⟨by norm_num, PackUint64_Unpack_roundtrip 300 (by norm_num)⟩

/-- C2: for every signed 64-bit value `v`, `PackInt64` into an empty buffer
reports no error, and `Unpack` on exactly the bytes written returns, without
error and with nothing left unread, an integer value numerically equal to
`v`. -/
theorem PackInt64_Unpack_roundtrip (v : Int) (hv : -2 ^ 63 ≤ v ∧ v < 2 ^ 63) :
    ∃ n E, PackInt64 bufferWriter [] v = Packed.ret n none E ∧
      ∃ d m, Unpack E = Unpacked.ok d m [] ∧ d.toInt? = some v := by
  refine ⟨(intWire v).length, [] ++ intWire v, ?_, intDecoded v, (intWire v).length, ?_,
    intDecoded_toInt v⟩
  · rw [PackInt64_eq _ _ _ hv, bufferWriter_ret]
  · rw [List.nil_append, Unpack_eq, unpack_intWire _ _ _ _ hv]

theorem PackInt64_Unpack_roundtrip_witness :
    (-2 ^ 63 ≤ (-129 : Int) ∧ (-129 : Int) < 2 ^ 63) ∧
      ∃ n E, PackInt64 bufferWriter [] (-129) = Packed.ret n none E ∧
        ∃ d m, Unpack E = Unpacked.ok d m [] ∧ d.toInt? = some (-129) :=
  ⟨by norm_num, PackInt64_Unpack_roundtrip (-129) (by norm_num)⟩

theorem rawDecoded_toBytes (b : List Nat) : (rawDecoded b).toBytes? = some b := by
  unfold rawDecoded; split_ifs <;> rfl

theorem PackBytes_buffer (s b : List Nat) :
    PackBytes bufferWriter s b
      = Packed.ret ((rawHeader b.length).length + b.length) none (s ++ rawHeader b.length ++ b) :=
  rfl

/-- C6: for every byte string `b` shorter than 2^32, `PackBytes` into an empty
buffer reports no error, and `Unpack` on exactly the bytes written returns,
without error and with nothing left unread, a byte sequence with exactly the
bytes of `b` (a `[]byte` in the two lower tiers, a `Bytes` in the 32-bit
tier); the three length tiers are the three branches of `rawHeader`. -/
theorem PackBytes_Unpack_roundtrip (b : List Nat) (hb : b.length < 2 ^ 32) :
    ∃ n E, PackBytes bufferWriter [] b = Packed.ret n none E ∧
      ∃ d m, Unpack E = Unpacked.ok d m [] ∧ d.toBytes? = some b := by
  refine ⟨_, _, PackBytes_buffer [] b, rawDecoded b, (rawHeader b.length).length + b.length,
    ?_, rawDecoded_toBytes b⟩
  rw [List.nil_append, Unpack_eq, List.append_assoc, unpack_raw _ _ _ _ hb]

theorem PackBytes_Unpack_roundtrip_witness :
    [104, 105, 33].length < 2 ^ 32 ∧
      ∃ n E, PackBytes bufferWriter [] [104, 105, 33] = Packed.ret n none E ∧
        ∃ d m, Unpack E = Unpacked.ok d m [] ∧ d.toBytes? = some [104, 105, 33] :=
  ⟨by norm_num, PackBytes_Unpack_roundtrip [104, 105, 33] (by norm_num)⟩

/-- C10: for every unsigned 64-bit value `v`, `PackUint64` issues one write of
exactly: the byte `v` when `v ≤ 127`; `0xcc` and the byte `v` when
`128 ≤ v ≤ 255`; `0xcd` and `v` as 2 big-endian bytes when `256 ≤ v ≤ 65535`;
`0xce` and `v` as 4 big-endian bytes when `65536 ≤ v ≤ 2^32 - 1`; `0xcf` and
`v` as 8 big-endian bytes otherwise; so 1, 2, 3, 5 or 9 bytes. -/
theorem PackUint64_wire {σ : Type} (w : Writer σ) (s : σ) (v : Nat) (hv : v < 2 ^ 64) :
    (v ≤ 127 → PackUint64 w s v = w.ret s [v]) ∧
    (128 ≤ v ∧ v ≤ 255 → PackUint64 w s v = w.ret s [0xcc, v]) ∧
    (256 ≤ v ∧ v ≤ 65535 → PackUint64 w s v = w.ret s (0xcd :: bigEndian 2 v)) ∧
    (65536 ≤ v ∧ v ≤ 2 ^ 32 - 1 → PackUint64 w s v = w.ret s (0xce :: bigEndian 4 v)) ∧
    (2 ^ 32 ≤ v → PackUint64 w s v = w.ret s (0xcf :: bigEndian 8 v)) ∧
    (∃ p, PackUint64 w s v = w.ret s p ∧ p.length ∈ [1, 2, 3, 5, 9]) := by
  rw [PackUint64_eq w s v hv]
  unfold uintWire
  simp only [bigEndian, UINT8, UINT16, UINT32, UINT64]
  norm_num
  refine ⟨?_, ?_, ?_, ?_, ?_, ?_⟩
  · intro h; rw [if_pos (by omega)]
  · intro h1 h2; rw [if_neg (by omega), if_pos (by omega)]
  · intro h1 h2; rw [if_neg (by omega), if_neg (by omega), if_pos (by omega)]
  · intro h1 h2
    rw [if_neg (by omega), if_neg (by omega), if_neg (by omega), if_pos (by omega)]
  · intro h1
    rw [if_neg (by omega), if_neg (by omega), if_neg (by omega), if_neg (by omega)]
  · refine ⟨_, rfl, ?_⟩
    split_ifs <;> simp

theorem PackUint64_wire_witness :
    1000 < 2 ^ 64 ∧ PackUint64 bufferWriter [] 1000 = bufferWriter.ret [] [0xcd, 3, 232] :=
  ⟨by norm_num, ((PackUint64_wire bufferWriter [] 1000 (by norm_num)).2.2.1 (by norm_num))⟩

/-! ## Behaviour at inputs where the code departs from the specification -/

/-- C3 (the code at a failing input): the float64 1.0 (bit pattern
`0x3ff0000000000000`) is written by `PackFloat64` as the uint64 of that
pattern and comes back from `Unpack` as a `uint64`, not a float64; the
float32 1.0 (`0x3f800000`) comes back as a `uint32`, and the float32 0.0 as
the `int8` 0. -/
theorem PackFloat_Unpack_returns_integer :
    PackFloat64 bufferWriter [] 0x3ff0000000000000
        = Packed.ret 9 none [0xcf, 0x3f, 0xf0, 0, 0, 0, 0, 0, 0] ∧
      Unpack [0xcf, 0x3f, 0xf0, 0, 0, 0, 0, 0, 0]
        = Unpacked.ok (Value.uint64 0x3ff0000000000000) 9 [] ∧
      PackFloat32 bufferWriter [] 0x3f800000 = Packed.ret 5 none [0xce, 0x3f, 0x80, 0, 0] ∧
      Unpack [0xce, 0x3f, 0x80, 0, 0] = Unpacked.ok (Value.uint32 0x3f800000) 5 [] ∧
      PackFloat32 bufferWriter [] 0 = Packed.ret 1 none [0] ∧
      Unpack [0] = Unpacked.ok (Value.int8 0) 1 [] :=
  ⟨rfl, rfl, rfl, rfl, rfl, rfl⟩

/-- C4 (the code at a failing input): `PackFloat32` writes the float32 0.0 as
the single inline byte `0x00` and the float32 1.0 behind the integer tag
`0xce`; `PackFloat64` writes the float64 1.0 behind the integer tag `0xcf` and
the float64 0.0 as the single byte `0x00`.  The tags `0xca` and `0xcb` are
not written. -/
theorem PackFloat_writes_integer_wire :
    PackFloat32 bufferWriter [] 0 = Packed.ret 1 none [0x00] ∧
      PackFloat32 bufferWriter [] 0x3f800000 = Packed.ret 5 none [0xce, 0x3f, 0x80, 0, 0] ∧
      PackFloat64 bufferWriter [] 0 = Packed.ret 1 none [0x00] ∧
      PackFloat64 bufferWriter [] 0x3ff0000000000000
        = Packed.ret 9 none [0xcf, 0x3f, 0xf0, 0, 0, 0, 0, 0, 0] :=
  ⟨rfl, rfl, rfl, rfl⟩

/-- C7 (the code at a failing input): on a sink that accepts every write in
full, `Pack` returns the count 0 for the `[]uint16{1, 300}`, for the generic
array `[1, [2]]` and for the map `{"a": 1}`, while it wrote 5, 4 and 4 bytes
to the sink. -/
theorem Pack_container_count_zero :
    Pack bufferWriter [] (Value.uint16s [1, 300])
        = Packed.ret 0 none [0x92, 0x01, 0xcd, 0x01, 0x2c] ∧
      Pack bufferWriter [] (Value.slice [Value.int 1, Value.slice [Value.int 2]])
        = Packed.ret 0 none [0x92, 0x01, 0x91, 0x02] ∧
      Pack bufferWriter [] (Value.map [(Value.string [0x61], Value.int 1)])
        = Packed.ret 0 none [0x81, 0xa1, 0x61, 0x01] :=
  ⟨rfl, rfl, rfl⟩

/-- C8 (the code at a failing input): on the two-byte source `0x91 0x01` both
`Unpack` and `UnpackReflected` return a one-element array, leave nothing
unread, and report the count 3; on the three-byte source `0x81 0x01 0x02`
`Unpack` returns a one-entry map and reports the count 5. -/
theorem Unpack_fixed_container_count :
    Unpack [0x91, 0x01] = Unpacked.ok (Value.slice [Value.int8 1]) 3 [] ∧
      UnpackReflected [0x91, 0x01]
        = Unpacked.ok (Value.slice [Value.reflected (Value.int8 1)]) 3 [] ∧
      Unpack [0x81, 0x01, 0x02]
        = Unpacked.ok (Value.map [(Value.int8 1, Value.int8 2)]) 5 [] :=
  ⟨rfl, rfl, rfl⟩

/-! ## Decoding of containers -/

theorem unpack_arrayHeader (fuel n : Nat) (R : List Nat) (hn : n < 2 ^ 32) :
    unpack (fuel + 1) false (arrayHeader n ++ R)
      = if n < 16 then fixContainer 1 (unpackArrayLoop (unpack fuel false) n R [] 0)
        else sizedContainer (arrayHeader n).length (unpackArrayLoop (unpack fuel false) n R [] 0) := by
  unfold arrayHeader
  by_cases h1 : n < MAXFIXARRAY
  · have h1' : n < 16 := h1
    have ht := fixarray_tag _ h1'
    have hl := lownibble_fix FIXARRAY n (by decide) h1'
    rw [ht] at hl
    simp only [if_pos h1, if_pos h1', List.singleton_append, ht]
    simp only [unpack, readByte_cons, FIXMAP, NEGFIXNUM, FIXMAPMAX, FIXARRAY, FIXARRAYMAX]
    rw [if_neg (by omega), if_neg (by omega), if_pos (by omega), hl]
    simp [unpackArray_roomy]
  have h1' : ¬ n < 16 := h1
  by_cases h2 : n < MAX16BIT
  · have h2' : n < 65536 := h2
    simp only [if_neg h1, if_neg h1', if_pos h2, List.cons_append, List.nil_append,
      List.length_cons, List.length_nil, byte, Nat.shiftRight_eq_div_pow]
    simp [unpack, readByte_cons, unpackArray_roomy,
      readUint16_cons _ _ _ (Nat.mod_lt _ (by norm_num : 256 > 0))
        (Nat.mod_lt _ (by norm_num : 256 > 0)),
      FIXMAP, NEGFIXNUM, FIXMAPMAX, FIXARRAY, FIXARRAYMAX, FIXRAW, FIXRAWMAX, NIL, FALSE, TRUE,
      FLOAT, DOUBLE, UINT8, UINT16, UINT32, UINT64, INT8, INT16, INT32, INT64, RAW16, RAW32,
      ARRAY16]
    rw [show n / 256 % 256 * 256 + n % 256 = n by omega]
  · have h2' : ¬ n < 65536 := h2
    simp only [if_neg h1, if_neg h1', if_neg h2, List.cons_append, List.nil_append,
      List.length_cons, List.length_nil, byte, Nat.shiftRight_eq_div_pow]
    simp [unpack, readByte_cons, unpackArray_roomy,
      readUint32_cons _ _ _ _ _ (Nat.mod_lt _ (by norm_num : 256 > 0))
        (Nat.mod_lt _ (by norm_num : 256 > 0)) (Nat.mod_lt _ (by norm_num : 256 > 0))
        (Nat.mod_lt _ (by norm_num : 256 > 0)),
      FIXMAP, NEGFIXNUM, FIXMAPMAX, FIXARRAY, FIXARRAYMAX, FIXRAW, FIXRAWMAX, NIL, FALSE, TRUE,
      FLOAT, DOUBLE, UINT8, UINT16, UINT32, UINT64, INT8, INT16, INT32, INT64, RAW16, RAW32,
      ARRAY16, ARRAY32]
    rw [show n / 16777216 % 256 * 16777216 + n / 65536 % 256 * 65536 + n / 256 % 256 * 256
      + n % 256 = n by omega]

theorem unpack_mapHeader (fuel n : Nat) (R : List Nat) (hn : n < 2 ^ 32) :
    unpack (fuel + 1) false (mapHeader n ++ R)
      = if n < 16 then fixContainer 1 (unpackMap (unpack fuel false) n R [] 0)
        else sizedContainer (mapHeader n).length (unpackMap (unpack fuel false) n R [] 0) := by
  unfold mapHeader
  by_cases h1 : n < MAXFIXMAP
  · have h1' : n < 16 := h1
    have ht := fixmap_tag _ h1'
    have hl := lownibble_fix FIXMAP n (by decide) h1'
    rw [ht] at hl
    simp only [if_pos h1, if_pos h1', List.singleton_append, ht]
    simp only [unpack, readByte_cons, FIXMAP, NEGFIXNUM, FIXMAPMAX]
    rw [if_neg (by omega), if_pos (by omega), hl]
    simp
  have h1' : ¬ n < 16 := h1
  by_cases h2 : n < MAX16BIT
  · have h2' : n < 65536 := h2
    simp only [if_neg h1, if_neg h1', if_pos h2, List.cons_append, List.nil_append,
      List.length_cons, List.length_nil, byte, Nat.shiftRight_eq_div_pow]
    simp [unpack, readByte_cons,
      readUint16_cons _ _ _ (Nat.mod_lt _ (by norm_num : 256 > 0))
        (Nat.mod_lt _ (by norm_num : 256 > 0)),
      FIXMAP, NEGFIXNUM, FIXMAPMAX, FIXARRAY, FIXARRAYMAX, FIXRAW, FIXRAWMAX, NIL, FALSE, TRUE,
      FLOAT, DOUBLE, UINT8, UINT16, UINT32, UINT64, INT8, INT16, INT32, INT64, RAW16, RAW32,
      ARRAY16, ARRAY32, MAP16]
    rw [show n / 256 % 256 * 256 + n % 256 = n by omega]
  · have h2' : ¬ n < 65536 := h2
    simp only [if_neg h1, if_neg h1', if_neg h2, List.cons_append, List.nil_append,
      List.length_cons, List.length_nil, byte, Nat.shiftRight_eq_div_pow]
    simp [unpack, readByte_cons,
      readUint32_cons _ _ _ _ _ (Nat.mod_lt _ (by norm_num : 256 > 0))
        (Nat.mod_lt _ (by norm_num : 256 > 0)) (Nat.mod_lt _ (by norm_num : 256 > 0))
        (Nat.mod_lt _ (by norm_num : 256 > 0)),
      FIXMAP, NEGFIXNUM, FIXMAPMAX, FIXARRAY, FIXARRAYMAX, FIXRAW, FIXRAWMAX, NIL, FALSE, TRUE,
      FLOAT, DOUBLE, UINT8, UINT16, UINT32, UINT64, INT8, INT16, INT32, INT64, RAW16, RAW32,
      ARRAY16, ARRAY32, MAP16, MAP32]
    rw [show n / 16777216 % 256 * 16777216 + n / 65536 % 256 * 65536 + n / 256 % 256 * 256
      + n % 256 = n by omega]

theorem Decodes.mono {k k' : Nat} {E : List Nat} {o : Outcome} (h : Decodes k E o)
    (hk : k ≤ k') : Decodes k' E o :=
  fun fuel r hf => h fuel r (le_trans hk hf)

theorem unpackArrayLoop_items (k : Nat) (items : List (List Nat × Outcome))
    (h : ∀ it ∈ items, Decodes k it.1 it.2) (fuel : Nat) (hk : k ≤ fuel) (r : List Nat) :
    ∀ (retval : List Value) (nbytesread : Nat),
      unpackArrayLoop (unpack fuel false) items.length (items.flatMap (fun it => it.1) ++ r)
          retval nbytesread
        = (arrayOutcome (items.map (fun it => it.2)) retval nbytesread).on r := by
  induction items with
  | nil => intro retval nbytesread; simp [unpackArrayLoop, arrayOutcome, Outcome.on]
  | cons it rest ih =>
    intro retval nbytesread
    have h1 := h it (List.mem_cons_self _ _) fuel (rest.flatMap (fun it => it.1) ++ r) hk
    have ih' := ih (fun x hx => h x (List.mem_cons_of_mem _ hx))
    simp only [List.length_cons, List.flatMap_cons, List.append_assoc, List.map_cons, unpackArrayLoop,
      h1]
    cases h2 : it.2 with
    | good d m =>
      simp only [Outcome.on, arrayOutcome]
      cases Interface d with
      | none => rfl
      | some x => exact ih' _ _
    | bad p => simp only [Outcome.on, arrayOutcome]

theorem unpackMap_items (k : Nat) (items : List ((List Nat × Outcome) × (List Nat × Outcome)))
    (h : ∀ it ∈ items, Decodes k it.1.1 it.1.2 ∧ Decodes k it.2.1 it.2.2)
    (fuel : Nat) (hk : k ≤ fuel) (r : List Nat) :
    ∀ (retval : List (Value × Value)) (nbytesread : Nat),
      unpackMap (unpack fuel false) items.length
          (items.flatMap (fun it => it.1.1 ++ it.2.1) ++ r) retval nbytesread
        = (mapOutcome (items.map (fun it => (it.1.2, it.2.2))) retval nbytesread).on r := by
  induction items with
  | nil => intro retval nbytesread; simp [unpackMap, mapOutcome, Outcome.on]
  | cons it rest ih =>
    intro retval nbytesread
    have h1 := (h it (List.mem_cons_self _ _)).1 fuel
      (it.2.1 ++ (rest.flatMap (fun it => it.1.1 ++ it.2.1) ++ r)) hk
    have h2 := (h it (List.mem_cons_self _ _)).2 fuel
      (rest.flatMap (fun it => it.1.1 ++ it.2.1) ++ r) hk
    have ih' := ih (fun x hx => h x (List.mem_cons_of_mem _ hx))
    simp only [List.length_cons, List.flatMap_cons, List.append_assoc, List.map_cons, unpackMap,
      h1]
    cases hk1 : it.1.2 with
    | good d m =>
      simp only [Outcome.on, h2]
      cases hk2 : it.2.2 with
      | good d2 m2 =>
        simp only [Outcome.on, mapOutcome]
        cases Interface d with
        | none => rfl
        | some x =>
          simp only []
          cases mapKey d with
          | none => rfl
          | some key =>
            simp only []
            cases Interface d2 with
            | none => rfl
            | some x2 =>
              simp only []
              split
              · exact ih' _ _
              · rfl
      | bad p => simp only [Outcome.on, mapOutcome]
    | bad p => simp only [Outcome.on, mapOutcome]

theorem fixContainer_on (o : Outcome) (r : List Nat) (length header : Nat) (h : length < 16) :
    fixContainer 1 (o.on r) = (containerOutcome length header o).on r := by
  cases o <;> simp [Outcome.on, fixContainer, containerOutcome, h]

theorem sizedContainer_on (o : Outcome) (r : List Nat) (length header : Nat)
    (h : ¬ length < 16) :
    sizedContainer header (o.on r) = (containerOutcome length header o).on r := by
  cases o <;> simp [Outcome.on, sizedContainer, containerOutcome, h]

theorem Decodes_array (k : Nat) (items : List (List Nat × Outcome))
    (h : ∀ it ∈ items, Decodes k it.1 it.2) (hn : items.length < 2 ^ 32) :
    Decodes (k + 1) (arrayHeader items.length ++ items.flatMap (fun it => it.1))
      (arrayOf (items.map (fun it => it.2))) := by
  intro fuel r hf
  obtain ⟨f, rfl⟩ : ∃ f, fuel = f + 1 := ⟨fuel - 1, by omega⟩
  rw [List.append_assoc, unpack_arrayHeader f _ _ hn,
    unpackArrayLoop_items k items h f (by omega) r [] 0]
  unfold arrayOf
  rw [List.length_map]
  split
  · next h16 => exact fixContainer_on _ _ _ _ h16
  · next h16 => exact sizedContainer_on _ _ _ _ h16

theorem Decodes_map (k : Nat) (items : List ((List Nat × Outcome) × (List Nat × Outcome)))
    (h : ∀ it ∈ items, Decodes k it.1.1 it.1.2 ∧ Decodes k it.2.1 it.2.2)
    (hn : items.length < 2 ^ 32) :
    Decodes (k + 1) (mapHeader items.length ++ items.flatMap (fun it => it.1.1 ++ it.2.1))
      (containerOutcome items.length (mapHeader items.length).length
        (mapOutcome (items.map (fun it => (it.1.2, it.2.2))) [] 0)) := by
  intro fuel r hf
  obtain ⟨f, rfl⟩ : ∃ f, fuel = f + 1 := ⟨fuel - 1, by omega⟩
  rw [List.append_assoc, unpack_mapHeader f _ _ hn,
    unpackMap_items k items h f (by omega) r [] 0]
  split
  · next h16 => exact fixContainer_on _ _ _ _ h16
  · next h16 => exact sizedContainer_on _ _ _ _ h16

theorem length_le_flatMap {α : Type} (f : α → List Nat) (xs : List α) (x : α) (hx : x ∈ xs) :
    (f x).length ≤ (xs.flatMap f).length := by
  induction xs with
  | nil => cases hx
  | cons y rest ih =>
    simp only [List.flatMap_cons, List.length_append]
    rcases List.mem_cons.mp hx with rfl | h
    · omega
    · have := ih h; omega

theorem arrayHeader_length_pos (n : Nat) : 1 ≤ (arrayHeader n).length := by
  unfold arrayHeader; split_ifs <;> simp

theorem mapHeader_length_pos (n : Nat) : 1 ≤ (mapHeader n).length := by
  unfold mapHeader; split_ifs <;> simp

theorem Decodes_arrayOf {α : Type} (xs : List α) (enc : α → List Nat) (out : α → Outcome)
    (h : ∀ x ∈ xs, Decodes (enc x).length (enc x) (out x)) (hn : xs.length < 2 ^ 32) :
    Decodes (arrayHeader xs.length ++ xs.flatMap enc).length
      (arrayHeader xs.length ++ xs.flatMap enc) (arrayOf (xs.map out)) := by
  have key := Decodes_array (xs.flatMap enc).length (xs.map (fun x => (enc x, out x)))
    (by
      intro it hit
      obtain ⟨x, hx, rfl⟩ := List.mem_map.mp hit
      exact (h x hx).mono (length_le_flatMap enc xs x hx))
    (by simpa using hn)
  have e1 : ∀ l : List α,
      (l.map (fun x => (enc x, out x))).flatMap (fun it => it.1) = l.flatMap enc := by
    intro l
    induction l with
    | nil => rfl
    | cons y rest ih => simp [List.flatMap_cons, ih]
  have e2 : (xs.map (fun x => (enc x, out x))).map (fun it => it.2) = xs.map out := by
    simp [List.map_map, Function.comp]
  rw [e1 xs, e2, List.length_map] at key
  refine key.mono ?_
  have := arrayHeader_length_pos xs.length
  simp only [List.length_append]; omega

theorem Decodes_mapOf {α : Type} (xs : List α) (enck encv : α → List Nat)
    (outk outv : α → Outcome)
    (h : ∀ x ∈ xs, Decodes (enck x).length (enck x) (outk x)
      ∧ Decodes (encv x).length (encv x) (outv x))
    (hn : xs.length < 2 ^ 32) :
    Decodes (mapHeader xs.length ++ xs.flatMap (fun x => enck x ++ encv x)).length
      (mapHeader xs.length ++ xs.flatMap (fun x => enck x ++ encv x))
      (containerOutcome xs.length (mapHeader xs.length).length
        (mapOutcome (xs.map (fun x => (outk x, outv x))) [] 0)) := by
  have key := Decodes_map (xs.flatMap (fun x => enck x ++ encv x)).length
    (xs.map (fun x => ((enck x, outk x), (encv x, outv x))))
    (by
      intro it hit
      obtain ⟨x, hx, rfl⟩ := List.mem_map.mp hit
      have hl := length_le_flatMap (fun x => enck x ++ encv x) xs x hx
      simp only [List.length_append] at hl
      exact ⟨(h x hx).1.mono (by omega), (h x hx).2.mono (by omega)⟩)
    (by simpa using hn)
  have e1 : ∀ l : List α, (l.map (fun x => ((enck x, outk x), (encv x, outv x)))).flatMap
      (fun it => it.1.1 ++ it.2.1) = l.flatMap (fun x => enck x ++ encv x) := by
    intro l
    induction l with
    | nil => rfl
    | cons y rest ih => simp [List.flatMap_cons, ih]
  have e2 : (xs.map (fun x => ((enck x, outk x), (encv x, outv x)))).map
      (fun it => (it.1.2, it.2.2)) = xs.map (fun x => (outk x, outv x)) := by
    simp [List.map_map, Function.comp]
  rw [e1 xs, e2, List.length_map] at key
  refine key.mono ?_
  have := mapHeader_length_pos xs.length
  simp only [List.length_append]; omega

theorem wireList_eq (xs : List Value) : wireList xs = xs.flatMap wire := by
  induction xs with
  | nil => simp [wireList]
  | cons x rest ih => simp [wireList, ih]

theorem expectList_eq (xs : List Value) : expectList xs = xs.map expect := by
  induction xs with
  | nil => simp [expectList]
  | cons x rest ih => simp [expectList, ih]

theorem wireEntries_eq (kvs : List (Value × Value)) :
    wireEntries kvs = kvs.flatMap (fun kv => wire kv.1 ++ wire kv.2) := by
  induction kvs with
  | nil => simp [wireEntries]
  | cons kv rest ih => obtain ⟨k, v⟩ := kv; simp [wireEntries, ih]

theorem expectEntries_eq (kvs : List (Value × Value)) :
    expectEntries kvs = kvs.map (fun kv => (expect kv.1, expect kv.2)) := by
  induction kvs with
  | nil => simp [expectEntries]
  | cons kv rest ih => obtain ⟨k, v⟩ := kv; simp [expectEntries, ih]

theorem Decodes_uint (v : Nat) (hv : v < 2 ^ 64) :
    Decodes (uintWire v).length (uintWire v) (uintOutcome v) := by
  intro fuel r hf
  have hpos : 1 ≤ (uintWire v).length := by unfold uintWire; split_ifs <;> simp
  obtain ⟨f, rfl⟩ : ∃ f, fuel = f + 1 := ⟨fuel - 1, by omega⟩
  rw [unpack_uintWire _ _ _ _ hv]; rfl

theorem Decodes_int (v : Int) (hv : -2 ^ 63 ≤ v ∧ v < 2 ^ 63) :
    Decodes (intWire v).length (intWire v) (intOutcome v) := by
  intro fuel r hf
  have hpos : 1 ≤ (intWire v).length := by unfold intWire; split_ifs <;> simp
  obtain ⟨f, rfl⟩ : ∃ f, fuel = f + 1 := ⟨fuel - 1, by omega⟩
  rw [unpack_intWire _ _ _ _ hv]; rfl

theorem Decodes_raw (b : List Nat) (hb : b.length < 2 ^ 32) :
    Decodes (rawHeader b.length ++ b).length (rawHeader b.length ++ b)
      (Outcome.good (rawDecoded b) ((rawHeader b.length).length + b.length)) := by
  intro fuel r hf
  have hpos : 1 ≤ (rawHeader b.length).length := by unfold rawHeader; split_ifs <;> simp
  obtain ⟨f, rfl⟩ : ∃ f, fuel = f + 1 :=
    ⟨fuel - 1, by simp only [List.length_append] at hf; omega⟩
  rw [List.append_assoc, unpack_raw _ _ _ _ hb]; rfl

theorem highBit_spec (fuel : Nat) : ∀ m, 0 < m → m < 2 ^ fuel →
    2 ^ highBit fuel m ≤ m ∧ m < 2 ^ (highBit fuel m + 1) ∧ highBit fuel m < fuel := by
  induction fuel with
  | zero => intro m h1 h2; simp at h2; omega
  | succ f ih =>
    intro m h1 h2
    unfold highBit
    by_cases h : 2 ≤ m
    · rw [if_pos h]
      have h3 : m / 2 < 2 ^ f := by rw [pow_succ] at h2; omega
      obtain ⟨a, b, c⟩ := ih (m / 2) (by omega) h3
      rw [pow_succ] at b
      refine ⟨?_, ?_, by omega⟩
      · rw [pow_succ]; omega
      · rw [pow_succ, pow_succ]; omega
    · rw [if_neg h]
      have : m = 1 := by omega
      subst this
      simp

theorem or_lt_64 {x y : Nat} (hx : x < 18446744073709551616) (hy : y < 18446744073709551616) :
    x ||| y < 18446744073709551616 := by
  have := @Nat.or_lt_two_pow x y 64 (by omega) (by omega)
  omega

theorem float32to64_lt (b : Nat) : float32to64 b < 2 ^ 64 := by
  unfold float32to64
  simp only []
  have hm : b % 8388608 < 8388608 := Nat.mod_lt _ (by norm_num)
  have he : (b >>> 23) % 256 < 256 := Nat.mod_lt _ (by norm_num)
  have hs : (b >>> 31) % 2 < 2 := Nat.mod_lt _ (by norm_num)
  norm_num
  split_ifs with h1 h2 h3 h4
  · rw [Nat.shiftLeft_eq]; omega
  · obtain ⟨a, c, d⟩ := highBit_spec 23 (b % 8388608) (by omega) (by norm_num; exact hm)
    apply or_lt_64
    apply or_lt_64
    · rw [Nat.shiftLeft_eq]; omega
    · rw [Nat.shiftLeft_eq]; omega
    · rw [Nat.shiftLeft_eq]
      have h5 : b % 8388608 - 2 ^ highBit 23 (b % 8388608) < 2 ^ highBit 23 (b % 8388608) := by
        rw [pow_succ] at c; omega
      calc (b % 8388608 - 2 ^ highBit 23 (b % 8388608)) * 2 ^ (52 - highBit 23 (b % 8388608))
          < 2 ^ highBit 23 (b % 8388608) * 2 ^ (52 - highBit 23 (b % 8388608)) :=
            Nat.mul_lt_mul_of_pos_right h5 (by positivity)
        _ = 2 ^ 52 := by rw [← pow_add]; congr 1; omega
        _ < 18446744073709551616 := by norm_num
  · apply or_lt_64
    · rw [Nat.shiftLeft_eq]; omega
    · rw [Nat.shiftLeft_eq]; norm_num
  · apply or_lt_64
    apply or_lt_64
    apply or_lt_64
    · rw [Nat.shiftLeft_eq]; omega
    · rw [Nat.shiftLeft_eq]; norm_num
    · rw [Nat.shiftLeft_eq]; norm_num
    · rw [Nat.shiftLeft_eq]; omega
  · apply or_lt_64
    apply or_lt_64
    · rw [Nat.shiftLeft_eq]; omega
    · rw [Nat.shiftLeft_eq]; omega
    · rw [Nat.shiftLeft_eq]; omega

/-! ## What the packers write into a buffer -/

theorem bufferWriter_Write (s p : List Nat) :
    bufferWriter.Write s p = (p.length, none, s ++ p) := rfl

theorem packElems_buffer {α : Type} (f : List Nat → α → Packed (List Nat)) (enc : α → List Nat)
    (xs : List α) (h : ∀ x ∈ xs, ∀ s, ∃ n, f s x = Packed.ret n none (s ++ enc x)) :
    ∀ n s, ∃ n', packElems f xs n s = Packed.ret n' none (s ++ xs.flatMap enc) := by
  induction xs with
  | nil => intro n s; exact ⟨n, by simp [packElems]⟩
  | cons x rest ih =>
    intro n s
    obtain ⟨m, hm⟩ := h x (List.mem_cons_self _ _) s
    obtain ⟨n', hn'⟩ := ih (fun y hy => h y (List.mem_cons_of_mem _ hy)) (n + m) (s ++ enc x)
    exact ⟨n', by simp [packElems, hm, hn']⟩

theorem arrayBlock_buffer (s : List Nat) (length : Nat) (loop : Nat → List Nat → Packed (List Nat))
    (E : List Nat) (h : ∀ n s, ∃ n', loop n s = Packed.ret n' none (s ++ E)) :
    arrayBlock bufferWriter s length loop = Packed.ret 0 none (s ++ (arrayHeader length ++ E)) := by
  obtain ⟨n', hn'⟩ := h (arrayHeader length).length (s ++ arrayHeader length)
  simp [arrayBlock, bufferWriter_Write, hn', leaveBlock]

theorem mapBlock_buffer (s : List Nat) (length : Nat) (loop : Nat → List Nat → Packed (List Nat))
    (E : List Nat) (h : ∀ n s, ∃ n', loop n s = Packed.ret n' none (s ++ E)) :
    mapBlock bufferWriter s length loop = Packed.ret 0 none (s ++ (mapHeader length ++ E)) := by
  obtain ⟨n', hn'⟩ := h (mapHeader length).length (s ++ mapHeader length)
  simp [mapBlock, bufferWriter_Write, hn', leaveBlock]

theorem arrayBlock_buffer_panic (s : List Nat) (length : Nat)
    (loop : Nat → List Nat → Packed (List Nat))
    (h : ∀ n s, ∃ p S, loop n s = Packed.panic p S) :
    ∃ p S, arrayBlock bufferWriter s length loop = Packed.panic p S := by
  obtain ⟨p, S, hS⟩ := h (arrayHeader length).length (s ++ arrayHeader length)
  exact ⟨p, S, by simp [arrayBlock, bufferWriter_Write, hS, leaveBlock]⟩

theorem mapBlock_buffer_panic (s : List Nat) (length : Nat)
    (loop : Nat → List Nat → Packed (List Nat))
    (h : ∀ n s, ∃ p S, loop n s = Packed.panic p S) :
    ∃ p S, mapBlock bufferWriter s length loop = Packed.panic p S := by
  obtain ⟨p, S, hS⟩ := h (mapHeader length).length (s ++ mapHeader length)
  exact ⟨p, S, by simp [mapBlock, bufferWriter_Write, hS, leaveBlock]⟩

theorem PackUint64_buffer (s : List Nat) (v : Nat) (hv : v < 2 ^ 64) :
    ∃ n, PackUint64 bufferWriter s v = Packed.ret n none (s ++ uintWire v) :=
  ⟨_, by rw [PackUint64_eq _ _ _ hv, bufferWriter_ret]⟩

theorem PackInt64_buffer (s : List Nat) (v : Int) (hv : -2 ^ 63 ≤ v ∧ v < 2 ^ 63) :
    ∃ n, PackInt64 bufferWriter s v = Packed.ret n none (s ++ intWire v) :=
  ⟨_, by rw [PackInt64_eq _ _ _ hv, bufferWriter_ret]⟩

theorem packArrayOf_buffer {α : Type} (f : List Nat → α → Packed (List Nat))
    (enc : α → List Nat) (xs : List α)
    (h : ∀ x ∈ xs, ∀ s, ∃ n, f s x = Packed.ret n none (s ++ enc x)) (s : List Nat) :
    packArrayOf bufferWriter f s xs
      = Packed.ret 0 none (s ++ (arrayHeader xs.length ++ xs.flatMap enc)) :=
  arrayBlock_buffer s xs.length _ _ (packElems_buffer f enc xs h)

mutual

theorem PackValue_buffer (v : Value) (s : List Nat) (hw : wellTyped v = true) :
    (packable v = true → ∃ n, PackValue bufferWriter s v = Packed.ret n none (s ++ wire v)) ∧
    (packable v = false → ∃ p S, PackValue bufferWriter s v = Packed.panic p S) := by
  cases v with
  | slice xs =>
    simp only [wellTyped, packable, PackValue, wire] at hw ⊢
    constructor
    · intro hp
      exact ⟨0, arrayBlock_buffer s xs.length _ _
        (fun n s => (packArrayLoop_buffer xs n s hw).1 hp)⟩
    · intro hp
      exact arrayBlock_buffer_panic s xs.length _
        (fun n s => (packArrayLoop_buffer xs n s hw).2 hp)
  | map kvs =>
    simp only [wellTyped, packable, PackValue, wire] at hw ⊢
    constructor
    · intro hp
      exact ⟨0, mapBlock_buffer s kvs.length _ _
        (fun n s => (packMapLoop_buffer kvs n s hw).1 hp)⟩
    · intro hp
      exact mapBlock_buffer_panic s kvs.length _
        (fun n s => (packMapLoop_buffer kvs n s hw).2 hp)
  | reflected v => simp [packable, PackValue]
  | Bytes b => simp [packable, PackValue]
  | nil => simp [packable, PackValue, wire, PackNil, bufferWriter_ret]
  | bool b => cases b <;> simp [packable, PackValue, wire, PackBool, bufferWriter_ret]
  | uint8 v | uint16 v | uint32 v | uint64 v | uint v =>
    simp only [wellTyped, decide_eq_true_eq] at hw
    simp only [packable, PackValue, wire, true_implies, reduceCtorEq, false_implies, and_true]
    exact PackUint64_buffer s v (by omega)
  | int8 v | int16 v | int32 v | int64 v | int v =>
    simp only [wellTyped, decide_eq_true_eq] at hw
    simp only [packable, PackValue, wire, true_implies, reduceCtorEq, false_implies, and_true]
    exact PackInt64_buffer s v (by omega)
  | float32 bits =>
    simp only [packable, PackValue, wire, true_implies, reduceCtorEq, false_implies, and_true,
      PackFloat64]
    exact PackUint64_buffer s _ (float32to64_lt bits)
  | float64 bits =>
    simp only [wellTyped, decide_eq_true_eq] at hw
    simp only [packable, PackValue, wire, true_implies, reduceCtorEq, false_implies, and_true,
      PackFloat64]
    exact PackUint64_buffer s _ hw
  | bytes b | string b =>
    simp only [packable, PackValue, wire, true_implies, reduceCtorEq, false_implies, and_true]
    exact ⟨_, by rw [PackBytes_buffer, List.append_assoc]⟩
  | uint16s xs | uint32s xs | uint64s xs | uints xs | float64s xs =>
    simp only [wellTyped, List.all_eq_true, decide_eq_true_eq] at hw
    simp only [packable, PackValue, wire, true_implies, reduceCtorEq, false_implies, and_true,
      PackFloat64]
    exact ⟨0, packArrayOf_buffer _ uintWire xs
      (fun x hx s => PackUint64_buffer s x (by have := hw x hx; omega)) s⟩
  | int8s xs | int16s xs | int32s xs | int64s xs | ints xs =>
    simp only [wellTyped, List.all_eq_true, decide_eq_true_eq] at hw
    simp only [packable, PackValue, wire, true_implies, reduceCtorEq, false_implies, and_true]
    exact ⟨0, packArrayOf_buffer _ intWire xs
      (fun x hx s => PackInt64_buffer s x (by have := hw x hx; omega)) s⟩
  | float32s xs =>
    simp only [packable, PackValue, wire, true_implies, reduceCtorEq, false_implies, and_true]
    exact ⟨0, packArrayOf_buffer _ (fun x => uintWire (float32to64 x)) xs
      (fun x _ s => PackUint64_buffer s _ (float32to64_lt x)) s⟩

theorem packArrayLoop_buffer (xs : List Value) (n : Nat) (s : List Nat)
    (hw : wellTypedList xs = true) :
    (packableList xs = true →
      ∃ n', packArrayLoop bufferWriter xs n s = Packed.ret n' none (s ++ wireList xs)) ∧
    (packableList xs = false →
      ∃ p S, packArrayLoop bufferWriter xs n s = Packed.panic p S) := by
  cases xs with
  | nil => simp [packableList, packArrayLoop, wireList]
  | cons x rest =>
    simp only [wellTypedList, Bool.and_eq_true] at hw
    have hx := PackValue_buffer x s hw.1
    constructor
    · intro hp
      simp only [packableList, Bool.and_eq_true] at hp
      obtain ⟨m, hm⟩ := hx.1 hp.1
      obtain ⟨n', hn'⟩ := (packArrayLoop_buffer rest (n + m) (s ++ wire x) hw.2).1 hp.2
      exact ⟨n', by simp [packArrayLoop, hm, hn', wireList]⟩
    · intro hp
      simp only [packableList, Bool.and_eq_false_iff] at hp
      cases hpx : packable x with
      | false =>
        obtain ⟨p, S, hS⟩ := hx.2 hpx
        exact ⟨p, S, by simp [packArrayLoop, hS]⟩
      | true =>
        obtain ⟨m, hm⟩ := hx.1 hpx
        have hpr : packableList rest = false := by
          rcases hp with h | h
          · rw [hpx] at h; cases h
          · exact h
        obtain ⟨p, S, hS⟩ := (packArrayLoop_buffer rest (n + m) (s ++ wire x) hw.2).2 hpr
        exact ⟨p, S, by simp [packArrayLoop, hm, hS]⟩

theorem packMapLoop_buffer (kvs : List (Value × Value)) (n : Nat) (s : List Nat)
    (hw : wellTypedEntries kvs = true) :
    (packableEntries kvs = true →
      ∃ n', packMapLoop bufferWriter kvs n s = Packed.ret n' none (s ++ wireEntries kvs)) ∧
    (packableEntries kvs = false →
      ∃ p S, packMapLoop bufferWriter kvs n s = Packed.panic p S) := by
  cases kvs with
  | nil => simp [packableEntries, packMapLoop, wireEntries]
  | cons kv rest =>
    obtain ⟨k, v⟩ := kv
    simp only [wellTypedEntries, Bool.and_eq_true] at hw
    have hk := PackValue_buffer k s hw.1
    constructor
    · intro hp
      simp only [packableEntries, Bool.and_eq_true] at hp
      obtain ⟨m, hm⟩ := hk.1 hp.1
      obtain ⟨m2, hm2⟩ := (PackValue_buffer v (s ++ wire k) hw.2.1).1 hp.2.1
      obtain ⟨n', hn'⟩ :=
        (packMapLoop_buffer rest (n + m + m2) (s ++ wire k ++ wire v) hw.2.2).1 hp.2.2
      refine ⟨n', ?_⟩
      simp only [packMapLoop, hm, hm2, wireEntries]
      simpa [List.append_assoc] using hn'
    · intro hp
      cases hpk : packable k with
      | false =>
        obtain ⟨p, S, hS⟩ := hk.2 hpk
        exact ⟨p, S, by simp [packMapLoop, hS]⟩
      | true =>
        obtain ⟨m, hm⟩ := hk.1 hpk
        have hv := PackValue_buffer v (s ++ wire k) hw.2.1
        cases hpv : packable v with
        | false =>
          obtain ⟨p, S, hS⟩ := hv.2 hpv
          exact ⟨p, S, by simp [packMapLoop, hm, hS]⟩
        | true =>
          obtain ⟨m2, hm2⟩ := hv.1 hpv
          have hpr : packableEntries rest = false := by
            simpa [packableEntries, hpk, hpv] using hp
          obtain ⟨p, S, hS⟩ :=
            (packMapLoop_buffer rest (n + m + m2) (s ++ wire k ++ wire v) hw.2.2).2 hpr
          refine ⟨p, S, ?_⟩
          simp only [packMapLoop, hm, hm2]
          simpa [List.append_assoc] using hS

end

/-! ## Decoding what `PackValue` wrote -/

mutual

theorem Decodes_wire (v : Value) (hw : wellTyped v = true) (hs : sized v = true)
    (hp : packable v = true) : Decodes (wire v).length (wire v) (expect v) := by
  cases v with
  | slice xs =>
    simp only [wellTyped, sized, packable, Bool.and_eq_true, decide_eq_true_eq] at hw hs hp
    simp only [wire, expect, wireList_eq, expectList_eq]
    exact Decodes_arrayOf xs wire expect (Decodes_wireList xs hw hs.2 hp) hs.1
  | map kvs =>
    simp only [wellTyped, sized, packable, Bool.and_eq_true, decide_eq_true_eq] at hw hs hp
    simp only [wire, expect, wireEntries_eq, expectEntries_eq]
    exact Decodes_mapOf kvs (fun kv => wire kv.1) (fun kv => wire kv.2) (fun kv => expect kv.1)
      (fun kv => expect kv.2) (Decodes_wireEntries kvs hw hs.2 hp) hs.1
  | reflected v => simp [packable] at hp
  | Bytes b => simp [packable] at hp
  | nil =>
    intro fuel r hf
    obtain ⟨f, rfl⟩ : ∃ f, fuel = f + 1 := ⟨fuel - 1, by simp [wire] at hf; omega⟩
    simp only [wire, List.singleton_append, unpack_nil, expect, Outcome.on]
  | bool b =>
    intro fuel r hf
    obtain ⟨f, rfl⟩ : ∃ f, fuel = f + 1 := ⟨fuel - 1, by simp [wire] at hf; omega⟩
    simp only [wire, List.singleton_append, unpack_bool, expect, Outcome.on]
  | uint8 v | uint16 v | uint32 v | uint64 v | uint v =>
    simp only [wellTyped, decide_eq_true_eq] at hw
    exact Decodes_uint v (by omega)
  | int8 v | int16 v | int32 v | int64 v | int v =>
    simp only [wellTyped, decide_eq_true_eq] at hw
    exact Decodes_int v (by omega)
  | float32 bits => exact Decodes_uint _ (float32to64_lt bits)
  | float64 bits =>
    simp only [wellTyped, decide_eq_true_eq] at hw
    exact Decodes_uint _ hw
  | bytes b | string b =>
    simp only [sized, decide_eq_true_eq] at hs
    exact Decodes_raw b hs
  | uint16s xs | uint32s xs | uint64s xs | uints xs | float64s xs =>
    simp only [wellTyped, List.all_eq_true, decide_eq_true_eq] at hw
    simp only [sized, decide_eq_true_eq] at hs
    exact Decodes_arrayOf xs uintWire uintOutcome
      (fun x hx => Decodes_uint x (by have := hw x hx; omega)) hs
  | int8s xs | int16s xs | int32s xs | int64s xs | ints xs =>
    simp only [wellTyped, List.all_eq_true, decide_eq_true_eq] at hw
    simp only [sized, decide_eq_true_eq] at hs
    exact Decodes_arrayOf xs intWire intOutcome
      (fun x hx => Decodes_int x (by have := hw x hx; omega)) hs
  | float32s xs =>
    simp only [sized, decide_eq_true_eq] at hs
    exact Decodes_arrayOf xs (fun x => uintWire (float32to64 x))
      (fun x => uintOutcome (float32to64 x))
      (fun x _ => Decodes_uint _ (float32to64_lt x)) hs

theorem Decodes_wireList (xs : List Value) (hw : wellTypedList xs = true)
    (hs : sizedList xs = true) (hp : packableList xs = true) :
    ∀ x ∈ xs, Decodes (wire x).length (wire x) (expect x) := by
  cases xs with
  | nil => intro x hx; cases hx
  | cons y rest =>
    simp only [wellTypedList, sizedList, packableList, Bool.and_eq_true] at hw hs hp
    intro x hx
    rcases List.mem_cons.mp hx with h | h
    · rw [h]; exact Decodes_wire y hw.1 hs.1 hp.1
    · exact Decodes_wireList rest hw.2 hs.2 hp.2 x h

theorem Decodes_wireEntries (kvs : List (Value × Value)) (hw : wellTypedEntries kvs = true)
    (hs : sizedEntries kvs = true) (hp : packableEntries kvs = true) :
    ∀ kv ∈ kvs, Decodes (wire kv.1).length (wire kv.1) (expect kv.1)
      ∧ Decodes (wire kv.2).length (wire kv.2) (expect kv.2) := by
  cases kvs with
  | nil => intro x hx; cases hx
  | cons y rest =>
    obtain ⟨k, v⟩ := y
    simp only [wellTypedEntries, sizedEntries, packableEntries, Bool.and_eq_true] at hw hs hp
    intro x hx
    rcases List.mem_cons.mp hx with h | h
    · rw [h]; exact ⟨Decodes_wire k hw.1 hs.1 hp.1, Decodes_wire v hw.2.1 hs.2.1 hp.2.1⟩
    · exact Decodes_wireEntries rest hw.2.2 hs.2.2 hp.2.2 x h

end

/-! ## The decoded value has the structure of the host value -/

theorem arrayOutcome_good (os : List Outcome)
    (h : ∀ o ∈ os, ∃ d m, o = Outcome.good d m ∧ Interface d = some d) :
    ∀ retval n, ∃ m,
      arrayOutcome os retval n = Outcome.good (Value.slice (retval ++ os.map Outcome.value)) m := by
  induction os with
  | nil => intro retval n; exact ⟨n, by simp [arrayOutcome]⟩
  | cons o rest ih =>
    intro retval n
    obtain ⟨d, m, rfl, hd⟩ := h o (List.mem_cons_self _ _)
    obtain ⟨m', hm'⟩ := ih (fun o ho => h o (List.mem_cons_of_mem _ ho)) (retval ++ [d]) (n + m)
    exact ⟨m', by simp [arrayOutcome, hd, hm', Outcome.value]⟩

theorem arrayOf_good (os : List Outcome)
    (h : ∀ o ∈ os, ∃ d m, o = Outcome.good d m ∧ Interface d = some d) :
    ∃ m, arrayOf os = Outcome.good (Value.slice (os.map Outcome.value)) m := by
  obtain ⟨m, hm⟩ := arrayOutcome_good os h [] 0
  exact ⟨_, by simp [arrayOf, hm, containerOutcome]; rfl⟩

theorem uintDecoded_Interface (v : Nat) : Interface (uintDecoded v) = some (uintDecoded v) := by
  unfold uintDecoded; split_ifs <;> rfl

theorem intDecoded_Interface (v : Int) : Interface (intDecoded v) = some (intDecoded v) := by
  unfold intDecoded; split_ifs <;> rfl

theorem sameInts_uint (xs : List Nat) :
    sameInts (xs.map Int.ofNat) ((xs.map uintOutcome).map Outcome.value) = true := by
  induction xs with
  | nil => rfl
  | cons x rest ih =>
    simp only [List.map_cons, sameInts, ih, Bool.and_true, uintOutcome, Outcome.value,
      uintDecoded_toInt]
    simp

theorem sameInts_int (xs : List Int) :
    sameInts xs ((xs.map intOutcome).map Outcome.value) = true := by
  induction xs with
  | nil => rfl
  | cons x rest ih =>
    simp only [List.map_cons, sameInts, ih, Bool.and_true, intOutcome, Outcome.value,
      intDecoded_toInt]
    simp

theorem sameList_map (xs : List Value) (f : Value → Value)
    (h : ∀ x ∈ xs, same x (f x) = true) : sameList xs (xs.map f) = true := by
  induction xs with
  | nil => simp [sameList]
  | cons x rest ih =>
    simp only [List.map_cons, sameList, Bool.and_eq_true]
    exact ⟨h x (List.mem_cons_self _ _), ih (fun y hy => h y (List.mem_cons_of_mem _ hy))⟩

theorem mapAssign_append (acc : List (Value × Value)) (k v : Value)
    (h : ∀ e ∈ acc, keyEq e.1 k = false) : mapAssign acc k v = acc ++ [(k, v)] := by
  induction acc with
  | nil => rfl
  | cons e rest ih =>
    obtain ⟨k0, v0⟩ := e
    have h0 : keyEq k0 k = false := h (k0, v0) (List.mem_cons_self _ _)
    simp [mapAssign, h0, ih (fun e he => h e (List.mem_cons_of_mem _ he))]

theorem mapIndex_of_distinct (M : List (Value × Value)) (hd : keysDistinct M = true)
    (hr : ∀ e ∈ M, keyEq e.1 e.1 = true) : ∀ e ∈ M, mapIndex M e.1 = some e.2 := by
  induction M with
  | nil => intro e he; cases he
  | cons e0 rest ih =>
    obtain ⟨k0, v0⟩ := e0
    simp only [keysDistinct, Bool.and_eq_true, List.all_eq_true, Bool.not_eq_true'] at hd
    intro e he
    rcases List.mem_cons.mp he with h | h
    · subst h
      simp [mapIndex, hr (k0, v0) (List.mem_cons_self _ _)]
    · have h1 : keyEq k0 e.1 = false := hd.1 e h
      simp only [mapIndex, h1, Bool.false_eq_true, if_false]
      exact ih hd.2 (fun x hx => hr x (List.mem_cons_of_mem _ hx)) e h

theorem keysDistinct_map (kvs : List (Value × Value)) (f : Value → Value) :
    keysDistinct (kvs.map (fun kv => (kv.1, f kv.2))) = keysDistinct kvs := by
  induction kvs with
  | nil => rfl
  | cons kv rest ih =>
    obtain ⟨k, v⟩ := kv
    simp [keysDistinct, ih, List.all_map, Function.comp_def]

theorem keyEq_string_symm (a b : List Nat) :
    keyEq (Value.string a) (Value.string b) = keyEq (Value.string b) (Value.string a) := by
  simp only [keyEq]
  by_cases h : a = b
  · subst h; rfl
  · have h' : ¬ b = a := fun e => h e.symm
    simp [h, h']

theorem mapOutcome_plain (val : Value → Value) (kvs : List (Value × Value))
    (h : ∀ kv ∈ kvs, (∃ kb, kv.1 = Value.string kb ∧ kb.length < 65536) ∧
      ∃ m, expect kv.2 = Outcome.good (val kv.2) m ∧ Interface (val kv.2) = some (val kv.2))
    (hd : keysDistinct kvs = true) :
    ∀ acc n, (∀ e ∈ acc, ∀ kv ∈ kvs, keyEq e.1 kv.1 = false) →
      ∃ m, mapOutcome (kvs.map (fun kv => (expect kv.1, expect kv.2))) acc n
        = Outcome.good (Value.map (acc ++ kvs.map (fun kv => (kv.1, val kv.2)))) m := by
  induction kvs with
  | nil => intro acc n _; exact ⟨n, by simp [mapOutcome]⟩
  | cons kv rest ih =>
    intro acc n hacc
    obtain ⟨k, v⟩ := kv
    obtain ⟨⟨kb, hk, hlen⟩, m2, hv, hi⟩ := h (k, v) (List.mem_cons_self _ _)
    simp only at hk hv hi
    subst hk
    have hraw : rawDecoded kb = Value.bytes kb := by
      unfold rawDecoded MAX16BIT
      rw [if_pos (by rw [Nat.shiftLeft_eq]; omega)]
    simp only [keysDistinct, Bool.and_eq_true, List.all_eq_true, Bool.not_eq_true'] at hd
    have hass : mapAssign acc (Value.string kb) (val v) = acc ++ [(Value.string kb, val v)] :=
      mapAssign_append acc _ _ (fun e he => hacc e he _ (List.mem_cons_self _ _))
    obtain ⟨m, hm⟩ := ih (fun x hx => h x (List.mem_cons_of_mem _ hx)) hd.2
      (acc ++ [(Value.string kb, val v)])
      (n + ((rawHeader kb.length).length + kb.length) + m2)
      (by
        intro e he x hx
        rcases List.mem_append.mp he with h1 | h1
        · exact hacc e h1 x (List.mem_cons_of_mem _ hx)
        · simp only [List.mem_singleton] at h1
          subst h1
          exact hd.1 x hx)
    refine ⟨m, ?_⟩
    have hb : Interface (Value.bytes kb) = some (Value.bytes kb) := rfl
    simp only [List.map_cons, expect, hraw, hv, mapOutcome, hb, hi, mapKey, hashable, if_true,
      hass, hm, List.append_assoc, List.singleton_append]

theorem sameEntries_of (M : List (Value × Value)) (kvs : List (Value × Value))
    (h : ∀ kv ∈ kvs, ∃ d, mapIndex M kv.1 = some d ∧ same kv.2 d = true) :
    sameEntries kvs M = true := by
  induction kvs with
  | nil => simp [sameEntries]
  | cons kv rest ih =>
    obtain ⟨k, v⟩ := kv
    obtain ⟨d, hd, hs⟩ := h (k, v) (List.mem_cons_self _ _)
    simp only at hd hs
    simp only [sameEntries, hd, hs, Bool.true_and]
    exact ih (fun x hx => h x (List.mem_cons_of_mem _ hx))

theorem containerOutcome_good (length header : Nat) (d : Value) (m : Nat) :
    ∃ m', containerOutcome length header (Outcome.good d m) = Outcome.good d m' :=
  ⟨_, rfl⟩

theorem same_map_plain (kvs : List (Value × Value)) (val : Value → Value)
    (hk : ∀ kv ∈ kvs, ∃ kb, kv.1 = Value.string kb)
    (hs : ∀ kv ∈ kvs, same kv.2 (val kv.2) = true)
    (hd : keysDistinct kvs = true) :
    same (Value.map kvs) (Value.map (kvs.map (fun kv => (kv.1, val kv.2)))) = true := by
  have hrefl : ∀ kv ∈ kvs, keyEq kv.1 kv.1 = true := by
    intro kv hkv
    obtain ⟨kb, h⟩ := hk kv hkv
    rw [h]; simp [keyEq]
  simp only [same, Bool.and_eq_true, List.all_eq_true, List.any_eq_true]
  constructor
  · apply sameEntries_of
    intro kv hkv
    refine ⟨val kv.2, ?_, hs kv hkv⟩
    have hM := mapIndex_of_distinct (kvs.map (fun kv => (kv.1, val kv.2)))
      (by rw [keysDistinct_map]; exact hd)
      (by
        intro e he
        obtain ⟨x, hx, rfl⟩ := List.mem_map.mp he
        exact hrefl x hx)
      (kv.1, val kv.2) (List.mem_map.mpr ⟨kv, hkv, rfl⟩)
    exact hM
  · intro e he
    obtain ⟨x, hx, rfl⟩ := List.mem_map.mp he
    exact ⟨x, hx, hrefl x hx⟩

mutual

theorem same_expect (v : Value) (hp : plain v = true) (hw : wellTyped v = true)
    (hk : shortKeys v = true) :
    (∃ m, expect v = Outcome.good (expect v).value m) ∧ same v (expect v).value = true
      ∧ Interface (expect v).value = some (expect v).value := by
  cases v with
  | slice xs =>
    simp only [plain, wellTyped, shortKeys] at hp hw hk
    have ih := same_expectList xs hp hw hk
    obtain ⟨m, hm⟩ := arrayOf_good (xs.map expect) (by
      intro o ho
      obtain ⟨x, hx, rfl⟩ := List.mem_map.mp ho
      obtain ⟨⟨m, hm⟩, _, hi⟩ := ih x hx
      exact ⟨_, m, hm, hi⟩)
    simp only [expect, expectList_eq, hm, Outcome.value, List.map_map]
    refine ⟨⟨m, rfl⟩, ?_, rfl⟩
    simp only [same]
    exact sameList_map xs _ (fun x hx => (ih x hx).2.1)
  | map kvs =>
    simp only [plain, wellTyped, shortKeys, Bool.and_eq_true] at hp hw hk
    have ih := same_expectEntries kvs hp.2 hw hk
    obtain ⟨m, hm⟩ := mapOutcome_plain (fun v => (expect v).value) kvs
      (fun kv hkv => ⟨(ih kv hkv).1, (ih kv hkv).2.1.imp (fun m hm => ⟨hm, (ih kv hkv).2.2.2⟩)⟩)
      hp.1 [] 0 (by intro e he; cases he)
    simp only [expect, expectEntries_eq, hm, containerOutcome, Outcome.value, List.nil_append]
    refine ⟨⟨_, rfl⟩, ?_, rfl⟩
    exact same_map_plain kvs (fun v => (expect v).value)
      (fun kv hkv => (ih kv hkv).1.imp (fun _ h => h.1))
      (fun kv hkv => (ih kv hkv).2.2.1) hp.1
  | bool b => simp [expect, Outcome.value, same, Interface]
  | uint8 v | uint16 v | uint32 v | uint64 v | uint v =>
    simp [expect, uintOutcome, Outcome.value, same, uintDecoded_toInt, uintDecoded_Interface]
  | int8 v | int16 v | int32 v | int64 v | int v =>
    simp [expect, intOutcome, Outcome.value, same, intDecoded_toInt, intDecoded_Interface]
  | bytes b =>
    simp only [expect, Outcome.value, same, rawDecoded_toBytes, beq_self_eq_true, true_and]
    exact ⟨⟨_, rfl⟩, by unfold rawDecoded; split_ifs <;> rfl⟩
  | uint16s xs | uint32s xs | uint64s xs | uints xs =>
    obtain ⟨m, hm⟩ := arrayOf_good (xs.map uintOutcome) (by
      intro o ho
      obtain ⟨x, hx, rfl⟩ := List.mem_map.mp ho
      exact ⟨_, _, rfl, uintDecoded_Interface x⟩)
    simp only [expect, hm, Outcome.value]
    exact ⟨⟨m, rfl⟩, by simp only [same]; exact sameInts_uint xs, rfl⟩
  | int8s xs | int16s xs | int32s xs | int64s xs | ints xs =>
    obtain ⟨m, hm⟩ := arrayOf_good (xs.map intOutcome) (by
      intro o ho
      obtain ⟨x, hx, rfl⟩ := List.mem_map.mp ho
      exact ⟨_, _, rfl, intDecoded_Interface x⟩)
    simp only [expect, hm, Outcome.value]
    exact ⟨⟨m, rfl⟩, by simp only [same]; exact sameInts_int xs, rfl⟩
  | nil => simp [plain] at hp
  | float32 bits => simp [plain] at hp
  | float64 bits => simp [plain] at hp
  | string b => simp [plain] at hp
  | Bytes b => simp [plain] at hp
  | float32s xs => simp [plain] at hp
  | float64s xs => simp [plain] at hp
  | reflected v => simp [plain] at hp

theorem same_expectList (xs : List Value) (hp : plainList xs = true)
    (hw : wellTypedList xs = true) (hk : shortKeysList xs = true) :
    ∀ x ∈ xs, (∃ m, expect x = Outcome.good (expect x).value m)
      ∧ same x (expect x).value = true
      ∧ Interface (expect x).value = some (expect x).value := by
  cases xs with
  | nil => intro x hx; cases hx
  | cons y rest =>
    simp only [plainList, wellTypedList, shortKeysList, Bool.and_eq_true] at hp hw hk
    intro x hx
    rcases List.mem_cons.mp hx with h | h
    · rw [h]; exact same_expect y hp.1 hw.1 hk.1
    · exact same_expectList rest hp.2 hw.2 hk.2 x h

theorem same_expectEntries (kvs : List (Value × Value)) (hp : plainEntries kvs = true)
    (hw : wellTypedEntries kvs = true) (hk : shortKeysEntries kvs = true) :
    ∀ kv ∈ kvs, (∃ kb, kv.1 = Value.string kb ∧ kb.length < 65536)
      ∧ (∃ m, expect kv.2 = Outcome.good (expect kv.2).value m)
      ∧ same kv.2 (expect kv.2).value = true
      ∧ Interface (expect kv.2).value = some (expect kv.2).value := by
  cases kvs with
  | nil => intro x hx; cases hx
  | cons y rest =>
    obtain ⟨k, v⟩ := y
    simp only [wellTypedEntries, Bool.and_eq_true] at hw
    cases k with
    | string kb =>
      simp only [plainEntries, shortKeysEntries, Bool.and_eq_true, decide_eq_true_eq] at hp hk
      intro x hx
      rcases List.mem_cons.mp hx with h | h
      · rw [h]; exact ⟨⟨kb, rfl, hk.1⟩, same_expect v hp.1 hw.2.1 hk.2.1⟩
      · exact same_expectEntries rest hp.2 hw.2.2 hk.2.2 x h
    | _ => simp [plainEntries] at hp

end

/-! ## `Pack` on a buffer -/

theorem PackUint32_eq {σ : Type} (w : Writer σ) (s : σ) (v : Nat) (hv : v < 2 ^ 32) :
    PackUint32 w s v = w.ret s (uintWire v) := by
  rw [← PackUint64_eq w s v (by omega)]
  unfold PackUint64
  rw [if_neg (by simp only [REGULAR_UINT32_MAX, Nat.shiftLeft_eq]; omega),
    Nat.mod_eq_of_lt hv]

theorem PackUint16_eq {σ : Type} (w : Writer σ) (s : σ) (v : Nat) (hv : v < 2 ^ 16) :
    PackUint16 w s v = w.ret s (uintWire v) := by
  rw [← PackUint32_eq w s v (by omega)]
  unfold PackUint32
  rw [if_neg (by simp only [REGULAR_UINT16_MAX, Nat.shiftLeft_eq]; omega),
    Nat.mod_eq_of_lt hv]

theorem PackUint8_eq {σ : Type} (w : Writer σ) (s : σ) (v : Nat) (hv : v < 2 ^ 8) :
    PackUint8 w s v = w.ret s (uintWire v) := by
  rw [← PackUint16_eq w s v (by omega)]
  unfold PackUint16
  rw [if_neg (by simp only [REGULAR_UINT8_MAX, Nat.shiftLeft_eq]; omega),
    Nat.mod_eq_of_lt hv]

theorem PackUint_eq {σ : Type} (w : Writer σ) (s : σ) (v : Nat) (hv : v < 2 ^ 64) :
    PackUint w s v = PackUint64 w s v := by
  unfold PackUint
  rw [if_neg (by decide), if_pos (by decide), Nat.mod_eq_of_lt hv]

theorem PackInt_eq {σ : Type} (w : Writer σ) (s : σ) (v : Int)
    (hv : -2 ^ 63 ≤ v ∧ v < 2 ^ 63) :
    PackInt w s v = PackInt64 w s v := by
  unfold PackInt
  rw [if_neg (by decide), if_pos (by decide), toSigned_toUnsigned64 v hv]

theorem PackUintArray_eq {σ : Type} (w : Writer σ) (s : σ) (xs : List Nat) :
    PackUintArray w s xs = PackUint64Array w s xs := by
  unfold PackUintArray
  rw [if_neg (by decide), if_pos (by decide)]

theorem PackIntArray_eq {σ : Type} (w : Writer σ) (s : σ) (xs : List Int) :
    PackIntArray w s xs = PackInt64Array w s xs := by
  unfold PackIntArray
  rw [if_neg (by decide), if_pos (by decide)]
theorem Pack_buffer (v : Value) (s : List Nat) (hw : wellTyped v = true) :
    (packable v = true → ∃ n, Pack bufferWriter s v = Packed.ret n none (s ++ packWire v)) ∧
    (packable v = false → ∃ p S, Pack bufferWriter s v = Packed.panic p S) := by
  cases v with
  | slice xs => exact PackValue_buffer (Value.slice xs) s hw
  | map kvs => exact PackValue_buffer (Value.map kvs) s hw
  | reflected v => exact PackValue_buffer (Value.reflected v) s hw
  | Bytes b => exact PackValue_buffer (Value.Bytes b) s hw
  | nil => exact PackValue_buffer Value.nil s hw
  | bool b => exact PackValue_buffer (Value.bool b) s hw
  | bytes b => exact PackValue_buffer (Value.bytes b) s hw
  | string b => exact PackValue_buffer (Value.string b) s hw
  | float64 bits => exact PackValue_buffer (Value.float64 bits) s hw
  | float64s xs => exact PackValue_buffer (Value.float64s xs) s hw
  | uint64 v => exact PackValue_buffer (Value.uint64 v) s hw
  | int64 v => exact PackValue_buffer (Value.int64 v) s hw
  | uint64s xs => exact PackValue_buffer (Value.uint64s xs) s hw
  | int64s xs => exact PackValue_buffer (Value.int64s xs) s hw
  | uint8 v =>
    simp only [wellTyped, decide_eq_true_eq] at hw
    simp only [packable, Pack, packWire, wire, true_implies, reduceCtorEq, false_implies,
      and_true]
    exact ⟨_, by rw [PackUint8_eq _ _ _ hw, bufferWriter_ret]⟩
  | uint16 v =>
    simp only [wellTyped, decide_eq_true_eq] at hw
    simp only [packable, Pack, packWire, wire, true_implies, reduceCtorEq, false_implies,
      and_true]
    exact ⟨_, by rw [PackUint16_eq _ _ _ hw, bufferWriter_ret]⟩
  | uint32 v =>
    simp only [wellTyped, decide_eq_true_eq] at hw
    simp only [packable, Pack, packWire, wire, true_implies, reduceCtorEq, false_implies,
      and_true]
    exact ⟨_, by rw [PackUint32_eq _ _ _ hw, bufferWriter_ret]⟩
  | uint v =>
    simp only [wellTyped, decide_eq_true_eq] at hw
    simp only [packable, Pack, packWire, wire, true_implies, reduceCtorEq, false_implies,
      and_true]
    exact ⟨_, by rw [PackUint_eq _ _ _ hw, PackUint64_eq _ _ _ hw, bufferWriter_ret]⟩
  | int8 v =>
    simp only [wellTyped, decide_eq_true_eq] at hw
    simp only [packable, Pack, packWire, wire, true_implies, reduceCtorEq, false_implies,
      and_true]
    exact ⟨_, by rw [PackInt8_eq _ _ _ hw, bufferWriter_ret]⟩
  | int16 v =>
    simp only [wellTyped, decide_eq_true_eq] at hw
    simp only [packable, Pack, packWire, wire, true_implies, reduceCtorEq, false_implies,
      and_true]
    exact ⟨_, by rw [PackInt16_eq _ _ _ hw, bufferWriter_ret]⟩
  | int32 v =>
    simp only [wellTyped, decide_eq_true_eq] at hw
    simp only [packable, Pack, packWire, wire, true_implies, reduceCtorEq, false_implies,
      and_true]
    exact ⟨_, by rw [PackInt32_eq _ _ _ hw, bufferWriter_ret]⟩
  | int v =>
    simp only [wellTyped, decide_eq_true_eq] at hw
    simp only [packable, Pack, packWire, wire, true_implies, reduceCtorEq, false_implies,
      and_true]
    exact ⟨_, by rw [PackInt_eq _ _ _ hw, PackInt64_eq _ _ _ hw, bufferWriter_ret]⟩
  | float32 bits =>
    simp only [wellTyped, decide_eq_true_eq] at hw
    simp only [packable, Pack, packWire, true_implies, reduceCtorEq, false_implies,
      and_true, PackFloat32]
    exact ⟨_, by rw [PackUint32_eq _ _ _ hw, bufferWriter_ret]⟩
  | uint16s xs =>
    simp only [wellTyped, List.all_eq_true, decide_eq_true_eq] at hw
    simp only [packable, Pack, packWire, wire, true_implies, reduceCtorEq, false_implies,
      and_true, PackUint16Array]
    exact ⟨0, packArrayOf_buffer _ uintWire xs
      (fun x hx s => ⟨_, by rw [PackUint16_eq _ _ _ (hw x hx), bufferWriter_ret]⟩) s⟩
  | uint32s xs =>
    simp only [wellTyped, List.all_eq_true, decide_eq_true_eq] at hw
    simp only [packable, Pack, packWire, wire, true_implies, reduceCtorEq, false_implies,
      and_true, PackUint32Array]
    exact ⟨0, packArrayOf_buffer _ uintWire xs
      (fun x hx s => ⟨_, by rw [PackUint32_eq _ _ _ (hw x hx), bufferWriter_ret]⟩) s⟩
  | uints xs =>
    simp only [wellTyped, List.all_eq_true, decide_eq_true_eq] at hw
    simp only [packable, Pack, packWire, wire, true_implies, reduceCtorEq, false_implies,
      and_true, PackUintArray_eq, PackUint64Array]
    exact ⟨0, packArrayOf_buffer _ uintWire xs
      (fun x hx s => PackUint64_buffer s x (hw x hx)) s⟩
  | int8s xs =>
    simp only [wellTyped, List.all_eq_true, decide_eq_true_eq] at hw
    simp only [packable, Pack, packWire, wire, true_implies, reduceCtorEq, false_implies,
      and_true, PackInt8Array]
    exact ⟨0, packArrayOf_buffer _ intWire xs
      (fun x hx s => ⟨_, by rw [PackInt8_eq _ _ _ (hw x hx), bufferWriter_ret]⟩) s⟩
  | int16s xs =>
    simp only [wellTyped, List.all_eq_true, decide_eq_true_eq] at hw
    simp only [packable, Pack, packWire, wire, true_implies, reduceCtorEq, false_implies,
      and_true, PackInt16Array]
    exact ⟨0, packArrayOf_buffer _ intWire xs
      (fun x hx s => ⟨_, by rw [PackInt16_eq _ _ _ (hw x hx), bufferWriter_ret]⟩) s⟩
  | int32s xs =>
    simp only [wellTyped, List.all_eq_true, decide_eq_true_eq] at hw
    simp only [packable, Pack, packWire, wire, true_implies, reduceCtorEq, false_implies,
      and_true, PackInt32Array]
    exact ⟨0, packArrayOf_buffer _ intWire xs
      (fun x hx s => ⟨_, by rw [PackInt32_eq _ _ _ (hw x hx), bufferWriter_ret]⟩) s⟩
  | ints xs =>
    simp only [wellTyped, List.all_eq_true, decide_eq_true_eq] at hw
    simp only [packable, Pack, packWire, wire, true_implies, reduceCtorEq, false_implies,
      and_true, PackIntArray_eq, PackInt64Array]
    exact ⟨0, packArrayOf_buffer _ intWire xs
      (fun x hx s => PackInt64_buffer s x (hw x hx)) s⟩
  | float32s xs =>
    simp only [wellTyped, List.all_eq_true, decide_eq_true_eq] at hw
    simp only [packable, Pack, packWire, true_implies, reduceCtorEq, false_implies,
      and_true, PackFloat32Array]
    exact ⟨0, packArrayOf_buffer _ uintWire xs
      (fun x hx s => ⟨_, by rw [PackFloat32, PackUint32_eq _ _ _ (hw x hx), bufferWriter_ret]⟩)
      s⟩

theorem Decodes_packWire (v : Value) (hw : wellTyped v = true) (hs : sized v = true)
    (hp : packable v = true) : Decodes (packWire v).length (packWire v) (packExpect v) := by
  cases v with
  | float32 bits =>
    simp only [wellTyped, decide_eq_true_eq] at hw
    exact Decodes_uint bits (by omega)
  | float32s xs =>
    simp only [wellTyped, List.all_eq_true, decide_eq_true_eq] at hw
    simp only [sized, decide_eq_true_eq] at hs
    exact Decodes_arrayOf xs uintWire uintOutcome
      (fun x hx => Decodes_uint x (by have := hw x hx; omega)) hs
  | _ => exact Decodes_wire _ hw hs hp

mutual

theorem packable_of_plain (v : Value) (hp : plain v = true) : packable v = true := by
  cases v with
  | slice xs =>
    simp only [plain] at hp
    simp only [packable]
    exact packableList_of_plain xs hp
  | map kvs =>
    simp only [plain, Bool.and_eq_true] at hp
    simp only [packable]
    exact packableEntries_of_plain kvs hp.2
  | reflected v => simp [plain] at hp
  | Bytes b => simp [plain] at hp
  | _ => rfl

theorem packableList_of_plain (xs : List Value) (hp : plainList xs = true) :
    packableList xs = true := by
  cases xs with
  | nil => rfl
  | cons y rest =>
    simp only [plainList, Bool.and_eq_true] at hp
    simp only [packableList, Bool.and_eq_true]
    exact ⟨packable_of_plain y hp.1, packableList_of_plain rest hp.2⟩

theorem packableEntries_of_plain (kvs : List (Value × Value)) (hp : plainEntries kvs = true) :
    packableEntries kvs = true := by
  cases kvs with
  | nil => rfl
  | cons y rest =>
    obtain ⟨k, v⟩ := y
    cases k with
    | string kb =>
      simp only [plainEntries, Bool.and_eq_true] at hp
      simp only [packableEntries, Bool.and_eq_true]
      exact ⟨rfl, packable_of_plain v hp.1, packableEntries_of_plain rest hp.2⟩
    | _ => simp [plainEntries] at hp

end

theorem packWire_of_plain (v : Value) (hp : plain v = true) :
    packWire v = wire v ∧ packExpect v = expect v := by
  cases v <;> first | exact ⟨rfl, rfl⟩ | simp [plain] at hp

/-- What `Unpack` returns on a source that starts with an encoding, whatever
follows it. -/
theorem Unpack_of_Decodes (E : List Nat) (o : Outcome) (h : Decodes E.length E o)
    (t : List Nat) : Unpack (E ++ t) = o.on t := by
  unfold Unpack
  exact h _ t (by simp only [List.length_append]; omega)

theorem Pack_ret_packable (v : Value) (hw : wellTyped v = true) (n : Nat) (e : Option Error)
    (E : List Nat) (h : Pack bufferWriter [] v = Packed.ret n e E) :
    packable v = true ∧ E = packWire v := by
  cases hp : packable v with
  | false =>
    obtain ⟨p, S, hS⟩ := (Pack_buffer v [] hw).2 hp
    rw [hS] at h; cases h
  | true =>
    obtain ⟨m, hm⟩ := (Pack_buffer v [] hw).1 hp
    rw [hm] at h
    cases h
    exact ⟨rfl, by simp⟩

theorem Unpack_encoding (v : Value) (hw : wellTyped v = true) (hs : sized v = true)
    (h : ∃ n, Pack bufferWriter [] v = Packed.ret n none (encoding v)) (t : List Nat) :
    Unpack (encoding v ++ t) = (packExpect v).on t := by
  obtain ⟨n, hn⟩ := h
  obtain ⟨hp, hE⟩ := Pack_ret_packable v hw n none _ hn
  rw [hE]
  exact Unpack_of_Decodes _ _ (Decodes_packWire v hw hs hp) t

theorem wellTyped_zeros (n : Nat) : wellTyped (Value.bytes (List.replicate n 0)) = true :=
  List.all_eq_true.mpr (fun x hx => by rw [List.eq_of_mem_replicate hx]; rfl)

/-- The bytes `Pack` writes for the byte string of 2^32 zero bytes. -/
theorem Pack_long_bytes :
    Pack bufferWriter [] (Value.bytes (List.replicate 4294967296 0))
      = Packed.ret 4294967301 none (0xdb :: 0 :: 0 :: 0 :: 0 :: List.replicate 4294967296 0) := by
  show PackBytes bufferWriter [] _ = _
  rw [PackBytes_buffer, List.length_replicate]
  rfl

/-! ## Nested values and concatenated encodings -/

/-- C5 (as stated, at a failing input): the byte string of 2^32 zero bytes is a
value of the class `plain`; `Pack` writes it behind the header `db 00 00 00
00`, whose length field holds the low 32 bits of the length, and `Unpack` on
exactly these bytes returns, without error, the empty byte string, which is
not byte-identical to the original. -/
theorem Pack_Unpack_long_bytes_differ :
    plain (Value.bytes (List.replicate 4294967296 0)) = true ∧
      wellTyped (Value.bytes (List.replicate 4294967296 0)) = true ∧
      Pack bufferWriter [] (Value.bytes (List.replicate 4294967296 0))
        = Packed.ret 4294967301 none (0xdb :: 0 :: 0 :: 0 :: 0 :: List.replicate 4294967296 0) ∧
      Unpack (0xdb :: 0 :: 0 :: 0 :: 0 :: List.replicate 4294967296 0)
        = Unpacked.ok (Value.Bytes []) 5 (List.replicate 4294967296 0) ∧
      same (Value.bytes (List.replicate 4294967296 0)) (Value.Bytes []) = false := by
  exact ⟨rfl, wellTyped_zeros _, Pack_long_bytes, unpack_raw32_empty _ false _, rfl⟩

/-- C5 (amended): for every value built, to any nesting depth, from integers,
booleans, byte strings, typed integer arrays, generic arrays and maps with
distinct text keys, in which every byte string, array and map has fewer than
2^32 elements and every map key fewer than 65536 bytes, `Pack` into an empty
buffer reports no error and `Unpack` in flattening mode on exactly the bytes
written returns, without error and with nothing left unread, a value of the
same structure (`same`). -/
theorem Pack_Unpack_nested_roundtrip (v : Value) (hw : wellTyped v = true)
    (hp : plain v = true) (hs : sized v = true) (hk : shortKeys v = true) :
    ∃ n E, Pack bufferWriter [] v = Packed.ret n none E ∧
      ∃ d m, Unpack E = Unpacked.ok d m [] ∧ same v d = true := by
  have hpk := packable_of_plain v hp
  obtain ⟨n, hn⟩ := (Pack_buffer v [] hw).1 hpk
  obtain ⟨hw1, he1⟩ := packWire_of_plain v hp
  obtain ⟨⟨m, hm⟩, hsame, _⟩ := same_expect v hp hw hk
  refine ⟨n, [] ++ packWire v, hn, (expect v).value, m, ?_, hsame⟩
  have := Unpack_of_Decodes _ _ (Decodes_packWire v hw hs hpk) []
  rw [List.append_nil, he1, hm] at this
  rw [List.nil_append, this]
  rfl

theorem Pack_Unpack_nested_roundtrip_witness :
    (wellTyped (Value.slice [Value.map [(Value.string [97],
        Value.slice [Value.int 1000, Value.bool true, Value.bytes [1, 2]])]]) = true ∧
      plain (Value.slice [Value.map [(Value.string [97],
        Value.slice [Value.int 1000, Value.bool true, Value.bytes [1, 2]])]]) = true ∧
      sized (Value.slice [Value.map [(Value.string [97],
        Value.slice [Value.int 1000, Value.bool true, Value.bytes [1, 2]])]]) = true ∧
      shortKeys (Value.slice [Value.map [(Value.string [97],
        Value.slice [Value.int 1000, Value.bool true, Value.bytes [1, 2]])]]) = true) ∧
    ∃ n E, Pack bufferWriter [] (Value.slice [Value.map [(Value.string [97],
        Value.slice [Value.int 1000, Value.bool true, Value.bytes [1, 2]])]])
          = Packed.ret n none E ∧
      ∃ d m, Unpack E = Unpacked.ok d m [] ∧
        same (Value.slice [Value.map [(Value.string [97],
          Value.slice [Value.int 1000, Value.bool true, Value.bytes [1, 2]])]]) d = true :=
  ⟨⟨rfl, rfl, rfl, rfl⟩, Pack_Unpack_nested_roundtrip _ rfl rfl rfl rfl⟩

/-- C9 (as stated, at a failing input): for the byte string of 2^32 zero bytes,
`Unpack` decodes the encoding `E` that `Pack` writes successfully, to the
empty byte string, and on `E` followed by the byte `07` it leaves the 2^32
zero bytes and `07` unread, not `07` alone. -/
theorem Unpack_long_bytes_leaves_payload :
    wellTyped (Value.bytes (List.replicate 4294967296 0)) = true ∧
      Pack bufferWriter [] (Value.bytes (List.replicate 4294967296 0))
        = Packed.ret 4294967301 none (0xdb :: 0 :: 0 :: 0 :: 0 :: List.replicate 4294967296 0) ∧
      Unpack (0xdb :: 0 :: 0 :: 0 :: 0 :: List.replicate 4294967296 0)
        = Unpacked.ok (Value.Bytes []) 5 (List.replicate 4294967296 0) ∧
      Unpack ((0xdb :: 0 :: 0 :: 0 :: 0 :: List.replicate 4294967296 0) ++ [7])
        = Unpacked.ok (Value.Bytes []) 5 (List.replicate 4294967296 0 ++ [7]) := by
  refine ⟨wellTyped_zeros _, Pack_long_bytes, unpack_raw32_empty _ false _, ?_⟩
  rw [List.cons_append, List.cons_append, List.cons_append, List.cons_append, List.cons_append]
  exact unpack_raw32_empty _ false _

theorem Unpack_frame_one (v : Value) (hw : wellTyped v = true) (hs : sized v = true)
    (hpack : ∃ n, Pack bufferWriter [] v = Packed.ret n none (encoding v))
    (hdec : ∃ d m r, Unpack (encoding v) = Unpacked.ok d m r) :
    ∃ d m, ∀ t, Unpack (encoding v ++ t) = Unpacked.ok d m t := by
  have key := Unpack_encoding v hw hs hpack
  obtain ⟨d, m, r, hd⟩ := hdec
  have h0 := key []
  rw [List.append_nil, hd] at h0
  cases ho : packExpect v with
  | good d' m' => exact ⟨d', m', fun t => by rw [key t, ho]; rfl⟩
  | bad p => rw [ho] at h0; cases h0

/-- C9 (amended): let every value of `vs` be one in which every byte string,
array and map has fewer than 2^32 elements, which `Pack` encodes without
error and whose encoding `Unpack` decodes successfully.  Then for each of
them and every byte sequence `t`, `Unpack` on the encoding followed by `t`
returns the same value and count as on the encoding alone and leaves exactly
`t` unread; and calling `Unpack` once per value on the concatenation of the
encodings, whatever bytes `s` follow it, returns the decoded values one by
one, in order, and leaves exactly `s`. -/
theorem Unpack_concatenated (vs : List Value) (s : List Nat)
    (h : ∀ v ∈ vs, wellTyped v = true ∧ sized v = true ∧
      (∃ n, Pack bufferWriter [] v = Packed.ret n none (encoding v)) ∧
      ∃ d m r, Unpack (encoding v) = Unpacked.ok d m r) :
    (∀ v ∈ vs, ∀ t, ∃ d m, Unpack (encoding v) = Unpacked.ok d m [] ∧
        Unpack (encoding v ++ t) = Unpacked.ok d m t) ∧
    ∃ ds, unpackMany vs.length (vs.flatMap encoding ++ s) = some (ds, s) ∧
      List.Forall₂ (fun v d => ∃ m, Unpack (encoding v) = Unpacked.ok d m []) vs ds := by
  constructor
  · intro v hv t
    obtain ⟨hw, hs, hpack, hdec⟩ := h v hv
    obtain ⟨d, m, hdm⟩ := Unpack_frame_one v hw hs hpack hdec
    refine ⟨d, m, ?_, hdm t⟩
    have := hdm []
    rwa [List.append_nil] at this
  · induction vs with
    | nil => exact ⟨[], by simp [unpackMany], List.Forall₂.nil⟩
    | cons v rest ih =>
      obtain ⟨hw, hs, hpack, hdec⟩ := h v (List.mem_cons_self _ _)
      obtain ⟨d, m, hdm⟩ := Unpack_frame_one v hw hs hpack hdec
      obtain ⟨ds, hds, hall⟩ := ih (fun x hx => h x (List.mem_cons_of_mem _ hx))
      refine ⟨d :: ds, ?_, List.Forall₂.cons ⟨m, ?_⟩ hall⟩
      · simp only [List.length_cons, List.flatMap_cons, List.append_assoc, unpackMany, hdm, hds]
      · have := hdm []
        rwa [List.append_nil] at this

theorem Unpack_concatenated_witness :
    (∀ v ∈ [Value.int 1000, Value.slice [Value.bool true, Value.bytes [1, 2]]],
      wellTyped v = true ∧ sized v = true ∧
      (∃ n, Pack bufferWriter [] v = Packed.ret n none (encoding v)) ∧
      ∃ d m r, Unpack (encoding v) = Unpacked.ok d m r) ∧
    ((∀ v ∈ [Value.int 1000, Value.slice [Value.bool true, Value.bytes [1, 2]]],
      ∀ t, ∃ d m, Unpack (encoding v) = Unpacked.ok d m [] ∧
        Unpack (encoding v ++ t) = Unpacked.ok d m t) ∧
    ∃ ds, unpackMany [Value.int 1000, Value.slice [Value.bool true, Value.bytes [1, 2]]].length
        ([Value.int 1000, Value.slice [Value.bool true, Value.bytes [1, 2]]].flatMap encoding
          ++ [7])
        = some (ds, [7]) ∧
      List.Forall₂ (fun v d => ∃ m, Unpack (encoding v) = Unpacked.ok d m [])
        [Value.int 1000, Value.slice [Value.bool true, Value.bytes [1, 2]]] ds) :=
  have hyp : ∀ v ∈ [Value.int 1000, Value.slice [Value.bool true, Value.bytes [1, 2]]],
      wellTyped v = true ∧ sized v = true ∧
      (∃ n, Pack bufferWriter [] v = Packed.ret n none (encoding v)) ∧
      ∃ d m r, Unpack (encoding v) = Unpacked.ok d m r := by
    intro v hv
    simp only [List.mem_cons, List.mem_singleton, List.not_mem_nil, or_false] at hv
    rcases hv with rfl | rfl
    · exact ⟨rfl, rfl, ⟨_, rfl⟩, ⟨_, _, _, rfl⟩⟩
    · exact ⟨rfl, rfl, ⟨_, rfl⟩, ⟨_, _, _, rfl⟩⟩
  ⟨hyp, Unpack_concatenated _ [7] hyp⟩

/-! ## Signed integers: wire form by range -/

/-- C11: for every signed 64-bit value `v`, `PackInt64` issues one write of
exactly: the two's-complement byte of `v` when `-32 ≤ v ≤ 127`; `0xd0` and
that byte when `-128 ≤ v ≤ -33`; `0xd1` and the 16-bit pattern of `v` as 2
big-endian bytes when `v` is in `[-32768, 32767]` but outside `[-128, 127]`;
`0xd2` and the 32-bit pattern as 4 big-endian bytes when `v` is in
`[-2^31, 2^31 - 1]` but outside `[-32768, 32767]`; `0xd3` and the 64-bit
pattern as 8 big-endian bytes otherwise; so 1, 2, 3, 5 or 9 bytes. -/
theorem PackInt64_wire {σ : Type} (w : Writer σ) (s : σ) (v : Int)
    (hv : -2 ^ 63 ≤ v ∧ v < 2 ^ 63) :
    (-32 ≤ v ∧ v ≤ 127 → PackInt64 w s v = w.ret s [toUnsigned 8 v]) ∧
    (-128 ≤ v ∧ v ≤ -33 → PackInt64 w s v = w.ret s [0xd0, toUnsigned 8 v]) ∧
    (-32768 ≤ v ∧ v ≤ 32767 ∧ ¬ (-128 ≤ v ∧ v ≤ 127) →
      PackInt64 w s v = w.ret s (0xd1 :: bigEndian 2 (toUnsigned 16 v))) ∧
    (-2 ^ 31 ≤ v ∧ v ≤ 2 ^ 31 - 1 ∧ ¬ (-32768 ≤ v ∧ v ≤ 32767) →
      PackInt64 w s v = w.ret s (0xd2 :: bigEndian 4 (toUnsigned 32 v))) ∧
    (¬ (-2 ^ 31 ≤ v ∧ v ≤ 2 ^ 31 - 1) →
      PackInt64 w s v = w.ret s (0xd3 :: bigEndian 8 (toUnsigned 64 v))) ∧
    (∃ p, PackInt64 w s v = w.ret s p ∧ p.length ∈ [1, 2, 3, 5, 9]) := by
  rw [PackInt64_eq w s v hv]
  unfold intWire
  simp only [bigEndian, INT8, INT16, INT32, INT64]
  norm_num
  refine ⟨?_, ?_, ?_, ?_, ?_, ?_⟩
  · intro h1 h2; rw [if_pos (by omega)]
  · intro h1 h2; rw [if_neg (by omega), if_pos (by omega)]
  · intro h1 h2 h3; rw [if_neg (by omega), if_neg (by omega), if_pos (by omega)]
  · intro h1 h2 h3
    rw [if_neg (by omega), if_neg (by omega), if_neg (by omega), if_pos (by omega)]
  · intro h1
    rw [if_neg (by omega), if_neg (by omega), if_neg (by omega), if_neg (by omega)]
  · refine ⟨_, rfl, ?_⟩
    split_ifs <;> simp

theorem PackInt64_wire_witness :
    (-2 ^ 63 ≤ (1000 : Int) ∧ (1000 : Int) < 2 ^ 63) ∧
      PackInt64 bufferWriter [] 1000 = bufferWriter.ret [] [0xd1, 3, 232] ∧
      (-2 ^ 63 ≤ (100 : Int) ∧ (100 : Int) < 2 ^ 63) ∧
      PackInt64 bufferWriter [] 100 = bufferWriter.ret [] [100] ∧
      (-2 ^ 63 ≤ (-33 : Int) ∧ (-33 : Int) < 2 ^ 63) ∧
      PackInt64 bufferWriter [] (-33) = bufferWriter.ret [] [0xd0, 223] :=
  ⟨by norm_num, (PackInt64_wire bufferWriter [] 1000 (by norm_num)).2.2.1 (by norm_num),
    by norm_num, (PackInt64_wire bufferWriter [] 100 (by norm_num)).1 (by norm_num),
    by norm_num, (PackInt64_wire bufferWriter [] (-33) (by norm_num)).2.1 (by norm_num)⟩

/-! ## Headers of byte strings, arrays and maps -/

theorem rawHeader_tiers (L : Nat) (hL : L < 2 ^ 32) :
    (L ≤ 31 → rawHeader L = [0xa0 ||| L]) ∧
    (32 ≤ L ∧ L ≤ 65535 → rawHeader L = 0xda :: bigEndian 2 L) ∧
    (65536 ≤ L → rawHeader L = 0xdb :: bigEndian 4 L) := by
  unfold rawHeader
  simp only [MAXFIXRAW, MAX16BIT, FIXRAW, RAW16, RAW32, byte, bigEndian,
    Nat.shiftRight_eq_div_pow, Nat.shiftLeft_eq]
  norm_num
  refine ⟨?_, ?_, ?_⟩
  · intro h; rw [if_pos (by omega), Nat.mod_eq_of_lt (by omega)]
  · intro h1 h2; rw [if_neg (by omega), if_pos (by omega)]
  · intro h1; rw [if_neg (by omega), if_neg (by omega)]

theorem arrayHeader_tiers (k : Nat) (hk : k < 2 ^ 32) :
    (k ≤ 15 → arrayHeader k = [0x90 ||| k]) ∧
    (16 ≤ k ∧ k ≤ 65535 → arrayHeader k = 0xdc :: bigEndian 2 k) ∧
    (65536 ≤ k → arrayHeader k = 0xdd :: bigEndian 4 k) := by
  unfold arrayHeader
  simp only [MAXFIXARRAY, MAX16BIT, FIXARRAY, ARRAY16, ARRAY32, byte, bigEndian,
    Nat.shiftRight_eq_div_pow, Nat.shiftLeft_eq]
  norm_num
  refine ⟨?_, ?_, ?_⟩
  · intro h; rw [if_pos (by omega), Nat.mod_eq_of_lt (by omega)]
  · intro h1 h2; rw [if_neg (by omega), if_pos (by omega)]
  · intro h1; rw [if_neg (by omega), if_neg (by omega)]

theorem mapHeader_tiers (k : Nat) (hk : k < 2 ^ 32) :
    (k ≤ 15 → mapHeader k = [0x80 ||| k]) ∧
    (16 ≤ k ∧ k ≤ 65535 → mapHeader k = 0xde :: bigEndian 2 k) ∧
    (65536 ≤ k → mapHeader k = 0xdf :: bigEndian 4 k) := by
  unfold mapHeader
  simp only [MAXFIXMAP, MAX16BIT, FIXMAP, MAP16, MAP32, byte, bigEndian,
    Nat.shiftRight_eq_div_pow, Nat.shiftLeft_eq]
  norm_num
  refine ⟨?_, ?_, ?_⟩
  · intro h; rw [if_pos (by omega), Nat.mod_eq_of_lt (by omega)]
  · intro h1 h2; rw [if_neg (by omega), if_pos (by omega)]
  · intro h1; rw [if_neg (by omega), if_neg (by omega)]

/-- C14: for every byte string `b` of length `L < 2^32` and every buffer
contents `s`, `PackBytes` appends a header chosen by `L` alone and then the
bytes of `b` unchanged, and returns the header size plus `L`: the header is
the byte `0xa0 | L` when `L ≤ 31`, `0xda` and `L` as 2 big-endian bytes when
`32 ≤ L ≤ 65535`, `0xdb` and `L` as 4 big-endian bytes when `L ≥ 65536`. -/
theorem PackBytes_wire (s b : List Nat) (hb : b.length < 2 ^ 32) :
    (b.length ≤ 31 → PackBytes bufferWriter s b
      = Packed.ret (1 + b.length) none (s ++ [0xa0 ||| b.length] ++ b)) ∧
    (32 ≤ b.length ∧ b.length ≤ 65535 → PackBytes bufferWriter s b
      = Packed.ret (3 + b.length) none (s ++ 0xda :: bigEndian 2 b.length ++ b)) ∧
    (65536 ≤ b.length → PackBytes bufferWriter s b
      = Packed.ret (5 + b.length) none (s ++ 0xdb :: bigEndian 4 b.length ++ b)) := by
  have h := rawHeader_tiers b.length hb
  rw [PackBytes_buffer]
  refine ⟨?_, ?_, ?_⟩
  · intro h1; rw [h.1 h1]; rfl
  · intro h1; rw [h.2.1 h1]; simp [bigEndian]
  · intro h1; rw [h.2.2 h1]; simp [bigEndian]

theorem PackBytes_wire_witness :
    [104, 105, 33].length < 2 ^ 32 ∧
      PackBytes bufferWriter [] [104, 105, 33] = Packed.ret 4 none [0xa3, 104, 105, 33] :=
  ⟨by norm_num, (PackBytes_wire [] [104, 105, 33] (by norm_num)).1 (by norm_num)⟩

/-! ## Integer tags with a whole payload -/

theorem length_eq_four {p : List Nat} (h : p.length = 4) : ∃ a b c d, p = [a, b, c, d] := by
  rcases p with _ | ⟨a, _ | ⟨b, _ | ⟨c, _ | ⟨d, _ | ⟨e, p⟩⟩⟩⟩⟩ <;> simp at h
  exact ⟨a, b, c, d, rfl⟩

theorem length_eq_eight {p : List Nat} (h : p.length = 8) :
    ∃ a b c d e f g i, p = [a, b, c, d, e, f, g, i] := by
  rcases p with _ | ⟨a, _ | ⟨b, _ | ⟨c, _ | ⟨d, _ | ⟨e, _ | ⟨f, _ | ⟨g, _ | ⟨i, _ | ⟨j, p⟩⟩⟩⟩⟩⟩⟩⟩⟩
    <;> simp at h
  exact ⟨a, b, c, d, e, f, g, i, rfl⟩

theorem fromBigEndian_one (a : Nat) : fromBigEndian [a] = a := by
  simp [fromBigEndian]

theorem fromBigEndian_two (a b : Nat) : fromBigEndian [a, b] = a * 2 ^ 8 + b := by
  simp [fromBigEndian]

theorem fromBigEndian_four (a b c d : Nat) :
    fromBigEndian [a, b, c, d] = a * 2 ^ 24 + b * 2 ^ 16 + c * 2 ^ 8 + d := by
  simp only [fromBigEndian, List.length_cons, List.length_nil]
  norm_num
  ring

theorem fromBigEndian_eight (a b c d e f g i : Nat) :
    fromBigEndian [a, b, c, d, e, f, g, i]
      = a * 2 ^ 56 + b * 2 ^ 48 + c * 2 ^ 40 + d * 2 ^ 32 + e * 2 ^ 24 + f * 2 ^ 16
        + g * 2 ^ 8 + i := by
  simp only [fromBigEndian, List.length_cons, List.length_nil]
  norm_num
  ring

theorem Unpack_cons (c : Nat) (r : List Nat) :
    Unpack (c :: r) = unpack (r.length + 1 + 1) false (c :: r) := rfl

/-- C18: behind every integer tag, with a payload of the declared width, `Unpack`
returns the integer the bytes spell, minimal or not, and leaves what follows:
a first byte `c < 0x80` or `c ≥ 0xe0` yields the int8 whose two's-complement
byte is `c`, with count 1; `0xcc`, `0xcd`, `0xce`, `0xcf` followed by 1, 2, 4, 8
bytes yield the uint8, uint16, uint32, uint64 equal to those bytes read
big-endian; `0xd0`, `0xd1`, `0xd2`, `0xd3` followed by 1, 2, 4, 8 bytes yield the
int8, int16, int32, int64 whose two's-complement pattern is those bytes read
big-endian; the count is 1 plus the payload width. -/
theorem Unpack_integer_tags (c : Nat) (p r : List Nat) (hp : ∀ x ∈ p, x < 256) :
    (c < 0x80 ∨ 0xe0 ≤ c → Unpack (c :: r) = Unpacked.ok (Value.int8 (toSigned 8 c)) 1 r) ∧
    (p.length = 1 →
      Unpack (0xcc :: (p ++ r)) = Unpacked.ok (Value.uint8 (fromBigEndian p)) (1 + 1) r ∧
      Unpack (0xd0 :: (p ++ r))
        = Unpacked.ok (Value.int8 (toSigned 8 (fromBigEndian p))) (1 + 1) r) ∧
    (p.length = 2 →
      Unpack (0xcd :: (p ++ r)) = Unpacked.ok (Value.uint16 (fromBigEndian p)) (1 + 2) r ∧
      Unpack (0xd1 :: (p ++ r))
        = Unpacked.ok (Value.int16 (toSigned 16 (fromBigEndian p))) (1 + 2) r) ∧
    (p.length = 4 →
      Unpack (0xce :: (p ++ r)) = Unpacked.ok (Value.uint32 (fromBigEndian p)) (1 + 4) r ∧
      Unpack (0xd2 :: (p ++ r))
        = Unpacked.ok (Value.int32 (toSigned 32 (fromBigEndian p))) (1 + 4) r) ∧
    (p.length = 8 →
      Unpack (0xcf :: (p ++ r)) = Unpacked.ok (Value.uint64 (fromBigEndian p)) (1 + 8) r ∧
      Unpack (0xd3 :: (p ++ r))
        = Unpacked.ok (Value.int64 (toSigned 64 (fromBigEndian p))) (1 + 8) r) := by
  refine ⟨?_, ?_, ?_, ?_, ?_⟩
  · intro h
    rw [Unpack_cons]
    exact unpack_fixnum _ _ _ _ h
  · intro h
    obtain ⟨a, rfl⟩ := List.length_eq_one.mp h
    rw [fromBigEndian_one, Unpack_cons, Unpack_cons]
    exact ⟨unpack_uint8 _ false a r, unpack_int8 _ false a r⟩
  · intro h
    obtain ⟨a, b, rfl⟩ := List.length_eq_two.mp h
    rw [fromBigEndian_two, Unpack_cons, Unpack_cons]
    exact ⟨unpack_uint16 _ false a b r (hp a (by simp)) (hp b (by simp)),
      unpack_int16 _ false a b r (hp a (by simp)) (hp b (by simp))⟩
  · intro h
    obtain ⟨a, b, c', d, rfl⟩ := length_eq_four h
    rw [fromBigEndian_four, Unpack_cons, Unpack_cons]
    exact ⟨unpack_uint32 _ false a b c' d r (hp a (by simp)) (hp b (by simp)) (hp c' (by simp))
        (hp d (by simp)),
      unpack_int32 _ false a b c' d r (hp a (by simp)) (hp b (by simp)) (hp c' (by simp))
        (hp d (by simp))⟩
  · intro h
    obtain ⟨a, b, c', d, e, f, g, i, rfl⟩ := length_eq_eight h
    rw [fromBigEndian_eight, Unpack_cons, Unpack_cons]
    exact ⟨unpack_uint64 _ false a b c' d e f g i r (hp a (by simp)) (hp b (by simp))
        (hp c' (by simp)) (hp d (by simp)) (hp e (by simp)) (hp f (by simp)) (hp g (by simp))
        (hp i (by simp)),
      unpack_int64 _ false a b c' d e f g i r (hp a (by simp)) (hp b (by simp))
        (hp c' (by simp)) (hp d (by simp)) (hp e (by simp)) (hp f (by simp)) (hp g (by simp))
        (hp i (by simp))⟩

theorem Unpack_integer_tags_witness :
    (∀ x ∈ [0xff, 0xfe], x < 256) ∧ [0xff, 0xfe].length = 2 ∧
      Unpack (0xcd :: ([0xff, 0xfe] ++ [7]))
        = Unpacked.ok (Value.uint16 (fromBigEndian [0xff, 0xfe])) (1 + 2) [7] ∧
      Unpack (0xd1 :: ([0xff, 0xfe] ++ [7]))
        = Unpacked.ok (Value.int16 (toSigned 16 (fromBigEndian [0xff, 0xfe]))) (1 + 2) [7] ∧
      fromBigEndian [0xff, 0xfe] = 65534 ∧ toSigned 16 65534 = -2 :=
  ⟨by decide, rfl,
    ((Unpack_integer_tags 0 [0xff, 0xfe] [7] (by decide)).2.2.1 rfl).1,
    ((Unpack_integer_tags 0 [0xff, 0xfe] [7] (by decide)).2.2.1 rfl).2,
    by decide, by decide⟩

/-! ## What `PackMap` writes -/

theorem wellTypedEntries_mem (kvs : List (Value × Value)) (h : wellTypedEntries kvs = true) :
    ∀ kv ∈ kvs, wellTyped kv.1 = true ∧ wellTyped kv.2 = true := by
  induction kvs with
  | nil => intro kv hkv; cases hkv
  | cons a rest ih =>
    obtain ⟨k, v⟩ := a
    simp only [wellTypedEntries, Bool.and_eq_true] at h
    intro kv hkv
    rcases List.mem_cons.mp hkv with e | e
    · rw [e]; exact ⟨h.1, h.2.1⟩
    · exact ih h.2.2 kv e

theorem packableEntries_mem (kvs : List (Value × Value)) (h : packableEntries kvs = true) :
    ∀ kv ∈ kvs, packable kv.1 = true ∧ packable kv.2 = true := by
  induction kvs with
  | nil => intro kv hkv; cases hkv
  | cons a rest ih =>
    obtain ⟨k, v⟩ := a
    simp only [packableEntries, Bool.and_eq_true] at h
    intro kv hkv
    rcases List.mem_cons.mp hkv with e | e
    · rw [e]; exact ⟨h.1, h.2.1⟩
    · exact ih h.2.2 kv e

theorem wellTypedList_mem (xs : List Value) (h : wellTypedList xs = true) :
    ∀ x ∈ xs, wellTyped x = true := by
  induction xs with
  | nil => intro x hx; cases hx
  | cons a rest ih =>
    simp only [wellTypedList, Bool.and_eq_true] at h
    intro x hx
    rcases List.mem_cons.mp hx with e | e
    · rw [e]; exact h.1
    · exact ih h.2 x e

theorem packableList_mem (xs : List Value) (h : packableList xs = true) :
    ∀ x ∈ xs, packable x = true := by
  induction xs with
  | nil => intro x hx; cases hx
  | cons a rest ih =>
    simp only [packableList, Bool.and_eq_true] at h
    intro x hx
    rcases List.mem_cons.mp hx with e | e
    · rw [e]; exact h.1
    · exact ih h.2 x e

/-- What `PackValue` leaves in an empty buffer, for a value it can encode. -/
theorem PackValue_sink (x : Value) (hw : wellTyped x = true) (hp : packable x = true) :
    (PackValue bufferWriter [] x).sink = wire x := by
  obtain ⟨n, hn⟩ := (PackValue_buffer x [] hw).1 hp
  rw [hn]; simp [Packed.sink]

theorem flatMap_congr_mem {α : Type} (f g : α → List Nat) (xs : List α)
    (h : ∀ x ∈ xs, f x = g x) : xs.flatMap f = xs.flatMap g := by
  induction xs with
  | nil => rfl
  | cons a rest ih =>
    simp only [List.flatMap_cons]
    rw [h a (by simp), ih (fun x hx => h x (List.mem_cons_of_mem _ hx))]

theorem PackMap_buffer (s : List Nat) (kvs : List (Value × Value))
    (hw : wellTypedEntries kvs = true) :
    (packableEntries kvs = true → PackMap bufferWriter s kvs
      = Packed.ret 0 none (s ++ (mapHeader kvs.length ++ kvs.flatMap (fun kv =>
          (PackValue bufferWriter [] kv.1).sink ++ (PackValue bufferWriter [] kv.2).sink)))) ∧
    (packableEntries kvs = false → ∃ p S, PackMap bufferWriter s kvs = Packed.panic p S) := by
  constructor
  · intro hp
    have e : kvs.flatMap (fun kv =>
        (PackValue bufferWriter [] kv.1).sink ++ (PackValue bufferWriter [] kv.2).sink)
        = wireEntries kvs := by
      rw [wireEntries_eq]
      apply flatMap_congr_mem
      intro kv hkv
      have h1 := wellTypedEntries_mem kvs hw kv hkv
      have h2 := packableEntries_mem kvs hp kv hkv
      rw [PackValue_sink kv.1 h1.1 h2.1, PackValue_sink kv.2 h1.2 h2.2]
    rw [e]
    exact mapBlock_buffer s kvs.length _ _
      (fun n s' => (packMapLoop_buffer kvs n s' hw).1 hp)
  · intro hp
    exact mapBlock_buffer_panic s kvs.length _
      (fun n s' => (packMapLoop_buffer kvs n s' hw).2 hp)

theorem indexed_of_distinct (m : List (Value × Value)) (hd : keysDistinct m = true)
    (hr : ∀ e ∈ m, keyEq e.1 e.1 = true) : indexed m = m := by
  unfold indexed
  conv_rhs => rw [← List.map_id m]
  apply List.map_congr_left
  intro kv hkv
  rw [mapIndex_of_distinct m hd hr kv hkv]
  rfl

/-- C16 (as stated, at failing inputs): for a map whose one entry has a value of
a type `PackValue` does not pack (a `Bytes`, a `reflect.Value` struct),
`PackMap` writes the header and the key, `81 a1 61`, and ends abruptly.  For a
map whose one key is a NaN, under which the value 1 is stored, `MapIndex` finds
no entry and `PackMap` writes `c0` behind the key, not the encoding `01` of the
value. -/
theorem PackMap_partial_entry :
    PackMap bufferWriter [] (indexed [(Value.string [0x61], Value.Bytes [0x01])])
      = Packed.panic Panic.typeAssertion [0x81, 0xa1, 0x61] ∧
    PackMap bufferWriter [] (indexed [(Value.string [0x61], Value.reflected (Value.int 1))])
      = Packed.panic Panic.unsupportedType [0x81, 0xa1, 0x61] ∧
    PackMap bufferWriter [] (indexed [(Value.float64 0x7ff8000000000001, Value.int 1)])
      = Packed.ret 0 none [0x81, 0xcf, 0x7f, 0xf8, 0x00, 0x00, 0x00, 0x00, 0x00, 0x01, 0xc0] ∧
    (PackValue bufferWriter [] (Value.int 1)).sink = [0x01] :=
  ⟨rfl, rfl, rfl, rfl⟩

/-- C16 (amended): for every map of `k < 2^32` entries whose keys are equal to
themselves (booleans, integers, floats other than NaN, strings), given as the
list of its entries, with pairwise different keys, in the order of `MapKeys()`,
and for which `PackMap` returns, `PackMap` appends to the buffer a header chosen
by `k` alone, the byte `0x80 | k` when `k ≤ 15`, `0xde` and `k` as 2 big-endian
bytes when `16 ≤ k ≤ 65535`, `0xdf` and `k` as 4 big-endian bytes when
`k ≥ 65536`, and then, for each entry once, in that order, the encoding of the
key immediately followed by the encoding of its value. -/
theorem PackMap_wire (s : List Nat) (m : List (Value × Value))
    (hw : wellTypedEntries m = true) (hk : m.length < 2 ^ 32)
    (hd : keysDistinct m = true) (hr : ∀ e ∈ m, keyEq e.1 e.1 = true)
    (hret : ∃ n e S, PackMap bufferWriter s (indexed m) = Packed.ret n e S) :
    (m.length ≤ 15 → ∃ n, PackMap bufferWriter s (indexed m)
      = Packed.ret n none (s ++ ([0x80 ||| m.length] ++ m.flatMap (fun kv =>
          (PackValue bufferWriter [] kv.1).sink ++ (PackValue bufferWriter [] kv.2).sink)))) ∧
    (16 ≤ m.length ∧ m.length ≤ 65535 → ∃ n, PackMap bufferWriter s (indexed m)
      = Packed.ret n none (s ++ (0xde :: bigEndian 2 m.length ++ m.flatMap (fun kv =>
          (PackValue bufferWriter [] kv.1).sink ++ (PackValue bufferWriter [] kv.2).sink)))) ∧
    (65536 ≤ m.length → ∃ n, PackMap bufferWriter s (indexed m)
      = Packed.ret n none (s ++ (0xdf :: bigEndian 4 m.length ++ m.flatMap (fun kv =>
          (PackValue bufferWriter [] kv.1).sink ++ (PackValue bufferWriter [] kv.2).sink)))) := by
  rw [indexed_of_distinct m hd hr] at hret ⊢
  have hp : packableEntries m = true := by
    cases hp : packableEntries m with
    | true => rfl
    | false =>
      obtain ⟨p, S, hS⟩ := (PackMap_buffer s m hw).2 hp
      obtain ⟨n, e, S', hS'⟩ := hret
      rw [hS] at hS'; cases hS'
  have h := (PackMap_buffer s m hw).1 hp
  have ht := mapHeader_tiers m.length hk
  refine ⟨?_, ?_, ?_⟩
  · intro h1; rw [← ht.1 h1]; exact ⟨0, h⟩
  · intro h1; rw [← ht.2.1 h1]; exact ⟨0, h⟩
  · intro h1; rw [← ht.2.2 h1]; exact ⟨0, h⟩

theorem PackMap_wire_witness :
    (wellTypedEntries [(Value.string [0x61], Value.int 1), (Value.string [0x62],
        Value.slice [Value.int 1, Value.int 2, Value.int 3])] = true ∧
      [(Value.string [0x61], Value.int 1), (Value.string [0x62],
        Value.slice [Value.int 1, Value.int 2, Value.int 3])].length < 2 ^ 32 ∧
      keysDistinct [(Value.string [0x61], Value.int 1), (Value.string [0x62],
        Value.slice [Value.int 1, Value.int 2, Value.int 3])] = true ∧
      (∀ e ∈ [(Value.string [0x61], Value.int 1), (Value.string [0x62],
        Value.slice [Value.int 1, Value.int 2, Value.int 3])], keyEq e.1 e.1 = true) ∧
      ∃ n e S, PackMap bufferWriter [] (indexed [(Value.string [0x61], Value.int 1),
        (Value.string [0x62], Value.slice [Value.int 1, Value.int 2, Value.int 3])])
          = Packed.ret n e S) ∧
    ∃ n, PackMap bufferWriter [] (indexed [(Value.string [0x61], Value.int 1),
        (Value.string [0x62], Value.slice [Value.int 1, Value.int 2, Value.int 3])])
      = Packed.ret n none [0x82, 0xa1, 0x61, 0x01, 0xa1, 0x62, 0x93, 0x01, 0x02, 0x03] :=
  have hr : ∀ e ∈ [(Value.string [0x61], Value.int 1), (Value.string [0x62],
      Value.slice [Value.int 1, Value.int 2, Value.int 3])], keyEq e.1 e.1 = true := by
    intro e he
    simp only [List.mem_cons, List.mem_singleton, List.not_mem_nil, or_false] at he
    rcases he with rfl | rfl
    · rfl
    · rfl
  ⟨⟨rfl, by norm_num, rfl, hr, ⟨0, none, _, rfl⟩⟩,
    (PackMap_wire [] [(Value.string [0x61], Value.int 1), (Value.string [0x62],
      Value.slice [Value.int 1, Value.int 2, Value.int 3])] rfl (by norm_num) rfl hr
      ⟨0, none, _, rfl⟩).1 (by norm_num)⟩

/-! ## What `Pack` writes for a sequence -/

theorem encoding_eq (x : Value) (hw : wellTyped x = true) (hp : packable x = true) :
    encoding x = packWire x := by
  obtain ⟨n, hn⟩ := (Pack_buffer x [] hw).1 hp
  unfold encoding
  rw [hn]; simp [Packed.sink]

theorem packWire_eq_wire (x : Value) (h : narrowFloat x = false) : packWire x = wire x := by
  cases x <;> first | rfl | simp [narrowFloat] at h

/-- The bytes written for the elements of a typed sequence are those `Pack`
writes for each element. -/
theorem typed_elements {α : Type} (xs : List α) (mk : α → Value) (enc : α → List Nat)
    (h : ∀ x ∈ xs, wellTyped (mk x) = true ∧ packable (mk x) = true ∧ packWire (mk x) = enc x) :
    (xs.map mk).flatMap encoding = xs.flatMap enc := by
  rw [List.flatMap_map]
  apply flatMap_congr_mem
  intro x hx
  obtain ⟨h1, h2, h3⟩ := h x hx
  rw [encoding_eq _ h1 h2, h3]

/-- The bytes written for the elements of a generic sequence. -/
theorem generic_elements (xs : List Value) (hw : wellTypedList xs = true)
    (hp : packableList xs = true) :
    xs.flatMap (fun x => if narrowFloat x = true then (PackValue bufferWriter [] x).sink
      else encoding x) = wireList xs := by
  rw [wireList_eq]
  apply flatMap_congr_mem
  intro x hx
  have h1 := wellTypedList_mem xs hw x hx
  have h2 := packableList_mem xs hp x hx
  by_cases h : narrowFloat x = true
  · rw [if_pos h, PackValue_sink x h1 h2]
  · rw [if_neg h, encoding_eq x h1 h2, packWire_eq_wire x (by simpa using h)]

theorem Pack_sequence_buffer (s : List Nat) (v : Value) (xs : List Value)
    (he : elements v = some xs) (hw : wellTyped v = true)
    (hret : ∃ n e S, Pack bufferWriter s v = Packed.ret n e S) :
    ∃ n, Pack bufferWriter s v = Packed.ret n none (s ++ (arrayHeader xs.length ++
      xs.flatMap (fun x => if (generic v && narrowFloat x) = true
        then (PackValue bufferWriter [] x).sink else encoding x))) := by
  have hp : packable v = true := by
    cases hp : packable v with
    | true => rfl
    | false =>
      obtain ⟨p, S, hS⟩ := (Pack_buffer v s hw).2 hp
      obtain ⟨n, e, S', hS'⟩ := hret
      rw [hS] at hS'; cases hS'
  obtain ⟨n, hn⟩ := (Pack_buffer v s hw).1 hp
  refine ⟨n, ?_⟩
  rw [hn]
  congr 2
  cases v <;> simp only [elements, Option.some.injEq, reduceCtorEq] at he <;> subst he <;>
    simp only [generic, Bool.false_and, Bool.true_and, Bool.false_eq_true, if_false,
      List.length_map, packWire, wire] <;> congr 1
  all_goals first
    | exact (generic_elements _ hw hp).symm
    | (symm
       apply typed_elements
       intro x hx
       simp only [wellTyped, List.all_eq_true] at hw
       exact ⟨by simpa [wellTyped] using hw x hx, rfl, rfl⟩)

/-- C15 (as stated, at a failing input): for the generic one-element sequence
holding the float32 1.0, `Pack` writes the header `91` and then `cf 3f f0 00 00
00 00 00 00`, the element widened to float64 by `PackValue`, whereas for the
element alone `Pack` writes `ce 3f 80 00 00`; so the bytes behind the header
are not the bytes `Pack` writes for the element. -/
theorem Pack_generic_float32_element :
    elements (Value.slice [Value.float32 0x3f800000]) = some [Value.float32 0x3f800000] ∧
      Pack bufferWriter [] (Value.slice [Value.float32 0x3f800000])
        = Packed.ret 0 none [0x91, 0xcf, 0x3f, 0xf0, 0, 0, 0, 0, 0, 0] ∧
      Pack bufferWriter [] (Value.float32 0x3f800000)
        = Packed.ret 5 none [0xce, 0x3f, 0x80, 0, 0] ∧
      [0x91] ++ [Value.float32 0x3f800000].flatMap encoding = [0x91, 0xce, 0x3f, 0x80, 0, 0] ∧
      (Pack bufferWriter [] (Value.slice [Value.float32 0x3f800000])).sink
        ≠ [0x91] ++ [Value.float32 0x3f800000].flatMap encoding := by
  refine ⟨rfl, rfl, rfl, rfl, ?_⟩
  rw [show (Pack bufferWriter [] (Value.slice [Value.float32 0x3f800000])).sink
      = [0x91, 0xcf, 0x3f, 0xf0, 0, 0, 0, 0, 0, 0] from rfl,
    show [0x91] ++ [Value.float32 0x3f800000].flatMap encoding
      = [0x91, 0xce, 0x3f, 0x80, 0, 0] from rfl]
  decide

/-- C15 (amended): for every sequence `v` of `k < 2^32` elements that is not a
byte string and for which `Pack` returns, `Pack` appends to the buffer a
header chosen by `k` alone, the byte `0x90 | k` when `k ≤ 15`, `0xdc` and `k`
as 2 big-endian bytes when `16 ≤ k ≤ 65535`, `0xdd` and `k` as 4 big-endian
bytes when `k ≥ 65536`, and then, in index order, for each element exactly the
bytes `Pack` writes for it, except that a float32 or `[]float32` element of a
generic sequence is written as `PackValue` writes it, widened to float64. -/
theorem Pack_sequence_wire (s : List Nat) (v : Value) (xs : List Value)
    (he : elements v = some xs) (hw : wellTyped v = true) (hk : xs.length < 2 ^ 32)
    (hret : ∃ n e S, Pack bufferWriter s v = Packed.ret n e S) :
    ∃ hdr n, Pack bufferWriter s v = Packed.ret n none (s ++ (hdr ++
        xs.flatMap (fun x => if (generic v && narrowFloat x) = true
          then (PackValue bufferWriter [] x).sink else encoding x))) ∧
      (xs.length ≤ 15 → hdr = [0x90 ||| xs.length]) ∧
      (16 ≤ xs.length ∧ xs.length ≤ 65535 → hdr = 0xdc :: bigEndian 2 xs.length) ∧
      (65536 ≤ xs.length → hdr = 0xdd :: bigEndian 4 xs.length) := by
  obtain ⟨n, hn⟩ := Pack_sequence_buffer s v xs he hw hret
  exact ⟨arrayHeader xs.length, n, hn, arrayHeader_tiers xs.length hk⟩

theorem Pack_sequence_wire_witness :
    (elements (Value.slice [Value.int 1000, Value.float32 0x3f800000, Value.uint16s [1, 300]])
        = some [Value.int 1000, Value.float32 0x3f800000, Value.uint16s [1, 300]] ∧
      wellTyped (Value.slice [Value.int 1000, Value.float32 0x3f800000, Value.uint16s [1, 300]])
        = true ∧
      [Value.int 1000, Value.float32 0x3f800000, Value.uint16s [1, 300]].length < 2 ^ 32 ∧
      ∃ n e S, Pack bufferWriter []
        (Value.slice [Value.int 1000, Value.float32 0x3f800000, Value.uint16s [1, 300]])
          = Packed.ret n e S) ∧
    ∃ hdr n, Pack bufferWriter []
        (Value.slice [Value.int 1000, Value.float32 0x3f800000, Value.uint16s [1, 300]])
        = Packed.ret n none ([] ++ (hdr ++
          [Value.int 1000, Value.float32 0x3f800000, Value.uint16s [1, 300]].flatMap
            (fun x => if (generic (Value.slice [Value.int 1000, Value.float32 0x3f800000,
                Value.uint16s [1, 300]]) && narrowFloat x) = true
              then (PackValue bufferWriter [] x).sink else encoding x))) ∧
      (3 ≤ 15 → hdr = [0x90 ||| 3]) :=
  ⟨⟨rfl, rfl, by norm_num, ⟨0, none, _, rfl⟩⟩,
    (Pack_sequence_wire [] (Value.slice [Value.int 1000, Value.float32 0x3f800000,
        Value.uint16s [1, 300]]) _ rfl rfl (by norm_num) ⟨0, none, _, rfl⟩).imp
      (fun _ h => h.imp (fun _ h' => ⟨h'.1, h'.2.1⟩))⟩

/-! ## Sources that end inside an encoding -/

/-- C12 (the code at a failing input): `PackUint64` writes 256 as the three
bytes `cd 01 00`, and `Unpack` on a source holding only the two bytes `cd 01`
returns, without error and with nothing left unread, the uint16 256: the read
of the 2-byte payload finds one byte, reports no error, and the missing byte
stays zero.  Likewise `ce 01` decodes to the uint32 `2^24`, which `PackUint64`
writes in five bytes. -/
theorem Unpack_truncated_uint_payload :
    PackUint64 bufferWriter [] 256 = Packed.ret 3 none [0xcd, 0x01, 0x00] ∧
      Unpack [0xcd, 0x01] = Unpacked.ok (Value.uint16 256) 2 [] ∧
      (Value.uint16 256).toInt? = some 256 ∧
      PackUint64 bufferWriter [] 16777216 = Packed.ret 5 none [0xce, 0x01, 0x00, 0x00, 0x00] ∧
      Unpack [0xce, 0x01] = Unpacked.ok (Value.uint32 16777216) 2 [] :=
  ⟨rfl, rfl, rfl, rfl, rfl⟩

/-- C19 (the code at failing inputs): on a source holding an array32 header
that declares two elements and then only the fixed array `91 01`, 7 bytes in
all, `Unpack` fails with `io.EOF` and reports 8 bytes, the count of the nested
fixed array being added twice; with the fixed map `81 01 02` in its place, 8
bytes in all, it reports 10.  With scalar elements the count is the bytes
consumed (`dd 00 00 00 02 01`: 6).  On `dd 00 00 00 01 cd 01`, where the only
declared element is cut inside its payload, `Unpack` returns a value and no
failure. -/
theorem Unpack_truncated_array32 :
    Unpack [0xdd, 0, 0, 0, 2, 0x91, 0x01] = Unpacked.error Error.EOF 8 [] ∧
      Unpack [0xdd, 0, 0, 0, 2, 0x81, 0x01, 0x02] = Unpacked.error Error.EOF 10 [] ∧
      Unpack [0xdd, 0, 0, 0, 2, 0x01] = Unpacked.error Error.EOF 6 [] ∧
      Unpack [0xdd, 0, 0, 0, 1, 0xcd, 0x01]
        = Unpacked.ok (Value.slice [Value.uint16 256]) 7 [] :=
  ⟨rfl, rfl, rfl, rfl⟩

/-- C20 (the code at failing inputs): `PackBytes` writes the byte string
`01 02 03` as `a3 01 02 03`.  On the proper prefix `a3 01` `Unpack` returns,
without error, the byte string `01 00 00`, and on `a3 01 02` the byte string
`01 02 00`: a read that finds at least one byte reports no error and the bytes
missing stay zero.  On the prefixes `a3` and the empty one it fails with
`io.EOF`.  A 16-bit header cut inside its length field, `da 00`, decodes to the
empty byte string. -/
theorem Unpack_truncated_raw :
    PackBytes bufferWriter [] [1, 2, 3] = Packed.ret 4 none [0xa3, 1, 2, 3] ∧
      Unpack [0xa3, 1] = Unpacked.ok (Value.bytes [1, 0, 0]) 2 [] ∧
      Unpack [0xa3, 1, 2] = Unpacked.ok (Value.bytes [1, 2, 0]) 3 [] ∧
      Unpack [0xa3] = Unpacked.error Error.EOF 1 [] ∧
      Unpack [] = Unpacked.error Error.EOF 0 [] ∧
      (PackBytes bufferWriter [] (List.replicate 40 7)).sink.take 3 = [0xda, 0, 40] ∧
      Unpack [0xda, 0] = Unpacked.ok (Value.bytes []) 2 [] :=
  ⟨rfl, rfl, rfl, rfl, rfl, rfl, rfl⟩

/-! ## What a decoded value tells about the bytes read -/

theorem unpackArrayLoop_ok (f : Reader → Unpacked) (n : Nat) :
    ∀ (R : Reader) (acc : List Value) (k : Nat) (d : Value) (m : Nat) (R' : Reader),
      unpackArrayLoop f n R acc k = Unpacked.ok d m R' → ∃ l, d = Value.slice l := by
  induction n with
  | zero =>
    intro R acc k d m R' h
    simp only [unpackArrayLoop] at h
    cases h
    exact ⟨_, rfl⟩
  | succ n ih =>
    intro R acc k d m R' h
    simp only [unpackArrayLoop] at h
    split at h
    · split at h
      · cases h
      · exact ih _ _ _ _ _ _ h
    · cases h
    · cases h
    · cases h

theorem unpackArrayReflectedLoop_ok (f : Reader → Unpacked) (n : Nat) :
    ∀ (R : Reader) (acc : List Value) (k : Nat) (d : Value) (m : Nat) (R' : Reader),
      unpackArrayReflectedLoop f n R acc k = Unpacked.ok d m R' → ∃ l, d = Value.slice l := by
  induction n with
  | zero =>
    intro R acc k d m R' h
    simp only [unpackArrayReflectedLoop] at h
    cases h
    exact ⟨_, rfl⟩
  | succ n ih =>
    intro R acc k d m R' h
    simp only [unpackArrayReflectedLoop] at h
    split at h
    · exact ih _ _ _ _ _ _ h
    · cases h
    · cases h
    · cases h

theorem unpackMap_ok (f : Reader → Unpacked) (n : Nat) :
    ∀ (R : Reader) (acc : List (Value × Value)) (k : Nat) (d : Value) (m : Nat) (R' : Reader),
      unpackMap f n R acc k = Unpacked.ok d m R' → ∃ l, d = Value.map l := by
  induction n with
  | zero =>
    intro R acc k d m R' h
    simp only [unpackMap] at h
    cases h
    exact ⟨_, rfl⟩
  | succ n ih =>
    intro R acc k d m R' h
    simp only [unpackMap] at h
    split at h
    · split at h
      · split at h
        · cases h
        · split at h
          · cases h
          · split at h
            · cases h
            · split at h
              · exact ih _ _ _ _ _ _ h
              · cases h
      · cases h
      · cases h
      · cases h
    · cases h
    · cases h
    · cases h

theorem unpackMapReflected_ok (f : Reader → Unpacked) (n : Nat) :
    ∀ (R : Reader) (acc : List (Value × Value)) (k : Nat) (d : Value) (m : Nat) (R' : Reader),
      unpackMapReflected f n R acc k = Unpacked.ok d m R' → ∃ l, d = Value.map l := by
  induction n with
  | zero =>
    intro R acc k d m R' h
    simp only [unpackMapReflected] at h
    cases h
    exact ⟨_, rfl⟩
  | succ n ih =>
    intro R acc k d m R' h
    simp only [unpackMapReflected] at h
    split at h
    · split at h
      · exact ih _ _ _ _ _ _ h
      · cases h
      · cases h
      · cases h
    · cases h
    · cases h
    · cases h

theorem fixContainer_ok (k : Nat) (X : Unpacked) (d : Value) (m : Nat) (R' : Reader)
    (h : fixContainer k X = Unpacked.ok d m R') : ∃ m', X = Unpacked.ok d m' R' := by
  cases X <;> simp only [fixContainer] at h <;> cases h
  exact ⟨_, rfl⟩

theorem sizedContainer_ok (k : Nat) (X : Unpacked) (d : Value) (m : Nat) (R' : Reader)
    (h : sizedContainer k X = Unpacked.ok d m R') : ∃ m', X = Unpacked.ok d m' R' := by
  cases X <;> simp only [sizedContainer] at h <;> cases h
  exact ⟨_, rfl⟩

theorem readRaw_ok (named : Bool) (k : Nat) (R : Reader) (n : Nat) (d : Value) (m : Nat)
    (R' : Reader) (h : readRaw named k R n = Unpacked.ok d m R') :
    ∃ b, d = Value.bytes b ∨ d = Value.Bytes b := by
  unfold readRaw at h
  split at h
  · cases h
  · cases h
    cases named
    · exact ⟨_, Or.inl rfl⟩
    · exact ⟨_, Or.inr rfl⟩

theorem readByte_shape (R : Reader) :
    (R = [] ∧ readByte R = (0, some Error.EOF, [])) ∨
    (∃ y R0, R = y :: R0 ∧ readByte R = (y, none, R0)) := by
  cases R with
  | nil => left; exact ⟨rfl, rfl⟩
  | cons a l => right; exact ⟨a, l, rfl, readByte_cons a l⟩

theorem readInt16_shape (R : Reader) :
    (R = [] ∧ readInt16 R = (0, 0, some Error.EOF, [])) ∨
    (R ≠ [] ∧ ∃ y n, readInt16 R = (toSigned 16 y, n, none, R.drop 2)) := by
  cases R with
  | nil => left; exact ⟨rfl, rfl⟩
  | cons a l => right; exact ⟨by simp, _, _, rfl⟩

theorem readInt32_shape (R : Reader) :
    (R = [] ∧ readInt32 R = (0, 0, some Error.EOF, [])) ∨
    (R ≠ [] ∧ ∃ y n, readInt32 R = (toSigned 32 y, n, none, R.drop 4)) := by
  cases R with
  | nil => left; exact ⟨rfl, rfl⟩
  | cons a l => right; exact ⟨by simp, _, _, rfl⟩

theorem readInt64_shape (R : Reader) :
    (R = [] ∧ readInt64 R = (0, 0, some Error.EOF, [])) ∨
    (R ≠ [] ∧ ∃ y n, readInt64 R = (toSigned 64 y, n, none, R.drop 8)) := by
  cases R with
  | nil => left; exact ⟨rfl, rfl⟩
  | cons a l => right; exact ⟨by simp, _, _, rfl⟩

theorem readUint16_shape (R : Reader) :
    (R = [] ∧ readUint16 R = (0, 0, some Error.EOF, [])) ∨
    (R ≠ [] ∧ ∃ y n, readUint16 R = (y, n, none, R.drop 2)) := by
  cases R with
  | nil => left; exact ⟨rfl, rfl⟩
  | cons a l => right; exact ⟨by simp, _, _, rfl⟩

theorem readUint32_shape (R : Reader) :
    (R = [] ∧ readUint32 R = (0, 0, some Error.EOF, [])) ∨
    (R ≠ [] ∧ ∃ y n, readUint32 R = (y, n, none, R.drop 4)) := by
  cases R with
  | nil => left; exact ⟨rfl, rfl⟩
  | cons a l => right; exact ⟨by simp, _, _, rfl⟩

theorem readUint64_shape (R : Reader) :
    (R = [] ∧ readUint64 R = (0, 0, some Error.EOF, [])) ∨
    (R ≠ [] ∧ ∃ y n, readUint64 R = (y, n, none, R.drop 8)) := by
  cases R with
  | nil => left; exact ⟨rfl, rfl⟩
  | cons a l => right; exact ⟨by simp, _, _, rfl⟩

/-- The dispatch of `unpack` once the tag byte `c` is read. -/
theorem unpack_cons [Host] (fuel : Nat) (reflected : Bool) (c : Nat) (R : Reader) :
    unpack (fuel + 1) reflected (c :: R) =
      if c < FIXMAP ∨ c ≥ NEGFIXNUM then Unpacked.ok (Value.int8 (toSigned 8 c)) 1 R
      else if c ≥ FIXMAP ∧ c ≤ FIXMAPMAX then
        fixContainer 1
          (if reflected then unpackMapReflected (unpack fuel true) (lownibble c) R [] 0
           else unpackMap (unpack fuel false) (lownibble c) R [] 0)
      else if c ≥ FIXARRAY ∧ c ≤ FIXARRAYMAX then
        fixContainer 1
          (if reflected then unpackArrayReflected (unpack fuel true) (lownibble c) R
           else unpackArray (unpack fuel false) (lownibble c) R)
      else if c ≥ FIXRAW ∧ c ≤ FIXRAWMAX then readRaw false 1 R (lowfive c)
      else if c = NIL then Unpacked.ok Value.nil 1 R
      else if c = FALSE then Unpacked.ok (Value.bool false) 1 R
      else if c = TRUE then Unpacked.ok (Value.bool true) 1 R
      else if c = FLOAT then
        match readUint32 R with
        | (_, n, some e, reader) => Unpacked.error e (1 + n) reader
        | (data, n, none, reader) => Unpacked.ok (Value.float32 data) (1 + n) reader
      else if c = DOUBLE then
        match readUint64 R with
        | (_, n, some e, reader) => Unpacked.error e (1 + n) reader
        | (data, n, none, reader) => Unpacked.ok (Value.float64 data) (1 + n) reader
      else if c = UINT8 then
        match readByte R with
        | (_, some e, reader) => Unpacked.error e 1 reader
        | (data, none, reader) => Unpacked.ok (Value.uint8 data) (1 + 1) reader
      else if c = UINT16 then
        match readUint16 R with
        | (_, n, some e, reader) => Unpacked.error e (1 + n) reader
        | (data, n, none, reader) => Unpacked.ok (Value.uint16 data) (1 + n) reader
      else if c = UINT32 then
        match readUint32 R with
        | (_, n, some e, reader) => Unpacked.error e (1 + n) reader
        | (data, n, none, reader) => Unpacked.ok (Value.uint32 data) (1 + n) reader
      else if c = UINT64 then
        match readUint64 R with
        | (_, n, some e, reader) => Unpacked.error e (1 + n) reader
        | (data, n, none, reader) => Unpacked.ok (Value.uint64 data) (1 + n) reader
      else if c = INT8 then
        match readByte R with
        | (_, some e, reader) => Unpacked.error e 1 reader
        | (data, none, reader) => Unpacked.ok (Value.int8 (toSigned 8 data)) (1 + 1) reader
      else if c = INT16 then
        match readInt16 R with
        | (_, n, some e, reader) => Unpacked.error e (1 + n) reader
        | (data, n, none, reader) => Unpacked.ok (Value.int16 data) (1 + n) reader
      else if c = INT32 then
        match readInt32 R with
        | (_, n, some e, reader) => Unpacked.error e (1 + n) reader
        | (data, n, none, reader) => Unpacked.ok (Value.int32 data) (1 + n) reader
      else if c = INT64 then
        match readInt64 R with
        | (_, n, some e, reader) => Unpacked.error e (1 + n) reader
        | (data, n, none, reader) => Unpacked.ok (Value.int64 data) (1 + n) reader
      else if c = RAW16 then
        match readUint16 R with
        | (_, n, some e, reader) => Unpacked.error e (1 + n) reader
        | (nbytestoread, n, none, reader) => readRaw false (1 + n) reader nbytestoread
      else if c = RAW32 then
        match readUint32 R with
        | (_, n, some e, reader) => Unpacked.error e (1 + n) reader
        | (nbytestoread, n, none, reader) => readRaw true (1 + n) reader nbytestoread
      else if c = ARRAY16 then
        match readUint16 R with
        | (_, n, some e, reader) => Unpacked.error e (1 + n) reader
        | (nelemstoread, n, none, reader) =>
          sizedContainer (1 + n)
            (if reflected then unpackArrayReflected (unpack fuel true) nelemstoread reader
             else unpackArray (unpack fuel false) nelemstoread reader)
      else if c = ARRAY32 then
        match readUint32 R with
        | (_, n, some e, reader) => Unpacked.error e (1 + n) reader
        | (nelemstoread, n, none, reader) =>
          sizedContainer (1 + n)
            (if reflected then unpackArrayReflected (unpack fuel true) nelemstoread reader
             else unpackArray (unpack fuel false) nelemstoread reader)
      else if c = MAP16 then
        match readUint16 R with
        | (_, n, some e, reader) => Unpacked.error e (1 + n) reader
        | (nelemstoread, n, none, reader) =>
          sizedContainer (1 + n)
            (if reflected then unpackMapReflected (unpack fuel true) nelemstoread reader [] 0
             else unpackMap (unpack fuel false) nelemstoread reader [] 0)
      else if c = MAP32 then
        match readUint32 R with
        | (_, n, some e, reader) => Unpacked.error e (1 + n) reader
        | (nelemstoread, n, none, reader) =>
          sizedContainer (1 + n)
            (if reflected then unpackMapReflected (unpack fuel true) nelemstoread reader [] 0
             else unpackMap (unpack fuel false) nelemstoread reader [] 0)
      else Unpacked.panic (Panic.unsupportedCode c) := by
  rw [unpack, readByte_cons]

theorem readByte_ok (R : Reader) (data : Nat) (reader : Reader)
    (h : readByte R = (data, none, reader)) : R ≠ [] ∧ reader = R.drop 1 := by
  cases R with
  | nil => cases h
  | cons a l => rw [readByte_cons] at h; cases h; exact ⟨by simp, rfl⟩

theorem readInt16_ok (R : Reader) (data : Int) (n : Nat) (reader : Reader)
    (h : readInt16 R = (data, n, none, reader)) :
    R ≠ [] ∧ (∃ y, data = toSigned 16 y) ∧ reader = R.drop 2 := by
  cases R with
  | nil => cases h
  | cons a l => cases h; exact ⟨by simp, ⟨_, rfl⟩, rfl⟩

theorem readInt32_ok (R : Reader) (data : Int) (n : Nat) (reader : Reader)
    (h : readInt32 R = (data, n, none, reader)) :
    R ≠ [] ∧ (∃ y, data = toSigned 32 y) ∧ reader = R.drop 4 := by
  cases R with
  | nil => cases h
  | cons a l => cases h; exact ⟨by simp, ⟨_, rfl⟩, rfl⟩

theorem readInt64_ok (R : Reader) (data : Int) (n : Nat) (reader : Reader)
    (h : readInt64 R = (data, n, none, reader)) :
    R ≠ [] ∧ (∃ y, data = toSigned 64 y) ∧ reader = R.drop 8 := by
  cases R with
  | nil => cases h
  | cons a l => cases h; exact ⟨by simp, ⟨_, rfl⟩, rfl⟩

/-- A signed integer comes out of `unpack` in five ways only: the inline byte
and the four signed tags; the source left is the source behind the tag less
the width of the payload. -/
theorem unpack_signed_inv (fuel : Nat) (reflected : Bool) (c : Nat) (R : Reader) (d : Value)
    (m : Nat) (R' : Reader) (x : Int)
    (h : unpack (fuel + 1) reflected (c :: R) = Unpacked.ok d m R')
    (hx : d.toSigned? = some x) :
    ((c < 128 ∨ 224 ≤ c) ∧ x = toSigned 8 c ∧ R' = R) ∨
    (R ≠ [] ∧ (∃ y, x = toSigned 8 y) ∧ R' = R.drop 1) ∨
    (R ≠ [] ∧ (∃ y, x = toSigned 16 y) ∧ R' = R.drop 2) ∨
    (R ≠ [] ∧ (∃ y, x = toSigned 32 y) ∧ R' = R.drop 4) ∨
    (R ≠ [] ∧ (∃ y, x = toSigned 64 y) ∧ R' = R.drop 8) := by
  rw [unpack_cons] at h
  by_cases hc : c < FIXMAP ∨ c ≥ NEGFIXNUM
  · rw [if_pos hc] at h
    cases h
    exact Or.inl ⟨hc, by simpa [Value.toSigned?] using hx.symm, rfl⟩
  rw [if_neg hc] at h
  clear hc
  by_cases hc : c ≥ FIXMAP ∧ c ≤ FIXMAPMAX
  · rw [if_pos hc] at h
    cases reflected
    · obtain ⟨m', h'⟩ := fixContainer_ok _ _ _ _ _ h
      obtain ⟨l, rfl⟩ := unpackMap_ok _ _ _ _ _ _ _ _ h'
      simp [Value.toSigned?] at hx
    · obtain ⟨m', h'⟩ := fixContainer_ok _ _ _ _ _ h
      obtain ⟨l, rfl⟩ := unpackMapReflected_ok _ _ _ _ _ _ _ _ h'
      simp [Value.toSigned?] at hx
  rw [if_neg hc] at h
  clear hc
  by_cases hc : c ≥ FIXARRAY ∧ c ≤ FIXARRAYMAX
  · rw [if_pos hc] at h
    cases reflected
    · obtain ⟨m', h'⟩ := fixContainer_ok _ _ _ _ _ h
      obtain ⟨l, rfl⟩ := unpackArrayLoop_ok _ _ _ _ _ _ _ _ h'
      simp [Value.toSigned?] at hx
    · obtain ⟨m', h'⟩ := fixContainer_ok _ _ _ _ _ h
      obtain ⟨l, rfl⟩ := unpackArrayReflectedLoop_ok _ _ _ _ _ _ _ _ h'
      simp [Value.toSigned?] at hx
  rw [if_neg hc] at h
  clear hc
  by_cases hc : c ≥ FIXRAW ∧ c ≤ FIXRAWMAX
  · rw [if_pos hc] at h
    obtain ⟨b, rfl | rfl⟩ := readRaw_ok _ _ _ _ _ _ _ h <;> simp [Value.toSigned?] at hx
  rw [if_neg hc] at h
  clear hc
  by_cases hc : c = NIL
  · rw [if_pos hc] at h
    cases h; simp [Value.toSigned?] at hx
  rw [if_neg hc] at h
  clear hc
  by_cases hc : c = FALSE
  · rw [if_pos hc] at h
    cases h; simp [Value.toSigned?] at hx
  rw [if_neg hc] at h
  clear hc
  by_cases hc : c = TRUE
  · rw [if_pos hc] at h
    cases h; simp [Value.toSigned?] at hx
  rw [if_neg hc] at h
  clear hc
  by_cases hc : c = FLOAT
  · rw [if_pos hc] at h
    split at h
    · cases h
    · cases h; simp [Value.toSigned?] at hx
  rw [if_neg hc] at h
  clear hc
  by_cases hc : c = DOUBLE
  · rw [if_pos hc] at h
    split at h
    · cases h
    · cases h; simp [Value.toSigned?] at hx
  rw [if_neg hc] at h
  clear hc
  by_cases hc : c = UINT8
  · rw [if_pos hc] at h
    split at h
    · cases h
    · cases h; simp [Value.toSigned?] at hx
  rw [if_neg hc] at h
  clear hc
  by_cases hc : c = UINT16
  · rw [if_pos hc] at h
    split at h
    · cases h
    · cases h; simp [Value.toSigned?] at hx
  rw [if_neg hc] at h
  clear hc
  by_cases hc : c = UINT32
  · rw [if_pos hc] at h
    split at h
    · cases h
    · cases h; simp [Value.toSigned?] at hx
  rw [if_neg hc] at h
  clear hc
  by_cases hc : c = UINT64
  · rw [if_pos hc] at h
    split at h
    · cases h
    · cases h; simp [Value.toSigned?] at hx
  rw [if_neg hc] at h
  clear hc
  by_cases hc : c = INT8
  · rw [if_pos hc] at h
    split at h
    · cases h
    · rename_i heq
      cases h
      obtain ⟨e1, e2⟩ := readByte_ok _ _ _ heq
      simp only [Value.toSigned?, Option.some.injEq] at hx
      exact Or.inr (Or.inl ⟨e1, ⟨_, hx.symm⟩, e2⟩)
  rw [if_neg hc] at h
  clear hc
  by_cases hc : c = INT16
  · rw [if_pos hc] at h
    split at h
    · cases h
    · rename_i heq
      cases h
      obtain ⟨e1, ⟨y, e2⟩, e3⟩ := readInt16_ok _ _ _ _ heq
      simp only [Value.toSigned?, Option.some.injEq] at hx
      exact Or.inr (Or.inr (Or.inl ⟨e1, ⟨y, by rw [← hx, e2]⟩, e3⟩))
  rw [if_neg hc] at h
  clear hc
  by_cases hc : c = INT32
  · rw [if_pos hc] at h
    split at h
    · cases h
    · rename_i heq
      cases h
      obtain ⟨e1, ⟨y, e2⟩, e3⟩ := readInt32_ok _ _ _ _ heq
      simp only [Value.toSigned?, Option.some.injEq] at hx
      exact Or.inr (Or.inr (Or.inr (Or.inl ⟨e1, ⟨y, by rw [← hx, e2]⟩, e3⟩)))
  rw [if_neg hc] at h
  clear hc
  by_cases hc : c = INT64
  · rw [if_pos hc] at h
    split at h
    · cases h
    · rename_i heq
      cases h
      obtain ⟨e1, ⟨y, e2⟩, e3⟩ := readInt64_ok _ _ _ _ heq
      simp only [Value.toSigned?, Option.some.injEq] at hx
      exact Or.inr (Or.inr (Or.inr (Or.inr ⟨e1, ⟨y, by rw [← hx, e2]⟩, e3⟩)))
  rw [if_neg hc] at h
  clear hc
  by_cases hc : c = RAW16
  · rw [if_pos hc] at h
    split at h
    · cases h
    · obtain ⟨b, rfl | rfl⟩ := readRaw_ok _ _ _ _ _ _ _ h <;> simp [Value.toSigned?] at hx
  rw [if_neg hc] at h
  clear hc
  by_cases hc : c = RAW32
  · rw [if_pos hc] at h
    split at h
    · cases h
    · obtain ⟨b, rfl | rfl⟩ := readRaw_ok _ _ _ _ _ _ _ h <;> simp [Value.toSigned?] at hx
  rw [if_neg hc] at h
  clear hc
  by_cases hc : c = ARRAY16
  · rw [if_pos hc] at h
    split at h
    · cases h
    · cases reflected
      · obtain ⟨m', h'⟩ := sizedContainer_ok _ _ _ _ _ h
        obtain ⟨l, rfl⟩ := unpackArrayLoop_ok _ _ _ _ _ _ _ _ h'
        simp [Value.toSigned?] at hx
      · obtain ⟨m', h'⟩ := sizedContainer_ok _ _ _ _ _ h
        obtain ⟨l, rfl⟩ := unpackArrayReflectedLoop_ok _ _ _ _ _ _ _ _ h'
        simp [Value.toSigned?] at hx
  rw [if_neg hc] at h
  clear hc
  by_cases hc : c = ARRAY32
  · rw [if_pos hc] at h
    split at h
    · cases h
    · cases reflected
      · obtain ⟨m', h'⟩ := sizedContainer_ok _ _ _ _ _ h
        obtain ⟨l, rfl⟩ := unpackArrayLoop_ok _ _ _ _ _ _ _ _ h'
        simp [Value.toSigned?] at hx
      · obtain ⟨m', h'⟩ := sizedContainer_ok _ _ _ _ _ h
        obtain ⟨l, rfl⟩ := unpackArrayReflectedLoop_ok _ _ _ _ _ _ _ _ h'
        simp [Value.toSigned?] at hx
  rw [if_neg hc] at h
  clear hc
  by_cases hc : c = MAP16
  · rw [if_pos hc] at h
    split at h
    · cases h
    · cases reflected
      · obtain ⟨m', h'⟩ := sizedContainer_ok _ _ _ _ _ h
        obtain ⟨l, rfl⟩ := unpackMap_ok _ _ _ _ _ _ _ _ h'
        simp [Value.toSigned?] at hx
      · obtain ⟨m', h'⟩ := sizedContainer_ok _ _ _ _ _ h
        obtain ⟨l, rfl⟩ := unpackMapReflected_ok _ _ _ _ _ _ _ _ h'
        simp [Value.toSigned?] at hx
  rw [if_neg hc] at h
  clear hc
  by_cases hc : c = MAP32
  · rw [if_pos hc] at h
    split at h
    · cases h
    · cases reflected
      · obtain ⟨m', h'⟩ := sizedContainer_ok _ _ _ _ _ h
        obtain ⟨l, rfl⟩ := unpackMap_ok _ _ _ _ _ _ _ _ h'
        simp [Value.toSigned?] at hx
      · obtain ⟨m', h'⟩ := sizedContainer_ok _ _ _ _ _ h
        obtain ⟨l, rfl⟩ := unpackMapReflected_ok _ _ _ _ _ _ _ _ h'
        simp [Value.toSigned?] at hx
  rw [if_neg hc] at h
  clear hc
  cases h

theorem toSigned_range8 (y : Nat) : -128 ≤ toSigned 8 y ∧ toSigned 8 y < 128 := by
  unfold toSigned
  norm_num
  split <;> omega

theorem toSigned_range16 (y : Nat) : -32768 ≤ toSigned 16 y ∧ toSigned 16 y < 32768 := by
  unfold toSigned
  norm_num
  split <;> omega

theorem toSigned_range32 (y : Nat) :
    -2147483648 ≤ toSigned 32 y ∧ toSigned 32 y < 2147483648 := by
  unfold toSigned
  norm_num
  split <;> omega

theorem toSigned_fixnum (c : Nat) (hc : c < 256) (h : c < 128 ∨ 224 ≤ c) :
    -32 ≤ toSigned 8 c ∧ toSigned 8 c < 128 := by
  unfold toSigned
  norm_num
  split <;> omega

theorem intWire_length (v : Int) :
    (-32 ≤ v ∧ v < 128 → (intWire v).length = 1) ∧
    (-128 ≤ v ∧ v < 128 → (intWire v).length ≤ 2) ∧
    (-32768 ≤ v ∧ v < 32768 → (intWire v).length ≤ 3) ∧
    (-2147483648 ≤ v ∧ v < 2147483648 → (intWire v).length ≤ 5) ∧
    (intWire v).length ≤ 9 := by
  unfold intWire
  norm_num
  refine ⟨?_, ?_, ?_, ?_, ?_⟩
  · intro h1 h2; rw [if_pos ⟨h1, h2⟩]; rfl
  · intro h1 h2; split_ifs <;> simp <;> omega
  · intro h1 h2; split_ifs <;> simp <;> omega
  · intro h1 h2
    split_ifs <;> simp
    omega
  · split_ifs <;> simp

theorem Unpack_nil : Unpack [] = Unpacked.error Error.EOF 0 [] := rfl

theorem drop_frame (p t : List Nat) (w : Nat) (hw : w ≤ t.length)
    (h : t = (p ++ t).drop w) : p.length = w := by
  have := congrArg List.length h
  simp only [List.length_drop, List.length_append] at this
  omega

/-! ## Signed integers: the narrowest signed form -/

/-- C13 (as stated, at failing inputs): `PackInt64` writes 128 as the three
bytes `d1 00 80`, while `Unpack` decodes the two bytes `cc 80`, without error
and in full, to the uint8 128, an integer numerically equal to 128: the signed
cascade never uses an unsigned tag.  The same holds for 32768 (`d2 00 00 80 00`
against `cd 80 00`). -/
theorem PackInt64_longer_than_unsigned :
    PackInt64 bufferWriter [] 128 = Packed.ret 3 none [0xd1, 0x00, 0x80] ∧
      Unpack [0xcc, 0x80] = Unpacked.ok (Value.uint8 128) 2 [] ∧
      (Value.uint8 128).toInt? = some 128 ∧
      PackInt64 bufferWriter [] 32768 = Packed.ret 5 none [0xd2, 0x00, 0x00, 0x80, 0x00] ∧
      Unpack [0xcd, 0x80, 0x00] = Unpacked.ok (Value.uint16 32768) 3 [] ∧
      (Value.uint16 32768).toInt? = some 32768 :=
  ⟨rfl, rfl, rfl, rfl, rfl, rfl⟩

/-- C13 (amended): for every signed 64-bit value `v`, no byte sequence strictly
shorter than the one `PackInt64` writes is decoded by `Unpack`, without error
and consuming exactly that sequence whatever follows it in the source, to an
integer of a signed category (int8, int16, int32 or int64) numerically equal
to `v`: every such sequence `E` is at least as long as what `PackInt64`
writes. -/
theorem PackInt64_minimal_signed (v : Int) (hv : -2 ^ 63 ≤ v ∧ v < 2 ^ 63) (E : List Nat)
    (hE : ∀ x ∈ E, x < 256) (d : Value) (m : Nat)
    (hframe : ∀ t, Unpack (E ++ t) = Unpacked.ok d m t) (hd : d.toSigned? = some v) :
    ∃ n P, PackInt64 bufferWriter [] v = Packed.ret n none P ∧ P.length ≤ E.length := by
  refine ⟨_, _, by rw [PackInt64_eq _ _ _ hv, bufferWriter_ret], ?_⟩
  rw [List.nil_append]
  have hl := intWire_length v
  cases E with
  | nil =>
    have h := hframe []
    rw [List.append_nil, Unpack_nil] at h
    cases h
  | cons c p =>
    have h := hframe (List.replicate 8 0)
    rw [List.cons_append, Unpack_cons] at h
    have ht : (List.replicate 8 0).length = 8 := by simp
    rw [List.length_cons]
    rcases unpack_signed_inv _ _ _ _ _ _ _ _ h hd with
      ⟨h1, h2, _⟩ | ⟨_, ⟨y, h2⟩, h3⟩ | ⟨_, ⟨y, h2⟩, h3⟩ | ⟨_, ⟨y, h2⟩, h3⟩ | ⟨_, ⟨y, h2⟩, h3⟩
    · have hr := toSigned_fixnum c (hE c (by simp)) h1
      rw [← h2] at hr
      have := hl.1 hr
      omega
    · have hp := drop_frame p _ 1 (by omega) h3
      have hr := toSigned_range8 y
      rw [← h2] at hr
      have := hl.2.1 hr
      omega
    · have hp := drop_frame p _ 2 (by omega) h3
      have hr := toSigned_range16 y
      rw [← h2] at hr
      have := hl.2.2.1 hr
      omega
    · have hp := drop_frame p _ 4 (by omega) h3
      have hr := toSigned_range32 y
      rw [← h2] at hr
      have := hl.2.2.2.1 hr
      omega
    · have hp := drop_frame p _ 8 (by omega) h3
      have := hl.2.2.2.2
      omega

theorem PackInt64_minimal_signed_witness :
    ((-2 ^ 63 ≤ (1000 : Int) ∧ (1000 : Int) < 2 ^ 63) ∧ (∀ x ∈ [0xd1, 3, 232], x < 256) ∧
      (∀ t, Unpack ([0xd1, 3, 232] ++ t) = Unpacked.ok (Value.int16 1000) 3 t) ∧
      (Value.int16 1000).toSigned? = some 1000) ∧
    ∃ n P, PackInt64 bufferWriter [] 1000 = Packed.ret n none P ∧
      P.length ≤ [0xd1, 3, 232].length :=
  ⟨⟨by norm_num, by decide,
      fun t => unpack_int16 _ false 3 232 t (by norm_num) (by norm_num), rfl⟩,
    PackInt64_minimal_signed 1000 (by norm_num) [0xd1, 3, 232] (by decide) (Value.int16 1000) 3
      (fun t => unpack_int16 _ false 3 232 t (by norm_num) (by norm_num)) rfl⟩

/-! ## Keys of a decoded map -/

theorem scalarKey_spec (k : Value) (h : scalarKey k = true) :
    Interface k = some k ∧ mapKey k = some (textKey k) ∧ hashable (textKey k) = true := by
  cases k <;> first | exact ⟨rfl, rfl, rfl⟩ | simp [scalarKey] at h

theorem Interface_of_ne_nil (v : Value) (h : v ≠ Value.nil) : Interface v = some v := by
  cases v <;> first | rfl | exact absurd rfl h

theorem mapOutcome_entries (es : List MapEntry)
    (hkey : ∀ e ∈ es, scalarKey e.key = true) (hval : ∀ e ∈ es, e.value ≠ Value.nil)
    (hd : keysDistinct (es.map (fun e => (textKey e.key, e.value))) = true) :
    ∀ acc n, (∀ a ∈ acc, ∀ e ∈ es, keyEq a.1 (textKey e.key) = false) →
      ∃ m, mapOutcome (es.map (fun e =>
          (Outcome.good e.key e.keyCount, Outcome.good e.value e.valueCount))) acc n
        = Outcome.good (Value.map (acc ++ es.map (fun e => (textKey e.key, e.value)))) m := by
  induction es with
  | nil => intro acc n _; exact ⟨n, by simp [mapOutcome]⟩
  | cons e rest ih =>
    intro acc n hacc
    obtain ⟨hi, hk, hh⟩ := scalarKey_spec e.key (hkey e (List.mem_cons_self _ _))
    have hv := Interface_of_ne_nil e.value (hval e (List.mem_cons_self _ _))
    simp only [List.map_cons, keysDistinct, Bool.and_eq_true, List.all_eq_true,
      Bool.not_eq_true', List.mem_map, forall_exists_index, and_imp,
      forall_apply_eq_imp_iff₂] at hd
    have hass : mapAssign acc (textKey e.key) e.value = acc ++ [(textKey e.key, e.value)] :=
      mapAssign_append acc _ _ (fun a ha => hacc a ha e (List.mem_cons_self _ _))
    obtain ⟨m, hm⟩ := ih (fun x hx => hkey x (List.mem_cons_of_mem _ hx))
      (fun x hx => hval x (List.mem_cons_of_mem _ hx)) hd.2
      (acc ++ [(textKey e.key, e.value)]) (n + e.keyCount + e.valueCount)
      (by
        intro a ha x hx
        rcases List.mem_append.mp ha with h1 | h1
        · exact hacc a h1 x (List.mem_cons_of_mem _ hx)
        · simp only [List.mem_singleton] at h1
          subst h1
          exact hd.1 x hx)
    refine ⟨m, ?_⟩
    simp only [List.map_cons, mapOutcome, hi, hv, hk, hh, if_true, hass, hm, List.append_assoc,
      List.singleton_append]

/-- C17 (as stated, at failing inputs): on the map encoding `81 90 01`, whose
only key is the empty array, `Unpack` terminates abruptly, a Go map having no
array keys; on `82 a1 61 01 a1 61 02`, whose two entries have the same raw key
`a`, `Unpack` returns a mapping with the single entry `a -> 2`, the value of
the first entry being replaced. -/
theorem Unpack_map_key_cases :
    Unpack [0x81, 0x90, 0x01] = Unpacked.panic Panic.unhashable ∧
      Unpack [0x82, 0xa1, 0x61, 0x01, 0xa1, 0x61, 0x02]
        = Unpacked.ok (Value.map [(Value.string [0x61], Value.int8 2)]) 13 [] :=
  ⟨rfl, rfl⟩

/-- C17 (amended): for every map encoding of fewer than 2^32 entries, each made
of a key encoding and a value encoding that decode, whose keys decode to
booleans, integers, floats or raw byte strings of the fixed or 16-bit tier
that are pairwise different as map keys, and whose values do not decode to
nil, `Unpack` in flattening mode returns the mapping that has one entry for
each entry of the encoding, in which an entry whose wire key is a raw byte
string is keyed by the text with exactly those bytes and any other entry by
its decoded key unchanged, the value stored under the key being the decoding
of the entry's value; it leaves unread what follows the encoding. -/
theorem Unpack_map_keys (es : List MapEntry) (hn : es.length < 2 ^ 32)
    (hdec : ∀ e ∈ es,
      Decodes e.keyBytes.length e.keyBytes (Outcome.good e.key e.keyCount) ∧
      Decodes e.valueBytes.length e.valueBytes (Outcome.good e.value e.valueCount))
    (hkey : ∀ e ∈ es, scalarKey e.key = true) (hval : ∀ e ∈ es, e.value ≠ Value.nil)
    (hd : keysDistinct (es.map (fun e => (textKey e.key, e.value))) = true) (r : List Nat) :
    ∃ m, Unpack (mapHeader es.length ++ es.flatMap (fun e => e.keyBytes ++ e.valueBytes) ++ r)
      = Unpacked.ok (Value.map (es.map (fun e => (textKey e.key, e.value)))) m r := by
  have h1 := Decodes_mapOf es (fun e => e.keyBytes) (fun e => e.valueBytes)
    (fun e => Outcome.good e.key e.keyCount) (fun e => Outcome.good e.value e.valueCount)
    hdec hn
  obtain ⟨m, hm⟩ := mapOutcome_entries es hkey hval hd [] 0 (fun a ha => by cases ha)
  rw [Unpack_of_Decodes _ _ h1 r, hm, List.nil_append]
  obtain ⟨m', hm'⟩ := containerOutcome_good es.length (mapHeader es.length).length
    (Value.map (es.map (fun e => (textKey e.key, e.value)))) m
  rw [hm']
  exact ⟨m', rfl⟩

theorem Decodes_fixnum (c : Nat) (h : c < 128 ∨ 224 ≤ c) :
    Decodes 1 [c] (Outcome.good (Value.int8 (toSigned 8 c)) 1) := by
  intro fuel r hf
  obtain ⟨f, rfl⟩ : ∃ f, fuel = f + 1 := ⟨fuel - 1, by omega⟩
  exact unpack_fixnum f false c r h

theorem Unpack_map_keys_witness :
    (([⟨[0xa1, 0x61], Value.bytes [0x61], 2, [0x01], Value.int8 1, 1⟩,
        ⟨[0x05], Value.int8 5, 1, [0x02], Value.int8 2, 1⟩] : List MapEntry).length < 2 ^ 32 ∧
      (∀ e ∈ ([⟨[0xa1, 0x61], Value.bytes [0x61], 2, [0x01], Value.int8 1, 1⟩,
          ⟨[0x05], Value.int8 5, 1, [0x02], Value.int8 2, 1⟩] : List MapEntry),
        Decodes e.keyBytes.length e.keyBytes (Outcome.good e.key e.keyCount) ∧
        Decodes e.valueBytes.length e.valueBytes (Outcome.good e.value e.valueCount)) ∧
      (∀ e ∈ ([⟨[0xa1, 0x61], Value.bytes [0x61], 2, [0x01], Value.int8 1, 1⟩,
          ⟨[0x05], Value.int8 5, 1, [0x02], Value.int8 2, 1⟩] : List MapEntry),
        scalarKey e.key = true) ∧
      (∀ e ∈ ([⟨[0xa1, 0x61], Value.bytes [0x61], 2, [0x01], Value.int8 1, 1⟩,
          ⟨[0x05], Value.int8 5, 1, [0x02], Value.int8 2, 1⟩] : List MapEntry),
        e.value ≠ Value.nil) ∧
      keysDistinct [(Value.string [0x61], Value.int8 1), (Value.int8 5, Value.int8 2)] = true) ∧
    ∃ m, Unpack ([0x82, 0xa1, 0x61, 0x01, 0x05, 0x02] ++ [7])
      = Unpacked.ok (Value.map [(Value.string [0x61], Value.int8 1),
          (Value.int8 5, Value.int8 2)]) m [7] := by
  have hdec : ∀ e ∈ ([⟨[0xa1, 0x61], Value.bytes [0x61], 2, [0x01], Value.int8 1, 1⟩,
      ⟨[0x05], Value.int8 5, 1, [0x02], Value.int8 2, 1⟩] : List MapEntry),
      Decodes e.keyBytes.length e.keyBytes (Outcome.good e.key e.keyCount) ∧
      Decodes e.valueBytes.length e.valueBytes (Outcome.good e.value e.valueCount) := by
    intro e he
    simp only [List.mem_cons, List.mem_singleton, List.not_mem_nil, or_false] at he
    rcases he with rfl | rfl
    · exact ⟨Decodes_raw [0x61] (by norm_num), Decodes_fixnum 1 (by norm_num)⟩
    · exact ⟨Decodes_fixnum 5 (by norm_num), Decodes_fixnum 2 (by norm_num)⟩
  have hkey : ∀ e ∈ ([⟨[0xa1, 0x61], Value.bytes [0x61], 2, [0x01], Value.int8 1, 1⟩,
      ⟨[0x05], Value.int8 5, 1, [0x02], Value.int8 2, 1⟩] : List MapEntry),
      scalarKey e.key = true := by
    intro e he
    simp only [List.mem_cons, List.mem_singleton, List.not_mem_nil, or_false] at he
    rcases he with rfl | rfl <;> rfl
  have hval : ∀ e ∈ ([⟨[0xa1, 0x61], Value.bytes [0x61], 2, [0x01], Value.int8 1, 1⟩,
      ⟨[0x05], Value.int8 5, 1, [0x02], Value.int8 2, 1⟩] : List MapEntry),
      e.value ≠ Value.nil := by
    intro e he
    simp only [List.mem_cons, List.mem_singleton, List.not_mem_nil, or_false] at he
    rcases he with rfl | rfl <;> exact fun h => by cases h
  exact ⟨⟨by norm_num, hdec, hkey, hval, rfl⟩,
    Unpack_map_keys [⟨[0xa1, 0x61], Value.bytes [0x61], 2, [0x01], Value.int8 1, 1⟩,
      ⟨[0x05], Value.int8 5, 1, [0x02], Value.int8 2, 1⟩] (by norm_num) hdec hkey hval rfl [7]⟩

/-! ## The dispatch of `unpack` by kind of tag -/

/-- A tag that is not a container tag is decoded the same way in both modes and
with any recursion budget. -/
theorem unpack_scalar_tag [Host] (fuel : Nat) (reflected : Bool) (c : Nat) (R : Reader)
    (hs : ¬ ((128 ≤ c ∧ c ≤ 159) ∨ (220 ≤ c ∧ c ≤ 223))) :
    unpack (fuel + 1) reflected (c :: R) = unpack 1 false (c :: R) := by
  rw [unpack_cons, unpack_cons]
  by_cases hc : c < FIXMAP ∨ c ≥ NEGFIXNUM
  · rw [if_pos hc, if_pos hc]
  rw [if_neg hc, if_neg hc]
  clear hc
  by_cases hc : c ≥ FIXMAP ∧ c ≤ FIXMAPMAX
  · exfalso
    apply hs
    simp only [FIXMAP, NEGFIXNUM, FIXMAPMAX, FIXARRAY, FIXARRAYMAX, FIXRAW, FIXRAWMAX, NIL, FALSE, TRUE, FLOAT, DOUBLE, UINT8, UINT16, UINT32, UINT64, INT8, INT16, INT32, INT64, RAW16, RAW32, ARRAY16, ARRAY32, MAP16, MAP32] at hc
    omega
  rw [if_neg hc, if_neg hc]
  clear hc
  by_cases hc : c ≥ FIXARRAY ∧ c ≤ FIXARRAYMAX
  · exfalso
    apply hs
    simp only [FIXMAP, NEGFIXNUM, FIXMAPMAX, FIXARRAY, FIXARRAYMAX, FIXRAW, FIXRAWMAX, NIL, FALSE, TRUE, FLOAT, DOUBLE, UINT8, UINT16, UINT32, UINT64, INT8, INT16, INT32, INT64, RAW16, RAW32, ARRAY16, ARRAY32, MAP16, MAP32] at hc
    omega
  rw [if_neg hc, if_neg hc]
  clear hc
  by_cases hc : c ≥ FIXRAW ∧ c ≤ FIXRAWMAX
  · rw [if_pos hc, if_pos hc]
  rw [if_neg hc, if_neg hc]
  clear hc
  by_cases hc : c = NIL
  · rw [if_pos hc, if_pos hc]
  rw [if_neg hc, if_neg hc]
  clear hc
  by_cases hc : c = FALSE
  · rw [if_pos hc, if_pos hc]
  rw [if_neg hc, if_neg hc]
  clear hc
  by_cases hc : c = TRUE
  · rw [if_pos hc, if_pos hc]
  rw [if_neg hc, if_neg hc]
  clear hc
  by_cases hc : c = FLOAT
  · rw [if_pos hc, if_pos hc]
  rw [if_neg hc, if_neg hc]
  clear hc
  by_cases hc : c = DOUBLE
  · rw [if_pos hc, if_pos hc]
  rw [if_neg hc, if_neg hc]
  clear hc
  by_cases hc : c = UINT8
  · rw [if_pos hc, if_pos hc]
  rw [if_neg hc, if_neg hc]
  clear hc
  by_cases hc : c = UINT16
  · rw [if_pos hc, if_pos hc]
  rw [if_neg hc, if_neg hc]
  clear hc
  by_cases hc : c = UINT32
  · rw [if_pos hc, if_pos hc]
  rw [if_neg hc, if_neg hc]
  clear hc
  by_cases hc : c = UINT64
  · rw [if_pos hc, if_pos hc]
  rw [if_neg hc, if_neg hc]
  clear hc
  by_cases hc : c = INT8
  · rw [if_pos hc, if_pos hc]
  rw [if_neg hc, if_neg hc]
  clear hc
  by_cases hc : c = INT16
  · rw [if_pos hc, if_pos hc]
  rw [if_neg hc, if_neg hc]
  clear hc
  by_cases hc : c = INT32
  · rw [if_pos hc, if_pos hc]
  rw [if_neg hc, if_neg hc]
  clear hc
  by_cases hc : c = INT64
  · rw [if_pos hc, if_pos hc]
  rw [if_neg hc, if_neg hc]
  clear hc
  by_cases hc : c = RAW16
  · rw [if_pos hc, if_pos hc]
  rw [if_neg hc, if_neg hc]
  clear hc
  by_cases hc : c = RAW32
  · rw [if_pos hc, if_pos hc]
  rw [if_neg hc, if_neg hc]
  clear hc
  by_cases hc : c = ARRAY16
  · exfalso
    apply hs
    simp only [FIXMAP, NEGFIXNUM, FIXMAPMAX, FIXARRAY, FIXARRAYMAX, FIXRAW, FIXRAWMAX, NIL, FALSE, TRUE, FLOAT, DOUBLE, UINT8, UINT16, UINT32, UINT64, INT8, INT16, INT32, INT64, RAW16, RAW32, ARRAY16, ARRAY32, MAP16, MAP32] at hc
    omega
  rw [if_neg hc, if_neg hc]
  clear hc
  by_cases hc : c = ARRAY32
  · exfalso
    apply hs
    simp only [FIXMAP, NEGFIXNUM, FIXMAPMAX, FIXARRAY, FIXARRAYMAX, FIXRAW, FIXRAWMAX, NIL, FALSE, TRUE, FLOAT, DOUBLE, UINT8, UINT16, UINT32, UINT64, INT8, INT16, INT32, INT64, RAW16, RAW32, ARRAY16, ARRAY32, MAP16, MAP32] at hc
    omega
  rw [if_neg hc, if_neg hc]
  clear hc
  by_cases hc : c = MAP16
  · exfalso
    apply hs
    simp only [FIXMAP, NEGFIXNUM, FIXMAPMAX, FIXARRAY, FIXARRAYMAX, FIXRAW, FIXRAWMAX, NIL, FALSE, TRUE, FLOAT, DOUBLE, UINT8, UINT16, UINT32, UINT64, INT8, INT16, INT32, INT64, RAW16, RAW32, ARRAY16, ARRAY32, MAP16, MAP32] at hc
    omega
  rw [if_neg hc, if_neg hc]
  clear hc
  by_cases hc : c = MAP32
  · exfalso
    apply hs
    simp only [FIXMAP, NEGFIXNUM, FIXMAPMAX, FIXARRAY, FIXARRAYMAX, FIXRAW, FIXRAWMAX, NIL, FALSE, TRUE, FLOAT, DOUBLE, UINT8, UINT16, UINT32, UINT64, INT8, INT16, INT32, INT64, RAW16, RAW32, ARRAY16, ARRAY32, MAP16, MAP32] at hc
    omega
  rw [if_neg hc, if_neg hc]

theorem readRaw_shape (named : Bool) (k : Nat) (R : Reader) (len : Nat) :
    readRaw named k R len = Unpacked.error Error.EOF k [] ∨
    ∃ data n, readRaw named k R len
      = Unpacked.ok (if named then Value.Bytes data else Value.bytes data) (k + n) (R.drop len) := by
  unfold readRaw
  cases R with
  | nil =>
    by_cases h : len = 0
    · right; exact ⟨[], 0, by simp [Read, h]⟩
    · left; simp [Read, h]
  | cons a l => right; exact ⟨_, _, rfl⟩

/-- What `unpack` makes of a tag that is not a container tag: the abrupt end for
the unsupported codes, else a value that is neither an array nor a map, or
`io.EOF` with the source used up. -/
theorem unpack_scalar_result [Host] (c : Nat) (R : Reader)
    (hs : ¬ ((128 ≤ c ∧ c ≤ 159) ∨ (220 ≤ c ∧ c ≤ 223))) :
    ((c = 193 ∨ (196 ≤ c ∧ c ≤ 201) ∨ (212 ≤ c ∧ c ≤ 217)) ∧
      unpack 1 false (c :: R) = Unpacked.panic (Panic.unsupportedCode c)) ∨
    (¬ (c = 193 ∨ (196 ≤ c ∧ c ≤ 201) ∨ (212 ≤ c ∧ c ≤ 217)) ∧
      ∃ d m R', unpack 1 false (c :: R) = Unpacked.ok d m R' ∧ R'.length ≤ R.length ∧
        leaf d = true) ∨
    (¬ (c = 193 ∨ (196 ≤ c ∧ c ≤ 201) ∨ (212 ≤ c ∧ c ≤ 217)) ∧
      ∃ m, unpack 1 false (c :: R) = Unpacked.error Error.EOF m []) := by
  rw [unpack_cons]
  by_cases hc : c < FIXMAP ∨ c ≥ NEGFIXNUM
  · rw [if_pos hc]
    exact Or.inr (Or.inl ⟨(by simp only [FIXMAP, NEGFIXNUM, FIXMAPMAX, FIXARRAY, FIXARRAYMAX, FIXRAW, FIXRAWMAX, NIL, FALSE, TRUE, FLOAT, DOUBLE, UINT8, UINT16, UINT32, UINT64, INT8, INT16, INT32, INT64, RAW16, RAW32, ARRAY16, ARRAY32, MAP16, MAP32] at hc; omega), _, _, _, rfl, le_refl _, rfl⟩)
  rw [if_neg hc]
  have hn0 := hc
  clear hc
  by_cases hc : c ≥ FIXMAP ∧ c ≤ FIXMAPMAX
  · exfalso
    apply hs
    simp only [FIXMAP, NEGFIXNUM, FIXMAPMAX, FIXARRAY, FIXARRAYMAX, FIXRAW, FIXRAWMAX, NIL, FALSE, TRUE, FLOAT, DOUBLE, UINT8, UINT16, UINT32, UINT64, INT8, INT16, INT32, INT64, RAW16, RAW32, ARRAY16, ARRAY32, MAP16, MAP32] at hc
    omega
  rw [if_neg hc]
  have hn1 := hc
  clear hc
  by_cases hc : c ≥ FIXARRAY ∧ c ≤ FIXARRAYMAX
  · exfalso
    apply hs
    simp only [FIXMAP, NEGFIXNUM, FIXMAPMAX, FIXARRAY, FIXARRAYMAX, FIXRAW, FIXRAWMAX, NIL, FALSE, TRUE, FLOAT, DOUBLE, UINT8, UINT16, UINT32, UINT64, INT8, INT16, INT32, INT64, RAW16, RAW32, ARRAY16, ARRAY32, MAP16, MAP32] at hc
    omega
  rw [if_neg hc]
  have hn2 := hc
  clear hc
  by_cases hc : c ≥ FIXRAW ∧ c ≤ FIXRAWMAX
  · rw [if_pos hc]
    rcases readRaw_shape false 1 R (lowfive c) with e2 | ⟨data, n2, e2⟩
    · exact Or.inr (Or.inr ⟨(by simp only [FIXMAP, NEGFIXNUM, FIXMAPMAX, FIXARRAY, FIXARRAYMAX, FIXRAW, FIXRAWMAX, NIL, FALSE, TRUE, FLOAT, DOUBLE, UINT8, UINT16, UINT32, UINT64, INT8, INT16, INT32, INT64, RAW16, RAW32, ARRAY16, ARRAY32, MAP16, MAP32] at hc; omega), _, e2⟩)
    · exact Or.inr (Or.inl ⟨(by simp only [FIXMAP, NEGFIXNUM, FIXMAPMAX, FIXARRAY, FIXARRAYMAX, FIXRAW, FIXRAWMAX, NIL, FALSE, TRUE, FLOAT, DOUBLE, UINT8, UINT16, UINT32, UINT64, INT8, INT16, INT32, INT64, RAW16, RAW32, ARRAY16, ARRAY32, MAP16, MAP32] at hc; omega), _, _, _, e2, by simp, rfl⟩)
  rw [if_neg hc]
  have hn3 := hc
  clear hc
  by_cases hc : c = NIL
  · rw [if_pos hc]
    exact Or.inr (Or.inl ⟨(by simp only [FIXMAP, NEGFIXNUM, FIXMAPMAX, FIXARRAY, FIXARRAYMAX, FIXRAW, FIXRAWMAX, NIL, FALSE, TRUE, FLOAT, DOUBLE, UINT8, UINT16, UINT32, UINT64, INT8, INT16, INT32, INT64, RAW16, RAW32, ARRAY16, ARRAY32, MAP16, MAP32] at hc; omega), _, _, _, rfl, le_refl _, rfl⟩)
  rw [if_neg hc]
  have hn4 := hc
  clear hc
  by_cases hc : c = FALSE
  · rw [if_pos hc]
    exact Or.inr (Or.inl ⟨(by simp only [FIXMAP, NEGFIXNUM, FIXMAPMAX, FIXARRAY, FIXARRAYMAX, FIXRAW, FIXRAWMAX, NIL, FALSE, TRUE, FLOAT, DOUBLE, UINT8, UINT16, UINT32, UINT64, INT8, INT16, INT32, INT64, RAW16, RAW32, ARRAY16, ARRAY32, MAP16, MAP32] at hc; omega), _, _, _, rfl, le_refl _, rfl⟩)
  rw [if_neg hc]
  have hn5 := hc
  clear hc
  by_cases hc : c = TRUE
  · rw [if_pos hc]
    exact Or.inr (Or.inl ⟨(by simp only [FIXMAP, NEGFIXNUM, FIXMAPMAX, FIXARRAY, FIXARRAYMAX, FIXRAW, FIXRAWMAX, NIL, FALSE, TRUE, FLOAT, DOUBLE, UINT8, UINT16, UINT32, UINT64, INT8, INT16, INT32, INT64, RAW16, RAW32, ARRAY16, ARRAY32, MAP16, MAP32] at hc; omega), _, _, _, rfl, le_refl _, rfl⟩)
  rw [if_neg hc]
  have hn6 := hc
  clear hc
  by_cases hc : c = FLOAT
  · rw [if_pos hc]
    rcases readUint32_shape R with ⟨_, e⟩ | ⟨_, y, n, e⟩ <;> rw [e]
    · exact Or.inr (Or.inr ⟨(by simp only [FIXMAP, NEGFIXNUM, FIXMAPMAX, FIXARRAY, FIXARRAYMAX, FIXRAW, FIXRAWMAX, NIL, FALSE, TRUE, FLOAT, DOUBLE, UINT8, UINT16, UINT32, UINT64, INT8, INT16, INT32, INT64, RAW16, RAW32, ARRAY16, ARRAY32, MAP16, MAP32] at hc; omega), _, rfl⟩)
    · exact Or.inr (Or.inl ⟨(by simp only [FIXMAP, NEGFIXNUM, FIXMAPMAX, FIXARRAY, FIXARRAYMAX, FIXRAW, FIXRAWMAX, NIL, FALSE, TRUE, FLOAT, DOUBLE, UINT8, UINT16, UINT32, UINT64, INT8, INT16, INT32, INT64, RAW16, RAW32, ARRAY16, ARRAY32, MAP16, MAP32] at hc; omega), _, _, _, rfl, by simp, rfl⟩)
  rw [if_neg hc]
  have hn7 := hc
  clear hc
  by_cases hc : c = DOUBLE
  · rw [if_pos hc]
    rcases readUint64_shape R with ⟨_, e⟩ | ⟨_, y, n, e⟩ <;> rw [e]
    · exact Or.inr (Or.inr ⟨(by simp only [FIXMAP, NEGFIXNUM, FIXMAPMAX, FIXARRAY, FIXARRAYMAX, FIXRAW, FIXRAWMAX, NIL, FALSE, TRUE, FLOAT, DOUBLE, UINT8, UINT16, UINT32, UINT64, INT8, INT16, INT32, INT64, RAW16, RAW32, ARRAY16, ARRAY32, MAP16, MAP32] at hc; omega), _, rfl⟩)
    · exact Or.inr (Or.inl ⟨(by simp only [FIXMAP, NEGFIXNUM, FIXMAPMAX, FIXARRAY, FIXARRAYMAX, FIXRAW, FIXRAWMAX, NIL, FALSE, TRUE, FLOAT, DOUBLE, UINT8, UINT16, UINT32, UINT64, INT8, INT16, INT32, INT64, RAW16, RAW32, ARRAY16, ARRAY32, MAP16, MAP32] at hc; omega), _, _, _, rfl, by simp, rfl⟩)
  rw [if_neg hc]
  have hn8 := hc
  clear hc
  by_cases hc : c = UINT8
  · rw [if_pos hc]
    rcases readByte_shape R with ⟨_, e⟩ | ⟨y, R0, e0, e⟩ <;> rw [e]
    · exact Or.inr (Or.inr ⟨(by simp only [FIXMAP, NEGFIXNUM, FIXMAPMAX, FIXARRAY, FIXARRAYMAX, FIXRAW, FIXRAWMAX, NIL, FALSE, TRUE, FLOAT, DOUBLE, UINT8, UINT16, UINT32, UINT64, INT8, INT16, INT32, INT64, RAW16, RAW32, ARRAY16, ARRAY32, MAP16, MAP32] at hc; omega), _, rfl⟩)
    · exact Or.inr (Or.inl ⟨(by simp only [FIXMAP, NEGFIXNUM, FIXMAPMAX, FIXARRAY, FIXARRAYMAX, FIXRAW, FIXRAWMAX, NIL, FALSE, TRUE, FLOAT, DOUBLE, UINT8, UINT16, UINT32, UINT64, INT8, INT16, INT32, INT64, RAW16, RAW32, ARRAY16, ARRAY32, MAP16, MAP32] at hc; omega), _, _, _, rfl, by rw [e0]; simp, rfl⟩)
  rw [if_neg hc]
  have hn9 := hc
  clear hc
  by_cases hc : c = UINT16
  · rw [if_pos hc]
    rcases readUint16_shape R with ⟨_, e⟩ | ⟨_, y, n, e⟩ <;> rw [e]
    · exact Or.inr (Or.inr ⟨(by simp only [FIXMAP, NEGFIXNUM, FIXMAPMAX, FIXARRAY, FIXARRAYMAX, FIXRAW, FIXRAWMAX, NIL, FALSE, TRUE, FLOAT, DOUBLE, UINT8, UINT16, UINT32, UINT64, INT8, INT16, INT32, INT64, RAW16, RAW32, ARRAY16, ARRAY32, MAP16, MAP32] at hc; omega), _, rfl⟩)
    · exact Or.inr (Or.inl ⟨(by simp only [FIXMAP, NEGFIXNUM, FIXMAPMAX, FIXARRAY, FIXARRAYMAX, FIXRAW, FIXRAWMAX, NIL, FALSE, TRUE, FLOAT, DOUBLE, UINT8, UINT16, UINT32, UINT64, INT8, INT16, INT32, INT64, RAW16, RAW32, ARRAY16, ARRAY32, MAP16, MAP32] at hc; omega), _, _, _, rfl, by simp, rfl⟩)
  rw [if_neg hc]
  have hn10 := hc
  clear hc
  by_cases hc : c = UINT32
  · rw [if_pos hc]
    rcases readUint32_shape R with ⟨_, e⟩ | ⟨_, y, n, e⟩ <;> rw [e]
    · exact Or.inr (Or.inr ⟨(by simp only [FIXMAP, NEGFIXNUM, FIXMAPMAX, FIXARRAY, FIXARRAYMAX, FIXRAW, FIXRAWMAX, NIL, FALSE, TRUE, FLOAT, DOUBLE, UINT8, UINT16, UINT32, UINT64, INT8, INT16, INT32, INT64, RAW16, RAW32, ARRAY16, ARRAY32, MAP16, MAP32] at hc; omega), _, rfl⟩)
    · exact Or.inr (Or.inl ⟨(by simp only [FIXMAP, NEGFIXNUM, FIXMAPMAX, FIXARRAY, FIXARRAYMAX, FIXRAW, FIXRAWMAX, NIL, FALSE, TRUE, FLOAT, DOUBLE, UINT8, UINT16, UINT32, UINT64, INT8, INT16, INT32, INT64, RAW16, RAW32, ARRAY16, ARRAY32, MAP16, MAP32] at hc; omega), _, _, _, rfl, by simp, rfl⟩)
  rw [if_neg hc]
  have hn11 := hc
  clear hc
  by_cases hc : c = UINT64
  · rw [if_pos hc]
    rcases readUint64_shape R with ⟨_, e⟩ | ⟨_, y, n, e⟩ <;> rw [e]
    · exact Or.inr (Or.inr ⟨(by simp only [FIXMAP, NEGFIXNUM, FIXMAPMAX, FIXARRAY, FIXARRAYMAX, FIXRAW, FIXRAWMAX, NIL, FALSE, TRUE, FLOAT, DOUBLE, UINT8, UINT16, UINT32, UINT64, INT8, INT16, INT32, INT64, RAW16, RAW32, ARRAY16, ARRAY32, MAP16, MAP32] at hc; omega), _, rfl⟩)
    · exact Or.inr (Or.inl ⟨(by simp only [FIXMAP, NEGFIXNUM, FIXMAPMAX, FIXARRAY, FIXARRAYMAX, FIXRAW, FIXRAWMAX, NIL, FALSE, TRUE, FLOAT, DOUBLE, UINT8, UINT16, UINT32, UINT64, INT8, INT16, INT32, INT64, RAW16, RAW32, ARRAY16, ARRAY32, MAP16, MAP32] at hc; omega), _, _, _, rfl, by simp, rfl⟩)
  rw [if_neg hc]
  have hn12 := hc
  clear hc
  by_cases hc : c = INT8
  · rw [if_pos hc]
    rcases readByte_shape R with ⟨_, e⟩ | ⟨y, R0, e0, e⟩ <;> rw [e]
    · exact Or.inr (Or.inr ⟨(by simp only [FIXMAP, NEGFIXNUM, FIXMAPMAX, FIXARRAY, FIXARRAYMAX, FIXRAW, FIXRAWMAX, NIL, FALSE, TRUE, FLOAT, DOUBLE, UINT8, UINT16, UINT32, UINT64, INT8, INT16, INT32, INT64, RAW16, RAW32, ARRAY16, ARRAY32, MAP16, MAP32] at hc; omega), _, rfl⟩)
    · exact Or.inr (Or.inl ⟨(by simp only [FIXMAP, NEGFIXNUM, FIXMAPMAX, FIXARRAY, FIXARRAYMAX, FIXRAW, FIXRAWMAX, NIL, FALSE, TRUE, FLOAT, DOUBLE, UINT8, UINT16, UINT32, UINT64, INT8, INT16, INT32, INT64, RAW16, RAW32, ARRAY16, ARRAY32, MAP16, MAP32] at hc; omega), _, _, _, rfl, by rw [e0]; simp, rfl⟩)
  rw [if_neg hc]
  have hn13 := hc
  clear hc
  by_cases hc : c = INT16
  · rw [if_pos hc]
    rcases readInt16_shape R with ⟨_, e⟩ | ⟨_, y, n, e⟩ <;> rw [e]
    · exact Or.inr (Or.inr ⟨(by simp only [FIXMAP, NEGFIXNUM, FIXMAPMAX, FIXARRAY, FIXARRAYMAX, FIXRAW, FIXRAWMAX, NIL, FALSE, TRUE, FLOAT, DOUBLE, UINT8, UINT16, UINT32, UINT64, INT8, INT16, INT32, INT64, RAW16, RAW32, ARRAY16, ARRAY32, MAP16, MAP32] at hc; omega), _, rfl⟩)
    · exact Or.inr (Or.inl ⟨(by simp only [FIXMAP, NEGFIXNUM, FIXMAPMAX, FIXARRAY, FIXARRAYMAX, FIXRAW, FIXRAWMAX, NIL, FALSE, TRUE, FLOAT, DOUBLE, UINT8, UINT16, UINT32, UINT64, INT8, INT16, INT32, INT64, RAW16, RAW32, ARRAY16, ARRAY32, MAP16, MAP32] at hc; omega), _, _, _, rfl, by simp, rfl⟩)
  rw [if_neg hc]
  have hn14 := hc
  clear hc
  by_cases hc : c = INT32
  · rw [if_pos hc]
    rcases readInt32_shape R with ⟨_, e⟩ | ⟨_, y, n, e⟩ <;> rw [e]
    · exact Or.inr (Or.inr ⟨(by simp only [FIXMAP, NEGFIXNUM, FIXMAPMAX, FIXARRAY, FIXARRAYMAX, FIXRAW, FIXRAWMAX, NIL, FALSE, TRUE, FLOAT, DOUBLE, UINT8, UINT16, UINT32, UINT64, INT8, INT16, INT32, INT64, RAW16, RAW32, ARRAY16, ARRAY32, MAP16, MAP32] at hc; omega), _, rfl⟩)
    · exact Or.inr (Or.inl ⟨(by simp only [FIXMAP, NEGFIXNUM, FIXMAPMAX, FIXARRAY, FIXARRAYMAX, FIXRAW, FIXRAWMAX, NIL, FALSE, TRUE, FLOAT, DOUBLE, UINT8, UINT16, UINT32, UINT64, INT8, INT16, INT32, INT64, RAW16, RAW32, ARRAY16, ARRAY32, MAP16, MAP32] at hc; omega), _, _, _, rfl, by simp, rfl⟩)
  rw [if_neg hc]
  have hn15 := hc
  clear hc
  by_cases hc : c = INT64
  · rw [if_pos hc]
    rcases readInt64_shape R with ⟨_, e⟩ | ⟨_, y, n, e⟩ <;> rw [e]
    · exact Or.inr (Or.inr ⟨(by simp only [FIXMAP, NEGFIXNUM, FIXMAPMAX, FIXARRAY, FIXARRAYMAX, FIXRAW, FIXRAWMAX, NIL, FALSE, TRUE, FLOAT, DOUBLE, UINT8, UINT16, UINT32, UINT64, INT8, INT16, INT32, INT64, RAW16, RAW32, ARRAY16, ARRAY32, MAP16, MAP32] at hc; omega), _, rfl⟩)
    · exact Or.inr (Or.inl ⟨(by simp only [FIXMAP, NEGFIXNUM, FIXMAPMAX, FIXARRAY, FIXARRAYMAX, FIXRAW, FIXRAWMAX, NIL, FALSE, TRUE, FLOAT, DOUBLE, UINT8, UINT16, UINT32, UINT64, INT8, INT16, INT32, INT64, RAW16, RAW32, ARRAY16, ARRAY32, MAP16, MAP32] at hc; omega), _, _, _, rfl, by simp, rfl⟩)
  rw [if_neg hc]
  have hn16 := hc
  clear hc
  by_cases hc : c = RAW16
  · rw [if_pos hc]
    rcases readUint16_shape R with ⟨_, e⟩ | ⟨_, y, n, e⟩ <;> rw [e]
    · exact Or.inr (Or.inr ⟨(by simp only [FIXMAP, NEGFIXNUM, FIXMAPMAX, FIXARRAY, FIXARRAYMAX, FIXRAW, FIXRAWMAX, NIL, FALSE, TRUE, FLOAT, DOUBLE, UINT8, UINT16, UINT32, UINT64, INT8, INT16, INT32, INT64, RAW16, RAW32, ARRAY16, ARRAY32, MAP16, MAP32] at hc; omega), _, rfl⟩)
    · rcases readRaw_shape false (1 + n) (R.drop 2) y with e2 | ⟨data, n2, e2⟩
      · exact Or.inr (Or.inr ⟨(by simp only [FIXMAP, NEGFIXNUM, FIXMAPMAX, FIXARRAY, FIXARRAYMAX, FIXRAW, FIXRAWMAX, NIL, FALSE, TRUE, FLOAT, DOUBLE, UINT8, UINT16, UINT32, UINT64, INT8, INT16, INT32, INT64, RAW16, RAW32, ARRAY16, ARRAY32, MAP16, MAP32] at hc; omega), _, e2⟩)
      · exact Or.inr (Or.inl ⟨(by simp only [FIXMAP, NEGFIXNUM, FIXMAPMAX, FIXARRAY, FIXARRAYMAX, FIXRAW, FIXRAWMAX, NIL, FALSE, TRUE, FLOAT, DOUBLE, UINT8, UINT16, UINT32, UINT64, INT8, INT16, INT32, INT64, RAW16, RAW32, ARRAY16, ARRAY32, MAP16, MAP32] at hc; omega), _, _, _, e2, by simp only [List.length_drop]; omega, rfl⟩)
  rw [if_neg hc]
  have hn17 := hc
  clear hc
  by_cases hc : c = RAW32
  · rw [if_pos hc]
    rcases readUint32_shape R with ⟨_, e⟩ | ⟨_, y, n, e⟩ <;> rw [e]
    · exact Or.inr (Or.inr ⟨(by simp only [FIXMAP, NEGFIXNUM, FIXMAPMAX, FIXARRAY, FIXARRAYMAX, FIXRAW, FIXRAWMAX, NIL, FALSE, TRUE, FLOAT, DOUBLE, UINT8, UINT16, UINT32, UINT64, INT8, INT16, INT32, INT64, RAW16, RAW32, ARRAY16, ARRAY32, MAP16, MAP32] at hc; omega), _, rfl⟩)
    · rcases readRaw_shape true (1 + n) (R.drop 4) y with e2 | ⟨data, n2, e2⟩
      · exact Or.inr (Or.inr ⟨(by simp only [FIXMAP, NEGFIXNUM, FIXMAPMAX, FIXARRAY, FIXARRAYMAX, FIXRAW, FIXRAWMAX, NIL, FALSE, TRUE, FLOAT, DOUBLE, UINT8, UINT16, UINT32, UINT64, INT8, INT16, INT32, INT64, RAW16, RAW32, ARRAY16, ARRAY32, MAP16, MAP32] at hc; omega), _, e2⟩)
      · exact Or.inr (Or.inl ⟨(by simp only [FIXMAP, NEGFIXNUM, FIXMAPMAX, FIXARRAY, FIXARRAYMAX, FIXRAW, FIXRAWMAX, NIL, FALSE, TRUE, FLOAT, DOUBLE, UINT8, UINT16, UINT32, UINT64, INT8, INT16, INT32, INT64, RAW16, RAW32, ARRAY16, ARRAY32, MAP16, MAP32] at hc; omega), _, _, _, e2, by simp only [List.length_drop]; omega, rfl⟩)
  rw [if_neg hc]
  have hn18 := hc
  clear hc
  by_cases hc : c = ARRAY16
  · exfalso
    apply hs
    simp only [FIXMAP, NEGFIXNUM, FIXMAPMAX, FIXARRAY, FIXARRAYMAX, FIXRAW, FIXRAWMAX, NIL, FALSE, TRUE, FLOAT, DOUBLE, UINT8, UINT16, UINT32, UINT64, INT8, INT16, INT32, INT64, RAW16, RAW32, ARRAY16, ARRAY32, MAP16, MAP32] at hc
    omega
  rw [if_neg hc]
  have hn19 := hc
  clear hc
  by_cases hc : c = ARRAY32
  · exfalso
    apply hs
    simp only [FIXMAP, NEGFIXNUM, FIXMAPMAX, FIXARRAY, FIXARRAYMAX, FIXRAW, FIXRAWMAX, NIL, FALSE, TRUE, FLOAT, DOUBLE, UINT8, UINT16, UINT32, UINT64, INT8, INT16, INT32, INT64, RAW16, RAW32, ARRAY16, ARRAY32, MAP16, MAP32] at hc
    omega
  rw [if_neg hc]
  have hn20 := hc
  clear hc
  by_cases hc : c = MAP16
  · exfalso
    apply hs
    simp only [FIXMAP, NEGFIXNUM, FIXMAPMAX, FIXARRAY, FIXARRAYMAX, FIXRAW, FIXRAWMAX, NIL, FALSE, TRUE, FLOAT, DOUBLE, UINT8, UINT16, UINT32, UINT64, INT8, INT16, INT32, INT64, RAW16, RAW32, ARRAY16, ARRAY32, MAP16, MAP32] at hc
    omega
  rw [if_neg hc]
  have hn21 := hc
  clear hc
  by_cases hc : c = MAP32
  · exfalso
    apply hs
    simp only [FIXMAP, NEGFIXNUM, FIXMAPMAX, FIXARRAY, FIXARRAYMAX, FIXRAW, FIXRAWMAX, NIL, FALSE, TRUE, FLOAT, DOUBLE, UINT8, UINT16, UINT32, UINT64, INT8, INT16, INT32, INT64, RAW16, RAW32, ARRAY16, ARRAY32, MAP16, MAP32] at hc
    omega
  rw [if_neg hc]
  have hn22 := hc
  clear hc
  refine Or.inl ⟨?_, rfl⟩
  simp only [FIXMAP, NEGFIXNUM, FIXMAPMAX, FIXARRAY, FIXARRAYMAX, FIXRAW, FIXRAWMAX, NIL, FALSE, TRUE, FLOAT, DOUBLE, UINT8, UINT16, UINT32, UINT64, INT8, INT16, INT32, INT64, RAW16, RAW32, ARRAY16, ARRAY32, MAP16, MAP32] at hn0 hn1 hn2 hn3 hn4 hn5 hn6 hn7 hn8 hn9 hn10 hn11 hn12 hn13 hn14 hn15 hn16 hn17 hn18 hn19 hn20 hn21 hn22
  omega

/-- What `unpack` makes of a container tag, in either mode: `io.EOF` when the
count field cannot be read, else the element loop of the mode on the source
behind the header. -/
theorem unpack_container_tag [Host] (c : Nat) (R : Reader)
    (hs : (128 ≤ c ∧ c ≤ 159) ∨ (220 ≤ c ∧ c ≤ 223)) :
    (∀ fuel b, unpack (fuel + 1) b (c :: R) = Unpacked.error Error.EOF 1 []) ∨
    ∃ isMap fixed hdr n R1, R1.length ≤ R.length ∧
      ∀ fuel b, unpack (fuel + 1) b (c :: R)
        = containerCount fixed hdr (containerBody fuel isMap b n R1) := by
  by_cases h1 : 128 ≤ c ∧ c ≤ 143
  · right
    refine ⟨true, true, 0, lownibble c, R, le_refl _, fun fuel b => ?_⟩
    rw [unpack_cons, if_neg (by simp only [FIXMAP, NEGFIXNUM]; omega),
      if_pos (by simp only [FIXMAP, FIXMAPMAX]; omega)]
    rfl
  by_cases h2 : 144 ≤ c ∧ c ≤ 159
  · right
    refine ⟨false, true, 0, lownibble c, R, le_refl _, fun fuel b => ?_⟩
    rw [unpack_cons, if_neg (by simp only [FIXMAP, NEGFIXNUM]; omega),
      if_neg (by simp only [FIXMAP, FIXMAPMAX]; omega),
      if_pos (by simp only [FIXARRAY, FIXARRAYMAX]; omega)]
    rfl
  by_cases h3 : c = 220
  · subst h3
    rcases readUint16_shape R with ⟨_, e⟩ | ⟨_, y, n, e⟩
    · left; intro fuel b
      simp [unpack_cons, e, FIXMAP, NEGFIXNUM, FIXMAPMAX, FIXARRAY, FIXARRAYMAX, FIXRAW,
        FIXRAWMAX, NIL, FALSE, TRUE, FLOAT, DOUBLE, UINT8, UINT16, UINT32, UINT64, INT8, INT16,
        INT32, INT64, RAW16, RAW32, ARRAY16]
    · right
      refine ⟨false, false, 1 + n, y, R.drop 2, by simp, fun fuel b => ?_⟩
      simp [unpack_cons, e, FIXMAP, NEGFIXNUM, FIXMAPMAX, FIXARRAY, FIXARRAYMAX, FIXRAW,
        FIXRAWMAX, NIL, FALSE, TRUE, FLOAT, DOUBLE, UINT8, UINT16, UINT32, UINT64, INT8, INT16,
        INT32, INT64, RAW16, RAW32, ARRAY16, containerCount, containerBody]
  by_cases h4 : c = 221
  · subst h4
    rcases readUint32_shape R with ⟨_, e⟩ | ⟨_, y, n, e⟩
    · left; intro fuel b
      simp [unpack_cons, e, FIXMAP, NEGFIXNUM, FIXMAPMAX, FIXARRAY, FIXARRAYMAX, FIXRAW,
        FIXRAWMAX, NIL, FALSE, TRUE, FLOAT, DOUBLE, UINT8, UINT16, UINT32, UINT64, INT8, INT16,
        INT32, INT64, RAW16, RAW32, ARRAY16, ARRAY32]
    · right
      refine ⟨false, false, 1 + n, y, R.drop 4, by simp, fun fuel b => ?_⟩
      simp [unpack_cons, e, FIXMAP, NEGFIXNUM, FIXMAPMAX, FIXARRAY, FIXARRAYMAX, FIXRAW,
        FIXRAWMAX, NIL, FALSE, TRUE, FLOAT, DOUBLE, UINT8, UINT16, UINT32, UINT64, INT8, INT16,
        INT32, INT64, RAW16, RAW32, ARRAY16, ARRAY32, containerCount, containerBody]
  by_cases h5 : c = 222
  · subst h5
    rcases readUint16_shape R with ⟨_, e⟩ | ⟨_, y, n, e⟩
    · left; intro fuel b
      simp [unpack_cons, e, FIXMAP, NEGFIXNUM, FIXMAPMAX, FIXARRAY, FIXARRAYMAX, FIXRAW,
        FIXRAWMAX, NIL, FALSE, TRUE, FLOAT, DOUBLE, UINT8, UINT16, UINT32, UINT64, INT8, INT16,
        INT32, INT64, RAW16, RAW32, ARRAY16, ARRAY32, MAP16]
    · right
      refine ⟨true, false, 1 + n, y, R.drop 2, by simp, fun fuel b => ?_⟩
      simp [unpack_cons, e, FIXMAP, NEGFIXNUM, FIXMAPMAX, FIXARRAY, FIXARRAYMAX, FIXRAW,
        FIXRAWMAX, NIL, FALSE, TRUE, FLOAT, DOUBLE, UINT8, UINT16, UINT32, UINT64, INT8, INT16,
        INT32, INT64, RAW16, RAW32, ARRAY16, ARRAY32, MAP16, containerCount, containerBody]
  · have h6 : c = 223 := by omega
    subst h6
    rcases readUint32_shape R with ⟨_, e⟩ | ⟨_, y, n, e⟩
    · left; intro fuel b
      simp [unpack_cons, e, FIXMAP, NEGFIXNUM, FIXMAPMAX, FIXARRAY, FIXARRAYMAX, FIXRAW,
        FIXRAWMAX, NIL, FALSE, TRUE, FLOAT, DOUBLE, UINT8, UINT16, UINT32, UINT64, INT8, INT16,
        INT32, INT64, RAW16, RAW32, ARRAY16, ARRAY32, MAP16, MAP32]
    · right
      refine ⟨true, false, 1 + n, y, R.drop 4, by simp, fun fuel b => ?_⟩
      simp [unpack_cons, e, FIXMAP, NEGFIXNUM, FIXMAPMAX, FIXARRAY, FIXARRAYMAX, FIXRAW,
        FIXRAWMAX, NIL, FALSE, TRUE, FLOAT, DOUBLE, UINT8, UINT16, UINT32, UINT64, INT8, INT16,
        INT32, INT64, RAW16, RAW32, ARRAY16, ARRAY32, MAP16, MAP32, containerCount,
        containerBody]

/-! ## Termination of decoding -/

/-! ### The element loops consume what their elements consume -/

theorem unpackArrayLoop_shorter (f : Reader → Unpacked)
    (hf : ∀ r d m r', f r = Unpacked.ok d m r' → r'.length < r.length) (n : Nat) :
    ∀ (R : Reader) (acc : List Value) (k : Nat) (d : Value) (m : Nat) (R' : Reader),
      unpackArrayLoop f n R acc k = Unpacked.ok d m R' → R'.length + n ≤ R.length := by
  induction n with
  | zero =>
    intro R acc k d m R' h
    simp only [unpackArrayLoop] at h
    cases h
    omega
  | succ n ih =>
    intro R acc k d m R' h
    simp only [unpackArrayLoop] at h
    split at h
    · rename_i v n1 R1 heq
      have h1 := hf _ _ _ _ heq
      split at h
      · cases h
      · have := ih _ _ _ _ _ _ h
        omega
    · cases h
    · cases h
    · cases h

theorem unpackArrayReflectedLoop_shorter (f : Reader → Unpacked)
    (hf : ∀ r d m r', f r = Unpacked.ok d m r' → r'.length < r.length) (n : Nat) :
    ∀ (R : Reader) (acc : List Value) (k : Nat) (d : Value) (m : Nat) (R' : Reader),
      unpackArrayReflectedLoop f n R acc k = Unpacked.ok d m R' → R'.length + n ≤ R.length := by
  induction n with
  | zero =>
    intro R acc k d m R' h
    simp only [unpackArrayReflectedLoop] at h
    cases h
    omega
  | succ n ih =>
    intro R acc k d m R' h
    simp only [unpackArrayReflectedLoop] at h
    split at h
    · rename_i v n1 R1 heq
      have h1 := hf _ _ _ _ heq
      have := ih _ _ _ _ _ _ h
      omega
    · cases h
    · cases h
    · cases h

theorem unpackMap_shorter (f : Reader → Unpacked)
    (hf : ∀ r d m r', f r = Unpacked.ok d m r' → r'.length < r.length) (n : Nat) :
    ∀ (R : Reader) (acc : List (Value × Value)) (k : Nat) (d : Value) (m : Nat) (R' : Reader),
      unpackMap f n R acc k = Unpacked.ok d m R' → R'.length + n ≤ R.length := by
  induction n with
  | zero =>
    intro R acc k d m R' h
    simp only [unpackMap] at h
    cases h
    omega
  | succ n ih =>
    intro R acc k d m R' h
    simp only [unpackMap] at h
    split at h
    · rename_i kv n1 R1 heq
      have h1 := hf _ _ _ _ heq
      split at h
      · rename_i vv n2 R2 heq2
        have h2 := hf _ _ _ _ heq2
        split at h
        · cases h
        · split at h
          · cases h
          · split at h
            · cases h
            · split at h
              · have := ih _ _ _ _ _ _ h
                omega
              · cases h
      · cases h
      · cases h
      · cases h
    · cases h
    · cases h
    · cases h

theorem unpackMapReflected_shorter (f : Reader → Unpacked)
    (hf : ∀ r d m r', f r = Unpacked.ok d m r' → r'.length < r.length) (n : Nat) :
    ∀ (R : Reader) (acc : List (Value × Value)) (k : Nat) (d : Value) (m : Nat) (R' : Reader),
      unpackMapReflected f n R acc k = Unpacked.ok d m R' → R'.length + n ≤ R.length := by
  induction n with
  | zero =>
    intro R acc k d m R' h
    simp only [unpackMapReflected] at h
    cases h
    omega
  | succ n ih =>
    intro R acc k d m R' h
    simp only [unpackMapReflected] at h
    split at h
    · rename_i kv n1 R1 heq
      have h1 := hf _ _ _ _ heq
      split at h
      · rename_i vv n2 R2 heq2
        have h2 := hf _ _ _ _ heq2
        have := ih _ _ _ _ _ _ h
        omega
      · cases h
      · cases h
      · cases h
    · cases h
    · cases h
    · cases h

/-! ### The allocation of the array decoders -/

theorem unpackArray_granted [Host] (f : Reader → Unpacked) (n : Nat) (R : Reader)
    (h : Host.grants (sizeofInterface * n) = true) :
    unpackArray f n R = unpackArrayLoop f n R [] 0 := by
  unfold unpackArray
  rw [if_pos h]

theorem unpackArray_refused [Host] (f : Reader → Unpacked) (n : Nat) (R : Reader)
    (h : ¬ Host.grants (sizeofInterface * n) = true) :
    unpackArray f n R = Unpacked.panic Panic.outOfMemory := by
  unfold unpackArray
  rw [if_neg h]

theorem unpackArrayReflected_granted [Host] (f : Reader → Unpacked) (n : Nat) (R : Reader)
    (h : Host.grants (sizeofValue * n) = true) :
    unpackArrayReflected f n R = unpackArrayReflectedLoop f n R [] 0 := by
  unfold unpackArrayReflected
  rw [if_pos h]

theorem unpackArrayReflected_refused [Host] (f : Reader → Unpacked) (n : Nat) (R : Reader)
    (h : ¬ Host.grants (sizeofValue * n) = true) :
    unpackArrayReflected f n R = Unpacked.panic Panic.outOfMemory := by
  unfold unpackArrayReflected
  rw [if_neg h]

theorem containerBody_shorter [Host] (fuel : Nat)
    (hf : ∀ b r d m r', unpack fuel b r = Unpacked.ok d m r' → r'.length < r.length)
    (isMap b : Bool) (n : Nat) (R : Reader) (d : Value) (m : Nat) (R' : Reader)
    (h : containerBody fuel isMap b n R = Unpacked.ok d m R') : R'.length + n ≤ R.length := by
  unfold containerBody at h
  cases isMap <;> cases b <;> simp only [if_true, if_false, Bool.false_eq_true] at h
  · by_cases hg : Host.grants (sizeofInterface * n) = true
    · rw [unpackArray_granted _ _ _ hg] at h
      exact unpackArrayLoop_shorter _ (hf false) n _ _ _ _ _ _ h
    · rw [unpackArray_refused _ _ _ hg] at h
      cases h
  · by_cases hg : Host.grants (sizeofValue * n) = true
    · rw [unpackArrayReflected_granted _ _ _ hg] at h
      exact unpackArrayReflectedLoop_shorter _ (hf true) n _ _ _ _ _ _ h
    · rw [unpackArrayReflected_refused _ _ _ hg] at h
      cases h
  · exact unpackMap_shorter _ (hf false) n _ _ _ _ _ _ h
  · exact unpackMapReflected_shorter _ (hf true) n _ _ _ _ _ _ h

theorem containerCount_ok (fixed : Bool) (hdr : Nat) (X : Unpacked) (d : Value) (m : Nat)
    (R' : Reader) (h : containerCount fixed hdr X = Unpacked.ok d m R') :
    ∃ m', X = Unpacked.ok d m' R' := by
  unfold containerCount at h
  cases fixed <;> simp only [if_true, if_false, Bool.false_eq_true] at h
  · exact sizedContainer_ok _ _ _ _ _ h
  · exact fixContainer_ok _ _ _ _ _ h

/-- A call of `unpack` that returns a value has consumed at least one byte. -/
theorem unpack_ok_shorter [Host] (fuel : Nat) :
    ∀ (b : Bool) (r : Reader) (d : Value) (m : Nat) (r' : Reader),
      unpack fuel b r = Unpacked.ok d m r' → r'.length < r.length := by
  induction fuel with
  | zero => intro b r d m r' h; simp only [unpack] at h; cases h
  | succ fuel ih =>
    intro b r d m r' h
    cases r with
    | nil => cases h
    | cons c R =>
      by_cases hs : (128 ≤ c ∧ c ≤ 159) ∨ (220 ≤ c ∧ c ≤ 223)
      · rcases unpack_container_tag c R hs with e | ⟨isMap, fixed, hdr, n, R1, hl, e⟩
        · rw [e fuel b] at h; cases h
        · rw [e fuel b] at h
          obtain ⟨m', h'⟩ := containerCount_ok _ _ _ _ _ _ h
          have := containerBody_shorter fuel ih _ _ _ _ _ _ _ h'
          simp only [List.length_cons]
          omega
      · rw [unpack_scalar_tag fuel b c R hs] at h
        rcases unpack_scalar_result c R hs with ⟨_, e⟩ | ⟨_, d', m', R'', e, hl, _⟩ | ⟨_, m', e⟩
        · rw [e] at h; cases h
        · rw [e] at h; cases h
          simp only [List.length_cons]
          omega
        · rw [e] at h; cases h

/-! ### The recursion budget is never used up -/

theorem unpackArrayLoop_no_fuel (f : Reader → Unpacked)
    (hf : ∀ r d m r', f r = Unpacked.ok d m r' → r'.length < r.length) (B : Nat)
    (hfu : ∀ r, r.length ≤ B → f r ≠ Unpacked.fuel) (n : Nat) :
    ∀ (R : Reader) (acc : List Value) (k : Nat), R.length ≤ B →
      unpackArrayLoop f n R acc k ≠ Unpacked.fuel := by
  induction n with
  | zero => intro R acc k _ h; simp only [unpackArrayLoop] at h; cases h
  | succ n ih =>
    intro R acc k hR h
    simp only [unpackArrayLoop] at h
    split at h
    · rename_i v n1 R1 heq
      have h1 := hf _ _ _ _ heq
      split at h
      · cases h
      · exact ih _ _ _ (by omega) h
    · cases h
    · cases h
    · rename_i heq
      exact hfu R hR heq

theorem unpackArrayReflectedLoop_no_fuel (f : Reader → Unpacked)
    (hf : ∀ r d m r', f r = Unpacked.ok d m r' → r'.length < r.length) (B : Nat)
    (hfu : ∀ r, r.length ≤ B → f r ≠ Unpacked.fuel) (n : Nat) :
    ∀ (R : Reader) (acc : List Value) (k : Nat), R.length ≤ B →
      unpackArrayReflectedLoop f n R acc k ≠ Unpacked.fuel := by
  induction n with
  | zero => intro R acc k _ h; simp only [unpackArrayReflectedLoop] at h; cases h
  | succ n ih =>
    intro R acc k hR h
    simp only [unpackArrayReflectedLoop] at h
    split at h
    · rename_i v n1 R1 heq
      have h1 := hf _ _ _ _ heq
      exact ih _ _ _ (by omega) h
    · cases h
    · cases h
    · rename_i heq
      exact hfu R hR heq

theorem unpackMap_no_fuel (f : Reader → Unpacked)
    (hf : ∀ r d m r', f r = Unpacked.ok d m r' → r'.length < r.length) (B : Nat)
    (hfu : ∀ r, r.length ≤ B → f r ≠ Unpacked.fuel) (n : Nat) :
    ∀ (R : Reader) (acc : List (Value × Value)) (k : Nat), R.length ≤ B →
      unpackMap f n R acc k ≠ Unpacked.fuel := by
  induction n with
  | zero => intro R acc k _ h; simp only [unpackMap] at h; cases h
  | succ n ih =>
    intro R acc k hR h
    simp only [unpackMap] at h
    split at h
    · rename_i kv n1 R1 heq
      have h1 := hf _ _ _ _ heq
      split at h
      · rename_i vv n2 R2 heq2
        have h2 := hf _ _ _ _ heq2
        split at h
        · cases h
        · split at h
          · cases h
          · split at h
            · cases h
            · split at h
              · exact ih _ _ _ (by omega) h
              · cases h
      · cases h
      · cases h
      · rename_i heq2
        exact hfu R1 (by omega) heq2
    · cases h
    · cases h
    · rename_i heq
      exact hfu R hR heq

theorem unpackMapReflected_no_fuel (f : Reader → Unpacked)
    (hf : ∀ r d m r', f r = Unpacked.ok d m r' → r'.length < r.length) (B : Nat)
    (hfu : ∀ r, r.length ≤ B → f r ≠ Unpacked.fuel) (n : Nat) :
    ∀ (R : Reader) (acc : List (Value × Value)) (k : Nat), R.length ≤ B →
      unpackMapReflected f n R acc k ≠ Unpacked.fuel := by
  induction n with
  | zero => intro R acc k _ h; simp only [unpackMapReflected] at h; cases h
  | succ n ih =>
    intro R acc k hR h
    simp only [unpackMapReflected] at h
    split at h
    · rename_i kv n1 R1 heq
      have h1 := hf _ _ _ _ heq
      split at h
      · rename_i vv n2 R2 heq2
        have h2 := hf _ _ _ _ heq2
        exact ih _ _ _ (by omega) h
      · cases h
      · cases h
      · rename_i heq2
        exact hfu R1 (by omega) heq2
    · cases h
    · cases h
    · rename_i heq
      exact hfu R hR heq

theorem containerBody_no_fuel [Host] (fuel : Nat) (B : Nat)
    (hfu : ∀ b r, r.length ≤ B → unpack fuel b r ≠ Unpacked.fuel)
    (isMap b : Bool) (n : Nat) (R : Reader) (hR : R.length ≤ B) :
    containerBody fuel isMap b n R ≠ Unpacked.fuel := by
  unfold containerBody
  cases isMap <;> cases b <;> simp only [if_true, if_false, Bool.false_eq_true]
  · by_cases hg : Host.grants (sizeofInterface * n) = true
    · rw [unpackArray_granted _ _ _ hg]
      exact unpackArrayLoop_no_fuel _ (unpack_ok_shorter fuel false) B (hfu false) n R _ _ hR
    · rw [unpackArray_refused _ _ _ hg]
      exact fun h => Unpacked.noConfusion h
  · by_cases hg : Host.grants (sizeofValue * n) = true
    · rw [unpackArrayReflected_granted _ _ _ hg]
      exact unpackArrayReflectedLoop_no_fuel _ (unpack_ok_shorter fuel true) B (hfu true) n R _ _ hR
    · rw [unpackArrayReflected_refused _ _ _ hg]
      exact fun h => Unpacked.noConfusion h
  · exact unpackMap_no_fuel _ (unpack_ok_shorter fuel false) B (hfu false) n R _ _ hR
  · exact unpackMapReflected_no_fuel _ (unpack_ok_shorter fuel true) B (hfu true) n R _ _ hR

theorem containerCount_fuel (fixed : Bool) (hdr : Nat) (X : Unpacked)
    (h : containerCount fixed hdr X = Unpacked.fuel) : X = Unpacked.fuel := by
  unfold containerCount at h
  cases fixed <;> cases X <;>
    simp only [if_true, if_false, Bool.false_eq_true, fixContainer, sizedContainer] at h <;>
    first | rfl | cases h

/-- A recursion budget above the length of the source is never used up. -/
theorem unpack_total [Host] (fuel : Nat) :
    ∀ (b : Bool) (r : Reader), r.length < fuel → unpack fuel b r ≠ Unpacked.fuel := by
  induction fuel with
  | zero => intro b r h; omega
  | succ fuel ih =>
    intro b r hr h
    cases r with
    | nil => cases h
    | cons c R =>
      simp only [List.length_cons] at hr
      by_cases hs : (128 ≤ c ∧ c ≤ 159) ∨ (220 ≤ c ∧ c ≤ 223)
      · rcases unpack_container_tag c R hs with e | ⟨isMap, fixed, hdr, n, R1, hl, e⟩
        · rw [e fuel b] at h; cases h
        · rw [e fuel b] at h
          exact containerBody_no_fuel fuel R.length
            (fun b' r' hr' => ih b' r' (by omega)) isMap b n R1 hl (containerCount_fuel _ _ _ h)
      · rw [unpack_scalar_tag fuel b c R hs] at h
        rcases unpack_scalar_result c R hs with ⟨_, e⟩ | ⟨_, d', m', R'', e, hl, _⟩ | ⟨_, m', e⟩
        · rw [e] at h; cases h
        · rw [e] at h; cases h
        · rw [e] at h; cases h

/-! ### The result does not depend on the recursion budget -/

theorem unpackArrayLoop_congr (f g : Reader → Unpacked) (B : Nat)
    (hfg : ∀ r, r.length ≤ B → f r = g r)
    (hf : ∀ r d m r', f r = Unpacked.ok d m r' → r'.length < r.length) (n : Nat) :
    ∀ (R : Reader) (acc : List Value) (k : Nat), R.length ≤ B →
      unpackArrayLoop f n R acc k = unpackArrayLoop g n R acc k := by
  induction n with
  | zero => intro R acc k _; simp only [unpackArrayLoop]
  | succ n ih =>
    intro R acc k hR
    simp only [unpackArrayLoop]
    rw [← hfg R hR]
    cases hfr : f R with
    | ok v n1 R1 =>
      have h1 := hf _ _ _ _ hfr
      simp only []
      cases Interface v with
      | none => rfl
      | some x => exact ih _ _ _ (by omega)
    | error e n1 R1 => rfl
    | panic p => rfl
    | fuel => rfl

theorem unpackArrayReflectedLoop_congr (f g : Reader → Unpacked) (B : Nat)
    (hfg : ∀ r, r.length ≤ B → f r = g r)
    (hf : ∀ r d m r', f r = Unpacked.ok d m r' → r'.length < r.length) (n : Nat) :
    ∀ (R : Reader) (acc : List Value) (k : Nat), R.length ≤ B →
      unpackArrayReflectedLoop f n R acc k = unpackArrayReflectedLoop g n R acc k := by
  induction n with
  | zero => intro R acc k _; simp only [unpackArrayReflectedLoop]
  | succ n ih =>
    intro R acc k hR
    simp only [unpackArrayReflectedLoop]
    rw [← hfg R hR]
    cases hfr : f R with
    | ok v n1 R1 =>
      have h1 := hf _ _ _ _ hfr
      exact ih _ _ _ (by omega)
    | error e n1 R1 => rfl
    | panic p => rfl
    | fuel => rfl

theorem unpackMap_congr (f g : Reader → Unpacked) (B : Nat)
    (hfg : ∀ r, r.length ≤ B → f r = g r)
    (hf : ∀ r d m r', f r = Unpacked.ok d m r' → r'.length < r.length) (n : Nat) :
    ∀ (R : Reader) (acc : List (Value × Value)) (k : Nat), R.length ≤ B →
      unpackMap f n R acc k = unpackMap g n R acc k := by
  induction n with
  | zero => intro R acc k _; simp only [unpackMap]
  | succ n ih =>
    intro R acc k hR
    simp only [unpackMap]
    rw [← hfg R hR]
    cases hfr : f R with
    | ok kv n1 R1 =>
      have h1 := hf _ _ _ _ hfr
      simp only []
      rw [← hfg R1 (by omega)]
      cases hfr2 : f R1 with
      | ok vv n2 R2 =>
        have h2 := hf _ _ _ _ hfr2
        simp only []
        cases Interface kv with
        | none => rfl
        | some k1 =>
          cases Interface vv with
          | none => rfl
          | some x =>
            simp only []
            cases mapKey kv with
            | none => rfl
            | some key =>
              simp only []
              by_cases hh : hashable key = true
              · rw [if_pos hh, if_pos hh]
                exact ih _ _ _ (by omega)
              · rw [if_neg hh, if_neg hh]
      | error e n2 R2 => rfl
      | panic p => rfl
      | fuel => rfl
    | error e n1 R1 => rfl
    | panic p => rfl
    | fuel => rfl

theorem unpackMapReflected_congr (f g : Reader → Unpacked) (B : Nat)
    (hfg : ∀ r, r.length ≤ B → f r = g r)
    (hf : ∀ r d m r', f r = Unpacked.ok d m r' → r'.length < r.length) (n : Nat) :
    ∀ (R : Reader) (acc : List (Value × Value)) (k : Nat), R.length ≤ B →
      unpackMapReflected f n R acc k = unpackMapReflected g n R acc k := by
  induction n with
  | zero => intro R acc k _; simp only [unpackMapReflected]
  | succ n ih =>
    intro R acc k hR
    simp only [unpackMapReflected]
    rw [← hfg R hR]
    cases hfr : f R with
    | ok kv n1 R1 =>
      have h1 := hf _ _ _ _ hfr
      simp only []
      rw [← hfg R1 (by omega)]
      cases hfr2 : f R1 with
      | ok vv n2 R2 =>
        have h2 := hf _ _ _ _ hfr2
        exact ih _ _ _ (by omega)
      | error e n2 R2 => rfl
      | panic p => rfl
      | fuel => rfl
    | error e n1 R1 => rfl
    | panic p => rfl
    | fuel => rfl

theorem containerBody_congr [Host] (fuel : Nat) (B : Nat)
    (hfg : ∀ b r, r.length ≤ B → unpack (fuel + 1) b r = unpack fuel b r)
    (isMap b : Bool) (n : Nat) (R : Reader) (hR : R.length ≤ B) :
    containerBody (fuel + 1) isMap b n R = containerBody fuel isMap b n R := by
  unfold containerBody
  cases isMap <;> cases b <;> simp only [if_true, if_false, Bool.false_eq_true]
  · by_cases hg : Host.grants (sizeofInterface * n) = true
    · rw [unpackArray_granted _ _ _ hg, unpackArray_granted _ _ _ hg]
      exact unpackArrayLoop_congr _ _ B (hfg false) (unpack_ok_shorter _ false) n R _ _ hR
    · rw [unpackArray_refused _ _ _ hg, unpackArray_refused _ _ _ hg]
  · by_cases hg : Host.grants (sizeofValue * n) = true
    · rw [unpackArrayReflected_granted _ _ _ hg, unpackArrayReflected_granted _ _ _ hg]
      exact unpackArrayReflectedLoop_congr _ _ B (hfg true) (unpack_ok_shorter _ true) n R _ _ hR
    · rw [unpackArrayReflected_refused _ _ _ hg, unpackArrayReflected_refused _ _ _ hg]
  · exact unpackMap_congr _ _ B (hfg false) (unpack_ok_shorter _ false) n R _ _ hR
  · exact unpackMapReflected_congr _ _ B (hfg true) (unpack_ok_shorter _ true) n R _ _ hR

theorem unpack_succ [Host] (fuel : Nat) :
    ∀ (b : Bool) (r : Reader), r.length < fuel → unpack (fuel + 1) b r = unpack fuel b r := by
  induction fuel with
  | zero => intro b r h; omega
  | succ fuel ih =>
    intro b r hr
    cases r with
    | nil => rfl
    | cons c R =>
      simp only [List.length_cons] at hr
      by_cases hs : (128 ≤ c ∧ c ≤ 159) ∨ (220 ≤ c ∧ c ≤ 223)
      · rcases unpack_container_tag c R hs with e | ⟨isMap, fixed, hdr, n, R1, hl, e⟩
        · rw [e (fuel + 1) b, e fuel b]
        · rw [e (fuel + 1) b, e fuel b,
            containerBody_congr fuel R.length (fun b' r' hr' => ih b' r' (by omega))
              isMap b n R1 hl]
      · rw [unpack_scalar_tag (fuel + 1) b c R hs, unpack_scalar_tag fuel b c R hs]

/-- Every recursion budget above the length of the source gives the result of
the budget `Unpack` and `UnpackReflected` use. -/
theorem unpack_budget [Host] (b : Bool) (r : Reader) (j : Nat) :
    unpack (r.length + 1 + j) b r = unpack (r.length + 1) b r := by
  induction j with
  | zero => rfl
  | succ j ih =>
    rw [← ih]
    exact unpack_succ (r.length + 1 + j) b r (by omega)

/-! ### Headers that declare more than the source holds -/

theorem unpack_sized16 [Host] (fuel : Nat) (mode : Bool) (c a b : Nat) (R : Reader)
    (hc : c = 0xdc ∨ c = 0xde) (ha : a < 256) (hb : b < 256) :
    unpack (fuel + 1) mode (c :: a :: b :: R)
      = sizedContainer 3 (containerBody fuel (decide (c = 0xde)) mode (a * 2 ^ 8 + b) R) := by
  rcases hc with rfl | rfl <;>
    simp [unpack_cons, readUint16_cons _ _ _ ha hb, FIXMAP, NEGFIXNUM, FIXMAPMAX, FIXARRAY,
      FIXARRAYMAX, FIXRAW, FIXRAWMAX, NIL, FALSE, TRUE, FLOAT, DOUBLE, UINT8, UINT16, UINT32,
      UINT64, INT8, INT16, INT32, INT64, RAW16, RAW32, ARRAY16, ARRAY32, MAP16, containerBody]

theorem unpack_sized32 [Host] (fuel : Nat) (mode : Bool) (c a b a' b' : Nat) (R : Reader)
    (hc : c = 0xdd ∨ c = 0xdf) (ha : a < 256) (hb : b < 256) (ha' : a' < 256) (hb' : b' < 256) :
    unpack (fuel + 1) mode (c :: a :: b :: a' :: b' :: R)
      = sizedContainer 5 (containerBody fuel (decide (c = 0xdf)) mode
          (a * 2 ^ 24 + b * 2 ^ 16 + a' * 2 ^ 8 + b') R) := by
  rcases hc with rfl | rfl <;>
    simp [unpack_cons, readUint32_cons _ _ _ _ _ ha hb ha' hb', FIXMAP, NEGFIXNUM, FIXMAPMAX,
      FIXARRAY, FIXARRAYMAX, FIXRAW, FIXRAWMAX, NIL, FALSE, TRUE, FLOAT, DOUBLE, UINT8, UINT16,
      UINT32, UINT64, INT8, INT16, INT32, INT64, RAW16, RAW32, ARRAY16, ARRAY32, MAP16, MAP32,
      containerBody]

/-- A 16- or 32-bit container header that declares more elements or entries
than bytes follow it never yields a value, in either mode. -/
theorem unpack_overdeclared [Host] (fuel : Nat) (mode : Bool) (c : Nat) (p R : Reader)
    (hp : ∀ x ∈ p, x < 256)
    (hc : ((c = 0xdc ∨ c = 0xde) ∧ p.length = 2) ∨ ((c = 0xdd ∨ c = 0xdf) ∧ p.length = 4))
    (hR : R.length < fromBigEndian p) (d : Value) (m : Nat) (r' : Reader) :
    unpack (fuel + 1) mode (c :: (p ++ R)) ≠ Unpacked.ok d m r' := by
  intro h
  rcases hc with ⟨hc, hl⟩ | ⟨hc, hl⟩
  · obtain ⟨a, b, rfl⟩ := List.length_eq_two.mp hl
    rw [fromBigEndian_two] at hR
    rw [List.cons_append, List.cons_append, List.nil_append,
      unpack_sized16 fuel mode c a b R hc (hp a (by simp)) (hp b (by simp))] at h
    obtain ⟨m', h'⟩ := sizedContainer_ok _ _ _ _ _ h
    have := containerBody_shorter fuel (unpack_ok_shorter fuel) _ _ _ _ _ _ _ h'
    omega
  · obtain ⟨a, b, a', b', rfl⟩ := length_eq_four hl
    rw [fromBigEndian_four] at hR
    rw [List.cons_append, List.cons_append, List.cons_append, List.cons_append, List.nil_append,
      unpack_sized32 fuel mode c a b a' b' R hc (hp a (by simp)) (hp b (by simp))
        (hp a' (by simp)) (hp b' (by simp))] at h
    obtain ⟨m', h'⟩ := sizedContainer_ok _ _ _ _ _ h
    have := containerBody_shorter fuel (unpack_ok_shorter fuel) _ _ _ _ _ _ _ h'
    omega

/-! ### Headers that declare more than the host grants -/

/-- A 16- or 32-bit array header that declares more elements than the host
grants ends the call abruptly, before any element is read, whatever follows
the header. -/
theorem unpack_array_refused [Host] (fuel : Nat) (c : Nat) (p R : Reader)
    (hp : ∀ x ∈ p, x < 256) (hc : (c = 0xdc ∧ p.length = 2) ∨ (c = 0xdd ∧ p.length = 4)) :
    (¬ Host.grants (sizeofInterface * fromBigEndian p) = true →
      unpack (fuel + 1) false (c :: (p ++ R)) = Unpacked.panic Panic.outOfMemory) ∧
    (¬ Host.grants (sizeofValue * fromBigEndian p) = true →
      unpack (fuel + 1) true (c :: (p ++ R)) = Unpacked.panic Panic.outOfMemory) := by
  rcases hc with ⟨rfl, hl⟩ | ⟨rfl, hl⟩
  · obtain ⟨a, b, rfl⟩ := List.length_eq_two.mp hl
    rw [fromBigEndian_two]
    constructor
    · intro hg
      rw [List.cons_append, List.cons_append, List.nil_append,
        unpack_sized16 fuel false _ a b R (Or.inl rfl) (hp a (by simp)) (hp b (by simp))]
      simp only [containerBody, Nat.reduceEqDiff, decide_False, Bool.false_eq_true, if_false,
        unpackArray_refused _ _ _ hg, sizedContainer]
    · intro hg
      rw [List.cons_append, List.cons_append, List.nil_append,
        unpack_sized16 fuel true _ a b R (Or.inl rfl) (hp a (by simp)) (hp b (by simp))]
      simp only [containerBody, Nat.reduceEqDiff, decide_False, Bool.false_eq_true, if_false,
        if_true, unpackArrayReflected_refused _ _ _ hg, sizedContainer]
  · obtain ⟨a, b, a', b', rfl⟩ := length_eq_four hl
    rw [fromBigEndian_four]
    constructor
    · intro hg
      rw [List.cons_append, List.cons_append, List.cons_append, List.cons_append,
        List.nil_append,
        unpack_sized32 fuel false _ a b a' b' R (Or.inl rfl) (hp a (by simp)) (hp b (by simp))
          (hp a' (by simp)) (hp b' (by simp))]
      simp only [containerBody, Nat.reduceEqDiff, decide_False, Bool.false_eq_true, if_false,
        unpackArray_refused _ _ _ hg, sizedContainer]
    · intro hg
      rw [List.cons_append, List.cons_append, List.cons_append, List.cons_append,
        List.nil_append,
        unpack_sized32 fuel true _ a b a' b' R (Or.inl rfl) (hp a (by simp)) (hp b (by simp))
          (hp a' (by simp)) (hp b' (by simp))]
      simp only [containerBody, Nat.reduceEqDiff, decide_False, Bool.false_eq_true, if_false,
        if_true, unpackArrayReflected_refused _ _ _ hg, sizedContainer]

/-- The body of a container of at least one element on an exhausted source: the
first element decode fails with `io.EOF`, which ends the loop, unless the host
refuses the allocation of an array. -/
theorem containerBody_exhausted [Host] (fuel : Nat) (isMap mode : Bool) (n : Nat)
    (hn : 0 < n)
    (hg : isMap = false → (mode = false → Host.grants (sizeofInterface * n) = true) ∧
      (mode = true → Host.grants (sizeofValue * n) = true)) :
    containerBody (fuel + 1) isMap mode n [] = Unpacked.error Error.EOF 0 [] := by
  obtain ⟨k, rfl⟩ : ∃ k, n = k + 1 := ⟨n - 1, by omega⟩
  unfold containerBody
  cases isMap with
  | true =>
    cases mode with
    | true => rfl
    | false => rfl
  | false =>
    cases mode with
    | true =>
      simp only [Bool.false_eq_true, if_false, if_true]
      rw [unpackArrayReflected_granted _ _ _ ((hg rfl).2 rfl)]
      rfl
    | false =>
      simp only [Bool.false_eq_true, if_false]
      rw [unpackArray_granted _ _ _ ((hg rfl).1 rfl)]
      rfl

/-- A 16- or 32-bit container header that declares at least one element, with
nothing behind it: `io.EOF`, with the count of the header. -/
theorem unpack_exhausted [Host] (fuel : Nat) (mode : Bool) (c : Nat) (p : Reader)
    (hp : ∀ x ∈ p, x < 256)
    (hc : ((c = 0xdc ∨ c = 0xde) ∧ p.length = 2) ∨ ((c = 0xdd ∨ c = 0xdf) ∧ p.length = 4))
    (hn : 0 < fromBigEndian p)
    (hg : c = 0xdc ∨ c = 0xdd →
      (mode = false → Host.grants (sizeofInterface * fromBigEndian p) = true) ∧
      (mode = true → Host.grants (sizeofValue * fromBigEndian p) = true)) :
    unpack (fuel + 1 + 1) mode (c :: p) = Unpacked.error Error.EOF (1 + p.length) [] := by
  rcases hc with ⟨hc, hl⟩ | ⟨hc, hl⟩
  · obtain ⟨a, b, rfl⟩ := List.length_eq_two.mp hl
    rw [fromBigEndian_two] at hn hg
    rw [unpack_sized16 (fuel + 1) mode c a b [] hc (hp a (by simp)) (hp b (by simp)),
      containerBody_exhausted fuel _ mode _ hn]
    · rfl
    · intro hm
      apply hg
      rcases hc with rfl | rfl
      · exact Or.inl rfl
      · simp at hm
  · obtain ⟨a, b, a', b', rfl⟩ := length_eq_four hl
    rw [fromBigEndian_four] at hn hg
    rw [unpack_sized32 (fuel + 1) mode c a b a' b' [] hc (hp a (by simp)) (hp b (by simp))
        (hp a' (by simp)) (hp b' (by simp)),
      containerBody_exhausted fuel _ mode _ hn]
    · rfl
    · intro hm
      apply hg
      rcases hc with rfl | rfl
      · exact Or.inr rfl
      · simp at hm

/-- C27 (as stated, at a failing input): the header `dd ff ff ff ff` declares
2^32 - 1 elements and one byte follows it.  On a host that grants no more than
4 GiB to an allocation, `Unpack` and `UnpackReflected` end abruptly in `make`,
which asks for 16 and 24 bytes an element, before any element is read: no
element decode fails and stops the loop.  On the host that grants every
allocation the first element is read and the second element decode fails with
`io.EOF`. -/
theorem Unpack_overdeclared_allocation :
    @Unpack (limited (2 ^ 32)) [0xdd, 0xff, 0xff, 0xff, 0xff, 0x01]
      = Unpacked.panic Panic.outOfMemory ∧
    @UnpackReflected (limited (2 ^ 32)) [0xdd, 0xff, 0xff, 0xff, 0xff, 0x01]
      = Unpacked.panic Panic.outOfMemory ∧
    @Unpack roomy [0xdd, 0xff, 0xff, 0xff, 0xff, 0x01] = Unpacked.error Error.EOF 6 [] ∧
    @Unpack (limited (2 ^ 32)) [0xdd, 0x00, 0x00, 0x00, 0x02, 0x01]
      = Unpacked.error Error.EOF 6 [] :=
  ⟨rfl, rfl, rfl, rfl⟩

/-- C27 (amended): on every host and every finite source, decoding ends.  The
recursion of `unpack` through nested containers is never deeper than the source
is long: a recursion budget of one more than the length of the source is not
used up, in either mode, and every larger budget gives the same result.  A call
of `Unpack` or `UnpackReflected` that returns a value has consumed at least one
byte, so each element decode of a container starts from a strictly shorter
source than the call that reads the container.  On an empty source the decode
fails with `io.EOF`.  A 16- or 32-bit header that declares more elements than
bytes follow it never yields a value.  If it is an array header and the host
does not grant the declared count (16 bytes an element for `Unpack`, 24 for
`UnpackReflected`), the call ends abruptly in the allocation, before any
element is read; if nothing follows a header that declares at least one
element, and the host grants the count when it is an array header, the first
element decode fails with `io.EOF` and stops the loop. -/
theorem Unpack_terminates [Host] (r : List Nat) :
    (∀ mode j, unpack (r.length + 1 + j) mode r = unpack (r.length + 1) mode r) ∧
    Unpack r ≠ Unpacked.fuel ∧ UnpackReflected r ≠ Unpacked.fuel ∧
    (∀ d m r', Unpack r = Unpacked.ok d m r' → r'.length < r.length) ∧
    (∀ d m r', UnpackReflected r = Unpacked.ok d m r' → r'.length < r.length) ∧
    (r = [] → Unpack r = Unpacked.error Error.EOF 0 [] ∧
      UnpackReflected r = Unpacked.error Error.EOF 0 []) ∧
    (∀ c p R, r = c :: (p ++ R) → (∀ x ∈ p, x < 256) →
      ((c = 0xdc ∨ c = 0xde) ∧ p.length = 2) ∨ ((c = 0xdd ∨ c = 0xdf) ∧ p.length = 4) →
      R.length < fromBigEndian p →
      (∀ d m r', Unpack r ≠ Unpacked.ok d m r') ∧
      (∀ d m r', UnpackReflected r ≠ Unpacked.ok d m r')) ∧
    (∀ c p R, r = c :: (p ++ R) → (∀ x ∈ p, x < 256) →
      (c = 0xdc ∧ p.length = 2) ∨ (c = 0xdd ∧ p.length = 4) →
      (¬ Host.grants (sizeofInterface * fromBigEndian p) = true →
        Unpack r = Unpacked.panic Panic.outOfMemory) ∧
      (¬ Host.grants (sizeofValue * fromBigEndian p) = true →
        UnpackReflected r = Unpacked.panic Panic.outOfMemory)) ∧
    (∀ c p, r = c :: p → (∀ x ∈ p, x < 256) →
      ((c = 0xdc ∨ c = 0xde) ∧ p.length = 2) ∨ ((c = 0xdd ∨ c = 0xdf) ∧ p.length = 4) →
      0 < fromBigEndian p →
      ((c = 0xdc ∨ c = 0xdd → Host.grants (sizeofInterface * fromBigEndian p) = true) →
        Unpack r = Unpacked.error Error.EOF (1 + p.length) []) ∧
      ((c = 0xdc ∨ c = 0xdd → Host.grants (sizeofValue * fromBigEndian p) = true) →
        UnpackReflected r = Unpacked.error Error.EOF (1 + p.length) [])) := by
  refine ⟨fun mode j => unpack_budget mode r j, unpack_total _ false r (by omega),
    unpack_total _ true r (by omega), fun d m r' h => unpack_ok_shorter _ false r d m r' h,
    fun d m r' h => unpack_ok_shorter _ true r d m r' h, ?_, ?_, ?_, ?_⟩
  · rintro rfl; exact ⟨rfl, rfl⟩
  · rintro c p R rfl hp hc hR
    exact ⟨fun d m r' => unpack_overdeclared _ false c p R hp hc hR d m r',
      fun d m r' => unpack_overdeclared _ true c p R hp hc hR d m r'⟩
  · rintro c p R rfl hp hc
    exact ⟨(unpack_array_refused _ c p R hp hc).1, (unpack_array_refused _ c p R hp hc).2⟩
  · rintro c p rfl hp hc hn
    constructor
    · intro hg
      exact unpack_exhausted p.length false c p hp hc hn
        (fun h => ⟨fun _ => hg h, fun h' => Bool.noConfusion h'⟩)
    · intro hg
      exact unpack_exhausted p.length true c p hp hc hn
        (fun h => ⟨fun h' => Bool.noConfusion h', fun _ => hg h⟩)

theorem Unpack_terminates_witness :
    @Unpack (limited (2 ^ 32)) [0xdd, 0xff, 0xff, 0xff, 0xff, 0x01] ≠ Unpacked.fuel ∧
      ([0xdd, 0xff, 0xff, 0xff, 0xff, 0x01] = 0xdd :: ([0xff, 0xff, 0xff, 0xff] ++ [0x01]) ∧
        (∀ x ∈ [0xff, 0xff, 0xff, 0xff], x < 256) ∧
        [0x01].length < fromBigEndian [0xff, 0xff, 0xff, 0xff] ∧
        ¬ (limited (2 ^ 32)).grants (sizeofInterface * fromBigEndian [0xff, 0xff, 0xff, 0xff])
          = true) ∧
      (∀ d m r', @Unpack (limited (2 ^ 32)) [0xdd, 0xff, 0xff, 0xff, 0xff, 0x01]
        ≠ Unpacked.ok d m r') ∧
      @Unpack (limited (2 ^ 32)) [0xdd, 0xff, 0xff, 0xff, 0xff, 0x01]
        = Unpacked.panic Panic.outOfMemory ∧
      @Unpack (limited (2 ^ 32)) [0xdc, 0x00, 0x02]
        = Unpacked.error Error.EOF (1 + [0x00, 0x02].length) [] :=
  ⟨(@Unpack_terminates (limited (2 ^ 32)) [0xdd, 0xff, 0xff, 0xff, 0xff, 0x01]).2.1,
    ⟨rfl, by decide, by decide, by decide⟩,
    ((@Unpack_terminates (limited (2 ^ 32)) [0xdd, 0xff, 0xff, 0xff, 0xff, 0x01]).2.2.2.2.2.2.1
      0xdd [0xff, 0xff, 0xff, 0xff] [0x01] rfl (by decide) (Or.inr ⟨Or.inl rfl, rfl⟩)
      (by decide)).1,
    ((@Unpack_terminates (limited (2 ^ 32)) [0xdd, 0xff, 0xff, 0xff, 0xff, 0x01]).2.2.2.2.2.2.2.1
      0xdd [0xff, 0xff, 0xff, 0xff] [0x01] rfl (by decide) (Or.inr ⟨rfl, rfl⟩)).1 (by decide),
    ((@Unpack_terminates (limited (2 ^ 32)) [0xdc, 0x00, 0x02]).2.2.2.2.2.2.2.2
      0xdc [0x00, 0x02] rfl (by decide) (Or.inl ⟨Or.inl rfl, rfl⟩) (by decide)).1
      (fun _ => by decide)⟩

/-! ## Unsupported codes -/

theorem unpackArrayLoop_panic (f : Reader → Unpacked) (n : Nat) :
    ∀ (R : Reader) (acc : List Value) (k : Nat) (p : Panic),
      unpackArrayLoop f n R acc k = Unpacked.panic p →
        p = Panic.zeroValue ∨ ∃ R0, f R0 = Unpacked.panic p := by
  induction n with
  | zero => intro R acc k p h; simp only [unpackArrayLoop] at h; cases h
  | succ n ih =>
    intro R acc k p h
    simp only [unpackArrayLoop] at h
    split at h
    · split at h
      · cases h; exact Or.inl rfl
      · exact ih _ _ _ _ h
    · cases h
    · rename_i heq
      cases h
      exact Or.inr ⟨_, heq⟩
    · cases h

theorem unpackArrayReflectedLoop_panic (f : Reader → Unpacked) (n : Nat) :
    ∀ (R : Reader) (acc : List Value) (k : Nat) (p : Panic),
      unpackArrayReflectedLoop f n R acc k = Unpacked.panic p → ∃ R0, f R0 = Unpacked.panic p := by
  induction n with
  | zero => intro R acc k p h; simp only [unpackArrayReflectedLoop] at h; cases h
  | succ n ih =>
    intro R acc k p h
    simp only [unpackArrayReflectedLoop] at h
    split at h
    · exact ih _ _ _ _ h
    · cases h
    · rename_i heq
      cases h
      exact ⟨_, heq⟩
    · cases h

theorem unpackMap_panic (f : Reader → Unpacked) (n : Nat) :
    ∀ (R : Reader) (acc : List (Value × Value)) (k : Nat) (p : Panic),
      unpackMap f n R acc k = Unpacked.panic p →
        (p = Panic.zeroValue ∨ p = Panic.typeAssertion ∨ p = Panic.unhashable) ∨
          ∃ R0, f R0 = Unpacked.panic p := by
  induction n with
  | zero => intro R acc k p h; simp only [unpackMap] at h; cases h
  | succ n ih =>
    intro R acc k p h
    simp only [unpackMap] at h
    split at h
    · split at h
      · split at h
        · cases h; exact Or.inl (Or.inl rfl)
        · split at h
          · cases h; exact Or.inl (Or.inr (Or.inl rfl))
          · split at h
            · cases h; exact Or.inl (Or.inl rfl)
            · split at h
              · exact ih _ _ _ _ h
              · cases h; exact Or.inl (Or.inr (Or.inr rfl))
      · cases h
      · rename_i heq
        cases h
        exact Or.inr ⟨_, heq⟩
      · cases h
    · cases h
    · rename_i heq
      cases h
      exact Or.inr ⟨_, heq⟩
    · cases h

theorem unpackMapReflected_panic (f : Reader → Unpacked) (n : Nat) :
    ∀ (R : Reader) (acc : List (Value × Value)) (k : Nat) (p : Panic),
      unpackMapReflected f n R acc k = Unpacked.panic p → ∃ R0, f R0 = Unpacked.panic p := by
  induction n with
  | zero => intro R acc k p h; simp only [unpackMapReflected] at h; cases h
  | succ n ih =>
    intro R acc k p h
    simp only [unpackMapReflected] at h
    split at h
    · split at h
      · exact ih _ _ _ _ h
      · cases h
      · rename_i heq
        cases h
        exact ⟨_, heq⟩
      · cases h
    · cases h
    · rename_i heq
      cases h
      exact ⟨_, heq⟩
    · cases h

theorem containerBody_panic (fuel : Nat) (isMap b : Bool) (n : Nat) (R : Reader) (p : Panic)
    (h : containerBody fuel isMap b n R = Unpacked.panic p) :
    (p = Panic.zeroValue ∨ p = Panic.typeAssertion ∨ p = Panic.unhashable) ∨
      ∃ b' R0, unpack fuel b' R0 = Unpacked.panic p := by
  unfold containerBody at h
  cases isMap <;> cases b <;> simp only [if_true, if_false, Bool.false_eq_true] at h
  · rcases unpackArrayLoop_panic _ n _ _ _ _ h with h1 | ⟨R0, h1⟩
    · exact Or.inl (Or.inl h1)
    · exact Or.inr ⟨_, _, h1⟩
  · obtain ⟨R0, h1⟩ := unpackArrayReflectedLoop_panic _ n _ _ _ _ h
    exact Or.inr ⟨_, _, h1⟩
  · rcases unpackMap_panic _ n _ _ _ _ h with h1 | ⟨R0, h1⟩
    · exact Or.inl h1
    · exact Or.inr ⟨_, _, h1⟩
  · obtain ⟨R0, h1⟩ := unpackMapReflected_panic _ n _ _ _ _ h
    exact Or.inr ⟨_, _, h1⟩

theorem containerCount_panic (fixed : Bool) (hdr : Nat) (X : Unpacked) (p : Panic)
    (h : containerCount fixed hdr X = Unpacked.panic p) : X = Unpacked.panic p := by
  unfold containerCount at h
  cases fixed <;> cases X <;>
    simp only [if_true, if_false, Bool.false_eq_true, fixContainer, sizedContainer] at h <;>
    first | exact h | cases h

/-- The code in an "unsupported code" termination is one of the codes without
a dispatch branch, at whatever depth it was read. -/
theorem unpack_panic_code (fuel : Nat) :
    ∀ (b : Bool) (r : Reader) (x : Nat),
      unpack fuel b r = Unpacked.panic (Panic.unsupportedCode x) →
        x = 193 ∨ (196 ≤ x ∧ x ≤ 201) ∨ (212 ≤ x ∧ x ≤ 217) := by
  induction fuel with
  | zero => intro b r x h; simp only [unpack] at h; cases h
  | succ fuel ih =>
    intro b r x h
    cases r with
    | nil => cases h
    | cons c R =>
      by_cases hs : (128 ≤ c ∧ c ≤ 159) ∨ (220 ≤ c ∧ c ≤ 223)
      · rcases unpack_container_tag c R hs with e | ⟨isMap, fixed, hdr, n, R1, hl, e⟩
        · rw [e fuel b] at h; cases h
        · rw [e fuel b] at h
          rcases containerBody_panic fuel _ _ _ _ _ (containerCount_panic _ _ _ _ h) with
            (h1 | h1 | h1) | ⟨b', R0, h1⟩
          · cases h1
          · cases h1
          · cases h1
          · exact ih b' R0 x h1
      · rw [unpack_scalar_tag fuel b c R hs] at h
        rcases unpack_scalar_result c R hs with ⟨hU, e⟩ | ⟨_, d', m', R'', e, hl, _⟩ | ⟨_, m', e⟩
        · rw [e] at h; cases h; exact hU
        · rw [e] at h; cases h
        · rw [e] at h; cases h

theorem unpack_unsupported (fuel : Nat) (b : Bool) (c : Nat) (R : Reader) :
    unpack (fuel + 1) b (c :: R) = Unpacked.panic (Panic.unsupportedCode c) ↔
      (c = 193 ∨ (196 ≤ c ∧ c ≤ 201) ∨ (212 ≤ c ∧ c ≤ 217)) := by
  constructor
  · exact unpack_panic_code _ b _ c
  · intro hU
    have hs : ¬ ((128 ≤ c ∧ c ≤ 159) ∨ (220 ≤ c ∧ c ≤ 223)) := by omega
    rw [unpack_scalar_tag fuel b c R hs]
    rcases unpack_scalar_result c R hs with ⟨_, e⟩ | ⟨hn, _⟩ | ⟨hn, _⟩
    · exact e
    · exact absurd hU hn
    · exact absurd hU hn

/-- C21: on a non-empty source whose first byte is `c`, `Unpack` terminates with
the unrecoverable "unsupported code" failure for `c`, returning neither a value
nor an error, if and only if `c` is `0xc1`, one of `0xc4 .. 0xc9`, or one of
`0xd4 .. 0xd9`; the same holds for `UnpackReflected`.  For every other first
byte it takes a dispatch branch: it returns a value, returns an error, or
terminates for another reason than the code `c`. -/
theorem Unpack_unsupported_code (c : Nat) (R : List Nat) :
    (Unpack (c :: R) = Unpacked.panic (Panic.unsupportedCode c) ↔
      (c = 0xc1 ∨ (0xc4 ≤ c ∧ c ≤ 0xc9) ∨ (0xd4 ≤ c ∧ c ≤ 0xd9))) ∧
    (UnpackReflected (c :: R) = Unpacked.panic (Panic.unsupportedCode c) ↔
      (c = 0xc1 ∨ (0xc4 ≤ c ∧ c ≤ 0xc9) ∨ (0xd4 ≤ c ∧ c ≤ 0xd9))) ∧
    (¬ (c = 0xc1 ∨ (0xc4 ≤ c ∧ c ≤ 0xc9) ∨ (0xd4 ≤ c ∧ c ≤ 0xd9)) →
      (∃ d m r', Unpack (c :: R) = Unpacked.ok d m r') ∨
      (∃ e m r', Unpack (c :: R) = Unpacked.error e m r') ∨
      (∃ p, Unpack (c :: R) = Unpacked.panic p ∧ p ≠ Panic.unsupportedCode c)) := by
  refine ⟨unpack_unsupported _ false c R, unpack_unsupported _ true c R, ?_⟩
  intro hn
  cases h : Unpack (c :: R) with
  | ok d m r' => exact Or.inl ⟨d, m, r', rfl⟩
  | error e m r' => exact Or.inr (Or.inl ⟨e, m, r', rfl⟩)
  | panic p =>
    refine Or.inr (Or.inr ⟨p, rfl, ?_⟩)
    rintro rfl
    exact hn ((unpack_unsupported _ false c R).mp h)
  | fuel => exact absurd h (unpack_total _ false (c :: R) (by simp))

theorem Unpack_unsupported_code_witness :
    (0xc1 = 0xc1 ∨ (0xc4 ≤ 0xc1 ∧ 0xc1 ≤ 0xc9) ∨ (0xd4 ≤ 0xc1 ∧ 0xc1 ≤ 0xd9)) ∧
      Unpack (0xc1 :: [0x01]) = Unpacked.panic (Panic.unsupportedCode 0xc1) ∧
      ¬ (0xc0 = 0xc1 ∨ (0xc4 ≤ 0xc0 ∧ 0xc0 ≤ 0xc9) ∨ (0xd4 ≤ 0xc0 ∧ 0xc0 ≤ 0xd9)) ∧
      Unpack (0xc0 :: [0x01]) ≠ Unpacked.panic (Panic.unsupportedCode 0xc0) :=
  ⟨by decide, (Unpack_unsupported_code 0xc1 [0x01]).1.mpr (by decide), by decide,
    fun h => absurd ((Unpack_unsupported_code 0xc0 [0x01]).1.mp h) (by decide)⟩

/-! ## Nil inside containers, integer categories, host widths -/

/-- C23 (the code at failing inputs): `Pack` writes the one-element array
holding nil as `91 c0`.  On these bytes `Unpack` terminates abruptly, the call
`v.Interface()` of `unpackArray` being made on the zero `reflect.Value` that
`reflect.ValueOf(nil)` returns, whereas `UnpackReflected` returns the array
with the nil element.  The same happens for a nil map value (`81 01 c0`).  At
top level `c0` decodes to nil. -/
theorem Unpack_nil_element :
    Pack bufferWriter [] (Value.slice [Value.nil]) = Packed.ret 0 none [0x91, 0xc0] ∧
      Unpack [0x91, 0xc0] = Unpacked.panic Panic.zeroValue ∧
      UnpackReflected [0x91, 0xc0]
        = Unpacked.ok (Value.slice [Value.reflected Value.nil]) 3 [] ∧
      Unpack [0x81, 0x01, 0xc0] = Unpacked.panic Panic.zeroValue ∧
      UnpackReflected [0x81, 0x01, 0xc0]
        = Unpacked.ok (Value.map [(Value.reflected (Value.int8 1),
            Value.reflected Value.nil)]) 5 [] ∧
      Unpack [0xc0] = Unpacked.ok Value.nil 1 [] :=
  ⟨rfl, rfl, rfl, rfl, rfl, rfl⟩

/-- C24 (as stated, at a failing input): `PackUint64` writes the unsigned 5 as
the inline byte `05`, and `Unpack` returns for it the int8 5, a value of a
signed category. -/
theorem Unpack_small_unsigned_is_int8 :
    PackUint64 bufferWriter [] 5 = Packed.ret 1 none [0x05] ∧
      Unpack [0x05] = Unpacked.ok (Value.int8 5) 1 [] ∧
      PackUint64 bufferWriter [] 127 = Packed.ret 1 none [0x7f] ∧
      Unpack [0x7f] = Unpacked.ok (Value.int8 127) 1 [] :=
  ⟨rfl, rfl, rfl, rfl⟩

/-- C24 (amended): for every unsigned 64-bit `u`, the value `Unpack` returns for
the bytes `PackUint64` writes is the int8 `u` when `u ≤ 127` (the inline byte)
and otherwise of the narrowest unsigned category that holds `u`: uint8 up to
255, uint16 up to 65535, uint32 up to `2^32 - 1`, else uint64.  For every signed
64-bit `v`, the value `Unpack` returns for the bytes `PackInt64` writes is of
the narrowest signed category that holds `v`: int8 within `[-128, 127]`, int16
within `[-32768, 32767]`, int32 within `[-2^31, 2^31 - 1]`, else int64. -/
theorem Unpack_integer_category (u : Nat) (hu : u < 2 ^ 64) (v : Int)
    (hv : -2 ^ 63 ≤ v ∧ v < 2 ^ 63) :
    (∃ n E d m, PackUint64 bufferWriter [] u = Packed.ret n none E ∧
      Unpack E = Unpacked.ok d m [] ∧
      (u ≤ 127 → d = Value.int8 u) ∧
      (128 ≤ u ∧ u ≤ 255 → d = Value.uint8 u) ∧
      (256 ≤ u ∧ u ≤ 65535 → d = Value.uint16 u) ∧
      (65536 ≤ u ∧ u ≤ 2 ^ 32 - 1 → d = Value.uint32 u) ∧
      (2 ^ 32 ≤ u → d = Value.uint64 u)) ∧
    (∃ n E d m, PackInt64 bufferWriter [] v = Packed.ret n none E ∧
      Unpack E = Unpacked.ok d m [] ∧
      (-128 ≤ v ∧ v ≤ 127 → d = Value.int8 v) ∧
      (-32768 ≤ v ∧ v ≤ 32767 ∧ ¬ (-128 ≤ v ∧ v ≤ 127) → d = Value.int16 v) ∧
      (-2 ^ 31 ≤ v ∧ v ≤ 2 ^ 31 - 1 ∧ ¬ (-32768 ≤ v ∧ v ≤ 32767) → d = Value.int32 v) ∧
      (¬ (-2 ^ 31 ≤ v ∧ v ≤ 2 ^ 31 - 1) → d = Value.int64 v)) := by
  constructor
  · refine ⟨(uintWire u).length, [] ++ uintWire u, uintDecoded u, (uintWire u).length,
      by rw [PackUint64_eq _ _ _ hu, bufferWriter_ret], ?_, ?_⟩
    · rw [List.nil_append, Unpack_eq]
      exact unpack_uintWire _ false u [] hu
    · unfold uintDecoded
      refine ⟨?_, ?_, ?_, ?_, ?_⟩
      · intro h; rw [if_pos (by omega)]
      · intro h1; rw [if_neg (by omega), if_pos (by omega)]
      · intro h1; rw [if_neg (by omega), if_neg (by omega), if_pos (by omega)]
      · intro h1
        rw [if_neg (by omega), if_neg (by omega), if_neg (by omega), if_pos (by omega)]
      · intro h1
        rw [if_neg (by omega), if_neg (by omega), if_neg (by omega), if_neg (by omega)]
  · refine ⟨(intWire v).length, [] ++ intWire v, intDecoded v, (intWire v).length,
      by rw [PackInt64_eq _ _ _ hv, bufferWriter_ret], ?_, ?_⟩
    · rw [List.nil_append, Unpack_eq]
      exact unpack_intWire _ false v [] hv
    · unfold intDecoded
      refine ⟨?_, ?_, ?_, ?_⟩
      · intro h1; rw [if_pos (by omega)]
      · intro h1; rw [if_neg (by omega), if_pos (by omega)]
      · intro h1; rw [if_neg (by omega), if_neg (by omega), if_pos (by omega)]
      · intro h1; rw [if_neg (by omega), if_neg (by omega), if_neg (by omega)]

theorem Unpack_integer_category_witness :
    (300 < 2 ^ 64 ∧ (-2 ^ 63 ≤ (-129 : Int) ∧ (-129 : Int) < 2 ^ 63)) ∧
    (∃ n E d m, PackUint64 bufferWriter [] 300 = Packed.ret n none E ∧
      Unpack E = Unpacked.ok d m [] ∧ (256 ≤ 300 ∧ 300 ≤ 65535 → d = Value.uint16 300)) ∧
    (∃ n E d m, PackInt64 bufferWriter [] (-129) = Packed.ret n none E ∧
      Unpack E = Unpacked.ok d m [] ∧
      (-32768 ≤ (-129 : Int) ∧ (-129 : Int) ≤ 32767 ∧ ¬ (-128 ≤ (-129 : Int) ∧ (-129 : Int) ≤ 127)
        → d = Value.int16 (-129))) :=
  ⟨⟨by norm_num, by norm_num⟩,
    (Unpack_integer_category 300 (by norm_num) (-129) (by norm_num)).1.imp
      (fun _ h => h.imp (fun _ h => h.imp (fun _ h => h.imp
        (fun _ h => ⟨h.1, h.2.1, h.2.2.2.2.1⟩)))),
    (Unpack_integer_category 300 (by norm_num) (-129) (by norm_num)).2.imp
      (fun _ h => h.imp (fun _ h => h.imp (fun _ h => h.imp
        (fun _ h => ⟨h.1, h.2.1, h.2.2.2.1⟩))))⟩

/-- C25: the wire form of an integer does not depend on the host width it is
supplied in.  For every uint8, uint16 or uint32 value `u`, `PackUint8`,
`PackUint16`, `PackUint32` and `Pack` on the value of that type issue, on every
sink, exactly what `PackUint64` issues for `u`; for every int8, int16 or int32
value `v`, `PackInt8`, `PackInt16`, `PackInt32` and `Pack` issue exactly what
`PackInt64` issues for `v`. -/
theorem Pack_integer_width {σ : Type} (w : Writer σ) (s : σ) (u : Nat) (v : Int) :
    (u < 2 ^ 8 → PackUint8 w s u = PackUint64 w s u ∧
      Pack w s (Value.uint8 u) = PackUint64 w s u) ∧
    (u < 2 ^ 16 → PackUint16 w s u = PackUint64 w s u ∧
      Pack w s (Value.uint16 u) = PackUint64 w s u) ∧
    (u < 2 ^ 32 → PackUint32 w s u = PackUint64 w s u ∧
      Pack w s (Value.uint32 u) = PackUint64 w s u) ∧
    (-2 ^ 7 ≤ v ∧ v < 2 ^ 7 → PackInt8 w s v = PackInt64 w s v ∧
      Pack w s (Value.int8 v) = PackInt64 w s v) ∧
    (-2 ^ 15 ≤ v ∧ v < 2 ^ 15 → PackInt16 w s v = PackInt64 w s v ∧
      Pack w s (Value.int16 v) = PackInt64 w s v) ∧
    (-2 ^ 31 ≤ v ∧ v < 2 ^ 31 → PackInt32 w s v = PackInt64 w s v ∧
      Pack w s (Value.int32 v) = PackInt64 w s v) := by
  refine ⟨?_, ?_, ?_, ?_, ?_, ?_⟩
  · intro h
    have e : PackUint8 w s u = PackUint64 w s u := by
      rw [PackUint8_eq w s u h, PackUint64_eq w s u (by omega)]
    exact ⟨e, e⟩
  · intro h
    have e : PackUint16 w s u = PackUint64 w s u := by
      rw [PackUint16_eq w s u h, PackUint64_eq w s u (by omega)]
    exact ⟨e, e⟩
  · intro h
    have e : PackUint32 w s u = PackUint64 w s u := by
      rw [PackUint32_eq w s u h, PackUint64_eq w s u (by omega)]
    exact ⟨e, e⟩
  · intro h
    have e : PackInt8 w s v = PackInt64 w s v := by
      rw [PackInt8_eq w s v h, PackInt64_eq w s v (by omega)]
    exact ⟨e, e⟩
  · intro h
    have e : PackInt16 w s v = PackInt64 w s v := by
      rw [PackInt16_eq w s v h, PackInt64_eq w s v (by omega)]
    exact ⟨e, e⟩
  · intro h
    have e : PackInt32 w s v = PackInt64 w s v := by
      rw [PackInt32_eq w s v h, PackInt64_eq w s v (by omega)]
    exact ⟨e, e⟩

theorem Pack_integer_width_witness :
    ((200 : Nat) < 2 ^ 8 ∧ (-2 ^ 7 ≤ (-100 : Int) ∧ (-100 : Int) < 2 ^ 7)) ∧
      (PackUint8 bufferWriter [] 200 = PackUint64 bufferWriter [] 200 ∧
        Pack bufferWriter [] (Value.uint8 200) = PackUint64 bufferWriter [] 200) ∧
      (PackInt8 bufferWriter [] (-100) = PackInt64 bufferWriter [] (-100) ∧
        Pack bufferWriter [] (Value.int8 (-100)) = PackInt64 bufferWriter [] (-100)) :=
  ⟨⟨by norm_num, by norm_num⟩,
    (Pack_integer_width bufferWriter [] 200 (-100)).1 (by norm_num),
    (Pack_integer_width bufferWriter [] 200 (-100)).2.2.2.1 (by norm_num)⟩

/-! ## Failing writes -/

theorem Halts_extend {σ : Type} (l k : Log) (hk : ∀ x ∈ k, x.2 = none)
    (r : Packed (σ × Log)) (h : Halts (l ++ k) r) : Halts l r := by
  cases r with
  | ret n err s =>
    cases err with
    | none =>
      obtain ⟨k2, h1, h2⟩ := h
      refine ⟨k ++ k2, by rw [h1, List.append_assoc], ?_⟩
      intro x hx
      rcases List.mem_append.1 hx with hx | hx
      · exact hk x hx
      · exact h2 x hx
    | some e =>
      obtain ⟨k2, p, h1, h2⟩ := h
      refine ⟨k ++ k2, p, by rw [h1]; simp only [List.append_assoc], ?_⟩
      intro x hx
      rcases List.mem_append.1 hx with hx | hx
      · exact hk x hx
      · exact h2 x hx
  | panic p s =>
    obtain ⟨k2, h1, h2⟩ := h
    refine ⟨k ++ k2, by rw [h1, List.append_assoc], ?_⟩
    intro x hx
    rcases List.mem_append.1 hx with hx | hx
    · exact hk x hx
    · exact h2 x hx

theorem Halts_refl_ret {σ : Type} (n : Nat) (S : σ × Log) :
    Halts S.2 (Packed.ret n none S) :=
  ⟨[], by simp, by simp⟩

theorem Halts_panic {σ : Type} (p : Panic) (S : σ × Log) :
    Halts S.2 (Packed.panic p S) :=
  ⟨[], by simp, by simp⟩

/-- A result that returns no error, with another count. -/
theorem Halts_count {σ : Type} (l : Log) (n m : Nat) (S : σ × Log)
    (h : Halts l (Packed.ret n none S)) : Halts l (Packed.ret m none S) := h

theorem Halts_count_err {σ : Type} (l : Log) (n m : Nat) (e : Error) (S : σ × Log)
    (h : Halts l (Packed.ret n (some e) S)) : Halts l (Packed.ret m (some e) S) := h

/-- After a result that returned no error, what follows extends its record. -/
theorem Halts_after {σ : Type} (l : Log) (n : Nat) (S : σ × Log)
    (h : Halts l (Packed.ret n none S)) (r : Packed (σ × Log)) (hr : Halts S.2 r) :
    Halts l r := by
  obtain ⟨k, h1, h2⟩ := h
  rw [h1] at hr
  exact Halts_extend l k h2 r hr

theorem logged_Write {σ : Type} (w : Writer σ) (S : σ × Log) (p : List Nat) :
    (logged w).Write S p
      = ((w.Write S.1 p).1, (w.Write S.1 p).2.1, ((w.Write S.1 p).2.2,
          S.2 ++ [(p, (w.Write S.1 p).2.1)])) := rfl

/-- One write on the logged sink. -/
theorem Halts_Write {σ : Type} (w : Writer σ) (S : σ × Log) (p : List Nat) :
    Halts S.2 (Packed.ret ((logged w).Write S p).1 ((logged w).Write S p).2.1
      ((logged w).Write S p).2.2) := by
  rw [logged_Write]
  cases h : (w.Write S.1 p).2.1 with
  | none => exact ⟨[(p, none)], rfl, by simp⟩
  | some e => exact ⟨[], p, by simp, by simp⟩

theorem Tracks_ret {σ : Type} (w : Writer σ) (S : σ × Log) (p : List Nat) :
    Tracks S.2 ((logged w).ret S p) (w.ret S.1 p) :=
  ⟨rfl, Halts_Write w S p⟩

theorem logged_Write_eq {σ : Type} (w : Writer σ) (s : σ) (l : Log) (p : List Nat)
    (n : Nat) (e : Option Error) (s1 : σ) (h : w.Write s p = (n, e, s1)) :
    (logged w).Write (s, l) p = (n, e, (s1, l ++ [(p, e)])) := by
  simp only [logged, h]

theorem Tracks_extend {σ : Type} (l k : Log) (hk : ∀ x ∈ k, x.2 = none)
    (r : Packed (σ × Log)) (r0 : Packed σ) (h : Tracks (l ++ k) r r0) : Tracks l r r0 :=
  ⟨h.1, Halts_extend l k hk r h.2⟩

theorem leaveBlock_tracks {σ : Type} (l : Log) (r : Packed (σ × Log)) (r0 : Packed σ)
    (h : Tracks l r r0) : Tracks l (leaveBlock r) (leaveBlock r0) := by
  obtain ⟨h1, h2⟩ := h
  subst h1
  cases r with
  | ret n err s =>
    cases err with
    | none => exact ⟨rfl, h2⟩
    | some e => exact ⟨rfl, h2⟩
  | panic p s => exact ⟨rfl, h2⟩

/-! ### The packers of scalars and byte strings -/

section Tracks

variable {σ : Type} (w : Writer σ)

theorem PackUint8_tracks (S : σ × Log) (v : Nat) :
    Tracks S.2 (PackUint8 (logged w) S v) (PackUint8 w S.1 v) := by
  unfold PackUint8
  split_ifs
  · exact Tracks_ret w S _
  · exact Tracks_ret w S _

theorem PackUint16_tracks (S : σ × Log) (v : Nat) :
    Tracks S.2 (PackUint16 (logged w) S v) (PackUint16 w S.1 v) := by
  unfold PackUint16
  split_ifs
  · exact Tracks_ret w S _
  · exact PackUint8_tracks w S _

theorem PackUint32_tracks (S : σ × Log) (v : Nat) :
    Tracks S.2 (PackUint32 (logged w) S v) (PackUint32 w S.1 v) := by
  unfold PackUint32
  split_ifs
  · exact Tracks_ret w S _
  · exact PackUint16_tracks w S _

theorem PackUint64_tracks (S : σ × Log) (v : Nat) :
    Tracks S.2 (PackUint64 (logged w) S v) (PackUint64 w S.1 v) := by
  unfold PackUint64
  split_ifs
  · exact Tracks_ret w S _
  · exact PackUint32_tracks w S _

theorem PackUint_tracks (S : σ × Log) (v : Nat) :
    Tracks S.2 (PackUint (logged w) S v) (PackUint w S.1 v) := by
  unfold PackUint
  rw [if_neg (by decide), if_pos (by decide), if_neg (by decide), if_pos (by decide)]
  exact PackUint64_tracks w S _

theorem PackInt8_tracks (S : σ × Log) (v : Int) :
    Tracks S.2 (PackInt8 (logged w) S v) (PackInt8 w S.1 v) := by
  unfold PackInt8
  split_ifs
  · exact Tracks_ret w S _
  · exact Tracks_ret w S _

theorem PackInt16_tracks (S : σ × Log) (v : Int) :
    Tracks S.2 (PackInt16 (logged w) S v) (PackInt16 w S.1 v) := by
  unfold PackInt16
  split_ifs
  · exact Tracks_ret w S _
  · exact PackInt8_tracks w S _

theorem PackInt32_tracks (S : σ × Log) (v : Int) :
    Tracks S.2 (PackInt32 (logged w) S v) (PackInt32 w S.1 v) := by
  unfold PackInt32
  split_ifs
  · exact Tracks_ret w S _
  · exact PackInt16_tracks w S _

theorem PackInt64_tracks (S : σ × Log) (v : Int) :
    Tracks S.2 (PackInt64 (logged w) S v) (PackInt64 w S.1 v) := by
  unfold PackInt64
  split_ifs
  · exact Tracks_ret w S _
  · exact PackInt32_tracks w S _

theorem PackInt_tracks (S : σ × Log) (v : Int) :
    Tracks S.2 (PackInt (logged w) S v) (PackInt w S.1 v) := by
  unfold PackInt
  rw [if_neg (by decide), if_pos (by decide), if_neg (by decide), if_pos (by decide)]
  exact PackInt64_tracks w S _

theorem PackBool_tracks (S : σ × Log) (b : Bool) :
    Tracks S.2 (PackBool (logged w) S b) (PackBool w S.1 b) := by
  cases b
  · exact Tracks_ret w S _
  · exact Tracks_ret w S _

/-- The second write of a function, its count added to that of the first. -/
theorem Tracks_Write_add (s : σ) (l : Log) (n1 : Nat) (p : List Nat) :
    Tracks l
      (Packed.ret (n1 + ((logged w).Write (s, l) p).1) ((logged w).Write (s, l) p).2.1
        ((logged w).Write (s, l) p).2.2)
      (Packed.ret (n1 + (w.Write s p).1) (w.Write s p).2.1 (w.Write s p).2.2) := by
  rcases h2 : w.Write s p with ⟨n2, e2, s2⟩
  rw [logged_Write_eq w s l p n2 e2 s2 h2]
  cases e2 with
  | none => exact ⟨rfl, [(p, none)], by simp, by simp⟩
  | some e => exact ⟨rfl, [], p, by simp, by simp⟩

theorem PackBytes_tracks (S : σ × Log) (b : List Nat) :
    Tracks S.2 (PackBytes (logged w) S b) (PackBytes w S.1 b) := by
  obtain ⟨s, l⟩ := S
  unfold PackBytes
  rcases h1 : w.Write s (rawHeader b.length) with ⟨n1, e1, s1⟩
  rw [logged_Write_eq w s l _ n1 e1 s1 h1]
  cases e1 with
  | some e => exact ⟨rfl, [], rawHeader b.length, by simp, by simp⟩
  | none =>
    exact Tracks_extend l [(rawHeader b.length, none)] (by simp) _ _
      (Tracks_Write_add w s1 _ n1 b)

/-! ### Blocks and loops -/

theorem arrayBlock_tracks (S : σ × Log) (length : Nat)
    (loop : Nat → σ × Log → Packed (σ × Log)) (loop0 : Nat → σ → Packed σ)
    (h : ∀ n S, Tracks S.2 (loop n S) (loop0 n S.1)) :
    Tracks S.2 (arrayBlock (logged w) S length loop) (arrayBlock w S.1 length loop0) := by
  obtain ⟨s, l⟩ := S
  unfold arrayBlock
  rcases h1 : w.Write s (arrayHeader length) with ⟨n1, e1, s1⟩
  rw [logged_Write_eq w s l _ n1 e1 s1 h1]
  cases e1 with
  | some e => exact ⟨rfl, [], arrayHeader length, by simp, by simp⟩
  | none =>
    exact Tracks_extend l [(arrayHeader length, none)] (by simp) _ _
      (leaveBlock_tracks _ _ _ (h n1 (s1, l ++ [(arrayHeader length, none)])))

theorem mapBlock_tracks (S : σ × Log) (length : Nat)
    (loop : Nat → σ × Log → Packed (σ × Log)) (loop0 : Nat → σ → Packed σ)
    (h : ∀ n S, Tracks S.2 (loop n S) (loop0 n S.1)) :
    Tracks S.2 (mapBlock (logged w) S length loop) (mapBlock w S.1 length loop0) := by
  obtain ⟨s, l⟩ := S
  unfold mapBlock
  rcases h1 : w.Write s (mapHeader length) with ⟨n1, e1, s1⟩
  rw [logged_Write_eq w s l _ n1 e1 s1 h1]
  cases e1 with
  | some e => exact ⟨rfl, [], mapHeader length, by simp, by simp⟩
  | none =>
    exact Tracks_extend l [(mapHeader length, none)] (by simp) _ _
      (leaveBlock_tracks _ _ _ (h n1 (s1, l ++ [(mapHeader length, none)])))

theorem packElems_tracks {α : Type} (f : σ × Log → α → Packed (σ × Log))
    (f0 : σ → α → Packed σ) (h : ∀ S x, Tracks S.2 (f S x) (f0 S.1 x)) (xs : List α) :
    ∀ n S, Tracks S.2 (packElems f xs n S) (packElems f0 xs n S.1) := by
  induction xs with
  | nil => intro n S; exact ⟨rfl, Halts_refl_ret n S⟩
  | cons x rest ih =>
    intro n S
    obtain ⟨h1, h2⟩ := h S x
    unfold packElems
    rw [← h1]
    cases hr : f S x with
    | ret m err S1 =>
      rw [hr] at h2
      cases err with
      | none =>
        obtain ⟨h3, h4⟩ := ih (n + m) S1
        exact ⟨h3, Halts_after S.2 m S1 h2 _ h4⟩
      | some e => exact ⟨rfl, h2⟩
    | panic p S1 =>
      rw [hr] at h2
      exact ⟨rfl, h2⟩

theorem packArrayOf_tracks {α : Type} (f : σ × Log → α → Packed (σ × Log))
    (f0 : σ → α → Packed σ) (h : ∀ S x, Tracks S.2 (f S x) (f0 S.1 x)) (S : σ × Log)
    (xs : List α) :
    Tracks S.2 (packArrayOf (logged w) f S xs) (packArrayOf w f0 S.1 xs) :=
  arrayBlock_tracks w S xs.length _ _ (packElems_tracks f f0 h xs)

end Tracks

/-! ### `PackValue` and `Pack` -/

mutual

theorem PackValue_tracks {σ : Type} (w : Writer σ) (v : Value) (S : σ × Log) :
    Tracks S.2 (PackValue (logged w) S v) (PackValue w S.1 v) := by
  cases v with
  | slice xs =>
    simp only [PackValue]
    exact arrayBlock_tracks w S xs.length _ _ (fun n S => packArrayLoop_tracks w xs n S)
  | map kvs =>
    simp only [PackValue]
    exact mapBlock_tracks w S kvs.length _ _ (fun n S => packMapLoop_tracks w kvs n S)
  | reflected v =>
    simp only [PackValue]
    exact ⟨rfl, Halts_panic _ S⟩
  | Bytes b =>
    simp only [PackValue]
    exact ⟨rfl, Halts_panic _ S⟩
  | nil =>
    simp only [PackValue, PackNil]
    exact Tracks_ret w S _
  | bool b =>
    simp only [PackValue]
    exact PackBool_tracks w S b
  | uint8 v | uint16 v | uint32 v | uint64 v | uint v =>
    simp only [PackValue]
    exact PackUint64_tracks w S v
  | int8 v | int16 v | int32 v | int64 v | int v =>
    simp only [PackValue]
    exact PackInt64_tracks w S v
  | float32 bits =>
    simp only [PackValue, PackFloat64]
    exact PackUint64_tracks w S _
  | float64 bits =>
    simp only [PackValue, PackFloat64]
    exact PackUint64_tracks w S _
  | bytes b | string b =>
    simp only [PackValue]
    exact PackBytes_tracks w S b
  | uint16s xs | uint32s xs | uint64s xs | uints xs =>
    simp only [PackValue]
    exact packArrayOf_tracks w _ _ (fun S x => PackUint64_tracks w S x) S xs
  | int8s xs | int16s xs | int32s xs | int64s xs | ints xs =>
    simp only [PackValue]
    exact packArrayOf_tracks w _ _ (fun S x => PackInt64_tracks w S x) S xs
  | float32s xs =>
    simp only [PackValue]
    exact packArrayOf_tracks w _ _ (fun S x => PackUint64_tracks w S (float32to64 x)) S xs
  | float64s xs =>
    simp only [PackValue]
    exact packArrayOf_tracks w _ _ (fun S x => PackUint64_tracks w S x) S xs

theorem packArrayLoop_tracks {σ : Type} (w : Writer σ) (xs : List Value) (n : Nat)
    (S : σ × Log) :
    Tracks S.2 (packArrayLoop (logged w) xs n S) (packArrayLoop w xs n S.1) := by
  cases xs with
  | nil => exact ⟨rfl, Halts_refl_ret n S⟩
  | cons x rest =>
    obtain ⟨h1, h2⟩ := PackValue_tracks w x S
    simp only [packArrayLoop]
    rw [← h1]
    cases hr : PackValue (logged w) S x with
    | ret m err S1 =>
      rw [hr] at h2
      cases err with
      | none =>
        obtain ⟨h3, h4⟩ := packArrayLoop_tracks w rest (n + m) S1
        exact ⟨h3, Halts_after S.2 m S1 h2 _ h4⟩
      | some e => exact ⟨rfl, h2⟩
    | panic p S1 =>
      rw [hr] at h2
      exact ⟨rfl, h2⟩

theorem packMapLoop_tracks {σ : Type} (w : Writer σ) (kvs : List (Value × Value)) (n : Nat)
    (S : σ × Log) :
    Tracks S.2 (packMapLoop (logged w) kvs n S) (packMapLoop w kvs n S.1) := by
  cases kvs with
  | nil => exact ⟨rfl, Halts_refl_ret n S⟩
  | cons kv rest =>
    obtain ⟨k, v⟩ := kv
    obtain ⟨h1, h2⟩ := PackValue_tracks w k S
    simp only [packMapLoop]
    rw [← h1]
    cases hr : PackValue (logged w) S k with
    | ret m err S1 =>
      rw [hr] at h2
      cases err with
      | none =>
        obtain ⟨g1, g2⟩ := PackValue_tracks w v S1
        simp only [Packed.unlogged]
        rw [← g1]
        cases hv : PackValue (logged w) S1 v with
        | ret m2 err2 S2 =>
          rw [hv] at g2
          cases err2 with
          | none =>
            obtain ⟨h3, h4⟩ := packMapLoop_tracks w rest (n + m + m2) S2
            exact ⟨h3, Halts_after S.2 m S1 h2 _ (Halts_after S1.2 m2 S2 g2 _ h4)⟩
          | some e => exact ⟨rfl, Halts_after S.2 m S1 h2 _ g2⟩
        | panic p S2 =>
          rw [hv] at g2
          exact ⟨rfl, Halts_after S.2 m S1 h2 _ g2⟩
      | some e => exact ⟨rfl, h2⟩
    | panic p S1 =>
      rw [hr] at h2
      exact ⟨rfl, h2⟩

end

theorem Pack_tracks {σ : Type} (w : Writer σ) (v : Value) (S : σ × Log) :
    Tracks S.2 (Pack (logged w) S v) (Pack w S.1 v) := by
  cases v with
  | slice xs => exact PackValue_tracks w _ S
  | map kvs => exact PackValue_tracks w _ S
  | reflected v => exact PackValue_tracks w _ S
  | Bytes b => exact PackValue_tracks w _ S
  | nil => exact Tracks_ret w S _
  | bool b => exact PackBool_tracks w S b
  | uint8 v => exact PackUint8_tracks w S v
  | uint16 v => exact PackUint16_tracks w S v
  | uint32 v => exact PackUint32_tracks w S v
  | uint64 v => exact PackUint64_tracks w S v
  | uint v => exact PackUint_tracks w S v
  | int8 v => exact PackInt8_tracks w S v
  | int16 v => exact PackInt16_tracks w S v
  | int32 v => exact PackInt32_tracks w S v
  | int64 v => exact PackInt64_tracks w S v
  | int v => exact PackInt_tracks w S v
  | float32 bits => exact PackUint32_tracks w S bits
  | float64 bits => exact PackUint64_tracks w S bits
  | bytes b => exact PackBytes_tracks w S b
  | string b => exact PackBytes_tracks w S b
  | uint16s xs => exact packArrayOf_tracks w _ _ (fun S x => PackUint16_tracks w S x) S xs
  | uint32s xs => exact packArrayOf_tracks w _ _ (fun S x => PackUint32_tracks w S x) S xs
  | uint64s xs => exact packArrayOf_tracks w _ _ (fun S x => PackUint64_tracks w S x) S xs
  | uints xs =>
    simp only [Pack, PackUintArray]
    rw [if_neg (by decide), if_pos (by decide), if_neg (by decide), if_pos (by decide)]
    exact packArrayOf_tracks w _ _ (fun S x => PackUint64_tracks w S x) S xs
  | int8s xs => exact packArrayOf_tracks w _ _ (fun S x => PackInt8_tracks w S x) S xs
  | int16s xs => exact packArrayOf_tracks w _ _ (fun S x => PackInt16_tracks w S x) S xs
  | int32s xs => exact packArrayOf_tracks w _ _ (fun S x => PackInt32_tracks w S x) S xs
  | int64s xs => exact packArrayOf_tracks w _ _ (fun S x => PackInt64_tracks w S x) S xs
  | ints xs =>
    simp only [Pack, PackIntArray]
    rw [if_neg (by decide), if_pos (by decide), if_neg (by decide), if_pos (by decide)]
    exact packArrayOf_tracks w _ _ (fun S x => PackInt64_tracks w S x) S xs
  | float32s xs => exact packArrayOf_tracks w _ _ (fun S x => PackUint32_tracks w S x) S xs
  | float64s xs => exact packArrayOf_tracks w _ _ (fun S x => PackUint64_tracks w S x) S xs

/-- A record that `Halts` holds a failed write only as its last entry, and then
the result returns the error of that write. -/
theorem Halts_failed {σ : Type} (r : Packed (σ × Log)) (h : Halts [] r)
    (pre : Log) (p : List Nat) (e : Error) (post : Log)
    (hl : r.log = pre ++ [(p, some e)] ++ post) :
    post = [] ∧ ∃ n S, r = Packed.ret n (some e) S := by
  have clean : ∀ k t : Log, (∀ x ∈ k, x.2 = none) → k ≠ pre ++ [(p, some e)] ++ t := by
    intro k t hk he
    have := hk (p, some e) (by rw [he]; simp)
    cases this
  have last : ∀ (k : Log) (q : List Nat) (e2 : Error), (∀ x ∈ k, x.2 = none) →
      k ++ [(q, some e2)] = pre ++ [(p, some e)] ++ post → post = [] ∧ e2 = e := by
    intro k q e2 hk he
    rcases List.eq_nil_or_concat post with hp | ⟨post2, x, hp⟩
    · subst hp
      rw [List.append_nil] at he
      have := (List.append_inj' he rfl).2
      simp only [List.cons.injEq, Prod.mk.injEq, Option.some.injEq, and_true] at this
      exact ⟨rfl, this.2⟩
    · subst hp
      rw [List.concat_eq_append, ← List.append_assoc] at he
      have := (List.append_inj' he rfl).1
      exact absurd this (clean k post2 hk)
  cases r with
  | ret n err S =>
    cases err with
    | none =>
      obtain ⟨k, h1, h2⟩ := h
      rw [List.nil_append] at h1
      exact absurd (h1.symm.trans hl) (clean k post h2)
    | some e2 =>
      obtain ⟨k, q, h1, h2⟩ := h
      rw [List.nil_append] at h1
      obtain ⟨hp, he⟩ := last k q e2 h2 (h1.symm.trans hl)
      exact ⟨hp, n, S, by rw [he]⟩
  | panic q S =>
    obtain ⟨k, h1, h2⟩ := h
    rw [List.nil_append] at h1
    exact absurd (h1.symm.trans hl) (clean k post h2)

/-- C22: on every sink `w`, started in any state `s`, and for every value `v`,
`Pack` makes on the sink with the record of its writes the same calls, with the
same result, as on `w` itself; if some write of the record failed, it is the
last of the record (no write follows it) and `Pack` returns its error.  In
particular a failed header write is the only write for a byte string, for an
array and for a map: the payload and the elements are not written. -/
theorem Pack_stops_at_failed_write {σ : Type} (w : Writer σ) (s : σ) (v : Value) :
    (Pack (logged w) (s, []) v).unlogged = Pack w s v ∧
    (∀ pre p e post, (Pack (logged w) (s, []) v).log = pre ++ [(p, some e)] ++ post →
      post = [] ∧ ∃ n S, Pack (logged w) (s, []) v = Packed.ret n (some e) S ∧
        Pack w s v = Packed.ret n (some e) S.1) ∧
    (∀ b n e s1, w.Write s (rawHeader b.length) = (n, some e, s1) →
      Pack (logged w) (s, []) (Value.bytes b)
        = Packed.ret n (some e) (s1, [(rawHeader b.length, some e)])) ∧
    (∀ xs n e s1, w.Write s (arrayHeader xs.length) = (n, some e, s1) →
      Pack (logged w) (s, []) (Value.slice xs)
        = Packed.ret n (some e) (s1, [(arrayHeader xs.length, some e)])) ∧
    (∀ kvs n e s1, w.Write s (mapHeader kvs.length) = (n, some e, s1) →
      Pack (logged w) (s, []) (Value.map kvs)
        = Packed.ret n (some e) (s1, [(mapHeader kvs.length, some e)])) := by
  have ht := Pack_tracks w v (s, [])
  refine ⟨ht.1, ?_, ?_, ?_, ?_⟩
  · intro pre p e post hl
    obtain ⟨hp, n, S, hr⟩ := Halts_failed _ ht.2 pre p e post hl
    refine ⟨hp, n, S, hr, ?_⟩
    rw [← ht.1, hr]
    rfl
  · intro b n e s1 h
    simp only [Pack, PackBytes, logged_Write_eq w s [] _ n (some e) s1 h, List.nil_append]
  · intro xs n e s1 h
    simp only [Pack, PackValue, arrayBlock, logged_Write_eq w s [] _ n (some e) s1 h,
      List.nil_append]
  · intro kvs n e s1 h
    simp only [Pack, PackValue, mapBlock, logged_Write_eq w s [] _ n (some e) s1 h,
      List.nil_append]

theorem Pack_stops_at_failed_write_witness :
    (Pack (logged limitedWriter) ((2, []), [])
        (Value.slice [Value.uint8 1, Value.uint8 2, Value.uint8 3])).log
      = [([0x93], none), ([0x01], none)] ++ [([0x02], some (Error.other 1))] ++ [] ∧
    ([] : Log) = [] ∧
    ∃ n S, Pack (logged limitedWriter) ((2, []), [])
        (Value.slice [Value.uint8 1, Value.uint8 2, Value.uint8 3])
          = Packed.ret n (some (Error.other 1)) S ∧
      Pack limitedWriter (2, [])
        (Value.slice [Value.uint8 1, Value.uint8 2, Value.uint8 3])
          = Packed.ret n (some (Error.other 1)) S.1 :=
  ⟨rfl, (Pack_stops_at_failed_write limitedWriter (2, [])
    (Value.slice [Value.uint8 1, Value.uint8 2, Value.uint8 3])).2.1
      [([0x93], none), ([0x01], none)] [0x02] (Error.other 1) [] rfl⟩

/-! ## Flattening mode against wrapping mode -/

/-! ### Equality of keys -/

theorem float32Eq_iff (a b : Nat) :
    float32Eq a b = true ↔
      ¬ ((a >>> 23) % 256 = 255 ∧ a % 2 ^ 23 ≠ 0) ∧ ¬ ((b >>> 23) % 256 = 255 ∧ b % 2 ^ 23 ≠ 0) ∧
        ((a % 2 ^ 31 = 0 ∧ b % 2 ^ 31 = 0) ∨ a = b) := by
  unfold float32Eq
  split_ifs with h1 h2
  · simp only [Bool.false_eq_true, false_iff]
    tauto
  · simp only [true_iff]
    tauto
  · simp only [decide_eq_true_eq]
    tauto

theorem float64Eq_iff (a b : Nat) :
    float64Eq a b = true ↔
      ¬ ((a >>> 52) % 2048 = 2047 ∧ a % 2 ^ 52 ≠ 0) ∧
        ¬ ((b >>> 52) % 2048 = 2047 ∧ b % 2 ^ 52 ≠ 0) ∧
        ((a % 2 ^ 63 = 0 ∧ b % 2 ^ 63 = 0) ∨ a = b) := by
  unfold float64Eq
  split_ifs with h1 h2
  · simp only [Bool.false_eq_true, false_iff]
    tauto
  · simp only [true_iff]
    tauto
  · simp only [decide_eq_true_eq]
    tauto

theorem float32Eq_symm (a b : Nat) : float32Eq a b = float32Eq b a := by
  rw [Bool.eq_iff_iff, float32Eq_iff, float32Eq_iff]
  constructor
  · rintro ⟨h1, h2, h3 | h3⟩
    · exact ⟨h2, h1, Or.inl ⟨h3.2, h3.1⟩⟩
    · exact ⟨h2, h1, Or.inr h3.symm⟩
  · rintro ⟨h1, h2, h3 | h3⟩
    · exact ⟨h2, h1, Or.inl ⟨h3.2, h3.1⟩⟩
    · exact ⟨h2, h1, Or.inr h3.symm⟩

theorem float32Eq_trans (a b c : Nat) (h1 : float32Eq a b = true) (h2 : float32Eq b c = true) :
    float32Eq a c = true := by
  rw [float32Eq_iff] at h1 h2 ⊢
  obtain ⟨ha, hb, hab⟩ := h1
  obtain ⟨_, hc, hbc⟩ := h2
  refine ⟨ha, hc, ?_⟩
  rcases hab with hab | rfl
  · rcases hbc with hbc | rfl
    · exact Or.inl ⟨hab.1, hbc.2⟩
    · exact Or.inl hab
  · exact hbc

theorem float64Eq_symm (a b : Nat) : float64Eq a b = float64Eq b a := by
  rw [Bool.eq_iff_iff, float64Eq_iff, float64Eq_iff]
  constructor
  · rintro ⟨h1, h2, h3 | h3⟩
    · exact ⟨h2, h1, Or.inl ⟨h3.2, h3.1⟩⟩
    · exact ⟨h2, h1, Or.inr h3.symm⟩
  · rintro ⟨h1, h2, h3 | h3⟩
    · exact ⟨h2, h1, Or.inl ⟨h3.2, h3.1⟩⟩
    · exact ⟨h2, h1, Or.inr h3.symm⟩

theorem float64Eq_trans (a b c : Nat) (h1 : float64Eq a b = true) (h2 : float64Eq b c = true) :
    float64Eq a c = true := by
  rw [float64Eq_iff] at h1 h2 ⊢
  obtain ⟨ha, hb, hab⟩ := h1
  obtain ⟨_, hc, hbc⟩ := h2
  refine ⟨ha, hc, ?_⟩
  rcases hab with hab | rfl
  · rcases hbc with hbc | rfl
    · exact Or.inl ⟨hab.1, hbc.2⟩
    · exact Or.inl hab
  · exact hbc

theorem beq_symm_of {α : Type} [DecidableEq α] (a b : α) : (a == b) = (b == a) := by
  by_cases h : a = b
  · subst h; rfl
  · have h' : ¬ b = a := fun e => h e.symm
    simp [h, h']

/-- Go's `==` on map keys is symmetric. -/
theorem keyEq_symm (a b : Value) : keyEq a b = keyEq b a := by
  cases a <;> cases b <;>
    first
    | rfl
    | exact float32Eq_symm _ _
    | exact float64Eq_symm _ _
    | exact keyEq_string_symm _ _
    | exact beq_symm_of _ _

/-- Go's `==` on map keys is transitive. -/
theorem keyEq_trans (a b c : Value) (h1 : keyEq a b = true) (h2 : keyEq b c = true) :
    keyEq a c = true := by
  cases a <;> cases b <;>
    first
    | exact Bool.noConfusion h1
    | (cases c <;>
        first
        | exact Bool.noConfusion h2
        | exact float32Eq_trans _ _ _ h1 h2
        | exact float64Eq_trans _ _ _ h1 h2
        | (simp only [keyEq, beq_iff_eq] at h1 h2 ⊢; exact h1.trans h2))

/-! ### Keys that share their box -/

theorem float32Eq_self (a : Nat) (h : a < 256) : float32Eq a a = true := by
  rw [float32Eq_iff]
  have e : a >>> 23 = 0 := by
    rw [Nat.shiftRight_eq_div_pow]
    exact Nat.div_eq_of_lt (by omega)
  rw [e]
  exact ⟨fun h => by simp at h, fun h => by simp at h, Or.inr rfl⟩

theorem float64Eq_self (a : Nat) (h : a < 256) : float64Eq a a = true := by
  rw [float64Eq_iff]
  have e : a >>> 52 = 0 := by
    rw [Nat.shiftRight_eq_div_pow]
    exact Nat.div_eq_of_lt (by omega)
  rw [e]
  exact ⟨fun h => by simp at h, fun h => by simp at h, Or.inr rfl⟩

theorem corresponds_leaf (d z : Value) (h : leaf d = true) : corresponds d z ↔ z = d := by
  cases d <;> first | exact Bool.noConfusion h | simp only [corresponds]

/-- Two decoded values that share their box are one value, which is nil or a
scalar that flattening mode stores as a key unchanged and that is equal to
itself. -/
theorem sameBox_spec (a k : Value) (h : sameBox a k = true) :
    a = k ∧ leaf k = true ∧
      (k = Value.nil ∨ (mapKey k = some k ∧ keyEq k k = true)) := by
  cases a <;> cases k <;>
    first
    | exact Bool.noConfusion h
    | exact ⟨rfl, rfl, Or.inl rfl⟩
    | (simp only [sameBox, beq_iff_eq] at h
       subst h
       exact ⟨rfl, rfl, Or.inr ⟨rfl, by simp [keyEq]⟩⟩)
    | (simp only [sameBox, Bool.and_eq_true, beq_iff_eq, decide_eq_true_eq] at h
       obtain ⟨h, h'⟩ := h
       subst h
       first
       | exact ⟨rfl, rfl, Or.inr ⟨rfl, float32Eq_self _ h'⟩⟩
       | exact ⟨rfl, rfl, Or.inr ⟨rfl, float64Eq_self _ h'⟩⟩
       | exact ⟨rfl, rfl, Or.inr ⟨rfl, by simp [keyEq]⟩⟩)

theorem wrapperEq_spec (K' K : Value) (h : wrapperEq K' K = true) :
    ∃ k, K' = Value.reflected k ∧ K = Value.reflected k ∧ leaf k = true ∧
      (k = Value.nil ∨ (mapKey k = some k ∧ keyEq k k = true)) := by
  cases K' <;> cases K <;>
    first
    | exact Bool.noConfusion h
    | (obtain ⟨e, hl, hk⟩ := sameBox_spec _ _ h
       subst e
       exact ⟨_, rfl, rfl, hl, hk⟩)

/-! ### The two map assignments -/

theorem mem_mapAssignReflected_self (acc : List (Value × Value)) (K V : Value) :
    (K, V) ∈ mapAssignReflected acc K V := by
  induction acc with
  | nil => simp [mapAssignReflected]
  | cons kv rest ih =>
    obtain ⟨k0, v0⟩ := kv
    simp only [mapAssignReflected]
    split_ifs
    · exact List.mem_cons_self _ _
    · exact List.mem_cons_of_mem _ ih

theorem mem_mapAssignReflected_old (acc : List (Value × Value)) (K V : Value)
    (kv : Value × Value) (h : kv ∈ acc) :
    kv ∈ mapAssignReflected acc K V ∨ wrapperEq kv.1 K = true := by
  induction acc with
  | nil => cases h
  | cons kv0 rest ih =>
    obtain ⟨k0, v0⟩ := kv0
    simp only [mapAssignReflected]
    by_cases hw : wrapperEq k0 K = true
    · rw [if_pos hw]
      rcases List.mem_cons.mp h with h | h
      · subst h; exact Or.inr hw
      · exact Or.inl (List.mem_cons_of_mem _ h)
    · rw [if_neg hw]
      rcases List.mem_cons.mp h with h | h
      · subst h; exact Or.inl (List.mem_cons_self _ _)
      · rcases ih h with h' | h'
        · exact Or.inl (List.mem_cons_of_mem _ h')
        · exact Or.inr h'

theorem mem_mapAssign (acc : List (Value × Value)) (key x : Value) (e : Value × Value)
    (h : e ∈ mapAssign acc key x) : e = (key, x) ∨ e ∈ acc := by
  induction acc with
  | nil =>
    simp only [mapAssign, List.mem_singleton] at h
    exact Or.inl h
  | cons kv0 rest ih =>
    obtain ⟨k0, v0⟩ := kv0
    simp only [mapAssign] at h
    by_cases hw : keyEq k0 key = true
    · rw [if_pos hw] at h
      rcases List.mem_cons.mp h with h | h
      · exact Or.inl h
      · exact Or.inr (List.mem_cons_of_mem _ h)
    · rw [if_neg hw] at h
      rcases List.mem_cons.mp h with h | h
      · subst h; exact Or.inr (List.mem_cons_self _ _)
      · rcases ih h with h' | h'
        · exact Or.inl h'
        · exact Or.inr (List.mem_cons_of_mem _ h')

/-- In a map, whose keys are pairwise different, an assignment leaves the
entries whose key differs from the assigned one. -/
theorem mem_mapAssign_distinct (acc : List (Value × Value)) (hd : keysDistinct acc = true)
    (key x : Value) (e : Value × Value) (h : e ∈ mapAssign acc key x) :
    e = (key, x) ∨ (e ∈ acc ∧ keyEq e.1 key = false) := by
  induction acc with
  | nil =>
    simp only [mapAssign, List.mem_singleton] at h
    exact Or.inl h
  | cons kv0 rest ih =>
    obtain ⟨k0, v0⟩ := kv0
    simp only [keysDistinct, Bool.and_eq_true, List.all_eq_true, Bool.not_eq_true'] at hd
    simp only [mapAssign] at h
    by_cases hw : keyEq k0 key = true
    · rw [if_pos hw] at h
      rcases List.mem_cons.mp h with h | h
      · exact Or.inl h
      · refine Or.inr ⟨List.mem_cons_of_mem _ h, ?_⟩
        cases hq : keyEq e.1 key with
        | false => rfl
        | true =>
          have h1 : keyEq key e.1 = true := by rw [keyEq_symm]; exact hq
          have h2 := keyEq_trans _ _ _ hw h1
          rw [hd.1 e h] at h2
          exact Bool.noConfusion h2
    · rw [if_neg hw] at h
      rcases List.mem_cons.mp h with h | h
      · subst h
        exact Or.inr ⟨List.mem_cons_self _ _, by simpa using hw⟩
      · rcases ih hd.2 h with h' | ⟨h', h''⟩
        · exact Or.inl h'
        · exact Or.inr ⟨List.mem_cons_of_mem _ h', h''⟩

theorem keysDistinct_mapAssign (acc : List (Value × Value)) (hd : keysDistinct acc = true)
    (key x : Value) : keysDistinct (mapAssign acc key x) = true := by
  induction acc with
  | nil => simp [mapAssign, keysDistinct]
  | cons kv0 rest ih =>
    obtain ⟨k0, v0⟩ := kv0
    simp only [keysDistinct, Bool.and_eq_true, List.all_eq_true, Bool.not_eq_true'] at hd
    simp only [mapAssign]
    by_cases hw : keyEq k0 key = true
    · rw [if_pos hw]
      simp only [keysDistinct, Bool.and_eq_true, List.all_eq_true, Bool.not_eq_true']
      refine ⟨fun q hq => ?_, hd.2⟩
      cases hkq : keyEq key q.1 with
      | false => rfl
      | true =>
        have h2 := keyEq_trans _ _ _ hw hkq
        rw [hd.1 q hq] at h2
        exact Bool.noConfusion h2
    · rw [if_neg hw]
      simp only [keysDistinct, Bool.and_eq_true, List.all_eq_true, Bool.not_eq_true']
      refine ⟨fun q hq => ?_, ih hd.2⟩
      rcases mem_mapAssign rest key x q hq with h | h
      · subst h; simpa using hw
      · exact hd.1 q h

theorem correspondsEntry_iff (kvs : List (Value × Value)) (key val : Value) :
    correspondsEntry kvs key val ↔
      ∃ kv ∈ kvs, ∃ k0, corresponds kv.1 k0 ∧ mapKey k0 = some key ∧ corresponds kv.2 val := by
  induction kvs with
  | nil => simp [correspondsEntry]
  | cons kv rest ih =>
    obtain ⟨k, v⟩ := kv
    simp only [correspondsEntry, ih, List.mem_cons, exists_eq_or_imp]

theorem correspondsList_snoc (acc acc0 : List Value) (d d0 : Value)
    (ha : correspondsList acc acc0) (hd : corresponds d d0) :
    correspondsList (acc ++ [Value.reflected d]) (acc0 ++ [d0]) := by
  induction acc generalizing acc0 with
  | nil =>
    simp only [correspondsList] at ha
    subst ha
    simp only [List.nil_append, correspondsList, corresponds]
    exact ⟨d0, [], rfl, hd, rfl⟩
  | cons a rest ih =>
    simp only [List.cons_append, correspondsList] at ha ⊢
    obtain ⟨f, fs, rfl, h1, h2⟩ := ha
    exact ⟨f, fs ++ [d0], rfl, h1, ih fs h2⟩

theorem correspondsList_iff (es fs : List Value) :
    correspondsList es fs ↔ List.Forall₂ corresponds es fs := by
  induction es generalizing fs with
  | nil =>
    simp only [correspondsList]
    constructor
    · rintro rfl; exact List.Forall₂.nil
    · intro h; cases h; rfl
  | cons a rest ih =>
    simp only [correspondsList]
    constructor
    · rintro ⟨f, fs', rfl, h1, h2⟩
      exact List.Forall₂.cons h1 ((ih fs').mp h2)
    · intro h
      cases h with
      | cons h1 h2 => exact ⟨_, _, rfl, h1, (ih _).mpr h2⟩

theorem Interface_some (v x : Value) (h : Interface v = some x) : x = v ∧ v ≠ Value.nil := by
  cases v <;> simp only [Interface, Option.some.injEq, reduceCtorEq] at h <;>
    exact ⟨h.symm, fun e => Value.noConfusion e⟩

theorem Flattens_panic (X : Unpacked) (p : Panic) : Flattens X (Unpacked.panic p) :=
  Or.inl ⟨p, rfl⟩

/-! ### The element loops -/

theorem unpackArrayLoop_flattens (f g : Reader → Unpacked) (h : ∀ r, Flattens (f r) (g r)) :
    ∀ (n : Nat) (r : Reader) (acc acc0 : List Value) (m0 : Nat),
      correspondsList acc acc0 →
      Flattens (unpackArrayReflectedLoop f n r acc m0) (unpackArrayLoop g n r acc0 m0) := by
  intro n
  induction n with
  | zero =>
    intro r acc acc0 m0 ha
    exact Or.inr ⟨Value.slice acc0, by simp only [corresponds]; exact ⟨acc0, rfl, ha⟩, rfl⟩
  | succ n ih =>
    intro r acc acc0 m0 ha
    rw [unpackArrayReflectedLoop, unpackArrayLoop]
    rcases h r with ⟨p, hp⟩ | hr
    · rw [hp]
      exact Flattens_panic _ p
    · cases hX : f r with
      | ok d m r1 =>
        rw [hX] at hr
        obtain ⟨d0, hd, hY⟩ := hr
        rw [hY]
        simp only []
        cases hI : Interface d0 with
        | none => exact Flattens_panic _ _
        | some x =>
          obtain ⟨rfl, _⟩ := Interface_some d0 x hI
          exact ih r1 _ _ _ (correspondsList_snoc acc acc0 d x ha hd)
      | error e m r1 =>
        rw [hX] at hr
        change g r = Unpacked.error e m r1 at hr
        rw [hr]
        exact Or.inr rfl
      | panic p =>
        rw [hX] at hr
        exact absurd hr (fun h => h)
      | fuel =>
        rw [hX] at hr
        change g r = Unpacked.fuel at hr
        rw [hr]
        exact Or.inr rfl

/-- One entry assigned in both modes: every entry of the map of flattening mode
still is an entry of the map of wrapping mode, flattened. -/
theorem mapAssign_corresponds (acc acc0 : List (Value × Value))
    (ha : ∀ e ∈ acc0, correspondsEntry acc e.1 e.2) (hd : keysDistinct acc0 = true)
    (k v k0 v0 key : Value) (hk : corresponds k k0) (hv : corresponds v v0)
    (hn : k0 ≠ Value.nil) (hkey : mapKey k0 = some key) :
    ∀ e ∈ mapAssign acc0 key v0,
      correspondsEntry (mapAssignReflected acc (Value.reflected k) (Value.reflected v))
        e.1 e.2 := by
  intro e he
  rw [correspondsEntry_iff]
  rcases mem_mapAssign_distinct acc0 hd key v0 e he with rfl | ⟨he0, hne⟩
  · exact ⟨_, mem_mapAssignReflected_self acc _ _, k0, by simpa only [corresponds] using hk,
      hkey, by simpa only [corresponds] using hv⟩
  · obtain ⟨kv, hkv, k1, h1, h2, h3⟩ := (correspondsEntry_iff acc e.1 e.2).mp (ha e he0)
    rcases mem_mapAssignReflected_old acc (Value.reflected k) (Value.reflected v) kv hkv
      with h | h
    · exact ⟨kv, h, k1, h1, h2, h3⟩
    · exfalso
      obtain ⟨k', e1, e2, hl, hs⟩ := wrapperEq_spec _ _ h
      obtain rfl : k = k' := by
        have := e2
        simp only [Value.reflected.injEq] at this
        exact this
      rw [e1] at h1
      simp only [corresponds] at h1
      have a1 : k1 = k := (corresponds_leaf k k1 hl).mp h1
      have a2 : k0 = k := (corresponds_leaf k k0 hl).mp hk
      subst a1
      subst a2
      rcases hs with rfl | ⟨hm, hq⟩
      · exact hn rfl
      · rw [hm] at h2 hkey
        have b1 : e.1 = k0 := (Option.some.inj h2).symm
        have b2 : key = k0 := (Option.some.inj hkey).symm
        rw [b1, b2, hq] at hne
        exact Bool.noConfusion hne

theorem unpackMap_flattens (f g : Reader → Unpacked) (h : ∀ r, Flattens (f r) (g r)) :
    ∀ (n : Nat) (r : Reader) (acc acc0 : List (Value × Value)) (m0 : Nat),
      (∀ e ∈ acc0, correspondsEntry acc e.1 e.2) → keysDistinct acc0 = true →
      Flattens (unpackMapReflected f n r acc m0) (unpackMap g n r acc0 m0) := by
  intro n
  induction n with
  | zero =>
    intro r acc acc0 m0 ha _
    exact Or.inr ⟨Value.map acc0, by simp only [corresponds]; exact ⟨acc0, rfl, ha⟩, rfl⟩
  | succ n ih =>
    intro r acc acc0 m0 ha hd
    rw [unpackMapReflected, unpackMap]
    rcases h r with ⟨p, hp⟩ | hr
    · rw [hp]
      exact Flattens_panic _ p
    · cases hX : f r with
      | ok k m r1 =>
        rw [hX] at hr
        obtain ⟨k0, hk, hY⟩ := hr
        rw [hY]
        simp only []
        rcases h r1 with ⟨p, hp⟩ | hr2
        · rw [hp]
          exact Flattens_panic _ p
        · cases hX2 : f r1 with
          | ok v m2 r2 =>
            rw [hX2] at hr2
            obtain ⟨v0, hv, hY2⟩ := hr2
            rw [hY2]
            simp only []
            cases hI : Interface k0 with
            | none => exact Flattens_panic _ _
            | some k1 =>
              simp only []
              cases hK : mapKey k0 with
              | none => exact Flattens_panic _ _
              | some key =>
                simp only []
                cases hI2 : Interface v0 with
                | none => exact Flattens_panic _ _
                | some x =>
                  simp only []
                  obtain ⟨rfl, _⟩ := Interface_some v0 x hI2
                  by_cases hh : hashable key = true
                  · rw [if_pos hh]
                    exact ih r2 _ _ _
                      (mapAssign_corresponds acc acc0 ha hd k v k0 x key hk hv
                        (Interface_some k0 k1 hI).2 hK)
                      (keysDistinct_mapAssign acc0 hd key x)
                  · rw [if_neg hh]
                    exact Flattens_panic _ _
          | error e m2 r2 =>
            rw [hX2] at hr2
            change g r1 = Unpacked.error e m2 r2 at hr2
            rw [hr2]
            exact Or.inr rfl
          | panic p =>
            rw [hX2] at hr2
            exact absurd hr2 (fun h => h)
          | fuel =>
            rw [hX2] at hr2
            change g r1 = Unpacked.fuel at hr2
            rw [hr2]
            exact Or.inr rfl
      | error e m r1 =>
        rw [hX] at hr
        change g r = Unpacked.error e m r1 at hr
        rw [hr]
        exact Or.inr rfl
      | panic p =>
        rw [hX] at hr
        exact absurd hr (fun h => h)
      | fuel =>
        rw [hX] at hr
        change g r = Unpacked.fuel at hr
        rw [hr]
        exact Or.inr rfl

/-! ### The container branches and `unpack` -/

theorem containerBody_flattens (fuel : Nat) (isMap : Bool) (n : Nat) (R : Reader)
    (ih : ∀ r, Flattens (unpack fuel true r) (unpack fuel false r)) :
    Flattens (containerBody fuel isMap true n R) (containerBody fuel isMap false n R) := by
  cases isMap with
  | true =>
    exact unpackMap_flattens _ _ ih n R [] [] 0 (fun e he => by cases he) rfl
  | false =>
    exact unpackArrayLoop_flattens _ _ ih n R [] [] 0 (by simp only [correspondsList])

theorem containerCount_flattens (fixed : Bool) (hdr : Nat) (X Y : Unpacked)
    (h : Flattens X Y) :
    Flattens (containerCount fixed hdr X) (containerCount fixed hdr Y) := by
  rcases h with ⟨p, rfl⟩ | h
  · cases fixed
    · exact Flattens_panic _ p
    · exact Flattens_panic _ p
  · cases X with
    | ok d m r =>
      obtain ⟨d0, hd, rfl⟩ := h
      cases fixed
      · exact Or.inr ⟨d0, hd, rfl⟩
      · exact Or.inr ⟨d0, hd, rfl⟩
    | error e m r =>
      change Y = Unpacked.error e m r at h
      subst h
      cases fixed
      · exact Or.inr rfl
      · exact Or.inr rfl
    | panic p => exact absurd h (fun h => h)
    | fuel =>
      change Y = Unpacked.fuel at h
      subst h
      cases fixed
      · exact Or.inr rfl
      · exact Or.inr rfl

/-- On every source flattening mode ends abruptly or returns what wrapping mode
returns, with a corresponding value. -/
theorem unpack_flattens (fuel : Nat) :
    ∀ r, Flattens (unpack fuel true r) (unpack fuel false r) := by
  induction fuel with
  | zero => intro r; exact Or.inr rfl
  | succ fuel ih =>
    intro r
    cases r with
    | nil => exact Or.inr rfl
    | cons c R =>
      by_cases hs : (128 ≤ c ∧ c ≤ 159) ∨ (220 ≤ c ∧ c ≤ 223)
      · rcases unpack_container_tag c R hs with h | ⟨isMap, fixed, hdr, n, R1, _, h⟩
        · rw [h fuel true, h fuel false]
          exact Or.inr rfl
        · rw [h fuel true, h fuel false]
          exact containerCount_flattens _ _ _ _ (containerBody_flattens fuel isMap n R1 ih)
      · rw [unpack_scalar_tag fuel true c R hs, unpack_scalar_tag fuel false c R hs]
        rcases unpack_scalar_result c R hs with ⟨_, e⟩ | ⟨_, d, m, R', e, _, hl⟩ | ⟨_, m, e⟩
        · rw [e]
          exact Flattens_panic _ _
        · rw [e]
          exact Or.inr ⟨d, (corresponds_leaf d d hl).mpr rfl, rfl⟩
        · rw [e]
          exact Or.inr rfl

/-- C26 (as stated, at a failing input): a map of two entries under the same
key, the one-byte string `61`.  Both modes return, with the same count and the
same source left, but flattening mode returns a map of one entry (the second
assignment overwrote the first) and wrapping mode a map of two, the two keys
being boxed apart.  Under the key 1, an inline byte, whose equal values share
their box, both modes return one entry. -/
theorem Unpack_modes_entry_count :
    Unpack [0x82, 0xa1, 0x61, 0x01, 0xa1, 0x61, 0x02]
      = Unpacked.ok (Value.map [(Value.string [0x61], Value.int8 2)]) 13 [] ∧
    UnpackReflected [0x82, 0xa1, 0x61, 0x01, 0xa1, 0x61, 0x02]
      = Unpacked.ok (Value.map [
          (Value.reflected (Value.bytes [0x61]), Value.reflected (Value.int8 1)),
          (Value.reflected (Value.bytes [0x61]), Value.reflected (Value.int8 2))]) 13 [] ∧
    Unpack [0x82, 0x01, 0x02, 0x01, 0x03]
      = Unpacked.ok (Value.map [(Value.int8 1, Value.int8 3)]) 9 [] ∧
    UnpackReflected [0x82, 0x01, 0x02, 0x01, 0x03]
      = Unpacked.ok (Value.map [
          (Value.reflected (Value.int8 1), Value.reflected (Value.int8 3))]) 9 [] :=
  ⟨rfl, rfl, rfl, rfl⟩

/-- C26 (amended): for every byte source on which `Unpack` does not end
abruptly, `UnpackReflected` does not either, and either both return the same
error with the same count and the same source left, or both return a value with
the same count and the same source left, that of `Unpack` corresponding to that
of `UnpackReflected`: equal when it is neither an array nor a map; for an
array, an array of as many elements, each corresponding to the element at its
place; for a map, a map each of whose entries is an entry of the map of
`UnpackReflected` flattened, with the key as `unpackMap` stores it and a
corresponding value (the numbers of entries can differ, the two modes telling
keys apart differently). -/
theorem Unpack_flattens_reflected (r : List Nat) (h : ∀ p, Unpack r ≠ Unpacked.panic p) :
    (∃ d d0 m r', UnpackReflected r = Unpacked.ok d m r' ∧ Unpack r = Unpacked.ok d0 m r' ∧
      corresponds d d0 ∧
      (leaf d = true → d0 = d) ∧
      (∀ es, d = Value.slice es → ∃ fs, d0 = Value.slice fs ∧ fs.length = es.length ∧
        List.Forall₂ corresponds es fs) ∧
      (∀ kvs, d = Value.map kvs → ∃ es, d0 = Value.map es ∧
        ∀ e ∈ es, ∃ kv ∈ kvs, ∃ k0, corresponds kv.1 k0 ∧ mapKey k0 = some e.1 ∧
          corresponds kv.2 e.2)) ∨
    (∃ e m r', UnpackReflected r = Unpacked.error e m r' ∧
      Unpack r = Unpacked.error e m r') := by
  rcases unpack_flattens (r.length + 1) r with ⟨p, hp⟩ | hr
  · exact absurd hp (h p)
  · cases hX : unpack (r.length + 1) true r with
    | ok d m r' =>
      rw [hX] at hr
      obtain ⟨d0, hd, hY⟩ := hr
      refine Or.inl ⟨d, d0, m, r', hX, hY, hd, ?_, ?_, ?_⟩
      · intro hl
        exact (corresponds_leaf d d0 hl).mp hd
      · intro es he
        subst he
        simp only [corresponds] at hd
        obtain ⟨fs, rfl, hfs⟩ := hd
        have hF := (correspondsList_iff es fs).mp hfs
        exact ⟨fs, rfl, hF.length_eq.symm, hF⟩
      · intro kvs he
        subst he
        simp only [corresponds] at hd
        obtain ⟨es, rfl, hes⟩ := hd
        exact ⟨es, rfl, fun e he => (correspondsEntry_iff kvs e.1 e.2).mp (hes e he)⟩
    | error e m r' =>
      rw [hX] at hr
      exact Or.inr ⟨e, m, r', hX, hr⟩
    | panic p =>
      rw [hX] at hr
      exact absurd hr (fun h => h)
    | fuel => exact absurd hX (unpack_total (r.length + 1) true r (by omega))

theorem Unpack_flattens_reflected_witness :
    (∀ p, Unpack [0x82, 0xa1, 0x61, 0x92, 0x01, 0x02, 0x03, 0x04] ≠ Unpacked.panic p) ∧
    ((∃ d d0 m r', UnpackReflected [0x82, 0xa1, 0x61, 0x92, 0x01, 0x02, 0x03, 0x04]
        = Unpacked.ok d m r' ∧
      Unpack [0x82, 0xa1, 0x61, 0x92, 0x01, 0x02, 0x03, 0x04] = Unpacked.ok d0 m r' ∧
      corresponds d d0 ∧
      (leaf d = true → d0 = d) ∧
      (∀ es, d = Value.slice es → ∃ fs, d0 = Value.slice fs ∧ fs.length = es.length ∧
        List.Forall₂ corresponds es fs) ∧
      (∀ kvs, d = Value.map kvs → ∃ es, d0 = Value.map es ∧
        ∀ e ∈ es, ∃ kv ∈ kvs, ∃ k0, corresponds kv.1 k0 ∧ mapKey k0 = some e.1 ∧
          corresponds kv.2 e.2)) ∨
    (∃ e m r', UnpackReflected [0x82, 0xa1, 0x61, 0x92, 0x01, 0x02, 0x03, 0x04]
        = Unpacked.error e m r' ∧
      Unpack [0x82, 0xa1, 0x61, 0x92, 0x01, 0x02, 0x03, 0x04] = Unpacked.error e m r')) ∧
    Unpack [0x82, 0xa1, 0x61, 0x92, 0x01, 0x02, 0x03, 0x04]
      = Unpacked.ok (Value.map [(Value.string [0x61], Value.slice [Value.int8 1, Value.int8 2]),
          (Value.int8 3, Value.int8 4)]) 19 [] ∧
    UnpackReflected [0x82, 0xa1, 0x61, 0x92, 0x01, 0x02, 0x03, 0x04]
      = Unpacked.ok (Value.map [(Value.reflected (Value.bytes [0x61]),
            Value.reflected (Value.slice [Value.reflected (Value.int8 1),
              Value.reflected (Value.int8 2)])),
          (Value.reflected (Value.int8 3), Value.reflected (Value.int8 4))]) 19 [] :=
  have hn : ∀ p, Unpack [0x82, 0xa1, 0x61, 0x92, 0x01, 0x02, 0x03, 0x04]
      ≠ Unpacked.panic p := by
    intro p hp
    have e : Unpack [0x82, 0xa1, 0x61, 0x92, 0x01, 0x02, 0x03, 0x04]
        = Unpacked.ok (Value.map [(Value.string [0x61],
            Value.slice [Value.int8 1, Value.int8 2]), (Value.int8 3, Value.int8 4)]) 19 [] :=
      rfl
    rw [e] at hp
    cases hp
  ⟨hn, Unpack_flattens_reflected [0x82, 0xa1, 0x61, 0x92, 0x01, 0x02, 0x03, 0x04] hn, rfl, rfl⟩

end Msgpack
